import Mathlib

/-!
ReferenceFinder: a shallow embedding of the reference database engine.

The definitions below transcribe `source/model/ReferenceFinder.h` and
`source/model/ReferenceFinder.cpp`.  C++ `double` values are read as elements of an
arbitrary linearly ordered field `K` with a floor function (exact arithmetic); the
functions of `<cmath>` that are not field operations are collected in `CMath`.
Unsigned 16-bit ranks (`rank_t`) are natural numbers reduced modulo `2 ^ 16`
wherever the source converts back to `rank_t`.
-/

set_option autoImplicit false
set_option linter.unusedVariables false
set_option linter.unusedSectionVars false

namespace RefFinder

/-! ## Section 0: library functions -/

/-- The functions of `<cmath>` that the source calls and that are not field
operations.  They are parameters of the embedding. -/
structure CMath (K : Type) where
  sqrt : K → K
  atan2 : K → K → K
  sin : K → K
  cos : K → K
  pow : K → K → K

section Geometry

variable {K : Type} [LinearOrderedField K]

/-- The constant `EPS = 1.0e-8`. -/
def EPS : K := 1 / 100000000

/-- The template `min_val`. -/
def min_val (t1 t2 : K) : K := if t1 < t2 then t1 else t2

/-- The template `max_val`. -/
def max_val (t1 t2 : K) : K := if t1 > t2 then t1 else t2

/-! ## Section 1: points, lines and rectangles -/

/-- The class `XYPt`: a 2-vector. -/
@[ext]
structure XYPt (K : Type) where
  x : K
  y : K
deriving DecidableEq, Repr

namespace XYPt

/-- The default constructor `XYPt()`. -/
def zero : XYPt K := ⟨0, 0⟩

/-- The `operator+(const XYPt&)`. -/
def add (p q : XYPt K) : XYPt K := ⟨p.x + q.x, p.y + q.y⟩

/-- The `operator-(const XYPt&)`. -/
def sub (p q : XYPt K) : XYPt K := ⟨p.x - q.x, p.y - q.y⟩

/-- The friend `operator*(double, const XYPt&)`; also `operator*(double)`. -/
def smul (d : K) (p : XYPt K) : XYPt K := ⟨d * p.x, d * p.y⟩

/-- The method `Rotate90`. -/
def Rotate90 (p : XYPt K) : XYPt K := ⟨-p.y, p.x⟩

/-- The method `Dot`. -/
def Dot (p q : XYPt K) : K := p.x * q.x + p.y * q.y

/-- The method `Mag2`. -/
def Mag2 (p : XYPt K) : K := p.x * p.x + p.y * p.y

/-- The method `Mag`. -/
def Mag (M : CMath K) (p : XYPt K) : K := M.sqrt (p.x * p.x + p.y * p.y)

/-- The method `Normalize`. -/
def Normalize (M : CMath K) (p : XYPt K) : XYPt K :=
  let m := Mag M p
  ⟨p.x / m, p.y / m⟩

/-- The friend `MidPoint`. -/
def MidPoint (p1 p2 : XYPt K) : XYPt K :=
  ⟨(1 / 2) * (p1.x + p2.x), (1 / 2) * (p1.y + p2.y)⟩

/-- The comparison `operator==` of points (equality up to `EPS`). -/
def eq (M : CMath K) (p q : XYPt K) : Bool := decide (Mag M (sub p q) < EPS)

end XYPt

/-- The class `XYLine`: the points `p` with `p.Dot u = d`. -/
@[ext]
structure XYLine (K : Type) where
  d : K
  u : XYPt K
deriving DecidableEq, Repr

namespace XYLine

/-- The default constructor `XYLine()`: `d = 0`, `u = (1, 0)`. -/
def default : XYLine K := ⟨0, ⟨1, 0⟩⟩

/-- The constructor `XYLine(p1, p2)`: the line through two points. -/
def ofPoints (M : CMath K) (p1 p2 : XYPt K) : XYLine K :=
  let u := XYPt.Rotate90 (XYPt.Normalize M (XYPt.sub p2 p1))
  ⟨XYPt.Dot p1 u, u⟩

/-- The method `Fold`: reflect a point in the line. -/
def Fold (l : XYLine K) (p1 : XYPt K) : XYPt K :=
  XYPt.add p1 (XYPt.smul (2 * (l.d - XYPt.Dot p1 l.u)) l.u)

/-- The method `IsParallelTo`. -/
def IsParallelTo (l ll : XYLine K) : Bool :=
  decide (|XYPt.Dot l.u (XYPt.Rotate90 ll.u)| < EPS)

/-- The comparison `operator==` of lines. -/
def eq (l ll : XYLine K) : Bool :=
  decide (|l.d - ll.d * XYPt.Dot l.u ll.u| < EPS) &&
    decide (|XYPt.Dot l.u (XYPt.Rotate90 ll.u)| < EPS)

/-- The method `Intersects(const XYPt&)`: the point is on the line, up to `EPS`. -/
def IntersectsPt (l : XYLine K) (pp : XYPt K) : Bool :=
  decide (|l.d - XYPt.Dot pp l.u| < EPS)

/-- The method `Intersects(const XYLine&, XYPt&)`: `none` is the result `false`
(the out-parameter is not written), `some pp` is the result `true`. -/
def Intersects (l ll : XYLine K) : Option (XYPt K) :=
  let denom := l.u.x * ll.u.y - l.u.y * ll.u.x
  if |denom| < EPS then none
  else some ⟨(l.d * ll.u.y - ll.d * l.u.y) / denom, (ll.d * l.u.x - l.d * ll.u.x) / denom⟩

/-- The friend `Intersection`: no check for parallel lines. -/
def Intersection (l1 l2 : XYLine K) : XYPt K :=
  let denom := l1.u.x * l2.u.y - l1.u.y * l2.u.x
  ⟨(l1.d * l2.u.y - l2.d * l1.u.y) / denom, (l2.d * l1.u.x - l1.d * l2.u.x) / denom⟩

end XYLine

/-- The class `XYRect`: bottom left and top right corners. -/
structure XYRect (K : Type) where
  bl : XYPt K
  tr : XYPt K
deriving DecidableEq, Repr

namespace XYRect

/-- The method `GetWidth`. -/
def GetWidth (r : XYRect K) : K := r.tr.x - r.bl.x

/-- The method `GetHeight`. -/
def GetHeight (r : XYRect K) : K := r.tr.y - r.bl.y

/-- The method `GetAspectRatio`. -/
def GetAspectRatio (r : XYRect K) : K :=
  let wd := GetWidth r
  let ht := GetHeight r
  if |wd| < EPS ∧ |ht| < EPS then 0
  else if |wd| ≤ |ht| then wd / ht
  else ht / wd

/-- The method `IsEmpty`. -/
def IsEmpty (r : XYRect K) : Bool :=
  decide (|r.bl.x - r.tr.x| < EPS) || decide (|r.bl.y - r.tr.y| < EPS)

/-- The method `Encloses(const XYPt&)`: inside the rectangle padded by `EPS`. -/
def Encloses (r : XYRect K) (ap : XYPt K) : Bool :=
  decide (ap.x ≥ r.bl.x - EPS) && decide (ap.x ≤ r.tr.x + EPS) &&
    decide (ap.y ≥ r.bl.y - EPS) && decide (ap.y ≤ r.tr.y + EPS)

/-- The method `Include`. -/
def Include (r : XYRect K) (p : XYPt K) : XYRect K :=
  let blx := if r.bl.x > p.x then p.x else r.bl.x
  let bly := if r.bl.y > p.y then p.y else r.bl.y
  let trx := if r.tr.x < p.x then p.x else r.tr.x
  let try_ := if r.tr.y < p.y then p.y else r.tr.y
  ⟨⟨blx, bly⟩, ⟨trx, try_⟩⟩

end XYRect

/-- The function `GetBoundingBox(p1, p2)`. -/
def GetBoundingBox2 (p1 p2 : XYPt K) : XYRect K :=
  XYRect.Include ⟨p1, p1⟩ p2

/-- The function `GetBoundingBox(p1, p2, p3)`. -/
def GetBoundingBox3 (p1 p2 p3 : XYPt K) : XYRect K :=
  XYRect.Include (XYRect.Include ⟨p1, p1⟩ p2) p3

/-! ## Section 2: the paper -/

/-- The class `Paper`: an `XYRect` (fields `bl`, `tr`) with the cached corners,
edges and diagonals. -/
structure Paper (K : Type) where
  bl : XYPt K
  tr : XYPt K
  mWidth : K
  mHeight : K
  mBotLeft : XYPt K
  mBotRight : XYPt K
  mTopLeft : XYPt K
  mTopRight : XYPt K
  mTopEdge : XYLine K
  mLeftEdge : XYLine K
  mRightEdge : XYLine K
  mBottomEdge : XYLine K
  mUpwardDiagonal : XYLine K
  mDownwardDiagonal : XYLine K

namespace Paper

/-- The method `SetSize` (the constructor `Paper(aWidth, aHeight)` calls it). -/
def SetSize (M : CMath K) (aWidth aHeight : K) : Paper K :=
  let mBotLeft : XYPt K := ⟨0, 0⟩
  let mBotRight : XYPt K := ⟨aWidth, 0⟩
  let mTopLeft : XYPt K := ⟨0, aHeight⟩
  let mTopRight : XYPt K := ⟨aWidth, aHeight⟩
  { bl := ⟨0, 0⟩
    tr := ⟨aWidth, aHeight⟩
    mWidth := aWidth
    mHeight := aHeight
    mBotLeft := mBotLeft
    mBotRight := mBotRight
    mTopLeft := mTopLeft
    mTopRight := mTopRight
    mTopEdge := XYLine.ofPoints M mTopLeft mTopRight
    mLeftEdge := XYLine.ofPoints M mBotLeft mTopLeft
    mRightEdge := XYLine.ofPoints M mBotRight mTopRight
    mBottomEdge := XYLine.ofPoints M mBotLeft mBotRight
    mUpwardDiagonal := XYLine.ofPoints M mBotLeft mTopRight
    mDownwardDiagonal := XYLine.ofPoints M mTopLeft mBotRight }

/-- The base-class part of a `Paper`. -/
def toXYRect (P : Paper K) : XYRect K := ⟨P.bl, P.tr⟩

/-- The inherited method `Encloses`. -/
def Encloses (P : Paper K) (ap : XYPt K) : Bool := XYRect.Encloses (toXYRect P) ap

/-- One line of `ClipLine`: `if (edge.Intersects(al, p) && Encloses(p)) ipts[npts++] = p`. -/
def clipEdge (P : Paper K) (edge al : XYLine K) (ipts : List (XYPt K)) : List (XYPt K) :=
  match XYLine.Intersects edge al with
  | some p => if Encloses P p then ipts ++ [p] else ipts
  | none => ipts

/-- The points `ipts[0 .. npts)` that `ClipLine` collects: the intersections of `al`
with the top, left, right and bottom edges that the paper encloses. -/
def clipPoints (P : Paper K) (al : XYLine K) : List (XYPt K) :=
  clipEdge P P.mBottomEdge al
    (clipEdge P P.mRightEdge al
      (clipEdge P P.mLeftEdge al
        (clipEdge P P.mTopEdge al [])))

/-- The method `ClipLine`.  The out-parameters `ap1`, `ap2` are passed in and returned:
when the result is `false` they come back unchanged. -/
def ClipLine (P : Paper K) (al : XYLine K) (ap1 ap2 : XYPt K) : Bool × XYPt K × XYPt K :=
  match clipPoints P al with
  | [] => (false, ap1, ap2)
  | ip0 :: rest =>
    let pt := XYPt.smul al.d al.u
    let up := XYPt.Rotate90 al.u
    let t0 := XYPt.Dot (XYPt.sub ip0 pt) up
    let tmin := rest.foldl (fun tmin ip =>
      let tt := XYPt.Dot (XYPt.sub ip pt) up
      if tmin < tt then tt else tmin) t0
    let tmax := rest.foldl (fun tmax ip =>
      let tt := XYPt.Dot (XYPt.sub ip pt) up
      if tmax > tt then tt else tmax) t0
    (true, XYPt.add pt (XYPt.smul tmin up), XYPt.add pt (XYPt.smul tmax up))

/-- The method `InteriorOverlaps`. -/
def InteriorOverlaps (M : CMath K) (P : Paper K) (al : XYLine K) : Bool :=
  match ClipLine P al XYPt.zero XYPt.zero with
  | (false, _, _) => false
  | (true, pa, pb) =>
    if XYPt.Mag M (XYPt.sub pa pb) < EPS then false
    else if !(XYRect.IsEmpty (GetBoundingBox2 pa pb)) then true
    else
      let mp := XYPt.MidPoint pa pb
      if XYLine.IntersectsPt P.mTopEdge mp || XYLine.IntersectsPt P.mBottomEdge mp ||
          XYLine.IntersectsPt P.mLeftEdge mp || XYLine.IntersectsPt P.mRightEdge mp
      then false
      else true

/-- The method `MakesSkinnyFlap`; `sMinAspectRatio` is `ReferenceFinder::sMinAspectRatio`. -/
def MakesSkinnyFlap (P : Paper K) (sMinAspectRatio : K) (al : XYLine K) : Bool :=
  let c1 := ClipLine P al XYPt.zero XYPt.zero
  let p1 := c1.2.1
  let p2 := c1.2.2
  let lbu := XYPt.Rotate90 al.u
  let lb : XYLine K := ⟨XYPt.Dot (XYPt.MidPoint p1 p2) lbu, lbu⟩
  let c2 := ClipLine P lb XYPt.zero XYPt.zero
  let bp1 := c2.2.1
  let bp2 := c2.2.2
  if |XYRect.GetAspectRatio (GetBoundingBox3 p1 p2 bp1)| < sMinAspectRatio then true
  else if |XYRect.GetAspectRatio (GetBoundingBox3 p1 p2 bp2)| < sMinAspectRatio then true
  else false

end Paper

end Geometry


/-! ## Section 2 (continued): references -/

/-- The publicly accessible settings of the class `ReferenceFinder` (its static
members `sPaper`, `sUseRefLine_*`, `sMaxRank`, ...). -/
structure Config (K : Type) where
  sPaper : Paper K
  sUseRefLine_C2P_C2P : Bool
  sUseRefLine_P2P : Bool
  sUseRefLine_L2L : Bool
  sUseRefLine_L2L_C2P : Bool
  sUseRefLine_P2L_C2P : Bool
  sUseRefLine_P2L_P2L : Bool
  sUseRefLine_L2L_P2L : Bool
  sMaxRank : Nat
  sMaxLines : Nat
  sMaxMarks : Nat
  sNumX : Int
  sNumY : Int
  sNumA : Int
  sNumD : Int
  sGoodEnoughError : K
  sMinAspectRatio : K
  sMinAngleSine : K
  sVisibilityMatters : Bool
  sLineWorstCaseError : Bool
  sDatabaseStatusSkip : Int

/-- The number of values of `rank_t` (`unsigned short`). -/
def rankModulus : Nat := 65536

/-- The enum `RefLine_P2P::WhoMoves`. -/
inductive P2P_WhoMoves
  | WHOMOVES_P1
  | WHOMOVES_P2
deriving DecidableEq, Repr

/-- The enum `RefLine_L2L::WhoMoves`. -/
inductive L2L_WhoMoves
  | WHOMOVES_L1
  | WHOMOVES_L2
deriving DecidableEq, Repr

/-- The enum `RefLine_P2L_C2P::WhoMoves`. -/
inductive P2L_C2P_WhoMoves
  | WHOMOVES_P1
  | WHOMOVES_L1
deriving DecidableEq, Repr

/-- The enum `RefLine_P2L_P2L::WhoMoves`. -/
inductive P2L_P2L_WhoMoves
  | WHOMOVES_P1P2
  | WHOMOVES_L1L2
  | WHOMOVES_P1L2
  | WHOMOVES_P2L1
deriving DecidableEq, Repr

/-- The enum `RefLine_L2L_P2L::WhoMoves`. -/
inductive L2L_P2L_WhoMoves
  | WHOMOVES_P1
  | WHOMOVES_L1
deriving DecidableEq, Repr

mutual
/-- The class `RefMark` with its subclasses `RefMark_Original` and
`RefMark_Intersection`.  Every object carries the `RefBase` members `mRank` and `mKey`
and the point `p`; parent pointers are the parent objects. -/
inductive RefMark (K : Type) : Type
  | Original (mRank : Nat) (mKey : Int) (p : XYPt K) (mName : String)
  | Intersection (mRank : Nat) (mKey : Int) (p : XYPt K) (rl1 rl2 : RefLine K)
/-- The class `RefLine` with its subclasses `RefLine_Original` and the seven axiom
classes.  A `mWhoMoves` that the constructor never assigned is `none`. -/
inductive RefLine (K : Type) : Type
  | Original (mRank : Nat) (mKey : Int) (l : XYLine K) (mName : String)
  | C2P_C2P (mRank : Nat) (mKey : Int) (l : XYLine K) (rm1 rm2 : RefMark K)
  | P2P (mRank : Nat) (mKey : Int) (l : XYLine K) (rm1 rm2 : RefMark K)
      (mWhoMoves : Option P2P_WhoMoves)
  | L2L (mRank : Nat) (mKey : Int) (l : XYLine K) (rl1 rl2 : RefLine K)
      (mWhoMoves : Option L2L_WhoMoves)
  | L2L_C2P (mRank : Nat) (mKey : Int) (l : XYLine K) (rl1 : RefLine K) (rm1 : RefMark K)
  | P2L_C2P (mRank : Nat) (mKey : Int) (l : XYLine K) (rm1 : RefMark K) (rl1 : RefLine K)
      (rm2 : RefMark K) (mWhoMoves : Option P2L_C2P_WhoMoves)
  | P2L_P2L (mRank : Nat) (mKey : Int) (l : XYLine K) (rm1 : RefMark K) (rl1 : RefLine K)
      (rm2 : RefMark K) (rl2 : RefLine K) (mWhoMoves : Option P2L_P2L_WhoMoves)
  | L2L_P2L (mRank : Nat) (mKey : Int) (l : XYLine K) (rl1 : RefLine K) (rm1 : RefMark K)
      (rl2 : RefLine K) (mWhoMoves : Option L2L_P2L_WhoMoves)
end

section Accessors

variable {K : Type}

/-- The member `mRank`. -/
def RefMark.mRank : RefMark K → Nat
  | .Original r _ _ _ => r
  | .Intersection r _ _ _ _ => r

/-- The member `mKey`. -/
def RefMark.mKey : RefMark K → Int
  | .Original _ k _ _ => k
  | .Intersection _ k _ _ _ => k

/-- The member `p`. -/
def RefMark.p : RefMark K → XYPt K
  | .Original _ _ p _ => p
  | .Intersection _ _ p _ _ => p

/-- The member `mRank`. -/
def RefLine.mRank : RefLine K → Nat
  | .Original r _ _ _ => r
  | .C2P_C2P r _ _ _ _ => r
  | .P2P r _ _ _ _ _ => r
  | .L2L r _ _ _ _ _ => r
  | .L2L_C2P r _ _ _ _ => r
  | .P2L_C2P r _ _ _ _ _ _ => r
  | .P2L_P2L r _ _ _ _ _ _ _ => r
  | .L2L_P2L r _ _ _ _ _ _ => r

/-- The member `mKey`. -/
def RefLine.mKey : RefLine K → Int
  | .Original _ k _ _ => k
  | .C2P_C2P _ k _ _ _ => k
  | .P2P _ k _ _ _ _ => k
  | .L2L _ k _ _ _ _ => k
  | .L2L_C2P _ k _ _ _ => k
  | .P2L_C2P _ k _ _ _ _ _ => k
  | .P2L_P2L _ k _ _ _ _ _ _ => k
  | .L2L_P2L _ k _ _ _ _ _ => k

/-- The member `l`. -/
def RefLine.l : RefLine K → XYLine K
  | .Original _ _ l _ => l
  | .C2P_C2P _ _ l _ _ => l
  | .P2P _ _ l _ _ _ => l
  | .L2L _ _ l _ _ _ => l
  | .L2L_C2P _ _ l _ _ => l
  | .P2L_C2P _ _ l _ _ _ _ => l
  | .P2L_P2L _ _ l _ _ _ _ _ => l
  | .L2L_P2L _ _ l _ _ _ _ => l

/-- The method `IsDerived` for lines: `false` for a `RefLine_Original`, `true` for the
seven axiom classes. -/
def RefLine.IsDerived : RefLine K → Bool
  | .Original _ _ _ _ => false
  | _ => true

/-- The method `IsDerived` for marks: `false` for a `RefMark_Original`. -/
def RefMark.IsDerived : RefMark K → Bool
  | .Original _ _ _ _ => false
  | _ => true

end Accessors

section References

variable {K : Type} [LinearOrderedField K] [FloorRing K]

namespace RefMark

/-- The method `RefMark::FinishConstructor`: the key of a mark at `p`. -/
def FinishConstructor (cfg : Config K) (p : XYPt K) : Int :=
  let fx := p.x / cfg.sPaper.mWidth
  let fy := p.y / cfg.sPaper.mHeight
  let nx : Int := ⌊1 / 2 + fx * (cfg.sNumX : K)⌋
  let ny : Int := ⌊1 / 2 + fy * (cfg.sNumY : K)⌋
  1 + nx * cfg.sNumY + ny

/-- The method `RefMark::DistanceTo`. -/
def DistanceTo (M : CMath K) (m : RefMark K) (ap : XYPt K) : K :=
  XYPt.Mag M (XYPt.sub m.p ap)

/-- The method `RefMark::IsOnEdge`. -/
def IsOnEdge (cfg : Config K) (m : RefMark K) : Bool :=
  XYLine.IntersectsPt cfg.sPaper.mLeftEdge m.p ||
    XYLine.IntersectsPt cfg.sPaper.mRightEdge m.p ||
    XYLine.IntersectsPt cfg.sPaper.mTopEdge m.p ||
    XYLine.IntersectsPt cfg.sPaper.mBottomEdge m.p

end RefMark

/-- The C library function `fmod(x, y)`: `x` minus `y` times the quotient truncated
towards zero. -/
def fmod (x y : K) : K :=
  let q := x / y
  let t : Int := if 0 ≤ q then ⌊q⌋ else ⌈q⌉
  x - (t : K) * y

/-- The literal `3.14159265358979323` of `RefLine::FinishConstructor`. -/
def piLiteral : K := 314159265358979323 / 100000000000000000

namespace RefLine

/-- The first step of `RefLine::FinishConstructor`: require `d >= 0`. -/
def canonical (l : XYLine K) : XYLine K :=
  if l.d < 0 then ⟨-l.d, ⟨-l.u.x, -l.u.y⟩⟩ else l

/-- The method `RefLine::FinishConstructor`: the canonical line and its key.
The calls `pow(w, 2)` are exact squares. -/
def FinishConstructor (M : CMath K) (cfg : Config K) (l : XYLine K) : XYLine K × Int :=
  let l1 := canonical l
  let fa := (1 + M.atan2 l1.u.y l1.u.x / piLiteral) / 2
  let dmax := M.sqrt (cfg.sPaper.mWidth ^ 2 + cfg.sPaper.mHeight ^ 2)
  let fd := l1.d / dmax
  let nd : Int := ⌊1 / 2 + fd * (cfg.sNumD : K)⌋
  let fa1 := if nd = 0 then fmod (2 * fa) 1 else fa
  let na : Int := ⌊1 / 2 + fa1 * (cfg.sNumA : K)⌋
  (l1, 1 + na * cfg.sNumD + nd)

/-- The method `RefLine::DistanceTo`. -/
def DistanceTo (M : CMath K) (cfg : Config K) (r : RefLine K) (al : XYLine K) : K :=
  if cfg.sLineWorstCaseError then
    match Paper.ClipLine cfg.sPaper r.l XYPt.zero XYPt.zero with
    | (false, _, _) => 1 / EPS
    | (true, p1a, p1b) =>
      match Paper.ClipLine cfg.sPaper al XYPt.zero XYPt.zero with
      | (false, _, _) => 1 / EPS
      | (true, p2a, p2b) =>
        let err1 := max_val (XYPt.Mag M (XYPt.sub p1a p2a)) (XYPt.Mag M (XYPt.sub p1b p2b))
        let err2 := max_val (XYPt.Mag M (XYPt.sub p1a p2b)) (XYPt.Mag M (XYPt.sub p1b p2a))
        min_val err1 err2
  else
    M.sqrt ((XYPt.Dot r.l.u (XYPt.Rotate90 al.u)) ^ 2 +
      (r.l.d - al.d * XYPt.Dot r.l.u al.u) ^ 2)

/-- The method `RefLine::IsOnEdge`. -/
def IsOnEdge (cfg : Config K) (r : RefLine K) : Bool :=
  XYLine.eq cfg.sPaper.mLeftEdge r.l || XYLine.eq cfg.sPaper.mTopEdge r.l ||
    XYLine.eq cfg.sPaper.mRightEdge r.l || XYLine.eq cfg.sPaper.mBottomEdge r.l

end RefLine

/-- The static method `RefMark::CalcMarkRank`, converted to `rank_t`. -/
def CalcMarkRank (ar1 ar2 : RefLine K) : Nat :=
  (ar1.mRank + ar2.mRank) % rankModulus

/-- The static method `RefLine::CalcLineRank(ar1, ar2)` on the parents' ranks (the
parents are `RefBase` pointers of either family), converted to `rank_t`. -/
def CalcLineRank2 (r1 r2 : Nat) : Nat := (1 + r1 + r2) % rankModulus

/-- The static method `RefLine::CalcLineRank(ar1, ar2, ar3)`. -/
def CalcLineRank3 (r1 r2 r3 : Nat) : Nat := (1 + r1 + r2 + r3) % rankModulus

/-- The static method `RefLine::CalcLineRank(ar1, ar2, ar3, ar4)`. -/
def CalcLineRank4 (r1 r2 r3 r4 : Nat) : Nat := (1 + r1 + r2 + r3 + r4) % rankModulus

/-- The constructor `RefMark_Original::RefMark_Original`. -/
def RefMark_Original (cfg : Config K) (ap : XYPt K) (arank : Nat) (aName : String) :
    RefMark K :=
  .Original arank (RefMark.FinishConstructor cfg ap) ap aName

/-- The constructor `RefLine_Original::RefLine_Original`. -/
def RefLine_Original (M : CMath K) (cfg : Config K) (al : XYLine K) (arank : Nat)
    (aName : String) : RefLine K :=
  let f := RefLine.FinishConstructor M cfg al
  .Original arank f.2 f.1 aName

/-- The constructor `RefMark_Intersection::RefMark_Intersection`. -/
def RefMark_Intersection (cfg : Config K) (arl1 arl2 : RefLine K) : RefMark K :=
  let rank := CalcMarkRank arl1 arl2
  let l1 := arl1.l
  let u1 := arl1.l.u
  let l2 := arl2.l
  let u2 := arl2.l.u
  match XYLine.Intersects l1 l2 with
  | none => .Intersection rank 0 XYPt.zero arl1 arl2
  | some p =>
    if !(Paper.Encloses cfg.sPaper p) then .Intersection rank 0 p arl1 arl2
    else if |XYPt.Dot u1 (XYPt.Rotate90 u2)| < cfg.sMinAngleSine then
      .Intersection rank 0 p arl1 arl2
    else .Intersection rank (RefMark.FinishConstructor cfg p) p arl1 arl2

/-- The common last statements of the seven axiom constructors:
`if (sPaper.MakesSkinnyFlap(l)) return; FinishConstructor();` give the members `l` and
`mKey` at the end of the constructor. -/
def finishLine (M : CMath K) (cfg : Config K) (l : XYLine K) : XYLine K × Int :=
  if Paper.MakesSkinnyFlap cfg.sPaper cfg.sMinAspectRatio l then (l, 0)
  else RefLine.FinishConstructor M cfg l

/-- The fold line of `RefLine_C2P_C2P::RefLine_C2P_C2P`:
`l.u = (p2 - p1).Rotate90().Normalize()`, `l.d = .5 * (p1 + p2).Dot(l.u)`. -/
def RefLine_C2P_C2P.foldLine (M : CMath K) (p1 p2 : XYPt K) : XYLine K :=
  let lu := XYPt.Normalize M (XYPt.Rotate90 (XYPt.sub p2 p1))
  ⟨(1 / 2) * XYPt.Dot (XYPt.add p1 p2) lu, lu⟩

/-- The constructor `RefLine_C2P_C2P::RefLine_C2P_C2P` (axiom O1). -/
def RefLine_C2P_C2P (M : CMath K) (cfg : Config K) (arm1 arm2 : RefMark K) : RefLine K :=
  let rank := CalcLineRank2 arm1.mRank arm2.mRank
  let l := RefLine_C2P_C2P.foldLine M arm1.p arm2.p
  let f := finishLine M cfg l
  .C2P_C2P rank f.2 f.1 arm1 arm2

/-- The fold line of `RefLine_P2P::RefLine_P2P`: `l.u = (p2 - p1).Normalize()`,
`l.d = .5 * (p1 + p2).Dot(l.u)`. -/
def RefLine_P2P.foldLine (M : CMath K) (p1 p2 : XYPt K) : XYLine K :=
  let lu := XYPt.Normalize M (XYPt.sub p2 p1)
  ⟨(1 / 2) * XYPt.Dot (XYPt.add p1 p2) lu, lu⟩

/-- The visibility test of `RefLine_P2P::RefLine_P2P`; `none` is the `return`. -/
def RefLine_P2P.whoMoves (cfg : Config K) (arm1 arm2 : RefMark K) : Option P2P_WhoMoves :=
  let p1edge := RefMark.IsOnEdge cfg arm1
  let p2edge := RefMark.IsOnEdge cfg arm2
  if cfg.sVisibilityMatters then
    if p1edge then some .WHOMOVES_P1
    else if p2edge then some .WHOMOVES_P2
    else none
  else some .WHOMOVES_P1

/-- The constructor `RefLine_P2P::RefLine_P2P` (axiom O2). -/
def RefLine_P2P (M : CMath K) (cfg : Config K) (arm1 arm2 : RefMark K) : RefLine K :=
  let rank := CalcLineRank2 arm1.mRank arm2.mRank
  let l := RefLine_P2P.foldLine M arm1.p arm2.p
  match RefLine_P2P.whoMoves cfg arm1 arm2 with
  | none => .P2P rank 0 l arm1 arm2 none
  | some w =>
    let f := finishLine M cfg l
    .P2P rank f.2 f.1 arm1 arm2 (some w)

/-- The first part of `RefLine_L2L::RefLine_L2L`: the fold line computed from the two
lines and `iroot`, before any check against the paper; `none` is the early return for
parallel lines and `iroot != 0`. -/
def RefLine_L2L.foldLine (M : CMath K) (l1 l2 : XYLine K) (iroot : Int) :
    Option (XYLine K) :=
  let u1 := l1.u
  let d1 := l1.d
  let u2 := l2.u
  let d2 := l2.d
  if XYLine.IsParallelTo l1 l2 then
    if iroot = 0 then some ⟨(1 / 2) * (d1 + d2 * XYPt.Dot u2 u1), u1⟩
    else none
  else
    let lu := if iroot = 0 then XYPt.Normalize M (XYPt.add u1 u2)
      else XYPt.Normalize M (XYPt.sub u1 u2)
    some ⟨XYPt.Dot (XYLine.Intersection l1 l2) lu, lu⟩

/-- The visibility test of `RefLine_L2L::RefLine_L2L`; `none` is the `return`. -/
def RefLine_L2L.whoMoves (cfg : Config K) (arl1 arl2 : RefLine K) (l : XYLine K) :
    Option L2L_WhoMoves :=
  let l1edge := RefLine.IsOnEdge cfg arl1
  let l2edge := RefLine.IsOnEdge cfg arl2
  if cfg.sVisibilityMatters then
    if l1edge then some .WHOMOVES_L1
    else if l2edge then some .WHOMOVES_L2
    else
      let c1 := Paper.ClipLine cfg.sPaper arl1.l XYPt.zero XYPt.zero
      if Paper.Encloses cfg.sPaper (XYLine.Fold l c1.2.1) &&
          Paper.Encloses cfg.sPaper (XYLine.Fold l c1.2.2) then some .WHOMOVES_L1
      else
        let c2 := Paper.ClipLine cfg.sPaper arl2.l c1.2.1 c1.2.2
        if Paper.Encloses cfg.sPaper (XYLine.Fold l c2.2.1) &&
            Paper.Encloses cfg.sPaper (XYLine.Fold l c2.2.2) then some .WHOMOVES_L2
        else none
  else some .WHOMOVES_L1

/-- The constructor `RefLine_L2L::RefLine_L2L` (axiom O3). -/
def RefLine_L2L (M : CMath K) (cfg : Config K) (arl1 arl2 : RefLine K) (iroot : Int) :
    RefLine K :=
  let rank := CalcLineRank2 arl1.mRank arl2.mRank
  match RefLine_L2L.foldLine M arl1.l arl2.l iroot with
  | none => .L2L rank 0 XYLine.default arl1 arl2 none
  | some l =>
    if !(Paper.InteriorOverlaps M cfg.sPaper l) then .L2L rank 0 l arl1 arl2 none
    else
      match RefLine_L2L.whoMoves cfg arl1 arl2 l with
      | none => .L2L rank 0 l arl1 arl2 none
      | some w =>
        let f := finishLine M cfg l
        .L2L rank f.2 f.1 arl1 arl2 (some w)

/-- The fold line of `RefLine_L2L_C2P::RefLine_L2L_C2P`: `l.u = u1.Rotate90()`,
`l.d = p1.Dot(l.u)`. -/
def RefLine_L2L_C2P.foldLine (l1 : XYLine K) (p1 : XYPt K) : XYLine K :=
  let lu := XYPt.Rotate90 l1.u
  ⟨XYPt.Dot p1 lu, lu⟩

/-- The point `p1p` of `RefLine_L2L_C2P::RefLine_L2L_C2P`: the projection of `p1` onto
the line `l1`. -/
def RefLine_L2L_C2P.projection (l1 : XYLine K) (p1 : XYPt K) : XYPt K :=
  XYPt.add p1 (XYPt.smul (l1.d - XYPt.Dot p1 l1.u) l1.u)

/-- The constructor `RefLine_L2L_C2P::RefLine_L2L_C2P` (axiom O4). -/
def RefLine_L2L_C2P (M : CMath K) (cfg : Config K) (arl1 : RefLine K) (arm1 : RefMark K) :
    RefLine K :=
  let rank := CalcLineRank2 arl1.mRank arm1.mRank
  let l := RefLine_L2L_C2P.foldLine arl1.l arm1.p
  if !(Paper.Encloses cfg.sPaper (RefLine_L2L_C2P.projection arl1.l arm1.p)) then
    .L2L_C2P rank 0 l arl1 arm1
  else
    let f := finishLine M cfg l
    .L2L_C2P rank f.2 f.1 arl1 arm1

/-- The image `p1p` of `p1` that `RefLine_P2L_C2P::RefLine_P2L_C2P` computes from `iroot`:
`p1p = p2 + a * u1 + b * u1p` for `iroot == 0` and `p2 + a * u1 - b * u1p` otherwise,
with `a = d1 - p2.Dot(u1)`, `b = sqrt((p2 - p1).Mag2() - a * a)`. -/
def RefLine_P2L_C2P.imagePoint (M : CMath K) (p1 : XYPt K) (l1 : XYLine K) (p2 : XYPt K)
    (iroot : Int) : XYPt K :=
  let u1 := l1.u
  let d1 := l1.d
  let a := d1 - XYPt.Dot p2 u1
  let b2 := XYPt.Mag2 (XYPt.sub p2 p1) - a * a
  let b := M.sqrt b2
  let u1p := XYPt.Rotate90 u1
  let p1p0 := XYPt.add p2 (XYPt.smul a u1)
  if iroot = 0 then XYPt.add p1p0 (XYPt.smul b u1p)
  else XYPt.sub p1p0 (XYPt.smul b u1p)

/-- The statements of `RefLine_P2L_C2P::RefLine_P2L_C2P` up to the validation of the
image: `none` is one of the early returns (a point already on the line, a negative
`b2`, the second root of a degenerate pair, an image outside the paper), `some p1p` is
the image of `p1`. -/
def RefLine_P2L_C2P.image (M : CMath K) (cfg : Config K) (p1 : XYPt K) (l1 : XYLine K)
    (p2 : XYPt K) (iroot : Int) : Option (XYPt K) :=
  let u1 := l1.u
  let d1 := l1.d
  if XYLine.IntersectsPt l1 p1 || XYLine.IntersectsPt l1 p2 then none
  else
    let a := d1 - XYPt.Dot p2 u1
    let b2 := XYPt.Mag2 (XYPt.sub p2 p1) - a * a
    if b2 < 0 then none
    else
      let b := M.sqrt b2
      if b < EPS ∧ iroot = 1 then none
      else
        let p1p := RefLine_P2L_C2P.imagePoint M p1 l1 p2 iroot
        if !(Paper.Encloses cfg.sPaper p1p) then none
        else some p1p

/-- The fold line of `RefLine_P2L_C2P::RefLine_P2L_C2P` from the image `p1p`:
`l.u = (p1p - p1).Normalize()`, `l.d = p2.Dot(l.u)`. -/
def RefLine_P2L_C2P.foldLine (M : CMath K) (p1 p2 p1p : XYPt K) : XYLine K :=
  let lu := XYPt.Normalize M (XYPt.sub p1p p1)
  ⟨XYPt.Dot p2 lu, lu⟩

/-- The visibility test of `RefLine_P2L_C2P::RefLine_P2L_C2P`; `none` is the `return`. -/
def RefLine_P2L_C2P.whoMoves (cfg : Config K) (arm1 : RefMark K) (arl1 : RefLine K) :
    Option P2L_C2P_WhoMoves :=
  let p1edge := RefMark.IsOnEdge cfg arm1
  let l1edge := RefLine.IsOnEdge cfg arl1
  if cfg.sVisibilityMatters then
    if p1edge then some .WHOMOVES_P1
    else if l1edge then some .WHOMOVES_L1
    else none
  else some .WHOMOVES_P1

/-- The constructor `RefLine_P2L_C2P::RefLine_P2L_C2P` (axiom O5). -/
def RefLine_P2L_C2P (M : CMath K) (cfg : Config K) (arm1 : RefMark K) (arl1 : RefLine K)
    (arm2 : RefMark K) (iroot : Int) : RefLine K :=
  let rank := CalcLineRank3 arm1.mRank arl1.mRank arm2.mRank
  match RefLine_P2L_C2P.image M cfg arm1.p arl1.l arm2.p iroot with
  | none => .P2L_C2P rank 0 XYLine.default arm1 arl1 arm2 none
  | some p1p =>
    let l := RefLine_P2L_C2P.foldLine M arm1.p arm2.p p1p
    match RefLine_P2L_C2P.whoMoves cfg arm1 arl1 with
    | none => .P2L_C2P rank 0 l arm1 arl1 arm2 none
    | some w =>
      let f := finishLine M cfg l
      .P2L_C2P rank f.2 f.1 arm1 arl1 arm2 (some w)

/-- The first statements of `RefLine_L2L_P2L::RefLine_L2L_P2L`: `l.u = u2.Rotate90()`
and, unless `abs(uf1) < EPS` (then `l.d` keeps its initial value `0` and the
constructor returns: the second component is `false`),
`l.d = (d1 + 2 * p1.Dot(l.u) * uf1 - p1.Dot(u1)) / (2 * uf1)`. -/
def RefLine_L2L_P2L.foldLine (l1 : XYLine K) (p1 : XYPt K) (l2 : XYLine K) :
    XYLine K × Bool :=
  let u1 := l1.u
  let d1 := l1.d
  let lu := XYPt.Rotate90 l2.u
  let uf1 := XYPt.Dot lu u1
  if |uf1| < EPS then (⟨0, lu⟩, false)
  else (⟨(d1 + 2 * XYPt.Dot p1 lu * uf1 - XYPt.Dot p1 u1) / (2 * uf1), lu⟩, true)

/-- The visibility test of `RefLine_L2L_P2L::RefLine_L2L_P2L`; `pt` is the intersection
of the fold line with `l2`; `none` is the `return`. -/
def RefLine_L2L_P2L.whoMoves (cfg : Config K) (arl1 : RefLine K) (arm1 : RefMark K)
    (l : XYLine K) (pt : XYPt K) : Option L2L_P2L_WhoMoves :=
  let p1edge := RefMark.IsOnEdge cfg arm1
  let l1edge := RefLine.IsOnEdge cfg arl1
  if cfg.sVisibilityMatters then
    let c := Paper.ClipLine cfg.sPaper l XYPt.zero XYPt.zero
    let t1a := XYPt.Dot (XYPt.sub c.2.1 pt) l.u
    let t2a := XYPt.Dot (XYPt.sub c.2.2 pt) l.u
    let tp := XYPt.Dot (XYPt.sub arm1.p pt) l.u
    let t1 := if t1a * tp < 0 then t2a else t1a
    let t2 := if t1a * tp < 0 then t1a else t2a
    if p1edge ∧ |t1| ≤ |t2| then some .WHOMOVES_P1
    else if l1edge ∧ |t1| ≥ |t2| then some .WHOMOVES_L1
    else none
  else some .WHOMOVES_P1

/-- The constructor `RefLine_L2L_P2L::RefLine_L2L_P2L` (axiom O7). -/
def RefLine_L2L_P2L (M : CMath K) (cfg : Config K) (arl1 : RefLine K) (arm1 : RefMark K)
    (arl2 : RefLine K) : RefLine K :=
  let rank := CalcLineRank3 arl1.mRank arm1.mRank arl2.mRank
  match RefLine_L2L_P2L.foldLine arl1.l arm1.p arl2.l with
  | (l, false) => .L2L_P2L rank 0 l arl1 arm1 arl2 none
  | (l, true) =>
    let pt := XYLine.Intersection l arl2.l
    if !(Paper.Encloses cfg.sPaper pt) then .L2L_P2L rank 0 l arl1 arm1 arl2 none
    else if !(Paper.Encloses cfg.sPaper (XYLine.Fold l arm1.p)) then
      .L2L_P2L rank 0 l arl1 arm1 arl2 none
    else if XYLine.IntersectsPt arl1.l arm1.p then .L2L_P2L rank 0 l arl1 arm1 arl2 none
    else
      match RefLine_L2L_P2L.whoMoves cfg arl1 arm1 l pt with
      | none => .L2L_P2L rank 0 l arl1 arm1 arl2 none
      | some w =>
        let f := finishLine M cfg l
        .L2L_P2L rank f.2 f.1 arl1 arm1 arl2 (some w)

/-- The private static members of `RefLine_P2L_P2L` that survive from one constructor
call to the next. -/
structure P2L_P2L_Statics (K : Type) where
  order : Int
  irootMax : Int
  q1 : K
  q2 : K
  S : K
  Sr : K
  Si : K
  U : K

/-- The initial values of the static members of `RefLine_P2L_P2L`. -/
def P2L_P2L_Statics.init : P2L_P2L_Statics K := ⟨0, 0, 0, 0, 0, 0, 0, 0⟩

/-- The function `CubeRoot`. -/
def CubeRoot (M : CMath K) (x : K) : K :=
  if x ≥ 0 then M.pow x (1 / 3) else -(M.pow (-x) (1 / 3))

/-- The coefficients `a, b, c, d` of the equation `a r^3 + b r^2 + c r + d = 0` that
`RefLine_P2L_P2L::RefLine_P2L_P2L` sets up for `iroot == 0`. -/
def RefLine_P2L_P2L.coefficients (p1 : XYPt K) (l1 : XYLine K) (p2 : XYPt K)
    (l2 : XYLine K) : K × K × K × K :=
  let u1 := l1.u
  let d1 := l1.d
  let u2 := l2.u
  let d2 := l2.d
  let u1p := XYPt.Rotate90 u1
  let v1 := XYPt.sub (XYPt.add p1 (XYPt.smul d1 u1)) (XYPt.smul 2 p2)
  let v2 := XYPt.sub (XYPt.smul d1 u1) p1
  let c1 := XYPt.Dot p2 u2 - d2
  let c2 := 2 * XYPt.Dot v2 u1p
  let c3 := XYPt.Dot v2 v2
  let c4 := XYPt.Dot (XYPt.add v1 v2) u1p
  let c5 := XYPt.Dot v1 v2
  let c6 := XYPt.Dot u1p u2
  let c7 := XYPt.Dot v2 u2
  (c6, c1 + c4 * c6 + c7, c1 * c2 + c5 * c6 + c4 * c7, c1 * c3 + c5 * c7)

/-- The `switch (iroot)` of `RefLine_P2L_P2L::RefLine_P2L_P2L`: the root `rc` (`none`
is a `return` inside the switch) and the static members afterwards.  The calls
`pow(x, 2)` and `pow(x, 3)` are exact powers. -/
def RefLine_P2L_P2L.root (M : CMath K) (st : P2L_P2L_Statics K) (p1 : XYPt K)
    (l1 : XYLine K) (p2 : XYPt K) (l2 : XYLine K) (iroot : Int) :
    Option K × P2L_P2L_Statics K :=
  if iroot = 0 then
    let co := RefLine_P2L_P2L.coefficients p1 l1 p2 l2
    let a := co.1
    let b := co.2.1
    let c := co.2.2.1
    let d := co.2.2.2
    let order : Int :=
      if |a| > EPS then 3 else if |b| > EPS then 2 else if |c| > EPS then 1 else 0
    let st := { st with order := order }
    if order = 0 then (none, st)
    else if order = 1 then (some (-d / c), st)
    else if order = 2 then
      let disc := c ^ 2 - 4 * b * d
      let q1 := -c / (2 * b)
      let st := { st with q1 := q1 }
      if disc < 0 then (none, { st with irootMax := -1 })
      else if |disc| < EPS then (some q1, { st with irootMax := 0 })
      else
        let q2 := M.sqrt disc / (2 * b)
        (some (q1 + q2), { st with irootMax := 1, q2 := q2 })
    else
      let a2 := b / a
      let a1 := c / a
      let a0 := d / a
      let Q := (3 * a1 - a2 ^ 2) / 9
      let R := (9 * a2 * a1 - 27 * a0 - 2 * a2 ^ 3) / 54
      let D := Q ^ 3 + R ^ 2
      let U := -a2 / 3
      let st := { st with U := U }
      if D > 0 then
        let rD := M.sqrt D
        let S := CubeRoot M (R + rD)
        let T := CubeRoot M (R - rD)
        (some (U + S + T), { st with irootMax := 0, S := S })
      else if |D| < EPS then
        let S := M.pow R (1 / 3)
        (some (U + 2 * S), { st with irootMax := 1, S := S })
      else
        let rD := M.sqrt (-D)
        let phi := M.atan2 rD R / 3
        let rS := M.pow (R ^ 2 - D) (1 / 6)
        let Sr := rS * M.cos phi
        let Si := rS * M.sin phi
        (some (U + 2 * Sr), { st with irootMax := 2, Sr := Sr, Si := Si })
  else if iroot = 1 then
    if st.irootMax < 1 then (none, st)
    else if st.order = 2 then (some (st.q1 - st.q2), st)
    else if st.order = 3 then
      if st.irootMax = 1 then (some (st.U - st.S), st)
      else (some (st.U - st.Sr - M.sqrt 3 * st.Si), st)
    else (some 0, st)
  else if iroot = 2 then
    if st.irootMax < 2 then (none, st)
    else if st.order = 3 then (some (st.U - st.Sr + M.sqrt 3 * st.Si), st)
    else (some 0, st)
  else (some 0, st)

/-- The fold line of `RefLine_P2L_P2L::RefLine_P2L_P2L` from the image `p1p` of `p1`:
`l.u = (p1p - p1).Normalize()`, `l.d = l.u.Dot(MidPoint(p1p, p1))`. -/
def RefLine_P2L_P2L.foldLine (M : CMath K) (p1 p1p : XYPt K) : XYLine K :=
  let lu := XYPt.Normalize M (XYPt.sub p1p p1)
  ⟨XYPt.Dot lu (XYPt.MidPoint p1p p1), lu⟩

/-- The visibility test of `RefLine_P2L_P2L::RefLine_P2L_P2L`; `none` is the `return`. -/
def RefLine_P2L_P2L.whoMoves (cfg : Config K) (arm1 : RefMark K) (arl1 : RefLine K)
    (arm2 : RefMark K) (arl2 : RefLine K) (l : XYLine K) : Option P2L_P2L_WhoMoves :=
  let sameSide : Bool :=
    decide ((XYPt.Dot arm1.p l.u - l.d) * (XYPt.Dot arm2.p l.u - l.d) ≥ 0)
  let p1edge := RefMark.IsOnEdge cfg arm1
  let p2edge := RefMark.IsOnEdge cfg arm2
  let l1edge := RefLine.IsOnEdge cfg arl1
  let l2edge := RefLine.IsOnEdge cfg arl2
  if cfg.sVisibilityMatters then
    if sameSide then
      if p1edge && p2edge then some .WHOMOVES_P1P2
      else if l1edge && l2edge then some .WHOMOVES_L1L2
      else none
    else
      if p1edge && l2edge then some .WHOMOVES_P1L2
      else if p2edge && l1edge then some .WHOMOVES_P2L1
      else none
  else
    if sameSide then some .WHOMOVES_P1P2 else some .WHOMOVES_P1L2

/-- The first checks of `RefLine_P2L_P2L::RefLine_P2L_P2L`: `p1` already on `l1`, `p2`
already on `l2`, or the two points or the two lines not distinct. -/
def RefLine_P2L_P2L.trivial (M : CMath K) (p1 : XYPt K) (l1 : XYLine K) (p2 : XYPt K)
    (l2 : XYLine K) : Bool :=
  XYLine.IntersectsPt l1 p1 || XYLine.IntersectsPt l2 p2 ||
    (XYPt.eq M p1 p2 || XYLine.eq l1 l2)

/-- The image `p1p = d1 * u1 + rc * u1p` of `p1` for the root `rc`. -/
def RefLine_P2L_P2L.imagePoint (l1 : XYLine K) (rc : K) : XYPt K :=
  XYPt.add (XYPt.smul l1.d l1.u) (XYPt.smul rc (XYPt.Rotate90 l1.u))

/-- The constructor `RefLine_P2L_P2L::RefLine_P2L_P2L` (axiom O6), with the static
members before the call as an argument and after the call in the result. -/
def RefLine_P2L_P2L (M : CMath K) (cfg : Config K) (st : P2L_P2L_Statics K)
    (arm1 : RefMark K) (arl1 : RefLine K) (arm2 : RefMark K) (arl2 : RefLine K)
    (iroot : Int) : RefLine K × P2L_P2L_Statics K :=
  let rank := CalcLineRank4 arm1.mRank arl1.mRank arm2.mRank arl2.mRank
  if RefLine_P2L_P2L.trivial M arm1.p arl1.l arm2.p arl2.l then
    (.P2L_P2L rank 0 XYLine.default arm1 arl1 arm2 arl2 none, st)
  else
    match RefLine_P2L_P2L.root M st arm1.p arl1.l arm2.p arl2.l iroot with
    | (none, st1) => (.P2L_P2L rank 0 XYLine.default arm1 arl1 arm2 arl2 none, st1)
    | (some rc, st1) =>
      let p1p := RefLine_P2L_P2L.imagePoint arl1.l rc
      if XYPt.eq M p1p arm1.p then
        (.P2L_P2L rank 0 XYLine.default arm1 arl1 arm2 arl2 none, st1)
      else
        let l := RefLine_P2L_P2L.foldLine M arm1.p p1p
        let p2p := XYLine.Fold l arm2.p
        if !(Paper.Encloses cfg.sPaper p1p) || !(Paper.Encloses cfg.sPaper p2p) then
          (.P2L_P2L rank 0 l arm1 arl1 arm2 arl2 none, st1)
        else
          match RefLine_P2L_P2L.whoMoves cfg arm1 arl1 arm2 arl2 l with
          | none => (.P2L_P2L rank 0 l arm1 arl1 arm2 arl2 none, st1)
          | some w =>
            let f := finishLine M cfg l
            (.P2L_P2L rank f.2 f.1 arm1 arl1 arm2 arl2 (some w), st1)

end References

/-! ## Section 3: the container -/

/-- The members `mRank` and `mKey` of the base class `RefBase`, as seen by the
templates `RefContainer<R>` and `CompareRankAndError<R>`. -/
class RefBase (R : Type) where
  mRank : R → Nat
  mKey : R → Int

instance instRefBaseRefMark {K : Type} : RefBase (RefMark K) where
  mRank := RefMark.mRank
  mKey := RefMark.mKey

instance instRefBaseRefLine {K : Type} : RefBase (RefLine K) where
  mRank := RefLine.mRank
  mKey := RefLine.mKey

section Container

variable {R : Type} [RefBase R]

/-- The type `map_t = std::map<key_t, R*>`: the entries in ascending key order. -/
abbrev map_t (R : Type) : Type := List (Int × R)

/-- The method `std::map::count`. -/
def map_t.count (m : map_t R) (k : Int) : Nat :=
  if m.any (fun e => decide (e.1 = k)) then 1 else 0

/-- The method `std::map::insert`: the entry goes to its place in key order; when the
key is already present the map is left as it is. -/
def map_t.insert : map_t R → Int × R → map_t R
  | [], e => [e]
  | h :: t, e =>
    if e.1 < h.1 then e :: h :: t
    else if e.1 = h.1 then h :: t
    else h :: map_t.insert t e

/-- The class template `RefContainer<R>`; `vec` is the base class `std::vector<R*>`. -/
structure RefContainer (R : Type) where
  vec : List R
  maps : List (map_t R)
  rcsz : Nat
  buffer : map_t R
  rcbz : Nat

namespace RefContainer

/-- The constructor `RefContainer()`. -/
def new (sMaxRank : Nat) : RefContainer R :=
  { vec := [], maps := List.replicate (1 + sMaxRank) [], rcsz := 0, buffer := [], rcbz := 0 }

/-- The method `GetTotalSize`. -/
def GetTotalSize (c : RefContainer R) : Nat := c.rcsz + c.rcbz

/-- The method `Rebuild` (the buffer is not touched). -/
def Rebuild (sMaxRank : Nat) (c : RefContainer R) : RefContainer R :=
  { c with rcsz := 0, rcbz := 0, vec := [], maps := List.replicate (1 + sMaxRank) [] }

/-- The method `Contains`. -/
def Contains (c : RefContainer R) (ar : R) : Bool :=
  c.maps.any (fun m => decide (map_t.count m (RefBase.mKey ar) ≠ 0)) ||
    decide (map_t.count c.buffer (RefBase.mKey ar) ≠ 0)

/-- The method `Add`. -/
def Add (c : RefContainer R) (ar : R) : RefContainer R :=
  { c with buffer := map_t.insert c.buffer (RefBase.mKey ar, ar), rcbz := c.rcbz + 1 }

/-- The container part of the method `AddCopyIfValidAndUnique` (the call of
`CheckDatabaseStatus` that follows is made by the callers below). -/
def AddCopyIfValidAndUnique (c : RefContainer R) (ars : R) : RefContainer R :=
  if RefBase.mKey ars ≠ 0 ∧ Contains c ars = false then Add c ars else c

/-- One step of the loop of `FlushBuffer`: `maps[rr->mRank].insert(*bi); push_back(rr);
rcsz++`.  A rank beyond the end of `maps` (undefined behaviour in the source) changes
no map. -/
def flushOne (c : RefContainer R) (bi : Int × R) : RefContainer R :=
  { c with
    maps := c.maps.modify (fun m => map_t.insert m bi) (RefBase.mRank bi.2)
    vec := c.vec ++ [bi.2]
    rcsz := c.rcsz + 1 }

/-- The method `FlushBuffer`. -/
def FlushBuffer (c : RefContainer R) : RefContainer R :=
  let c1 := c.buffer.foldl flushOne c
  { c1 with buffer := [], rcbz := 0 }

/-- The method `ClearMaps`. -/
def ClearMaps (c : RefContainer R) : RefContainer R :=
  { c with maps := c.maps.map (fun _ => []) }

end RefContainer

end Container

/-! ## Section 4: searching -/

section Search

variable {K : Type} [LinearOrderedField K] {R : Type} [RefBase R]

/-- The function object `CompareRankAndError<R>::operator()`; `DistanceTo r` is
`r->DistanceTo(mTarget)`. -/
def CompareRankAndError (sGoodEnoughError : K) (DistanceTo : R → K) (r1 r2 : R) : Bool :=
  let d1 := DistanceTo r1
  let d2 := DistanceTo r2
  if d1 > sGoodEnoughError ∨ d2 > sGoodEnoughError then
    if d1 = d2 then decide (RefBase.mRank r1 < RefBase.mRank r2)
    else decide (d1 < d2)
  else
    if RefBase.mRank r1 = RefBase.mRank r2 then decide (d1 < d2)
    else decide (RefBase.mRank r1 < RefBase.mRank r2)

/-- The function object `CompareError<R>::operator()`. -/
def CompareError (DistanceTo : R → K) (r1 r2 : R) : Bool :=
  let d1 := DistanceTo r1
  let d2 := DistanceTo r2
  if d1 = d2 then decide (RefBase.mRank r1 < RefBase.mRank r2)
  else decide (d1 < d2)

/-- The method `std::vector::resize` on a vector of pointers: new entries are null
(`none`). -/
def resize (v : List (Option R)) (n : Nat) : List (Option R) :=
  v.take n ++ List.replicate (n - v.length) none

/-- The library algorithm `std::partial_sort_copy(first, last, d_first, d_last, comp)`,
which is not part of the repository, after the contract of the C++ standard: the
`min (last - first) (d_last - d_first)` smallest elements of the source, in ascending
order, overwrite the front of the destination; the rest of the destination is left as
it is.  Elements that `comp` does not separate keep their source order. -/
def partial_sort_copy (comp : R → R → Bool) (src : List R) (dst : List (Option R)) :
    List (Option R) :=
  let n := min src.length dst.length
  ((src.insertionSort (fun a b => comp b a = false)).take n).map some ++ dst.drop n

end Search

section SearchDb

variable {K : Type} [LinearOrderedField K] [FloorRing K]

/-- The method `ReferenceFinder::FindBestMarks`; `sBasisMarks` is the mark container,
`vm` the vector passed in. -/
def FindBestMarks (M : CMath K) (cfg : Config K) (sBasisMarks : RefContainer (RefMark K))
    (ap : XYPt K) (vm : List (Option (RefMark K))) (numMarks : Nat) :
    List (Option (RefMark K)) :=
  partial_sort_copy
    (CompareRankAndError cfg.sGoodEnoughError (fun r => RefMark.DistanceTo M r ap))
    sBasisMarks.vec (resize vm numMarks)

/-- The method `ReferenceFinder::FindBestLines`. -/
def FindBestLines (M : CMath K) (cfg : Config K) (sBasisLines : RefContainer (RefLine K))
    (al : XYLine K) (vl : List (Option (RefLine K))) (numLines : Nat) :
    List (Option (RefLine K)) :=
  partial_sort_copy
    (CompareRankAndError cfg.sGoodEnoughError (fun r => RefLine.DistanceTo M cfg r al))
    sBasisLines.vec (resize vl numLines)

end SearchDb

/-! ## Section 4 (continued): building the database -/

/-- The enum `ReferenceFinder::DatabaseStatus`. -/
inductive DatabaseStatus
  | DATABASE_EMPTY
  | DATABASE_INITIALIZING
  | DATABASE_WORKING
  | DATABASE_RANK_COMPLETE
  | DATABASE_READY
deriving DecidableEq, Repr

/-- The struct `ReferenceFinder::DatabaseInfo`. -/
structure DatabaseInfo where
  mStatus : DatabaseStatus
  mRank : Nat
  mNumLines : Nat
  mNumMarks : Nat
deriving DecidableEq, Repr

/-- The callback type `ReferenceFinder::DatabaseFn`.  The result is the value the
callback leaves in its `cancel` parameter; the first argument is the number of calls
made before this one and stands for whatever state the callback keeps in `userData`. -/
abbrev DatabaseFn : Type := Nat → DatabaseInfo → Bool

/-- The private static state of the class `ReferenceFinder` together with the static
members of `RefLine_P2L_P2L` and the number of callback calls made so far. -/
structure Database (K : Type) where
  sBasisLines : RefContainer (RefLine K)
  sBasisMarks : RefContainer (RefMark K)
  sStatusCount : Int
  sCurRank : Nat
  sP2L_P2L : P2L_P2L_Statics K
  nCalls : Nat

section Build

variable {K : Type} [LinearOrderedField K] [FloorRing K]

namespace Database

/-- The method `ReferenceFinder::GetNumLines`. -/
def GetNumLines (db : Database K) : Nat := db.sBasisLines.GetTotalSize

/-- The method `ReferenceFinder::GetNumMarks`. -/
def GetNumMarks (db : Database K) : Nat := db.sBasisMarks.GetTotalSize

/-- The state before the first build: the containers as their constructor leaves
them. -/
def init (sMaxRank : Nat) : Database K :=
  { sBasisLines := RefContainer.new sMaxRank
    sBasisMarks := RefContainer.new sMaxRank
    sStatusCount := 0
    sCurRank := 0
    sP2L_P2L := P2L_P2L_Statics.init
    nCalls := 0 }

end Database

/-- A call `(*sDatabaseFn)(info, sDatabaseUserData, haltFlag)` guarded by
`if (sDatabaseFn)`: the flag and the state afterwards. -/
def callDatabaseFn (sDatabaseFn : Option DatabaseFn) (status : DatabaseStatus) (rank : Nat)
    (db : Database K) : Bool × Database K :=
  match sDatabaseFn with
  | none => (false, db)
  | some f =>
    (f db.nCalls ⟨status, rank, db.GetNumLines, db.GetNumMarks⟩,
      { db with nCalls := db.nCalls + 1 })

/-- Sequencing of two steps that may throw `EXC_HALT`: `Except.error` carries the state
at the throw. -/
def andThen (r : Except (Database K) (Database K))
    (f : Database K → Except (Database K) (Database K)) :
    Except (Database K) (Database K) :=
  match r with
  | .ok db => f db
  | .error db => .error db

/-- The method `ReferenceFinder::CheckDatabaseStatus`. -/
def CheckDatabaseStatus (cfg : Config K) (sDatabaseFn : Option DatabaseFn)
    (db : Database K) : Except (Database K) (Database K) :=
  if db.sStatusCount < cfg.sDatabaseStatusSkip then
    .ok { db with sStatusCount := db.sStatusCount + 1 }
  else
    match callDatabaseFn sDatabaseFn .DATABASE_WORKING db.sCurRank db with
    | (true, db1) => .error db1
    | (false, db1) => .ok { db1 with sStatusCount := 0 }

/-- A line candidate of a `MakeAll` loop: the constructor call, from the static
members of `RefLine_P2L_P2L` before it to the object and the static members after. -/
abbrev LineCand (K : Type) : Type := P2L_P2L_Statics K → RefLine K × P2L_P2L_Statics K

/-- The innermost statements of the line `MakeAll` loops, for the candidates in loop
order: `if (GetNumLines() >= sMaxLines) return;`, the constructor call, and
`sBasisLines.AddCopyIfValidAndUnique` with its call of `CheckDatabaseStatus`. -/
def offerLines (cfg : Config K) (sDatabaseFn : Option DatabaseFn) :
    List (LineCand K) → Database K → Except (Database K) (Database K)
  | [], db => .ok db
  | c :: cs, db =>
    if db.GetNumLines ≥ cfg.sMaxLines then .ok db
    else
      let r := c db.sP2L_P2L
      let db1 := { db with
        sBasisLines := db.sBasisLines.AddCopyIfValidAndUnique r.1
        sP2L_P2L := r.2 }
      andThen (CheckDatabaseStatus cfg sDatabaseFn db1) (offerLines cfg sDatabaseFn cs)

/-- The innermost statements of `RefMark_Intersection::MakeAll`, for the candidates in
loop order. -/
def offerMarks (cfg : Config K) (sDatabaseFn : Option DatabaseFn) :
    List (RefMark K) → Database K → Except (Database K) (Database K)
  | [], db => .ok db
  | c :: cs, db =>
    if db.GetNumMarks ≥ cfg.sMaxMarks then .ok db
    else
      let db1 := { db with sBasisMarks := db.sBasisMarks.AddCopyIfValidAndUnique c }
      andThen (CheckDatabaseStatus cfg sDatabaseFn db1) (offerMarks cfg sDatabaseFn cs)

/-- The values `0, 1, ..., b` of a loop `for (rank_t i = 0; i <= b; i++)` whose bound
`b` is an `int` (none when `b < 0`; the bounds that occur are below `2 ^ 16`). -/
def rankLoop (b : Int) : List Nat := List.range (b + 1).toNat

/-- A conversion of an `int` to `rank_t`. -/
def toRank (i : Int) : Nat := (i % 65536).toNat

/-- The entries `maps[rank].begin() .. maps[rank].end()`; a rank beyond the end of
`maps` (undefined behaviour in the source) gives no entries. -/
def rankEntries {R : Type} (c : RefContainer R) (rank : Nat) : List (Int × R) :=
  c.maps.getD rank []

/-- The pairs `(mi, mj)` of the double loop over one map when `sameRank` holds: `mi`
starts one past `begin()`, `mj` runs from `begin()` up to but excluding `mi`.  (On an
empty map the source increments `end()`; that case gives no pairs here.) -/
def lowerPairs.go {α : Type} (seen : List α) : List α → List (α × α)
  | [] => []
  | x :: rest => seen.map (fun y => (x, y)) ++ lowerPairs.go (seen ++ [x]) rest

/-- The pairs of the `sameRank` double loop, see `lowerPairs.go`. -/
def lowerPairs {α : Type} : List α → List (α × α)
  | [] => []
  | x :: rest => lowerPairs.go [x] rest

/-- The pairs `(mi->second, mj->second)` that the loops of a symmetric binary `MakeAll`
visit for one `irank`, with `jrank` already computed. -/
def pairsOfRanks {R : Type} (c : RefContainer R) (irank jrank : Nat) : List (R × R) :=
  if irank = jrank then (lowerPairs (rankEntries c irank)).map (fun e => (e.1.2, e.2.2))
  else (rankEntries c irank).flatMap (fun mi =>
    (rankEntries c jrank).map (fun mj => (mi.2, mj.2)))

/-- The parent pairs that `RefLine_C2P_C2P::MakeAll`, `RefLine_P2P::MakeAll` and
`RefLine_L2L::MakeAll` visit: `irank = 0 .. (arank - 1) / 2`, `jrank = arank - irank - 1`. -/
def linePairs {R : Type} (c : RefContainer R) (arank : Nat) : List (R × R) :=
  (rankLoop (Int.tdiv ((arank : Int) - 1) 2)).flatMap (fun irank =>
    pairsOfRanks c irank (toRank ((arank : Int) - irank - 1)))

/-- The pairs of parent lines that the loops of `RefMark_Intersection::MakeAll` visit, in
loop order: `irank = 0 .. arank / 2`, `jrank = arank - irank`. -/
def RefMark_Intersection.tuples (db : Database K) (arank : Nat) :
    List (RefLine K × RefLine K) :=
  (rankLoop (Int.tdiv (arank : Int) 2)).flatMap (fun irank =>
    pairsOfRanks db.sBasisLines irank (toRank ((arank : Int) - irank)))

/-- The method `RefMark_Intersection::MakeAll`. -/
def RefMark_Intersection.MakeAll (cfg : Config K) (sDatabaseFn : Option DatabaseFn)
    (arank : Nat) (db : Database K) : Except (Database K) (Database K) :=
  offerMarks cfg sDatabaseFn
    ((RefMark_Intersection.tuples db arank).map
      (fun pr => RefMark_Intersection cfg pr.1 pr.2))
    db

/-- The constructor calls of `RefLine_C2P_C2P::MakeAll`, in loop order. -/
def RefLine_C2P_C2P.candidates (M : CMath K) (cfg : Config K) (db : Database K)
    (arank : Nat) : List (LineCand K) :=
  (linePairs db.sBasisMarks arank).map
    (fun pr => fun st => (RefLine_C2P_C2P M cfg pr.1 pr.2, st))

/-- The method `RefLine_C2P_C2P::MakeAll`. -/
def RefLine_C2P_C2P.MakeAll (M : CMath K) (cfg : Config K) (sDatabaseFn : Option DatabaseFn)
    (arank : Nat) (db : Database K) : Except (Database K) (Database K) :=
  offerLines cfg sDatabaseFn (RefLine_C2P_C2P.candidates M cfg db arank) db

/-- The constructor calls of `RefLine_P2P::MakeAll`, in loop order. -/
def RefLine_P2P.candidates (M : CMath K) (cfg : Config K) (db : Database K)
    (arank : Nat) : List (LineCand K) :=
  (linePairs db.sBasisMarks arank).map
    (fun pr => fun st => (RefLine_P2P M cfg pr.1 pr.2, st))

/-- The method `RefLine_P2P::MakeAll`. -/
def RefLine_P2P.MakeAll (M : CMath K) (cfg : Config K) (sDatabaseFn : Option DatabaseFn)
    (arank : Nat) (db : Database K) : Except (Database K) (Database K) :=
  offerLines cfg sDatabaseFn (RefLine_P2P.candidates M cfg db arank) db

/-- The constructor calls of `RefLine_L2L::MakeAll`, in loop order: both roots for every
pair of lines. -/
def RefLine_L2L.candidates (M : CMath K) (cfg : Config K) (db : Database K)
    (arank : Nat) : List (LineCand K) :=
  (linePairs db.sBasisLines arank).flatMap (fun pr =>
    [fun st => (RefLine_L2L M cfg pr.1 pr.2 0, st),
     fun st => (RefLine_L2L M cfg pr.1 pr.2 1, st)])

/-- The method `RefLine_L2L::MakeAll`. -/
def RefLine_L2L.MakeAll (M : CMath K) (cfg : Config K) (sDatabaseFn : Option DatabaseFn)
    (arank : Nat) (db : Database K) : Except (Database K) (Database K) :=
  offerLines cfg sDatabaseFn (RefLine_L2L.candidates M cfg db arank) db

/-- The parent tuples `(li, mj)` that the loops of `RefLine_L2L_C2P::MakeAll` visit:
`irank = 0 .. arank - 1`, `jrank = arank - irank - 1`. -/
def RefLine_L2L_C2P.tuples (db : Database K) (arank : Nat) :
    List (RefLine K × RefMark K) :=
  (rankLoop ((arank : Int) - 1)).flatMap (fun irank =>
    let jrank := toRank ((arank : Int) - irank - 1)
    (rankEntries db.sBasisLines irank).flatMap (fun li =>
      (rankEntries db.sBasisMarks jrank).map (fun mj => (li.2, mj.2))))

/-- The constructor calls of `RefLine_L2L_C2P::MakeAll`, in loop order. -/
def RefLine_L2L_C2P.candidates (M : CMath K) (cfg : Config K) (db : Database K)
    (arank : Nat) : List (LineCand K) :=
  (RefLine_L2L_C2P.tuples db arank).map
    (fun t => fun st => (RefLine_L2L_C2P M cfg t.1 t.2, st))

/-- The method `RefLine_L2L_C2P::MakeAll`. -/
def RefLine_L2L_C2P.MakeAll (M : CMath K) (cfg : Config K) (sDatabaseFn : Option DatabaseFn)
    (arank : Nat) (db : Database K) : Except (Database K) (Database K) :=
  offerLines cfg sDatabaseFn (RefLine_L2L_C2P.candidates M cfg db arank) db

/-- The parent tuples `(mi, lj, mk)` that the loops of `RefLine_P2L_C2P::MakeAll` visit:
`irank + jrank + krank = arank - 1`, and `mi`, `mk` not the same iterator. -/
def RefLine_P2L_C2P.tuples (db : Database K) (arank : Nat) :
    List (RefMark K × RefLine K × RefMark K) :=
  (rankLoop ((arank : Int) - 1)).flatMap (fun irank =>
    (rankLoop ((arank : Int) - 1 - irank)).flatMap (fun jrank =>
      let krank := toRank ((arank : Int) - irank - jrank - 1)
      (rankEntries db.sBasisMarks irank).flatMap (fun mi =>
        (rankEntries db.sBasisLines jrank).flatMap (fun lj =>
          (rankEntries db.sBasisMarks krank).flatMap (fun mk =>
            if irank ≠ krank ∨ mi.1 ≠ mk.1 then [(mi.2, lj.2, mk.2)] else [])))))

/-- The constructor calls of `RefLine_P2L_C2P::MakeAll` whose object is then passed to
`AddCopyIfValidAndUnique`, in loop order.  The second statement of the loop body
constructs `rlh2` with `iroot = 1` and then passes `rlh1` again, as the source does. -/
def RefLine_P2L_C2P.candidates (M : CMath K) (cfg : Config K) (db : Database K)
    (arank : Nat) : List (LineCand K) :=
  (RefLine_P2L_C2P.tuples db arank).flatMap (fun t =>
    let rlh1 := RefLine_P2L_C2P M cfg t.1 t.2.1 t.2.2 0
    let rlh2 := RefLine_P2L_C2P M cfg t.1 t.2.1 t.2.2 1
    [fun st => (rlh1, st), fun st => (rlh1, st)])

/-- The method `RefLine_P2L_C2P::MakeAll`. -/
def RefLine_P2L_C2P.MakeAll (M : CMath K) (cfg : Config K) (sDatabaseFn : Option DatabaseFn)
    (arank : Nat) (db : Database K) : Except (Database K) (Database K) :=
  offerLines cfg sDatabaseFn (RefLine_P2L_C2P.candidates M cfg db arank) db

/-- The parent tuples `(mi, lk, mj, ll)` that the loops of `RefLine_P2L_P2L::MakeAll`
visit, in loop order. -/
def RefLine_P2L_P2L.tuples (db : Database K) (arank : Nat) :
    List (RefMark K × RefLine K × RefMark K × RefLine K) :=
  (rankLoop ((arank : Int) - 1)).flatMap (fun psrank =>
    (rankLoop ((arank : Int) - 1 - psrank)).flatMap (fun lsrank =>
      (rankLoop (Int.tdiv (psrank : Int) 2)).flatMap (fun irank =>
        let jrank := toRank ((psrank : Int) - irank)
        (rankLoop (lsrank : Int)).flatMap (fun krank =>
          (rankLoop ((lsrank : Int) - krank)).flatMap (fun lrank =>
            (pairsOfRanks db.sBasisMarks irank jrank).flatMap (fun mm =>
              (rankEntries db.sBasisLines krank).flatMap (fun lk =>
                (rankEntries db.sBasisLines lrank).flatMap (fun ll =>
                  if krank ≠ lrank ∨ lk.1 ≠ ll.1 then [(mm.1, lk.2, mm.2, ll.2)]
                  else []))))))))

/-- The constructor calls of `RefLine_P2L_P2L::MakeAll`, in loop order: the three roots
for every parent tuple. -/
def RefLine_P2L_P2L.candidates (M : CMath K) (cfg : Config K) (db : Database K)
    (arank : Nat) : List (LineCand K) :=
  (RefLine_P2L_P2L.tuples db arank).flatMap (fun t =>
    [fun st => RefLine_P2L_P2L M cfg st t.1 t.2.1 t.2.2.1 t.2.2.2 0,
     fun st => RefLine_P2L_P2L M cfg st t.1 t.2.1 t.2.2.1 t.2.2.2 1,
     fun st => RefLine_P2L_P2L M cfg st t.1 t.2.1 t.2.2.1 t.2.2.2 2])

/-- The method `RefLine_P2L_P2L::MakeAll`. -/
def RefLine_P2L_P2L.MakeAll (M : CMath K) (cfg : Config K) (sDatabaseFn : Option DatabaseFn)
    (arank : Nat) (db : Database K) : Except (Database K) (Database K) :=
  offerLines cfg sDatabaseFn (RefLine_P2L_P2L.candidates M cfg db arank) db

/-- The parent tuples `(li, mj, lk)` that the loops of `RefLine_L2L_P2L::MakeAll` visit:
`irank + jrank + krank = arank - 1`, and `li`, `lk` not the same iterator. -/
def RefLine_L2L_P2L.tuples (db : Database K) (arank : Nat) :
    List (RefLine K × RefMark K × RefLine K) :=
  (rankLoop ((arank : Int) - 1)).flatMap (fun irank =>
    (rankLoop ((arank : Int) - 1 - irank)).flatMap (fun jrank =>
      let krank := toRank ((arank : Int) - irank - jrank - 1)
      (rankEntries db.sBasisLines irank).flatMap (fun li =>
        (rankEntries db.sBasisMarks jrank).flatMap (fun mj =>
          (rankEntries db.sBasisLines krank).flatMap (fun lk =>
            if irank ≠ krank ∨ li.1 ≠ lk.1 then [(li.2, mj.2, lk.2)] else [])))))

/-- The constructor calls of `RefLine_L2L_P2L::MakeAll`, in loop order. -/
def RefLine_L2L_P2L.candidates (M : CMath K) (cfg : Config K) (db : Database K)
    (arank : Nat) : List (LineCand K) :=
  (RefLine_L2L_P2L.tuples db arank).map
    (fun t => fun st => (RefLine_L2L_P2L M cfg t.1 t.2.1 t.2.2, st))

/-- The method `RefLine_L2L_P2L::MakeAll`. -/
def RefLine_L2L_P2L.MakeAll (M : CMath K) (cfg : Config K) (sDatabaseFn : Option DatabaseFn)
    (arank : Nat) (db : Database K) : Except (Database K) (Database K) :=
  offerLines cfg sDatabaseFn (RefLine_L2L_P2L.candidates M cfg db arank) db

/-- A step `if (flag) X::MakeAll(arank);`. -/
def whenUsed (flag : Bool) (f : Database K → Except (Database K) (Database K))
    (db : Database K) : Except (Database K) (Database K) :=
  if flag then f db else .ok db

/-- The method `ReferenceFinder::MakeAllMarksAndLinesOfRank`. -/
def MakeAllMarksAndLinesOfRank (M : CMath K) (cfg : Config K)
    (sDatabaseFn : Option DatabaseFn) (arank : Nat) (db : Database K) :
    Except (Database K) (Database K) :=
  let db0 := { db with sCurRank := arank }
  andThen (whenUsed cfg.sUseRefLine_L2L (RefLine_L2L.MakeAll M cfg sDatabaseFn arank) db0)
  fun db1 =>
  andThen (whenUsed cfg.sUseRefLine_P2P (RefLine_P2P.MakeAll M cfg sDatabaseFn arank) db1)
  fun db2 =>
  andThen (whenUsed cfg.sUseRefLine_L2L_P2L
    (RefLine_L2L_P2L.MakeAll M cfg sDatabaseFn arank) db2)
  fun db3 =>
  andThen (whenUsed cfg.sUseRefLine_P2L_P2L
    (RefLine_P2L_P2L.MakeAll M cfg sDatabaseFn arank) db3)
  fun db4 =>
  andThen (whenUsed cfg.sUseRefLine_P2L_C2P
    (RefLine_P2L_C2P.MakeAll M cfg sDatabaseFn arank) db4)
  fun db5 =>
  andThen (whenUsed cfg.sUseRefLine_L2L_C2P
    (RefLine_L2L_C2P.MakeAll M cfg sDatabaseFn arank) db5)
  fun db6 =>
  andThen (whenUsed cfg.sUseRefLine_C2P_C2P
    (RefLine_C2P_C2P.MakeAll M cfg sDatabaseFn arank) db6)
  fun db7 =>
  let db8 := { db7 with sBasisLines := db7.sBasisLines.FlushBuffer }
  andThen (RefMark_Intersection.MakeAll cfg sDatabaseFn arank db8)
  fun db9 =>
  let db10 := { db9 with sBasisMarks := db9.sBasisMarks.FlushBuffer }
  match callDatabaseFn sDatabaseFn .DATABASE_RANK_COMPLETE arank db10 with
  | (true, db11) => .error db11
  | (false, db11) => .ok db11

/-- The loop `for (rank_t irank = 1; irank <= sMaxRank; irank++)
MakeAllMarksAndLinesOfRank(irank);` over the ranks still to do. -/
def buildRanks (M : CMath K) (cfg : Config K) (sDatabaseFn : Option DatabaseFn) :
    List Nat → Database K → Except (Database K) (Database K)
  | [], db => .ok db
  | irank :: rest, db =>
    andThen (MakeAllMarksAndLinesOfRank M cfg sDatabaseFn irank db)
      (buildRanks M cfg sDatabaseFn rest)

/-- The six `RefLine_Original` objects that `MakeAllMarksAndLines` adds, in the order
of the `Add` calls. -/
def originalLines (M : CMath K) (cfg : Config K) : List (RefLine K) :=
  [RefLine_Original M cfg cfg.sPaper.mBottomEdge 0 "the bottom edge",
   RefLine_Original M cfg cfg.sPaper.mLeftEdge 0 "the left edge",
   RefLine_Original M cfg cfg.sPaper.mRightEdge 0 "the right edge",
   RefLine_Original M cfg cfg.sPaper.mTopEdge 0 "the top edge",
   RefLine_Original M cfg cfg.sPaper.mUpwardDiagonal 1 "the upward diagonal",
   RefLine_Original M cfg cfg.sPaper.mDownwardDiagonal 1 "the downward diagonal"]

/-- The four `RefMark_Original` objects that `MakeAllMarksAndLines` adds. -/
def originalMarks (cfg : Config K) : List (RefMark K) :=
  [RefMark_Original cfg cfg.sPaper.mBotLeft 0 "the bottom left corner",
   RefMark_Original cfg cfg.sPaper.mBotRight 0 "the bottom right corner",
   RefMark_Original cfg cfg.sPaper.mTopLeft 0 "the top left corner",
   RefMark_Original cfg cfg.sPaper.mTopRight 0 "the top right corner"]

/-- The first part of `MakeAllMarksAndLines`, up to and including the two calls of
`FlushBuffer` that follow the seeding of the originals. -/
def seedOriginals (M : CMath K) (cfg : Config K) (sDatabaseFn : Option DatabaseFn)
    (db : Database K) : Database K :=
  let db1 := { db with
    sBasisLines := db.sBasisLines.Rebuild cfg.sMaxRank
    sBasisMarks := db.sBasisMarks.Rebuild cfg.sMaxRank }
  let db2 := (callDatabaseFn sDatabaseFn .DATABASE_INITIALIZING 0 db1).2
  let db3 := { db2 with
    sBasisLines := ((originalLines M cfg).take 4).foldl RefContainer.Add db2.sBasisLines
    sBasisMarks := (originalMarks cfg).foldl RefContainer.Add db2.sBasisMarks }
  let db4 := (callDatabaseFn sDatabaseFn .DATABASE_RANK_COMPLETE 0 db3).2
  let db5 := { db4 with
    sBasisLines := ((originalLines M cfg).drop 4).foldl RefContainer.Add db4.sBasisLines }
  { db5 with
    sBasisLines := db5.sBasisLines.FlushBuffer
    sBasisMarks := db5.sBasisMarks.FlushBuffer }

/-- The method `ReferenceFinder::MakeAllMarksAndLines`.  The loop variable `irank` is a
`rank_t`; the ranks `1 .. sMaxRank` are what it visits for `sMaxRank < 65535`. -/
def MakeAllMarksAndLines (M : CMath K) (cfg : Config K) (sDatabaseFn : Option DatabaseFn)
    (db : Database K) : Database K :=
  let db1 := seedOriginals M cfg sDatabaseFn db
  let db2 :=
    match buildRanks M cfg sDatabaseFn ((List.range cfg.sMaxRank).map (fun i => i + 1)) db1 with
    | .ok d => d
    | .error d =>
      { d with
        sBasisLines := d.sBasisLines.FlushBuffer
        sBasisMarks := d.sBasisMarks.FlushBuffer }
  let db3 := { db2 with
    sBasisLines := db2.sBasisLines.ClearMaps
    sBasisMarks := db2.sBasisMarks.ClearMaps }
  (callDatabaseFn sDatabaseFn .DATABASE_READY db3.sCurRank db3).2

end Build

/-! ## Concrete arithmetic for evaluation -/

/-- A `CMath` over the rationals for evaluating the definitions on concrete inputs:
`sqrt` is exact on squares of rationals; the transcendental functions are the
constant zero and are not used where this structure is applied. -/
def ratMath : CMath ℚ where
  sqrt := Rat.sqrt
  atan2 := fun _ _ => 0
  sin := fun _ => 0
  cos := fun _ => 0
  pow := fun _ _ => 0


/-- The default values of the settings (the static member initialisations at the top of
`ReferenceFinder.cpp`), on the unit square. -/
def Config.default {K : Type} [LinearOrderedField K] (M : CMath K) : Config K :=
  { sPaper := Paper.SetSize M 1 1
    sUseRefLine_C2P_C2P := true
    sUseRefLine_P2P := true
    sUseRefLine_L2L := true
    sUseRefLine_L2L_C2P := true
    sUseRefLine_P2L_C2P := true
    sUseRefLine_P2L_P2L := true
    sUseRefLine_L2L_P2L := true
    sMaxRank := 6
    sMaxLines := 500000
    sMaxMarks := 500000
    sNumX := 5000
    sNumY := 5000
    sNumA := 5000
    sNumD := 5000
    sGoodEnoughError := 5 / 1000
    sMinAspectRatio := 100 / 1000
    sMinAngleSine := 342 / 1000
    sVisibilityMatters := true
    sLineWorstCaseError := true
    sDatabaseStatusSkip := 200000 }

section SortKey

variable {K : Type} [LinearOrderedField K] {R : Type} [RefBase R]

/-- The sort key behind `CompareRankAndError`: references within `sGoodEnoughError` come
first, ordered by rank and then distance; the others follow, ordered by distance and
then rank. -/
def sortKey (G : K) (dist : R → K) (r : R) : ℕ ×ₗ (K ×ₗ K) :=
  if dist r > G then toLex (1, toLex (dist r, (RefBase.mRank r : K)))
  else toLex (0, toLex ((RefBase.mRank r : K), dist r))

end SortKey

section ContainerSpec

variable {R : Type} [RefBase R]

/-- The container states that the builder can produce: `Rebuild` (always called on a
container whose buffer is empty: a new one, or one left by `FlushBuffer`), `Add` of one of
the `originals` before the first `FlushBuffer` (the flat array is still empty), then
`AddCopyIfValidAndUnique` and `FlushBuffer` in any order.  Every reference offered has a
rank within the array of rank maps (`FlushBuffer` indexes `maps[rr->mRank]`). -/
inductive RefContainer.Reachable (sMaxRank : Nat) (originals : List R) :
    RefContainer R → Prop
  | rebuild (c : RefContainer R) : c.buffer = [] →
      RefContainer.Reachable sMaxRank originals (c.Rebuild sMaxRank)
  | seed (c : RefContainer R) (o : R) : RefContainer.Reachable sMaxRank originals c →
      c.vec = [] → o ∈ originals →
      RefContainer.Reachable sMaxRank originals (c.Add o)
  | addCopy (c : RefContainer R) (ars : R) : RefContainer.Reachable sMaxRank originals c →
      RefBase.mRank ars ≤ sMaxRank →
      RefContainer.Reachable sMaxRank originals (c.AddCopyIfValidAndUnique ars)
  | flush (c : RefContainer R) : RefContainer.Reachable sMaxRank originals c →
      RefContainer.Reachable sMaxRank originals c.FlushBuffer

/-- The invariant of the container that the builder maintains; `rest` is the part of
the buffer that a running `FlushBuffer` has not moved yet (the whole buffer between
calls). -/
structure RefContainer.Inv (sMaxRank : Nat) (c : RefContainer R) (rest : map_t R) : Prop where
  mapsOk : ∀ e ∈ c.maps.flatten, e.1 = RefBase.mKey e.2 ∧ e.2 ∈ c.vec
  restOk : ∀ e ∈ rest, e.1 = RefBase.mKey e.2 ∧ e.1 ≠ 0 ∧ RefBase.mRank e.2 ≤ sMaxRank
  vecOk : ∀ r ∈ c.vec, RefBase.mKey r ≠ 0 ∧ (RefBase.mKey r, r) ∈ c.maps.flatten
  nodup : (c.vec.map RefBase.mKey ++ rest.map Prod.fst).Nodup
  sorted : (rest.map Prod.fst).Sorted (· < ·)
  size : c.maps.length = 1 + sMaxRank
  mapsNodup : (c.maps.flatten.map Prod.fst).Nodup
  rankOk : ∀ (i : Nat) (m : map_t R), c.maps[i]? = some m → ∀ e ∈ m, RefBase.mRank e.2 = i

end ContainerSpec

section BuildSpec

variable {K : Type} [LinearOrderedField K] [FloorRing K]

/-- The state in which a step of the build ends, whether it ended normally or by
`EXC_HALT`. -/
def outcome (r : Except (Database K) (Database K)) : Database K :=
  match r with
  | .ok db => db
  | .error db => db

/-- All the constructor calls whose object `MakeAllMarksAndLinesOfRank(arank)` can pass
to the container of lines when the `MakeAll` methods start from the state `db`. -/
def lineCandidates (M : CMath K) (cfg : Config K) (db : Database K) (arank : Nat) :
    List (LineCand K) :=
  RefLine_L2L.candidates M cfg db arank ++ RefLine_P2P.candidates M cfg db arank ++
    RefLine_L2L_P2L.candidates M cfg db arank ++ RefLine_P2L_P2L.candidates M cfg db arank ++
    RefLine_P2L_C2P.candidates M cfg db arank ++ RefLine_L2L_C2P.candidates M cfg db arank ++
    RefLine_C2P_C2P.candidates M cfg db arank

/-- All the marks that `RefMark_Intersection::MakeAll(arank)` can pass to the container
of marks when it starts from the state `db`. -/
def markCandidates (cfg : Config K) (db : Database K) (arank : Nat) : List (RefMark K) :=
  (RefMark_Intersection.tuples db arank).map (fun pr => RefMark_Intersection cfg pr.1 pr.2)

end BuildSpec

section StoredSpec

variable {R : Type} [RefBase R]

/-- Every reference in the flat array or in the buffer of the container has the
property `V`. -/
def RefContainer.AllStored (V : R → Prop) (c : RefContainer R) : Prop :=
  (∀ r ∈ c.vec, V r) ∧ (∀ e ∈ c.buffer, V e.2)

end StoredSpec

section KeysSpec

variable {R : Type} [RefBase R]

/-- The property of the specification for one family: every stored reference (in a rank
map, in the buffer, or in the flat array) has a non-zero key, and no two stored
references have the same key, the rank maps and the buffer taken together, and the
flat array and the buffer taken together. -/
def RefContainer.KeysOk (c : RefContainer R) : Prop :=
  (∀ e ∈ c.maps.flatten ++ c.buffer, RefBase.mKey e.2 ≠ 0) ∧
  (∀ r ∈ c.vec, RefBase.mKey r ≠ 0) ∧
  ((c.maps.flatten ++ c.buffer).map (fun e => RefBase.mKey e.2)).Nodup ∧
  (c.vec.map RefBase.mKey ++ c.buffer.map (fun e => RefBase.mKey e.2)).Nodup

end KeysSpec

section Validation

variable {K : Type} [LinearOrderedField K] [FloorRing K]

/-- The method `ReferenceFinder::ValidateMark`.  The static state of the class is
passed through; `fmt` is the formatting of a `double` by `operator<<`; the result is
the returned `bool`, the string `err` afterwards and the static state afterwards. -/
def ValidateMark (cfg : Config K) (fmt : K → String) (ap : XYPt K) (err : String)
    (db : Database K) : Bool × String × Database K :=
  if ap.x < 0 ∨ ap.x > cfg.sPaper.mWidth then
    (false, "Error -- x coordinate should lie between 0 and " ++ fmt cfg.sPaper.mWidth, db)
  else if ap.y < 0 ∨ ap.y > cfg.sPaper.mHeight then
    (false, "Error -- y coordinate should lie between 0 and " ++ fmt cfg.sPaper.mHeight, db)
  else (true, err, db)

/-- The method `ReferenceFinder::ValidateLine`; `fmt` is the formatting of a `double`
with `precision(10)`. -/
def ValidateLine (M : CMath K) (fmt : K → String) (ap1 ap2 : XYPt K) (err : String) :
    Bool × String :=
  if XYPt.Mag M (XYPt.sub ap1 ap2) > EPS then (true, err)
  else
    (false, "Error -- the two points must be distinct (separated by at least " ++
      fmt EPS ++ ").")

/-- The value `std::numeric_limits<key_t>::max()` for `key_t = int` (32 bits). -/
def key_max : Int := 2147483647

/-- The method `ReferenceFinder::LineKeySizeOK`; the division is the division of `int`. -/
def LineKeySizeOK (cfg : Config K) : Bool :=
  decide (cfg.sNumA < Int.tdiv key_max cfg.sNumD)

/-- The method `ReferenceFinder::MarkKeySizeOK`; the division is the division of `int`. -/
def MarkKeySizeOK (cfg : Config K) : Bool :=
  decide (cfg.sNumX < Int.tdiv key_max cfg.sNumY)

/-- The values `nx`, `ny` of `RefMark::FinishConstructor`: the cell of the point. -/
def RefMark.cell (cfg : Config K) (p : XYPt K) : Int × Int :=
  (⌊1 / 2 + p.x / cfg.sPaper.mWidth * (cfg.sNumX : K)⌋,
    ⌊1 / 2 + p.y / cfg.sPaper.mHeight * (cfg.sNumY : K)⌋)

/-- The method `RefLine_L2L_P2L::PutHowto` for `sAxiomsInVerbalDirections == false`;
`rl1`, `rm1`, `rl2`, `self` are what `PutName` writes for the three parents and for the
line itself. -/
def RefLine_L2L_P2L.PutHowto (mWhoMoves : L2L_P2L_WhoMoves) (rl1 rm1 rl2 self : String) :
    String :=
  "Bring " ++ rl2 ++ " onto itself so that " ++
    (match mWhoMoves with
      | .WHOMOVES_P1 => rm1 ++ " touches " ++ rl1
      | .WHOMOVES_L1 => rl1 ++ " touches " ++ rm1) ++
    ", making " ++ self

end Validation

section SearchSpec

variable {K : Type} [LinearOrderedField K] {R : Type} [RefBase R]

/-- What the C++ standard guarantees of the destination `out` after
`std::partial_sort_copy(first, last, d_first, d_last, comp)`: with
`n = min (last - first) (d_last - d_first)`, the first `n` places hold `n` elements of
the source in ascending order, none of the elements left out is ordered before one of
them, and the other places of the destination are as before.  The order of elements that
`comp` does not separate, and which of them are taken, is left to the implementation;
`partial_sort_copy` above is one such implementation. -/
def PartialSortCopyResult (comp : R → R → Bool) (src : List R) (dst out : List (Option R)) :
    Prop :=
  ∃ best rest : List R,
    out = best.map some ++ dst.drop (min src.length dst.length) ∧
    best.length = min src.length dst.length ∧ (best ++ rest).Perm src ∧
    best.Pairwise (fun x y => comp y x = false) ∧
    ∀ x ∈ rest, ∀ y ∈ best, comp x y = false

end SearchSpec

section SearchDbSpec

variable {K : Type} [LinearOrderedField K] [FloorRing K]

/-- The vector `out` is a possible content of `vm` after `FindBestMarks(ap, vm, numMarks)`,
for any implementation of `std::partial_sort_copy` that meets the standard. -/
def FindBestMarksResult (M : CMath K) (cfg : Config K)
    (sBasisMarks : RefContainer (RefMark K)) (ap : XYPt K) (vm : List (Option (RefMark K)))
    (numMarks : Nat) (out : List (Option (RefMark K))) : Prop :=
  PartialSortCopyResult
    (CompareRankAndError cfg.sGoodEnoughError (fun r => RefMark.DistanceTo M r ap))
    sBasisMarks.vec (resize vm numMarks) out

/-- The vector `out` is a possible content of `vl` after `FindBestLines(al, vl, numLines)`,
for any implementation of `std::partial_sort_copy` that meets the standard. -/
def FindBestLinesResult (M : CMath K) (cfg : Config K)
    (sBasisLines : RefContainer (RefLine K)) (al : XYLine K) (vl : List (Option (RefLine K)))
    (numLines : Nat) (out : List (Option (RefLine K))) : Prop :=
  PartialSortCopyResult
    (CompareRankAndError cfg.sGoodEnoughError (fun r => RefLine.DistanceTo M cfg r al))
    sBasisLines.vec (resize vl numLines) out

end SearchDbSpec

section CapsSpec

variable {K : Type} [LinearOrderedField K] [FloorRing K]

/-- The container counts at most `cap` references (`GetTotalSize() <= cap`), and its
counter `rcbz` is not below the number of references in the buffer. -/
def RefContainer.Counted {R : Type} (cap : Nat) (c : RefContainer R) : Prop :=
  c.GetTotalSize ≤ cap ∧ c.buffer.length ≤ c.rcbz

/-- The population caps hold in the state `db`: `GetNumLines() <= sMaxLines` and
`GetNumMarks() <= sMaxMarks`, with counters that cover the buffers. -/
def Database.WithinCaps (cfg : Config K) (db : Database K) : Prop :=
  (db.GetNumLines ≤ cfg.sMaxLines ∧ db.sBasisLines.buffer.length ≤ db.sBasisLines.rcbz) ∧
  (db.GetNumMarks ≤ cfg.sMaxMarks ∧ db.sBasisMarks.buffer.length ≤ db.sBasisMarks.rcbz)

end CapsSpec

section RankOrder

variable {R : Type} [RefBase R]

/-- A `map_t` as the container fills it: the keys ascend strictly and every reference is
stored under its own key. -/
def map_t.KeyOrdered (m : map_t R) : Prop :=
  (m.map Prod.fst).Sorted (· < ·) ∧ ∀ e ∈ m, e.1 = RefBase.mKey e.2

end RankOrder

/-! ## Section 5: folding sequences and diagrams -/

deriving instance DecidableEq for RefMark, RefLine

/-- A pointer of type `RefBase*`, to a mark or to a line.  Two pointers are equal when
they point to the same object; the objects are their values here, so two pointers are
equal when the objects they point to have the same members and the same parents. -/
inductive RefPtr (K : Type) : Type
  | mark (rm : RefMark K)
  | line (rl : RefLine K)
deriving DecidableEq

/-- The enum `RefBase::RefStyle`. -/
inductive RefStyle
  | REFSTYLE_NORMAL
  | REFSTYLE_HILITE
  | REFSTYLE_ACTION
deriving DecidableEq, Repr

/-- The enum `RefDgmr::PolyStyle`. -/
inductive PolyStyle
  | POLYSTYLE_WHITE
  | POLYSTYLE_COLORED
  | POLYSTYLE_ARROW
deriving DecidableEq, Repr

/-- The struct `RefBase::DgmInfo`. -/
structure DgmInfo where
  idef : Nat
  iact : Nat
deriving DecidableEq, Repr

/-- The number of values of `std::size_t` (64 bits). -/
def sizeModulus : Nat := 2 ^ 64

/-- The enumerator `NUM_PASSES` of the drawing passes `PASS_LINES`, `PASS_HLINES`,
`PASS_POINTS`, `PASS_ARROWS`, `PASS_LABELS`. -/
def NUM_PASSES : Nat := 5

section Sequence

variable {K : Type} [LinearOrderedField K]

namespace RefPtr

/-- The virtual method `IsActionLine`: `false` for marks (`RefMark::IsActionLine`) and for
`RefLine_Original`, `true` for the other lines (`RefLine::IsActionLine`). -/
def IsActionLine : RefPtr K → Bool
  | .mark _ => false
  | .line (.Original _ _ _ _) => false
  | .line _ => true

/-- The virtual method `IsDerived`. -/
def IsDerived : RefPtr K → Bool
  | .mark rm => rm.IsDerived
  | .line rl => rl.IsDerived

/-- The virtual method `UsesImmediate(rb)`: the comparison of `rb` with the parent
pointers of the class; `false` for the originals (`RefBase::UsesImmediate`). -/
def UsesImmediate : RefPtr K → RefPtr K → Bool
  | .mark (.Original _ _ _ _), _ => false
  | .mark (.Intersection _ _ _ rl1 rl2), rb => decide (rb = .line rl1 ∨ rb = .line rl2)
  | .line (.Original _ _ _ _), _ => false
  | .line (.C2P_C2P _ _ _ rm1 rm2), rb => decide (rb = .mark rm1 ∨ rb = .mark rm2)
  | .line (.P2P _ _ _ rm1 rm2 _), rb => decide (rb = .mark rm1 ∨ rb = .mark rm2)
  | .line (.L2L _ _ _ rl1 rl2 _), rb => decide (rb = .line rl1 ∨ rb = .line rl2)
  | .line (.L2L_C2P _ _ _ rl1 rm1), rb => decide (rb = .line rl1 ∨ rb = .mark rm1)
  | .line (.P2L_C2P _ _ _ rm1 rl1 rm2 _), rb =>
    decide (rb = .line rl1 ∨ rb = .mark rm1 ∨ rb = .mark rm2)
  | .line (.P2L_P2L _ _ _ rm1 rl1 rm2 rl2 _), rb =>
    decide (rb = .line rl1 ∨ rb = .mark rm1 ∨ rb = .line rl2 ∨ rb = .mark rm2)
  | .line (.L2L_P2L _ _ _ rl1 rm1 rl2 _), rb =>
    decide (rb = .line rl1 ∨ rb = .mark rm1 ∨ rb = .line rl2)

end RefPtr

/-- The method `RefBase::SequencePushUnique`, as a function of `sSequence`. -/
def SequencePushUnique (sSequence : List (RefPtr K)) (rb : RefPtr K) : List (RefPtr K) :=
  if rb ∈ sSequence then sSequence else sSequence ++ [rb]

mutual
/-- The virtual method `SequencePushSelf` of the mark classes, as a function of
`sSequence`: `RefBase::SequencePushSelf` for `RefMark_Original` and
`RefMark_Intersection::SequencePushSelf`. -/
def RefMark.SequencePushSelf : RefMark K → List (RefPtr K) → List (RefPtr K)
  | .Original r k p n, s => SequencePushUnique s (.mark (.Original r k p n))
  | .Intersection r k p rl1 rl2, s =>
    let s1 := rl1.SequencePushSelf s
    let s2 := rl2.SequencePushSelf s1
    SequencePushUnique s2 (.mark (.Intersection r k p rl1 rl2))
/-- The virtual method `SequencePushSelf` of the line classes.  A `switch (mWhoMoves)`
on a member that the constructor never assigned (`none`) runs no case. -/
def RefLine.SequencePushSelf : RefLine K → List (RefPtr K) → List (RefPtr K)
  | .Original r k l n, s => SequencePushUnique s (.line (.Original r k l n))
  | .C2P_C2P r k l rm1 rm2, s =>
    let s1 := rm1.SequencePushSelf s
    let s2 := rm2.SequencePushSelf s1
    SequencePushUnique s2 (.line (.C2P_C2P r k l rm1 rm2))
  | .P2P r k l rm1 rm2 (some .WHOMOVES_P1), s =>
    let s1 := rm2.SequencePushSelf s
    let s2 := rm1.SequencePushSelf s1
    SequencePushUnique s2 (.line (.P2P r k l rm1 rm2 (some .WHOMOVES_P1)))
  | .P2P r k l rm1 rm2 (some .WHOMOVES_P2), s =>
    let s1 := rm1.SequencePushSelf s
    let s2 := rm2.SequencePushSelf s1
    SequencePushUnique s2 (.line (.P2P r k l rm1 rm2 (some .WHOMOVES_P2)))
  | .P2P r k l rm1 rm2 none, s =>
    SequencePushUnique s (.line (.P2P r k l rm1 rm2 none))
  | .L2L r k l rl1 rl2 (some .WHOMOVES_L1), s =>
    let s1 := rl2.SequencePushSelf s
    let s2 := rl1.SequencePushSelf s1
    SequencePushUnique s2 (.line (.L2L r k l rl1 rl2 (some .WHOMOVES_L1)))
  | .L2L r k l rl1 rl2 (some .WHOMOVES_L2), s =>
    let s1 := rl1.SequencePushSelf s
    let s2 := rl2.SequencePushSelf s1
    SequencePushUnique s2 (.line (.L2L r k l rl1 rl2 (some .WHOMOVES_L2)))
  | .L2L r k l rl1 rl2 none, s =>
    SequencePushUnique s (.line (.L2L r k l rl1 rl2 none))
  | .L2L_C2P r k l rl1 rm1, s =>
    let s1 := rm1.SequencePushSelf s
    let s2 := rl1.SequencePushSelf s1
    SequencePushUnique s2 (.line (.L2L_C2P r k l rl1 rm1))
  | .P2L_C2P r k l rm1 rl1 rm2 (some .WHOMOVES_P1), s =>
    let s0 := rm2.SequencePushSelf s
    let s1 := rl1.SequencePushSelf s0
    let s2 := rm1.SequencePushSelf s1
    SequencePushUnique s2 (.line (.P2L_C2P r k l rm1 rl1 rm2 (some .WHOMOVES_P1)))
  | .P2L_C2P r k l rm1 rl1 rm2 (some .WHOMOVES_L1), s =>
    let s0 := rm2.SequencePushSelf s
    let s1 := rm1.SequencePushSelf s0
    let s2 := rl1.SequencePushSelf s1
    SequencePushUnique s2 (.line (.P2L_C2P r k l rm1 rl1 rm2 (some .WHOMOVES_L1)))
  | .P2L_C2P r k l rm1 rl1 rm2 none, s =>
    let s0 := rm2.SequencePushSelf s
    SequencePushUnique s0 (.line (.P2L_C2P r k l rm1 rl1 rm2 none))
  | .P2L_P2L r k l rm1 rl1 rm2 rl2 (some .WHOMOVES_P1P2), s =>
    let s1 := rl2.SequencePushSelf s
    let s2 := rl1.SequencePushSelf s1
    let s3 := rm2.SequencePushSelf s2
    let s4 := rm1.SequencePushSelf s3
    SequencePushUnique s4 (.line (.P2L_P2L r k l rm1 rl1 rm2 rl2 (some .WHOMOVES_P1P2)))
  | .P2L_P2L r k l rm1 rl1 rm2 rl2 (some .WHOMOVES_L1L2), s =>
    let s1 := rm2.SequencePushSelf s
    let s2 := rm1.SequencePushSelf s1
    let s3 := rl2.SequencePushSelf s2
    let s4 := rl1.SequencePushSelf s3
    SequencePushUnique s4 (.line (.P2L_P2L r k l rm1 rl1 rm2 rl2 (some .WHOMOVES_L1L2)))
  | .P2L_P2L r k l rm1 rl1 rm2 rl2 (some .WHOMOVES_P1L2), s =>
    let s1 := rm2.SequencePushSelf s
    let s2 := rl1.SequencePushSelf s1
    let s3 := rl2.SequencePushSelf s2
    let s4 := rm1.SequencePushSelf s3
    SequencePushUnique s4 (.line (.P2L_P2L r k l rm1 rl1 rm2 rl2 (some .WHOMOVES_P1L2)))
  | .P2L_P2L r k l rm1 rl1 rm2 rl2 (some .WHOMOVES_P2L1), s =>
    let s1 := rl2.SequencePushSelf s
    let s2 := rm1.SequencePushSelf s1
    let s3 := rl1.SequencePushSelf s2
    let s4 := rm2.SequencePushSelf s3
    SequencePushUnique s4 (.line (.P2L_P2L r k l rm1 rl1 rm2 rl2 (some .WHOMOVES_P2L1)))
  | .P2L_P2L r k l rm1 rl1 rm2 rl2 none, s =>
    SequencePushUnique s (.line (.P2L_P2L r k l rm1 rl1 rm2 rl2 none))
  | .L2L_P2L r k l rl1 rm1 rl2 (some .WHOMOVES_P1), s =>
    let s1 := rl1.SequencePushSelf s
    let s2 := rm1.SequencePushSelf s1
    let s3 := rl2.SequencePushSelf s2
    SequencePushUnique s3 (.line (.L2L_P2L r k l rl1 rm1 rl2 (some .WHOMOVES_P1)))
  | .L2L_P2L r k l rl1 rm1 rl2 (some .WHOMOVES_L1), s =>
    let s1 := rm1.SequencePushSelf s
    let s2 := rl1.SequencePushSelf s1
    let s3 := rl2.SequencePushSelf s2
    SequencePushUnique s3 (.line (.L2L_P2L r k l rl1 rm1 rl2 (some .WHOMOVES_L1)))
  | .L2L_P2L r k l rl1 rm1 rl2 none, s =>
    let s3 := rl2.SequencePushSelf s
    SequencePushUnique s3 (.line (.L2L_P2L r k l rl1 rm1 rl2 none))
end

/-- The call `rb->SequencePushSelf()` through a `RefBase*`. -/
def RefPtr.SequencePushSelf : RefPtr K → List (RefPtr K) → List (RefPtr K)
  | .mark rm, s => rm.SequencePushSelf s
  | .line rl, s => rl.SequencePushSelf s

/-- One step of the loop `for (i ...) sSequence[i]->SetIndex();` after the two calls of
`ResetCount`: the counters `RefMark::sCount` and `RefLine::sCount` and the list of the
values of `mIndex` so far.  The originals get 0, the other marks and lines `++sCount`. -/
def SetIndex (st : Nat × Nat × List Nat) (rb : RefPtr K) : Nat × Nat × List Nat :=
  match rb with
  | .mark (.Original _ _ _ _) => (st.1, st.2.1, st.2.2 ++ [0])
  | .mark _ => (st.1 + 1, st.2.1, st.2.2 ++ [st.1 + 1])
  | .line (.Original _ _ _ _) => (st.1, st.2.1, st.2.2 ++ [0])
  | .line _ => (st.1, st.2.1 + 1, st.2.2 ++ [st.2.1 + 1])

/-- The method `RefBase::BuildAndNumberSequence`: the new content of `sSequence` and the
values of `mIndex` that the references of the sequence get, position by position. -/
def BuildAndNumberSequence (self : RefPtr K) : List (RefPtr K) × List Nat :=
  let sSequence := self.SequencePushSelf []
  (sSequence, (sSequence.foldl SetIndex (0, 0, [])).2.2)

/-- The loop of `BuildDiagrams` that sets the `idef` fields; `id` is the running value. -/
def setIdef : Nat → List DgmInfo → List DgmInfo
  | _, [] => []
  | id, d :: ds => { d with idef := id } :: setIdef ((d.iact + 1) % sizeModulus) ds

/-- The method `RefBase::BuildDiagrams`: the new contents of `sSequence` and `sDgms`.
The indices are `size_t` values; `ss - 1` is computed modulo `2 ^ 64`. -/
def BuildDiagrams (self : RefPtr K) : List (RefPtr K) × List DgmInfo :=
  let sSequence := (BuildAndNumberSequence self).1
  let ss := sSequence.length
  let d1 := ((List.range ss).filter (fun i =>
    match sSequence[i]? with
    | some rb => rb.IsActionLine
    | none => false)).map (fun i => DgmInfo.mk i i)
  let d2 := if d1.length = 0 then d1 ++ [DgmInfo.mk 0 0] else d1
  let d3 :=
    match d2.getLast? with
    | some last =>
      if last.iact < (ss + sizeModulus - 1) % sizeModulus then
        d2 ++ [DgmInfo.mk 0 ((ss + sizeModulus - 1) % sizeModulus)]
      else d2
    | none => d2
  (sSequence, setIdef 0 d3)

/-- A call that `DrawDiagram` makes: `sDgmr->DrawPoly(corners, style)` from `DrawPaper`,
or the virtual `rb->DrawSelf(rstyle, ipass)`. -/
inductive DrawCall (K : Type) : Type
  | DrawPoly (corners : List (XYPt K)) (style : PolyStyle)
  | DrawSelf (rb : RefPtr K) (rstyle : RefStyle) (ipass : Nat)
deriving DecidableEq

/-- The style in which `DrawDiagram` draws the reference `rb` at position `i < iact` of
the sequence: the test of the inner loop. -/
def drawStyle (aDgm : DgmInfo) (ral rb : RefPtr K) (i : Nat) : RefStyle :=
  if (i ≥ aDgm.idef ∧ rb.IsDerived = true) ∨ ral.UsesImmediate rb = true then
    .REFSTYLE_HILITE
  else .REFSTYLE_NORMAL

/-- The method `RefBase::DrawDiagram`: the calls it makes, in order, for the sequence
`sSequence`; `none` when `aDgm.iact` is not a position of the sequence (undefined
behaviour in the source). -/
def DrawDiagram (cfg : Config K) (sSequence : List (RefPtr K))
    (aDgm : DgmInfo) : Option (List (DrawCall K)) :=
  match sSequence[aDgm.iact]? with
  | none => none
  | some ral =>
    some (DrawCall.DrawPoly [cfg.sPaper.mBotLeft, cfg.sPaper.mBotRight, cfg.sPaper.mTopRight,
        cfg.sPaper.mTopLeft] .POLYSTYLE_WHITE ::
      (List.range NUM_PASSES).flatMap (fun ipass =>
        ((sSequence.take aDgm.iact).enum.map (fun irb =>
          DrawCall.DrawSelf irb.2 (drawStyle aDgm ral irb.2 irb.1) ipass)) ++
        [DrawCall.DrawSelf ral .REFSTYLE_ACTION ipass]))

end Sequence

section SequenceSpec

variable {K : Type} [LinearOrderedField K]

/-- The direct parents of a reference: the references that its parent pointers `rl1`,
`rl2`, `rm1`, `rm2` point to; the originals have none. -/
def RefPtr.parents : RefPtr K → List (RefPtr K)
  | .mark (.Original _ _ _ _) => []
  | .mark (.Intersection _ _ _ rl1 rl2) => [.line rl1, .line rl2]
  | .line (.Original _ _ _ _) => []
  | .line (.C2P_C2P _ _ _ rm1 rm2) => [.mark rm1, .mark rm2]
  | .line (.P2P _ _ _ rm1 rm2 _) => [.mark rm1, .mark rm2]
  | .line (.L2L _ _ _ rl1 rl2 _) => [.line rl1, .line rl2]
  | .line (.L2L_C2P _ _ _ rl1 rm1) => [.line rl1, .mark rm1]
  | .line (.P2L_C2P _ _ _ rm1 rl1 rm2 _) => [.mark rm1, .line rl1, .mark rm2]
  | .line (.P2L_P2L _ _ _ rm1 rl1 rm2 rl2 _) =>
    [.mark rm1, .line rl1, .mark rm2, .line rl2]
  | .line (.L2L_P2L _ _ _ rl1 rm1 rl2 _) => [.line rl1, .mark rm1, .line rl2]

mutual
/-- The ancestors of a mark: its parents, their parents, and so on; a reference that is
reached along several paths is listed once for each path. -/
def RefMark.ancestors : RefMark K → List (RefPtr K)
  | .Original _ _ _ _ => []
  | .Intersection _ _ _ rl1 rl2 =>
    (RefPtr.line rl1 :: rl1.ancestors) ++ (RefPtr.line rl2 :: rl2.ancestors)
/-- The ancestors of a line, see `RefMark.ancestors`. -/
def RefLine.ancestors : RefLine K → List (RefPtr K)
  | .Original _ _ _ _ => []
  | .C2P_C2P _ _ _ rm1 rm2 =>
    (RefPtr.mark rm1 :: rm1.ancestors) ++ (RefPtr.mark rm2 :: rm2.ancestors)
  | .P2P _ _ _ rm1 rm2 _ =>
    (RefPtr.mark rm1 :: rm1.ancestors) ++ (RefPtr.mark rm2 :: rm2.ancestors)
  | .L2L _ _ _ rl1 rl2 _ =>
    (RefPtr.line rl1 :: rl1.ancestors) ++ (RefPtr.line rl2 :: rl2.ancestors)
  | .L2L_C2P _ _ _ rl1 rm1 =>
    (RefPtr.line rl1 :: rl1.ancestors) ++ (RefPtr.mark rm1 :: rm1.ancestors)
  | .P2L_C2P _ _ _ rm1 rl1 rm2 _ =>
    (RefPtr.mark rm1 :: rm1.ancestors) ++ ((RefPtr.line rl1 :: rl1.ancestors) ++
      (RefPtr.mark rm2 :: rm2.ancestors))
  | .P2L_P2L _ _ _ rm1 rl1 rm2 rl2 _ =>
    (RefPtr.mark rm1 :: rm1.ancestors) ++ ((RefPtr.line rl1 :: rl1.ancestors) ++
      ((RefPtr.mark rm2 :: rm2.ancestors) ++ (RefPtr.line rl2 :: rl2.ancestors)))
  | .L2L_P2L _ _ _ rl1 rm1 rl2 _ =>
    (RefPtr.line rl1 :: rl1.ancestors) ++ ((RefPtr.mark rm1 :: rm1.ancestors) ++
      (RefPtr.line rl2 :: rl2.ancestors))
end

/-- The ancestors of a reference, see `RefMark.ancestors`. -/
def RefPtr.ancestors : RefPtr K → List (RefPtr K)
  | .mark rm => rm.ancestors
  | .line rl => rl.ancestors

mutual
/-- The constructors of the mark and of all its ancestors ran to their end: every
`mWhoMoves` on the way has been assigned. -/
def RefMark.Assigned : RefMark K → Prop
  | .Original _ _ _ _ => True
  | .Intersection _ _ _ rl1 rl2 => rl1.Assigned ∧ rl2.Assigned
/-- The constructors of the line and of all its ancestors ran to their end, see
`RefMark.Assigned`. -/
def RefLine.Assigned : RefLine K → Prop
  | .Original _ _ _ _ => True
  | .C2P_C2P _ _ _ rm1 rm2 => rm1.Assigned ∧ rm2.Assigned
  | .P2P _ _ _ rm1 rm2 w => w ≠ none ∧ rm1.Assigned ∧ rm2.Assigned
  | .L2L _ _ _ rl1 rl2 w => w ≠ none ∧ rl1.Assigned ∧ rl2.Assigned
  | .L2L_C2P _ _ _ rl1 rm1 => rl1.Assigned ∧ rm1.Assigned
  | .P2L_C2P _ _ _ rm1 rl1 rm2 w => w ≠ none ∧ rm1.Assigned ∧ rl1.Assigned ∧ rm2.Assigned
  | .P2L_P2L _ _ _ rm1 rl1 rm2 rl2 w =>
    w ≠ none ∧ rm1.Assigned ∧ rl1.Assigned ∧ rm2.Assigned ∧ rl2.Assigned
  | .L2L_P2L _ _ _ rl1 rm1 rl2 w => w ≠ none ∧ rl1.Assigned ∧ rm1.Assigned ∧ rl2.Assigned
end

/-- The constructors of the reference and of all its ancestors ran to their end. -/
def RefPtr.Assigned : RefPtr K → Prop
  | .mark rm => rm.Assigned
  | .line rl => rl.Assigned

/-- A sequence in which no reference occurs twice and every reference stands after all
of its direct parents. -/
def ParentsFirst (s : List (RefPtr K)) : Prop :=
  s.Nodup ∧ ∀ (i : Nat) (x : RefPtr K), s[i]? = some x → ∀ p ∈ x.parents, p ∈ s.take i

end SequenceSpec

section RankSpec

variable {K : Type} [LinearOrderedField K]

/-- The member `mRank` through a `RefBase*`. -/
def RefPtr.mRank : RefPtr K → Nat
  | .mark rm => rm.mRank
  | .line rl => rl.mRank

mutual
/-- The rank of the mark and of every derived reference among its ancestors is the sum
that `CalcMarkRank` or `CalcLineRank` forms from the ranks of the parents, without
wrapping around in `rank_t`. -/
def RefMark.RanksAdd : RefMark K → Prop
  | .Original _ _ _ _ => True
  | .Intersection r _ _ rl1 rl2 => r = rl1.mRank + rl2.mRank ∧ rl1.RanksAdd ∧ rl2.RanksAdd
/-- The counterpart of `RefMark.RanksAdd` for lines. -/
def RefLine.RanksAdd : RefLine K → Prop
  | .Original _ _ _ _ => True
  | .C2P_C2P r _ _ rm1 rm2 => r = 1 + rm1.mRank + rm2.mRank ∧ rm1.RanksAdd ∧ rm2.RanksAdd
  | .P2P r _ _ rm1 rm2 _ => r = 1 + rm1.mRank + rm2.mRank ∧ rm1.RanksAdd ∧ rm2.RanksAdd
  | .L2L r _ _ rl1 rl2 _ => r = 1 + rl1.mRank + rl2.mRank ∧ rl1.RanksAdd ∧ rl2.RanksAdd
  | .L2L_C2P r _ _ rl1 rm1 => r = 1 + rl1.mRank + rm1.mRank ∧ rl1.RanksAdd ∧ rm1.RanksAdd
  | .P2L_C2P r _ _ rm1 rl1 rm2 _ =>
    r = 1 + rm1.mRank + rl1.mRank + rm2.mRank ∧ rm1.RanksAdd ∧ rl1.RanksAdd ∧ rm2.RanksAdd
  | .P2L_P2L r _ _ rm1 rl1 rm2 rl2 _ =>
    r = 1 + rm1.mRank + rl1.mRank + rm2.mRank + rl2.mRank ∧
      rm1.RanksAdd ∧ rl1.RanksAdd ∧ rm2.RanksAdd ∧ rl2.RanksAdd
  | .L2L_P2L r _ _ rl1 rm1 rl2 _ =>
    r = 1 + rl1.mRank + rm1.mRank + rl2.mRank ∧ rl1.RanksAdd ∧ rm1.RanksAdd ∧ rl2.RanksAdd
end

/-- The counterpart of `RefMark.RanksAdd` through a `RefBase*`. -/
def RefPtr.RanksAdd : RefPtr K → Prop
  | .mark rm => rm.RanksAdd
  | .line rl => rl.RanksAdd

/-- The number of creases in the construction of a reference when a crease is counted
once for every use: the derived lines among the reference and its ancestors, each
counted once for every path by which it is reached. -/
def RefPtr.creaseUses (x : RefPtr K) : Nat :=
  ((x :: x.ancestors).filter RefPtr.IsActionLine).length

/-- The ranks of the originals among the reference and its ancestors (1 for a diagonal,
0 for an edge or a corner), each counted once for every path by which it is reached. -/
def RefPtr.originalRanks (x : RefPtr K) : Nat :=
  (((x :: x.ancestors).filter (fun y => !y.IsDerived)).map RefPtr.mRank).sum

/-- The number of creases in the folding sequence of a reference: the derived lines
(the action lines) in the sequence that `BuildAndNumberSequence` builds. -/
def RefPtr.creasesInSequence (x : RefPtr K) : Nat :=
  ((BuildAndNumberSequence x).1.filter RefPtr.IsActionLine).length

end RankSpec

/-! ## A decimal stand-in for `<cmath>` -/

/-- The largest number below `2 ^ k` whose square is at most `n`, added to `r`, found bit
by bit from the top. -/
def isqrtBits (n : Nat) : Nat → Nat → Nat
  | 0, r => r
  | k + 1, r =>
    if (r + 2 ^ k) * (r + 2 ^ k) ≤ n then isqrtBits n k (r + 2 ^ k) else isqrtBits n k r

/-- The counterpart of `isqrtBits` for the cube. -/
def icbrtBits (n : Nat) : Nat → Nat → Nat
  | 0, r => r
  | k + 1, r =>
    if (r + 2 ^ k) * (r + 2 ^ k) * (r + 2 ^ k) ≤ n then icbrtBits n k (r + 2 ^ k)
    else icbrtBits n k r

/-- A decimal `sqrt`: the square root of `a / b` is the root of `a * b` over `b`, rounded
down at the twelfth decimal place of the numerator; exact on squares of rationals. -/
def decSqrt (q : ℚ) : ℚ :=
  if q ≤ 0 then 0
  else (isqrtBits (q.num.toNat * q.den * 10 ^ 24) 128 0 : ℚ) / ((q.den : ℚ) * 10 ^ 12)

/-- A decimal cube root of a positive rational, see `decSqrt`. -/
def decCbrt (q : ℚ) : ℚ :=
  if q ≤ 0 then 0
  else (icbrtBits (q.num.toNat * q.den * q.den * 10 ^ 36) 128 0 : ℚ) /
    ((q.den : ℚ) * 10 ^ 12)

/-- A decimal `pow(x, y)` for the two exponents with which the program calls it on a
number that is not negative: `1/3` (in `CubeRoot`) and `1/6`. -/
def decPow (x y : ℚ) : ℚ :=
  if y = 1 / 3 then decCbrt x
  else if y = 1 / 6 then decSqrt (decCbrt x)
  else 0

/-- An approximation of `atan` on `[0, 1]` with an error below 0.002 that is exact, in
terms of the literal for pi, at 0 and at 1. -/
def atanUnit (t : ℚ) : ℚ :=
  t * (piLiteral / 4 + (1 - t) * (2447 / 10000 + 663 / 10000 * t))

/-- The approximation of `atan` for an argument that is not negative. -/
def atanPos (t : ℚ) : ℚ :=
  if t ≤ 1 then atanUnit t else piLiteral / 2 - atanUnit (1 / t)

/-- A rational `atan2(y, x)`, by quadrants from `atanPos`: exact, in terms of the
literal for pi, on the axes and on the diagonals. -/
def decAtan2 (y x : ℚ) : ℚ :=
  if x > 0 then (if y ≥ 0 then atanPos (y / x) else -atanPos (-y / x))
  else if x < 0 then
    (if y ≥ 0 then piLiteral - atanPos (y / -x) else -piLiteral + atanPos (y / x))
  else if y > 0 then piLiteral / 2
  else if y < 0 then -piLiteral / 2
  else 0

/-- The Taylor polynomial of degree 11 of `sin`. -/
def decSin (x : ℚ) : ℚ :=
  x - x ^ 3 / 6 + x ^ 5 / 120 - x ^ 7 / 5040 + x ^ 9 / 362880 - x ^ 11 / 39916800

/-- The Taylor polynomial of degree 10 of `cos`. -/
def decCos (x : ℚ) : ℚ :=
  1 - x ^ 2 / 2 + x ^ 4 / 24 - x ^ 6 / 720 + x ^ 8 / 40320 - x ^ 10 / 3628800

/-- A `CMath` over the rationals that can be evaluated and follows `<cmath>` to about
twelve decimal places in `sqrt` and in the cube root, and to about three in `atan2`
away from the axes and the diagonals, on which it is exact. -/
def decMath : CMath ℚ where
  sqrt := decSqrt
  atan2 := decAtan2
  sin := decSin
  cos := decCos
  pow := decPow


section SequenceDecide

variable {K : Type} [LinearOrderedField K]

mutual
/-- Whether the constructors of a mark and of its ancestors ran to their end can be
computed. -/
def RefMark.decAssigned : (m : RefMark K) → Decidable m.Assigned
  | .Original _ _ _ _ => isTrue trivial
  | .Intersection _ _ _ rl1 rl2 =>
    @instDecidableAnd _ _ (RefLine.decAssigned rl1) (RefLine.decAssigned rl2)
/-- The counterpart of `RefMark.decAssigned` for lines. -/
def RefLine.decAssigned : (l : RefLine K) → Decidable l.Assigned
  | .Original _ _ _ _ => isTrue trivial
  | .C2P_C2P _ _ _ rm1 rm2 =>
    @instDecidableAnd _ _ (RefMark.decAssigned rm1) (RefMark.decAssigned rm2)
  | .P2P _ _ _ rm1 rm2 w =>
    @instDecidableAnd _ _ (inferInstanceAs (Decidable (w ≠ none)))
      (@instDecidableAnd _ _ (RefMark.decAssigned rm1) (RefMark.decAssigned rm2))
  | .L2L _ _ _ rl1 rl2 w =>
    @instDecidableAnd _ _ (inferInstanceAs (Decidable (w ≠ none)))
      (@instDecidableAnd _ _ (RefLine.decAssigned rl1) (RefLine.decAssigned rl2))
  | .L2L_C2P _ _ _ rl1 rm1 =>
    @instDecidableAnd _ _ (RefLine.decAssigned rl1) (RefMark.decAssigned rm1)
  | .P2L_C2P _ _ _ rm1 rl1 rm2 w =>
    @instDecidableAnd _ _ (inferInstanceAs (Decidable (w ≠ none)))
      (@instDecidableAnd _ _ (RefMark.decAssigned rm1)
        (@instDecidableAnd _ _ (RefLine.decAssigned rl1) (RefMark.decAssigned rm2)))
  | .P2L_P2L _ _ _ rm1 rl1 rm2 rl2 w =>
    @instDecidableAnd _ _ (inferInstanceAs (Decidable (w ≠ none)))
      (@instDecidableAnd _ _ (RefMark.decAssigned rm1)
        (@instDecidableAnd _ _ (RefLine.decAssigned rl1)
          (@instDecidableAnd _ _ (RefMark.decAssigned rm2) (RefLine.decAssigned rl2))))
  | .L2L_P2L _ _ _ rl1 rm1 rl2 w =>
    @instDecidableAnd _ _ (inferInstanceAs (Decidable (w ≠ none)))
      (@instDecidableAnd _ _ (RefLine.decAssigned rl1)
        (@instDecidableAnd _ _ (RefMark.decAssigned rm1) (RefLine.decAssigned rl2)))
end

instance instDecidableAssigned (x : RefPtr K) : Decidable x.Assigned :=
  match x with
  | .mark rm => RefMark.decAssigned rm
  | .line rl => RefLine.decAssigned rl

mutual
/-- Whether the ranks of a mark and of its ancestors add up can be computed. -/
def RefMark.decRanksAdd : (m : RefMark K) → Decidable m.RanksAdd
  | .Original _ _ _ _ => isTrue trivial
  | .Intersection r _ _ rl1 rl2 =>
    @instDecidableAnd _ _ (inferInstanceAs (Decidable (r = rl1.mRank + rl2.mRank)))
      (@instDecidableAnd _ _ (RefLine.decRanksAdd rl1) (RefLine.decRanksAdd rl2))
/-- The counterpart of `RefMark.decRanksAdd` for lines. -/
def RefLine.decRanksAdd : (l : RefLine K) → Decidable l.RanksAdd
  | .Original _ _ _ _ => isTrue trivial
  | .C2P_C2P r _ _ rm1 rm2 =>
    @instDecidableAnd _ _ (inferInstanceAs (Decidable (r = 1 + rm1.mRank + rm2.mRank)))
      (@instDecidableAnd _ _ (RefMark.decRanksAdd rm1) (RefMark.decRanksAdd rm2))
  | .P2P r _ _ rm1 rm2 _ =>
    @instDecidableAnd _ _ (inferInstanceAs (Decidable (r = 1 + rm1.mRank + rm2.mRank)))
      (@instDecidableAnd _ _ (RefMark.decRanksAdd rm1) (RefMark.decRanksAdd rm2))
  | .L2L r _ _ rl1 rl2 _ =>
    @instDecidableAnd _ _ (inferInstanceAs (Decidable (r = 1 + rl1.mRank + rl2.mRank)))
      (@instDecidableAnd _ _ (RefLine.decRanksAdd rl1) (RefLine.decRanksAdd rl2))
  | .L2L_C2P r _ _ rl1 rm1 =>
    @instDecidableAnd _ _ (inferInstanceAs (Decidable (r = 1 + rl1.mRank + rm1.mRank)))
      (@instDecidableAnd _ _ (RefLine.decRanksAdd rl1) (RefMark.decRanksAdd rm1))
  | .P2L_C2P r _ _ rm1 rl1 rm2 _ =>
    @instDecidableAnd _ _
      (inferInstanceAs (Decidable (r = 1 + rm1.mRank + rl1.mRank + rm2.mRank)))
      (@instDecidableAnd _ _ (RefMark.decRanksAdd rm1)
        (@instDecidableAnd _ _ (RefLine.decRanksAdd rl1) (RefMark.decRanksAdd rm2)))
  | .P2L_P2L r _ _ rm1 rl1 rm2 rl2 _ =>
    @instDecidableAnd _ _
      (inferInstanceAs (Decidable (r = 1 + rm1.mRank + rl1.mRank + rm2.mRank + rl2.mRank)))
      (@instDecidableAnd _ _ (RefMark.decRanksAdd rm1)
        (@instDecidableAnd _ _ (RefLine.decRanksAdd rl1)
          (@instDecidableAnd _ _ (RefMark.decRanksAdd rm2) (RefLine.decRanksAdd rl2))))
  | .L2L_P2L r _ _ rl1 rm1 rl2 _ =>
    @instDecidableAnd _ _
      (inferInstanceAs (Decidable (r = 1 + rl1.mRank + rm1.mRank + rl2.mRank)))
      (@instDecidableAnd _ _ (RefLine.decRanksAdd rl1)
        (@instDecidableAnd _ _ (RefMark.decRanksAdd rm1) (RefLine.decRanksAdd rl2)))
end

instance instDecidableRanksAdd (x : RefPtr K) : Decidable x.RanksAdd :=
  match x with
  | .mark rm => RefMark.decRanksAdd rm
  | .line rl => RefLine.decRanksAdd rl

end SequenceDecide

/-- The array `RefLine::sLabels`, initialised with `"ABCDEFGHIJ"`: the ten labels and the
terminating NUL. -/
def RefLine.sLabels : List Char :=
  ['A', 'B', 'C', 'D', 'E', 'F', 'G', 'H', 'I', 'J', Char.ofNat 0]

/-- The method `RefLine::GetLabel`, `return sLabels[mIndex - 1]`, as a function of
`mIndex`; `none` where the source reads outside the array (undefined behaviour). -/
def RefLine.GetLabel (mIndex : Nat) : Option Char :=
  if mIndex = 0 then none else RefLine.sLabels[mIndex - 1]?

/-- The points of which the specification of `ClipLine` speaks: `p` is the point of
intersection that `XYLine::Intersects` reports for one of the four edges and the line
`al`, and the paper (padded by `EPS`) encloses it. -/
def Paper.EnclosedIntersection {K : Type} [LinearOrderedField K] (P : Paper K)
    (al : XYLine K) (p : XYPt K) : Prop :=
  ∃ edge ∈ [P.mTopEdge, P.mLeftEdge, P.mRightEdge, P.mBottomEdge],
    XYLine.Intersects edge al = some p ∧ P.Encloses p = true

/-- The point `p` lies on the segment from `a` to `b`. -/
def XYPt.OnSegment {K : Type} [LinearOrderedField K] (a b p : XYPt K) : Prop :=
  ∃ s : K, 0 ≤ s ∧ s ≤ 1 ∧ p = XYPt.add a (XYPt.smul s (XYPt.sub b a))

/-- The trial point of one round of the loop of `ReferenceFinder::CalcStatistics`,
`XYPt testPt(double(rand()) / (RAND_MAX * sPaper.mWidth),
double(rand()) / (RAND_MAX * sPaper.mHeight))`, as a function of the constant `RAND_MAX`
and of the values `r1` (used for `x`) and `r2` (used for `y`) that the two calls of
`rand()` return. -/
def CalcStatistics.testPt {K : Type} [LinearOrderedField K] (RAND_MAX : Nat)
    (sPaper : Paper K) (r1 r2 : Nat) : XYPt K :=
  ⟨(r1 : K) / ((RAND_MAX : K) * sPaper.mWidth), (r2 : K) / ((RAND_MAX : K) * sPaper.mHeight)⟩

section CardanoSpec

variable {K : Type} [LinearOrderedField K]

/-- The quantity `Q = (3 a1 - a2^2) / 9` of the specification of the cubic branch, with
`a2 = b / a` and `a1 = c / a`. -/
def cardanoQ (a b c : K) : K := (3 * (c / a) - (b / a) ^ 2) / 9

/-- The quantity `R = (9 a2 a1 - 27 a0 - 2 a2^3) / 54` of the specification of the cubic
branch, with `a2 = b / a`, `a1 = c / a` and `a0 = d / a`. -/
def cardanoR (a b c d : K) : K :=
  (9 * (b / a) * (c / a) - 27 * (d / a) - 2 * (b / a) ^ 3) / 54

/-- The discriminant `D = Q^3 + R^2` of the specification of the cubic branch. -/
def cardanoD (a b c d : K) : K := cardanoQ a b c ^ 3 + cardanoR a b c d ^ 2

end CardanoSpec

/-- The default settings on the unit square with `sMaxRank = 3` and only axiom O5
(`RefLine_P2L_C2P`) enabled, evaluated with the decimal stand-in for `<cmath>`. -/
def Config.onlyO5 : Config ℚ :=
  { Config.default decMath with
    sMaxRank := 3
    sUseRefLine_C2P_C2P := false
    sUseRefLine_P2P := false
    sUseRefLine_L2L := false
    sUseRefLine_L2L_C2P := false
    sUseRefLine_P2L_P2L := false
    sUseRefLine_L2L_P2L := false }

/-- The database of the build with the settings `Config.onlyO5` when the ranks 1 and 2
are complete: the state in which `RefLine_P2L_C2P::MakeAll(3)` starts (up to
`sCurRank`, which the loops do not read). -/
def Database.onlyO5Rank2 : Database ℚ :=
  outcome (buildRanks decMath Config.onlyO5 none [1, 2]
    (seedOriginals decMath Config.onlyO5 none (Database.init 3)))

/-- The default settings on the unit square with `sMaxRank = 2` and only axiom O6
(`RefLine_P2L_P2L`) enabled, evaluated with the decimal stand-in for `<cmath>`. -/
def Config.onlyO6 : Config ℚ :=
  { Config.default decMath with
    sMaxRank := 2
    sUseRefLine_C2P_C2P := false
    sUseRefLine_P2P := false
    sUseRefLine_L2L := false
    sUseRefLine_L2L_C2P := false
    sUseRefLine_P2L_C2P := false
    sUseRefLine_L2L_P2L := false }

/-- The database of the build with the settings `Config.onlyO6` when rank 1 is complete:
the state in which `RefLine_P2L_P2L::MakeAll(2)` starts (up to `sCurRank`, which the
loops do not read). -/
def Database.onlyO6Rank1 : Database ℚ :=
  outcome (buildRanks decMath Config.onlyO6 none [1]
    (seedOriginals decMath Config.onlyO6 none (Database.init 2)))

section CallSequence

variable {K : Type} [LinearOrderedField K] [FloorRing K]

/-- The constructor calls of the loop body of `RefLine_P2L_P2L::MakeAll` for the parent
tuples `ts` in turn (roots 0, 1 and 2 for each tuple), started with the static members
`st`: the object and the static members after each call. -/
def RefLine_P2L_P2L.calls (M : CMath K) (cfg : Config K) :
    List (RefMark K × RefLine K × RefMark K × RefLine K) → P2L_P2L_Statics K →
      List (RefLine K × P2L_P2L_Statics K)
  | [], _ => []
  | t :: ts, st =>
    let r0 := RefLine_P2L_P2L M cfg st t.1 t.2.1 t.2.2.1 t.2.2.2 0
    let r1 := RefLine_P2L_P2L M cfg r0.2 t.1 t.2.1 t.2.2.1 t.2.2.2 1
    let r2 := RefLine_P2L_P2L M cfg r1.2 t.1 t.2.1 t.2.2.1 t.2.2.2 2
    r0 :: r1 :: r2 :: RefLine_P2L_P2L.calls M cfg ts r2.2

end CallSequence

/-! ## Theorems -/

section Theorems

variable {K : Type} [LinearOrderedField K]

/-- The constant `EPS` is positive. -/
theorem EPS_pos : (0 : K) < EPS := by
  unfold EPS; positivity

/-- Claim C8: for a line whose normal has length one (`u.Mag2 = 1`), folding a point
twice about the line gives the point back: `Fold (Fold p) = p`, where
`Fold p = p + 2 (d - p.u) u`. -/
theorem XYLine.Fold_Fold (l : XYLine K) (hu : XYPt.Mag2 l.u = 1) (p : XYPt K) :
    XYLine.Fold l (XYLine.Fold l p) = p := by
  obtain ⟨d, ux, uy⟩ := l
  obtain ⟨px, py⟩ := p
  simp only [XYPt.Mag2] at hu
  simp only [XYLine.Fold, XYPt.add, XYPt.smul, XYPt.Dot, XYPt.mk.injEq]
  constructor
  · linear_combination (-(4 * ux * (d - (px * ux + py * uy)))) * hu
  · linear_combination (-(4 * uy * (d - (px * ux + py * uy)))) * hu

/-- Witness for C8: the line `d = 1`, `u = (3/5, 4/5)` over the rationals and the
point `(2, 7)`. -/
theorem XYLine.Fold_Fold_witness :
    XYPt.Mag2 (⟨3 / 5, 4 / 5⟩ : XYPt ℚ) = 1 ∧
      XYLine.Fold (⟨1, ⟨3 / 5, 4 / 5⟩⟩ : XYLine ℚ)
        (XYLine.Fold (⟨1, ⟨3 / 5, 4 / 5⟩⟩ : XYLine ℚ) ⟨2, 7⟩) = ⟨2, 7⟩ :=
  ⟨by norm_num [XYPt.Mag2],
    XYLine.Fold_Fold (⟨1, ⟨3 / 5, 4 / 5⟩⟩ : XYLine ℚ) (by norm_num [XYPt.Mag2]) ⟨2, 7⟩⟩

/-- Claim C2: for references `a`, `b` with `DistanceTo a <= sGoodEnoughError`:
if `DistanceTo b > sGoodEnoughError` then `CompareRankAndError` orders `a` before `b`;
and if `DistanceTo b <= sGoodEnoughError` and `a` has the smaller rank then it orders
`a` before `b`, whatever the two distances are (also when `b` is strictly closer). -/
theorem CompareRankAndError_good_first {R : Type} [RefBase R] (G : K) (DistanceTo : R → K)
    (a b : R) (ha : DistanceTo a ≤ G) :
    (DistanceTo b > G → CompareRankAndError G DistanceTo a b = true) ∧
    (DistanceTo b ≤ G → RefBase.mRank a < RefBase.mRank b →
      CompareRankAndError G DistanceTo a b = true) := by
  constructor
  · intro hb
    have hlt : DistanceTo a < DistanceTo b := lt_of_le_of_lt ha hb
    simp [CompareRankAndError, hb, ne_of_lt hlt, hlt]
  · intro hb hr
    simp [CompareRankAndError, not_lt.mpr ha, not_lt.mpr hb, ne_of_lt hr, hr]

end Theorems

section ConstructorFacts
variable {K : Type} [LinearOrderedField K] [FloorRing K]


/-- The rank that `RefMark_Intersection` stores. -/
theorem RefMark_Intersection_mRank (cfg : Config K) (l1 l2 : RefLine K) :
    (RefMark_Intersection cfg l1 l2).mRank = (l1.mRank + l2.mRank) % 65536 := by
  simp only [RefMark_Intersection]
  repeat' split
  all_goals rfl

/-- The rank that `RefLine_C2P_C2P` stores. -/
theorem RefLine_C2P_C2P_mRank (M : CMath K) (cfg : Config K) (m1 m2 : RefMark K) :
    (RefLine_C2P_C2P M cfg m1 m2).mRank = (1 + m1.mRank + m2.mRank) % 65536 := rfl

/-- The rank that `RefLine_P2P` stores. -/
theorem RefLine_P2P_mRank (M : CMath K) (cfg : Config K) (m1 m2 : RefMark K) :
    (RefLine_P2P M cfg m1 m2).mRank = (1 + m1.mRank + m2.mRank) % 65536 := by
  simp only [RefLine_P2P]
  repeat' split
  all_goals rfl

/-- The rank that `RefLine_L2L` stores. -/
theorem RefLine_L2L_mRank (M : CMath K) (cfg : Config K) (l1 l2 : RefLine K) (iroot : Int) :
    (RefLine_L2L M cfg l1 l2 iroot).mRank = (1 + l1.mRank + l2.mRank) % 65536 := by
  simp only [RefLine_L2L]
  repeat' split
  all_goals rfl

/-- The rank that `RefLine_L2L_C2P` stores. -/
theorem RefLine_L2L_C2P_mRank (M : CMath K) (cfg : Config K) (l1 : RefLine K)
    (m1 : RefMark K) :
    (RefLine_L2L_C2P M cfg l1 m1).mRank = (1 + l1.mRank + m1.mRank) % 65536 := by
  simp only [RefLine_L2L_C2P]
  repeat' split
  all_goals rfl

/-- The rank that `RefLine_P2L_C2P` stores. -/
theorem RefLine_P2L_C2P_mRank (M : CMath K) (cfg : Config K) (m1 : RefMark K)
    (l1 : RefLine K) (m2 : RefMark K) (iroot : Int) :
    (RefLine_P2L_C2P M cfg m1 l1 m2 iroot).mRank =
      (1 + m1.mRank + l1.mRank + m2.mRank) % 65536 := by
  simp only [RefLine_P2L_C2P]
  repeat' split
  all_goals rfl

/-- The rank that `RefLine_P2L_P2L` stores. -/
theorem RefLine_P2L_P2L_mRank (M : CMath K) (cfg : Config K) (st : P2L_P2L_Statics K)
    (m1 : RefMark K) (l1 : RefLine K) (m2 : RefMark K) (l2 : RefLine K) (iroot : Int) :
    (RefLine_P2L_P2L M cfg st m1 l1 m2 l2 iroot).1.mRank =
      (1 + m1.mRank + l1.mRank + m2.mRank + l2.mRank) % 65536 := by
  simp only [RefLine_P2L_P2L]
  repeat' split
  all_goals rfl

/-- The rank that `RefLine_L2L_P2L` stores. -/
theorem RefLine_L2L_P2L_mRank (M : CMath K) (cfg : Config K) (l1 : RefLine K)
    (m1 : RefMark K) (l2 : RefLine K) :
    (RefLine_L2L_P2L M cfg l1 m1 l2).mRank =
      (1 + l1.mRank + m1.mRank + l2.mRank) % 65536 := by
  simp only [RefLine_L2L_P2L]
  repeat' split
  all_goals rfl
end ConstructorFacts

section RankClaims

variable {K : Type} [LinearOrderedField K] [FloorRing K]

end RankClaims

section GeometryFacts

variable {K : Type} [LinearOrderedField K]

/-- When `XYLine::Intersects` reports an intersection, the point it writes lies on both
lines and the denominator is at least `EPS` in absolute value. -/
theorem XYLine.Intersects_some {l ll : XYLine K} {p : XYPt K}
    (h : XYLine.Intersects l ll = some p) :
    XYPt.Dot p l.u = l.d ∧ XYPt.Dot p ll.u = ll.d ∧
      EPS ≤ |l.u.x * ll.u.y - l.u.y * ll.u.x| := by
  unfold XYLine.Intersects at h
  simp only at h
  split_ifs at h with hd
  have hd' : EPS ≤ |l.u.x * ll.u.y - l.u.y * ll.u.x| := not_lt.mp hd
  have hne : l.u.x * ll.u.y - l.u.y * ll.u.x ≠ 0 := by
    intro h0
    rw [h0, abs_zero] at hd'
    exact absurd hd' (not_le.mpr EPS_pos)
  simp only [Option.some.injEq] at h
  subst h
  refine ⟨?_, ?_, hd'⟩
  · simp only [XYPt.Dot]
    field_simp
    ring
  · simp only [XYPt.Dot]
    field_simp
    ring

end GeometryFacts

section IntersectionClaims

variable {K : Type} [LinearOrderedField K] [FloorRing K]

/-- The checks behind a non-zero key of a `RefMark_Intersection`. -/
theorem RefMark_Intersection_key_ne_zero {cfg : Config K} {arl1 arl2 : RefLine K}
    (h : (RefMark_Intersection cfg arl1 arl2).mKey ≠ 0) :
    XYLine.Intersects arl1.l arl2.l = some (RefMark_Intersection cfg arl1 arl2).p ∧
      Paper.Encloses cfg.sPaper (RefMark_Intersection cfg arl1 arl2).p = true ∧
      cfg.sMinAngleSine ≤ |XYPt.Dot arl1.l.u (XYPt.Rotate90 arl2.l.u)| := by
  revert h
  simp only [RefMark_Intersection]
  split
  · intro h; exact absurd rfl h
  · rename_i p hp
    split_ifs with h1 h2
    · intro h; exact absurd rfl h
    · intro h; exact absurd rfl h
    · intro _
      refine ⟨hp, ?_, not_lt.mp h2⟩
      simpa using h1

/-- Claim C7: a `RefMark_Intersection` of two parent lines whose key is non-zero has its
point on both parent lines, enclosed by the paper (within `EPS`), and the parent lines
satisfy `|u1 . rot90(u2)| >= sMinAngleSine`; if any of these fails, the key is 0. -/
theorem RefMark_Intersection_valid (cfg : Config K) (arl1 arl2 : RefLine K) :
    ((RefMark_Intersection cfg arl1 arl2).mKey ≠ 0 →
      XYPt.Dot (RefMark_Intersection cfg arl1 arl2).p arl1.l.u = arl1.l.d ∧
      XYPt.Dot (RefMark_Intersection cfg arl1 arl2).p arl2.l.u = arl2.l.d ∧
      Paper.Encloses cfg.sPaper (RefMark_Intersection cfg arl1 arl2).p = true ∧
      cfg.sMinAngleSine ≤ |XYPt.Dot arl1.l.u (XYPt.Rotate90 arl2.l.u)|) ∧
    (¬ (XYPt.Dot (RefMark_Intersection cfg arl1 arl2).p arl1.l.u = arl1.l.d ∧
        XYPt.Dot (RefMark_Intersection cfg arl1 arl2).p arl2.l.u = arl2.l.d ∧
        Paper.Encloses cfg.sPaper (RefMark_Intersection cfg arl1 arl2).p = true ∧
        cfg.sMinAngleSine ≤ |XYPt.Dot arl1.l.u (XYPt.Rotate90 arl2.l.u)|) →
      (RefMark_Intersection cfg arl1 arl2).mKey = 0) := by
  have key : (RefMark_Intersection cfg arl1 arl2).mKey ≠ 0 →
      XYPt.Dot (RefMark_Intersection cfg arl1 arl2).p arl1.l.u = arl1.l.d ∧
      XYPt.Dot (RefMark_Intersection cfg arl1 arl2).p arl2.l.u = arl2.l.d ∧
      Paper.Encloses cfg.sPaper (RefMark_Intersection cfg arl1 arl2).p = true ∧
      cfg.sMinAngleSine ≤ |XYPt.Dot arl1.l.u (XYPt.Rotate90 arl2.l.u)| := by
    intro h
    obtain ⟨hi, he, ha⟩ := RefMark_Intersection_key_ne_zero h
    obtain ⟨h1, h2, _⟩ := XYLine.Intersects_some hi
    exact ⟨h1, h2, he, ha⟩
  refine ⟨key, fun hn => ?_⟩
  by_contra hk
  exact hn (key hk)

end IntersectionClaims

/-- The key of the intersection of the bottom and left edges of the unit square under
the default settings is `1`. -/
theorem RefMark_Intersection_corner_key :
    (RefMark_Intersection (Config.default ratMath)
      (RefLine.Original 0 1 ⟨0, ⟨0, 1⟩⟩ "the bottom edge")
      (RefLine.Original 0 2 ⟨0, ⟨-1, 0⟩⟩ "the left edge")).mKey = 1 := by
  have hfl : ⌊(1 : ℚ) / 2⌋ = 0 := by
    rw [Int.floor_eq_iff]; norm_num
  simp [RefMark_Intersection, XYLine.Intersects, RefLine.l, EPS, Paper.Encloses,
    XYRect.Encloses, Paper.toXYRect, Config.default, Paper.SetSize, XYPt.Dot, XYPt.Rotate90,
    RefMark.FinishConstructor, RefMark.mKey]
  norm_num [hfl]

/-- Witness for C7: the intersection of the bottom and left edges of the unit square
has a non-zero key, so the four properties hold for it. -/
theorem RefMark_Intersection_valid_witness :
    (RefMark_Intersection (Config.default ratMath)
      (RefLine.Original 0 1 ⟨0, ⟨0, 1⟩⟩ "the bottom edge")
      (RefLine.Original 0 2 ⟨0, ⟨-1, 0⟩⟩ "the left edge")).mKey ≠ 0 ∧
    Paper.Encloses (Config.default ratMath).sPaper
      (RefMark_Intersection (Config.default ratMath)
        (RefLine.Original 0 1 ⟨0, ⟨0, 1⟩⟩ "the bottom edge")
        (RefLine.Original 0 2 ⟨0, ⟨-1, 0⟩⟩ "the left edge")).p = true :=
  ⟨by rw [RefMark_Intersection_corner_key]; decide,
    ((RefMark_Intersection_valid (Config.default ratMath)
      (RefLine.Original 0 1 ⟨0, ⟨0, 1⟩⟩ "the bottom edge")
      (RefLine.Original 0 2 ⟨0, ⟨-1, 0⟩⟩ "the left edge")).1
      (by rw [RefMark_Intersection_corner_key]; decide)).2.2.1⟩

section FoldFacts

variable {K : Type} [LinearOrderedField K]

/-- The scalar product of a folded point with any vector. -/
theorem XYLine.Fold_Dot (l : XYLine K) (p v : XYPt K) :
    XYPt.Dot (XYLine.Fold l p) v =
      XYPt.Dot p v + 2 * (l.d - XYPt.Dot p l.u) * XYPt.Dot l.u v := by
  simp only [XYLine.Fold, XYPt.add, XYPt.smul, XYPt.Dot]
  ring

/-- The scalar product of a normalised vector with any vector. -/
theorem XYPt.Normalize_Dot (M : CMath K) (w v : XYPt K) :
    XYPt.Dot (XYPt.Normalize M w) v = XYPt.Dot w v / M.sqrt (XYPt.Mag2 w) := by
  simp only [XYPt.Normalize, XYPt.Mag, XYPt.Dot, XYPt.Mag2]
  ring

/-- The scalar product is symmetric. -/
theorem XYPt.Dot_comm (p q : XYPt K) : XYPt.Dot p q = XYPt.Dot q p := by
  simp only [XYPt.Dot]; ring

/-- The point that `Intersection` returns lies on both lines when the denominator is
not zero. -/
theorem XYLine.Intersection_on (l1 l2 : XYLine K)
    (h : l1.u.x * l2.u.y - l1.u.y * l2.u.x ≠ 0) :
    XYPt.Dot (XYLine.Intersection l1 l2) l1.u = l1.d ∧
      XYPt.Dot (XYLine.Intersection l1 l2) l2.u = l2.d := by
  constructor
  · simp only [XYLine.Intersection, XYPt.Dot]
    field_simp
    ring
  · simp only [XYLine.Intersection, XYPt.Dot]
    field_simp
    ring

/-- A square root that is exact at a non-zero argument is not zero. -/
theorem sqrt_ne_zero_of_exact (M : CMath K) {x : K} (hx : x ≠ 0)
    (hs : M.sqrt x * M.sqrt x = x) : M.sqrt x ≠ 0 := by
  intro h0
  rw [h0, mul_zero] at hs
  exact hx hs.symm

/-- Folding a point about the line `(-d, -u)` is folding it about `(d, u)`. -/
theorem XYLine.Fold_neg (l : XYLine K) (p : XYPt K) :
    XYLine.Fold ⟨-l.d, ⟨-l.u.x, -l.u.y⟩⟩ p = XYLine.Fold l p := by
  simp only [XYLine.Fold, XYPt.add, XYPt.smul, XYPt.Dot, XYPt.mk.injEq]
  constructor <;> ring

end FoldFacts

section O5Facts

variable {K : Type} [LinearOrderedField K]

/-- The image point of the O5 constructor lies on `l1` when the normal of `l1` has
length one. -/
theorem RefLine_P2L_C2P.imagePoint_on (M : CMath K) (p1 p2 : XYPt K) (l1 : XYLine K)
    (iroot : Int) (hu : XYPt.Mag2 l1.u = 1) :
    XYPt.Dot (RefLine_P2L_C2P.imagePoint M p1 l1 p2 iroot) l1.u = l1.d := by
  simp only [XYPt.Mag2] at hu
  simp only [RefLine_P2L_C2P.imagePoint]
  split_ifs
  · simp only [XYPt.add, XYPt.sub, XYPt.smul, XYPt.Dot, XYPt.Rotate90]
    linear_combination (l1.d - (p2.x * l1.u.x + p2.y * l1.u.y)) * hu
  · simp only [XYPt.add, XYPt.sub, XYPt.smul, XYPt.Dot, XYPt.Rotate90]
    linear_combination (l1.d - (p2.x * l1.u.x + p2.y * l1.u.y)) * hu

/-- The image point of the O5 constructor is as far from `p2` as `p1` is, when `b` is an
exact square root. -/
theorem RefLine_P2L_C2P.imagePoint_dist (M : CMath K) (p1 p2 : XYPt K) (l1 : XYLine K)
    (iroot : Int) (hu : XYPt.Mag2 l1.u = 1)
    (hb : M.sqrt (XYPt.Mag2 (XYPt.sub p2 p1) -
        (l1.d - XYPt.Dot p2 l1.u) * (l1.d - XYPt.Dot p2 l1.u)) *
      M.sqrt (XYPt.Mag2 (XYPt.sub p2 p1) -
        (l1.d - XYPt.Dot p2 l1.u) * (l1.d - XYPt.Dot p2 l1.u)) =
      XYPt.Mag2 (XYPt.sub p2 p1) -
        (l1.d - XYPt.Dot p2 l1.u) * (l1.d - XYPt.Dot p2 l1.u)) :
    XYPt.Mag2 (XYPt.sub (RefLine_P2L_C2P.imagePoint M p1 l1 p2 iroot) p2) =
      XYPt.Mag2 (XYPt.sub p2 p1) := by
  simp only [XYPt.Mag2] at hu
  simp only [RefLine_P2L_C2P.imagePoint]
  generalize M.sqrt (XYPt.Mag2 (XYPt.sub p2 p1) -
        (l1.d - XYPt.Dot p2 l1.u) * (l1.d - XYPt.Dot p2 l1.u)) = b at hb ⊢
  simp only [XYPt.Mag2, XYPt.sub, XYPt.Dot] at hb
  split_ifs
  · simp only [XYPt.add, XYPt.sub, XYPt.smul, XYPt.Dot, XYPt.Rotate90, XYPt.Mag2]
    linear_combination hb + (b * b + (l1.d - (p2.x * l1.u.x + p2.y * l1.u.y)) ^ 2) * hu
  · simp only [XYPt.add, XYPt.sub, XYPt.smul, XYPt.Dot, XYPt.Rotate90, XYPt.Mag2]
    linear_combination hb + (b * b + (l1.d - (p2.x * l1.u.x + p2.y * l1.u.y)) ^ 2) * hu

/-- The fold line of the O5 constructor reflects `p1` onto any point `q` different from
`p1` that is as far from `p2` as `p1` is, when the normalisation uses an exact square
root. -/
theorem RefLine_P2L_C2P.foldLine_Fold (M : CMath K) (p1 p2 q : XYPt K)
    (hq : XYPt.Mag2 (XYPt.sub q p2) = XYPt.Mag2 (XYPt.sub p2 p1)) (hne : q ≠ p1)
    (hm : M.sqrt (XYPt.Mag2 (XYPt.sub q p1)) * M.sqrt (XYPt.Mag2 (XYPt.sub q p1)) =
      XYPt.Mag2 (XYPt.sub q p1)) :
    XYLine.Fold (RefLine_P2L_C2P.foldLine M p1 p2 q) p1 = q := by
  have hw : XYPt.Mag2 (XYPt.sub q p1) ≠ 0 := by
    intro h0
    apply hne
    simp only [XYPt.Mag2, XYPt.sub] at h0
    have hx : q.x - p1.x = 0 := by nlinarith [sq_nonneg (q.x - p1.x), sq_nonneg (q.y - p1.y)]
    have hy : q.y - p1.y = 0 := by nlinarith [sq_nonneg (q.x - p1.x), sq_nonneg (q.y - p1.y)]
    ext
    · linarith
    · linarith
  have hmne := sqrt_ne_zero_of_exact M hw hm
  simp only [XYPt.Mag2, XYPt.sub] at hq hm hmne
  simp only [RefLine_P2L_C2P.foldLine, XYLine.Fold, XYPt.Normalize, XYPt.Mag, XYPt.add,
    XYPt.smul, XYPt.sub, XYPt.Dot]
  generalize M.sqrt ((q.x - p1.x) * (q.x - p1.x) + (q.y - p1.y) * (q.y - p1.y)) = m
    at hm hmne ⊢
  ext
  · simp only
    field_simp
    linear_combination (-(q.x - p1.x)) * hq + (-(q.x - p1.x)) * hm
  · simp only
    field_simp
    linear_combination (-(q.y - p1.y)) * hq + (-(q.y - p1.y)) * hm

end O5Facts

section FinishFacts

variable {K : Type} [LinearOrderedField K] [FloorRing K]

/-- A non-zero key out of the common last statements of the axiom constructors means
that the skinny-flap test passed and that `l` is the canonical form of the fold line. -/
theorem finishLine_key_ne_zero {M : CMath K} {cfg : Config K} {l : XYLine K}
    (h : (finishLine M cfg l).2 ≠ 0) :
    Paper.MakesSkinnyFlap cfg.sPaper cfg.sMinAspectRatio l = false ∧
      (finishLine M cfg l).1 = RefLine.canonical l := by
  unfold finishLine at h ⊢
  split_ifs at h ⊢ with hs
  · exact absurd rfl h
  · exact ⟨by simpa using hs, rfl⟩

/-- Folding about the canonical form of a line is folding about the line. -/
theorem XYLine.Fold_canonical (l : XYLine K) (p : XYPt K) :
    XYLine.Fold (RefLine.canonical l) p = XYLine.Fold l p := by
  unfold RefLine.canonical
  split_ifs
  · exact XYLine.Fold_neg l p
  · rfl

/-- The canonical form of a line has the same points as the line. -/
theorem RefLine.canonical_on (l : XYLine K) (p : XYPt K) :
    XYPt.Dot p (RefLine.canonical l).u = (RefLine.canonical l).d ↔ XYPt.Dot p l.u = l.d := by
  unfold RefLine.canonical
  split_ifs
  · simp only [XYPt.Dot]
    constructor <;> intro h <;> linarith
  · rfl

/-- An image that the O5 constructor accepts is the point `imagePoint`. -/
theorem RefLine_P2L_C2P.image_some {M : CMath K} {cfg : Config K} {p1 p2 q : XYPt K}
    {l1 : XYLine K} {iroot : Int} (h : RefLine_P2L_C2P.image M cfg p1 l1 p2 iroot = some q) :
    q = RefLine_P2L_C2P.imagePoint M p1 l1 p2 iroot := by
  unfold RefLine_P2L_C2P.image at h
  simp only at h
  split_ifs at h
  simp only [Option.some.injEq] at h
  exact h.symm

/-- An O5 line with a non-zero key is the canonical form of the fold line through the
accepted image. -/
theorem RefLine_P2L_C2P_key_ne_zero {M : CMath K} {cfg : Config K} {arm1 arm2 : RefMark K}
    {arl1 : RefLine K} {iroot : Int}
    (h : (RefLine_P2L_C2P M cfg arm1 arl1 arm2 iroot).mKey ≠ 0) :
    (RefLine_P2L_C2P M cfg arm1 arl1 arm2 iroot).l =
        RefLine.canonical (RefLine_P2L_C2P.foldLine M arm1.p arm2.p
          (RefLine_P2L_C2P.imagePoint M arm1.p arl1.l arm2.p iroot)) ∧
      Paper.MakesSkinnyFlap cfg.sPaper cfg.sMinAspectRatio
        (RefLine_P2L_C2P.foldLine M arm1.p arm2.p
          (RefLine_P2L_C2P.imagePoint M arm1.p arl1.l arm2.p iroot)) = false := by
  revert h
  simp only [RefLine_P2L_C2P]
  split
  · intro h; exact absurd rfl h
  · rename_i q hq
    have hq' := RefLine_P2L_C2P.image_some hq
    subst hq'
    split
    · intro h; exact absurd rfl h
    · intro h
      have hf := finishLine_key_ne_zero h
      exact ⟨hf.2, hf.1⟩

end FinishFacts

section O5Claim

variable {K : Type} [LinearOrderedField K] [FloorRing K]

/-- Claim C10: for a line `l1 = (d1, u1)` with `|u1| = 1` and points `p1`, `p2` with `p1`
not on `l1`, put `a = d1 - p2.u1` and `b = sqrt(|p2 - p1|^2 - a^2)` (an exact root, so
`b^2 = |p2 - p1|^2 - a^2 >= 0`).  The image the O5 constructor computes is
`p1' = p2 + a u1 + b rot90(u1)` for root 0 and `p2 + a u1 - b rot90(u1)` otherwise; it lies
on `l1`; the fold line the constructor builds from it passes through `p2` and reflects
`p1` exactly onto `p1'`; and the line of every O5 object with a non-zero key is that fold
line. -/
theorem RefLine_P2L_C2P_fold (M : CMath K) (p1 p2 : XYPt K) (l1 : XYLine K) (iroot : Int)
    (hu : XYPt.Mag2 l1.u = 1) (hp1 : XYPt.Dot p1 l1.u ≠ l1.d)
    (hb : M.sqrt (XYPt.Mag2 (XYPt.sub p2 p1) -
        (l1.d - XYPt.Dot p2 l1.u) * (l1.d - XYPt.Dot p2 l1.u)) *
      M.sqrt (XYPt.Mag2 (XYPt.sub p2 p1) -
        (l1.d - XYPt.Dot p2 l1.u) * (l1.d - XYPt.Dot p2 l1.u)) =
      XYPt.Mag2 (XYPt.sub p2 p1) -
        (l1.d - XYPt.Dot p2 l1.u) * (l1.d - XYPt.Dot p2 l1.u))
    (hm : M.sqrt (XYPt.Mag2 (XYPt.sub (RefLine_P2L_C2P.imagePoint M p1 l1 p2 iroot) p1)) *
      M.sqrt (XYPt.Mag2 (XYPt.sub (RefLine_P2L_C2P.imagePoint M p1 l1 p2 iroot) p1)) =
      XYPt.Mag2 (XYPt.sub (RefLine_P2L_C2P.imagePoint M p1 l1 p2 iroot) p1)) :
    (RefLine_P2L_C2P.imagePoint M p1 l1 p2 iroot =
      (if iroot = 0 then
        XYPt.add (XYPt.add p2 (XYPt.smul (l1.d - XYPt.Dot p2 l1.u) l1.u))
          (XYPt.smul (M.sqrt (XYPt.Mag2 (XYPt.sub p2 p1) -
            (l1.d - XYPt.Dot p2 l1.u) * (l1.d - XYPt.Dot p2 l1.u))) (XYPt.Rotate90 l1.u))
      else
        XYPt.sub (XYPt.add p2 (XYPt.smul (l1.d - XYPt.Dot p2 l1.u) l1.u))
          (XYPt.smul (M.sqrt (XYPt.Mag2 (XYPt.sub p2 p1) -
            (l1.d - XYPt.Dot p2 l1.u) * (l1.d - XYPt.Dot p2 l1.u))) (XYPt.Rotate90 l1.u)))) ∧
    XYPt.Dot (RefLine_P2L_C2P.imagePoint M p1 l1 p2 iroot) l1.u = l1.d ∧
    XYPt.Dot p2 (RefLine_P2L_C2P.foldLine M p1 p2
        (RefLine_P2L_C2P.imagePoint M p1 l1 p2 iroot)).u =
      (RefLine_P2L_C2P.foldLine M p1 p2 (RefLine_P2L_C2P.imagePoint M p1 l1 p2 iroot)).d ∧
    XYLine.Fold (RefLine_P2L_C2P.foldLine M p1 p2
        (RefLine_P2L_C2P.imagePoint M p1 l1 p2 iroot)) p1 =
      RefLine_P2L_C2P.imagePoint M p1 l1 p2 iroot ∧
    (∀ (cfg : Config K) (arm1 arm2 : RefMark K) (arl1 : RefLine K),
      arm1.p = p1 → arl1.l = l1 → arm2.p = p2 →
      (RefLine_P2L_C2P M cfg arm1 arl1 arm2 iroot).mKey ≠ 0 →
      XYPt.Dot p2 (RefLine_P2L_C2P M cfg arm1 arl1 arm2 iroot).l.u =
        (RefLine_P2L_C2P M cfg arm1 arl1 arm2 iroot).l.d ∧
      XYLine.Fold (RefLine_P2L_C2P M cfg arm1 arl1 arm2 iroot).l p1 =
        RefLine_P2L_C2P.imagePoint M p1 l1 p2 iroot) := by
  have hon := RefLine_P2L_C2P.imagePoint_on M p1 p2 l1 iroot hu
  have hne : RefLine_P2L_C2P.imagePoint M p1 l1 p2 iroot ≠ p1 := by
    intro h
    rw [h] at hon
    exact hp1 hon
  have hdist := RefLine_P2L_C2P.imagePoint_dist M p1 p2 l1 iroot hu hb
  have hfold := RefLine_P2L_C2P.foldLine_Fold M p1 p2 _ hdist hne hm
  have hthrough : XYPt.Dot p2 (RefLine_P2L_C2P.foldLine M p1 p2
        (RefLine_P2L_C2P.imagePoint M p1 l1 p2 iroot)).u =
      (RefLine_P2L_C2P.foldLine M p1 p2 (RefLine_P2L_C2P.imagePoint M p1 l1 p2 iroot)).d := rfl
  refine ⟨?_, hon, hthrough, hfold, ?_⟩
  · simp only [RefLine_P2L_C2P.imagePoint]
  · intro cfg arm1 arm2 arl1 h1 h2 h3 hk
    obtain ⟨hl, _⟩ := RefLine_P2L_C2P_key_ne_zero hk
    rw [h1, h2, h3] at hl
    rw [hl]
    exact ⟨(RefLine.canonical_on _ _).mpr hthrough, by rw [XYLine.Fold_canonical]; exact hfold⟩

end O5Claim

/-- The square root of `ratMath` is exact on squares of non-negative rationals. -/
theorem ratMath_sqrt_mul_self (q : ℚ) (hq : 0 ≤ q) : ratMath.sqrt (q * q) = q := by
  show Rat.sqrt (q * q) = q
  rw [Rat.sqrt_eq, abs_of_nonneg hq]

/-- The O5 image of `p1 = (56/25, 117/25)` on the line `x = 0` for the crease through
`p2 = (4, 0)`, root 0, is `(0, 3)`. -/
theorem RefLine_P2L_C2P.imagePoint_example :
    RefLine_P2L_C2P.imagePoint ratMath (⟨56 / 25, 117 / 25⟩ : XYPt ℚ) ⟨0, ⟨1, 0⟩⟩ ⟨4, 0⟩ 0 =
      ⟨0, 3⟩ := by
  have e : XYPt.Mag2 (XYPt.sub (⟨4, 0⟩ : XYPt ℚ) ⟨56 / 25, 117 / 25⟩) -
      ((0 : ℚ) - XYPt.Dot (⟨4, 0⟩ : XYPt ℚ) ⟨1, 0⟩) * (0 - XYPt.Dot (⟨4, 0⟩ : XYPt ℚ) ⟨1, 0⟩) =
      3 * 3 := by
    norm_num [XYPt.Mag2, XYPt.sub, XYPt.Dot]
  simp only [RefLine_P2L_C2P.imagePoint, if_true]
  rw [e, ratMath_sqrt_mul_self 3 (by norm_num)]
  norm_num [XYPt.add, XYPt.smul, XYPt.Rotate90, XYPt.Dot]

/-- Witness for C10: the line `x = 0`, `p1 = (56/25, 117/25)`, `p2 = (4, 0)`, root 0,
over the rationals; the image is `(0, 3)`. -/
theorem RefLine_P2L_C2P_fold_witness :
    XYPt.Mag2 (⟨1, 0⟩ : XYPt ℚ) = 1 ∧
    XYPt.Dot (⟨56 / 25, 117 / 25⟩ : XYPt ℚ) ⟨1, 0⟩ ≠ 0 ∧
    XYLine.Fold (RefLine_P2L_C2P.foldLine ratMath (⟨56 / 25, 117 / 25⟩ : XYPt ℚ) ⟨4, 0⟩
        (RefLine_P2L_C2P.imagePoint ratMath (⟨56 / 25, 117 / 25⟩ : XYPt ℚ) ⟨0, ⟨1, 0⟩⟩
          ⟨4, 0⟩ 0)) ⟨56 / 25, 117 / 25⟩ =
      RefLine_P2L_C2P.imagePoint ratMath (⟨56 / 25, 117 / 25⟩ : XYPt ℚ) ⟨0, ⟨1, 0⟩⟩ ⟨4, 0⟩ 0 :=
  ⟨by norm_num [XYPt.Mag2], by norm_num [XYPt.Dot],
    (RefLine_P2L_C2P_fold ratMath (⟨56 / 25, 117 / 25⟩ : XYPt ℚ) ⟨4, 0⟩ ⟨0, ⟨1, 0⟩⟩ 0
      (by norm_num [XYPt.Mag2]) (by norm_num [XYPt.Dot])
      (by
        have e : XYPt.Mag2 (XYPt.sub (⟨4, 0⟩ : XYPt ℚ) ⟨56 / 25, 117 / 25⟩) -
            ((0 : ℚ) - XYPt.Dot (⟨4, 0⟩ : XYPt ℚ) ⟨1, 0⟩) *
              (0 - XYPt.Dot (⟨4, 0⟩ : XYPt ℚ) ⟨1, 0⟩) = 3 * 3 := by
          norm_num [XYPt.Mag2, XYPt.sub, XYPt.Dot]
        show ratMath.sqrt _ * ratMath.sqrt _ = _
        rw [e, ratMath_sqrt_mul_self 3 (by norm_num)])
      (by
        rw [RefLine_P2L_C2P.imagePoint_example]
        have e : XYPt.Mag2 (XYPt.sub (⟨0, 3⟩ : XYPt ℚ) ⟨56 / 25, 117 / 25⟩) =
            (14 / 5) * (14 / 5) := by
          norm_num [XYPt.Mag2, XYPt.sub]
        rw [e, ratMath_sqrt_mul_self (14 / 5) (by norm_num)])).2.2.2.1⟩

section O3Facts

variable {K : Type} [LinearOrderedField K]

/-- The bisector through a common point `q` of two lines with unit normals, with normal
`(u1 + u2) / m` where `m` is an exact root of `|u1 + u2|^2`, reflects the first line onto
the second. -/
theorem bisector_plus_reflects (M : CMath K) (l1 l2 : XYLine K) (q p : XYPt K)
    (hu1 : XYPt.Mag2 l1.u = 1) (hu2 : XYPt.Mag2 l2.u = 1)
    (hq1 : XYPt.Dot q l1.u = l1.d) (hq2 : XYPt.Dot q l2.u = l2.d)
    (hw : XYPt.Mag2 (XYPt.add l1.u l2.u) ≠ 0)
    (hm : M.sqrt (XYPt.Mag2 (XYPt.add l1.u l2.u)) * M.sqrt (XYPt.Mag2 (XYPt.add l1.u l2.u)) =
      XYPt.Mag2 (XYPt.add l1.u l2.u))
    (hp : XYPt.Dot p l1.u = l1.d) :
    XYPt.Dot (XYLine.Fold ⟨XYPt.Dot q (XYPt.Normalize M (XYPt.add l1.u l2.u)),
      XYPt.Normalize M (XYPt.add l1.u l2.u)⟩ p) l2.u = l2.d := by
  have hmne := sqrt_ne_zero_of_exact M hw hm
  simp only [XYLine.Fold, XYPt.Normalize, XYPt.Mag, XYPt.add, XYPt.smul, XYPt.Dot,
    XYPt.Mag2] at *
  generalize M.sqrt ((l1.u.x + l2.u.x) * (l1.u.x + l2.u.x) +
    (l1.u.y + l2.u.y) * (l1.u.y + l2.u.y)) = m at hm hmne ⊢
  field_simp
  have e1 : q.x * l1.u.x + q.y * l1.u.y = p.x * l1.u.x + p.y * l1.u.y := by rw [hq1, hp]
  rw [← hq2]
  linear_combination ((p.x * l2.u.x + p.y * l2.u.y) - (q.x * l2.u.x + q.y * l2.u.y)) * hm +
    (2 * (l1.u.x * l2.u.x + l1.u.y * l2.u.y + l2.u.x * l2.u.x + l2.u.y * l2.u.y)) * e1 +
    ((p.x * l2.u.x + p.y * l2.u.y) - (q.x * l2.u.x + q.y * l2.u.y)) * hu1 +
    (-((p.x * l2.u.x + p.y * l2.u.y) - (q.x * l2.u.x + q.y * l2.u.y))) * hu2

/-- The bisector through a common point `q` of two lines with unit normals, with normal
`(u1 - u2) / m` where `m` is an exact root of `|u1 - u2|^2`, reflects the first line onto
the second. -/
theorem bisector_minus_reflects (M : CMath K) (l1 l2 : XYLine K) (q p : XYPt K)
    (hu1 : XYPt.Mag2 l1.u = 1) (hu2 : XYPt.Mag2 l2.u = 1)
    (hq1 : XYPt.Dot q l1.u = l1.d) (hq2 : XYPt.Dot q l2.u = l2.d)
    (hw : XYPt.Mag2 (XYPt.sub l1.u l2.u) ≠ 0)
    (hm : M.sqrt (XYPt.Mag2 (XYPt.sub l1.u l2.u)) * M.sqrt (XYPt.Mag2 (XYPt.sub l1.u l2.u)) =
      XYPt.Mag2 (XYPt.sub l1.u l2.u))
    (hp : XYPt.Dot p l1.u = l1.d) :
    XYPt.Dot (XYLine.Fold ⟨XYPt.Dot q (XYPt.Normalize M (XYPt.sub l1.u l2.u)),
      XYPt.Normalize M (XYPt.sub l1.u l2.u)⟩ p) l2.u = l2.d := by
  have hmne := sqrt_ne_zero_of_exact M hw hm
  simp only [XYLine.Fold, XYPt.Normalize, XYPt.Mag, XYPt.add, XYPt.sub, XYPt.smul, XYPt.Dot,
    XYPt.Mag2] at *
  generalize M.sqrt ((l1.u.x - l2.u.x) * (l1.u.x - l2.u.x) +
    (l1.u.y - l2.u.y) * (l1.u.y - l2.u.y)) = m at hm hmne ⊢
  field_simp
  have e1 : q.x * l1.u.x + q.y * l1.u.y = p.x * l1.u.x + p.y * l1.u.y := by rw [hq1, hp]
  rw [← hq2]
  linear_combination ((p.x * l2.u.x + p.y * l2.u.y) - (q.x * l2.u.x + q.y * l2.u.y)) * hm +
    (2 * (l1.u.x * l2.u.x + l1.u.y * l2.u.y - l2.u.x * l2.u.x - l2.u.y * l2.u.y)) * e1 +
    ((p.x * l2.u.x + p.y * l2.u.y) - (q.x * l2.u.x + q.y * l2.u.y)) * hu1 +
    (-((p.x * l2.u.x + p.y * l2.u.y) - (q.x * l2.u.x + q.y * l2.u.y))) * hu2

/-- Two unit vectors with `u1 . rot90(u2) = 0` satisfy `u2 = (u1 . u2) u1` and
`(u1 . u2)^2 = 1`. -/
theorem parallel_unit (u1 u2 : XYPt K) (hu1 : XYPt.Mag2 u1 = 1) (hu2 : XYPt.Mag2 u2 = 1)
    (hs : XYPt.Dot u1 (XYPt.Rotate90 u2) = 0) :
    u2.x = XYPt.Dot u2 u1 * u1.x ∧ u2.y = XYPt.Dot u2 u1 * u1.y ∧
      XYPt.Dot u2 u1 * XYPt.Dot u2 u1 = 1 := by
  simp only [XYPt.Mag2, XYPt.Dot, XYPt.Rotate90] at *
  refine ⟨?_, ?_, ?_⟩
  · linear_combination (-u2.x) * hu1 + u1.y * hs
  · linear_combination (-u2.y) * hu1 + (-u1.x) * hs
  · linear_combination (u2.x * u2.x + u2.y * u2.y) * hu1 + hu2 -
      (u1.x * -u2.y + u1.y * u2.x) * hs

/-- For exactly parallel lines with unit normals the line
`(1/2 (d1 + d2 (u2 . u1)), u1)` reflects the first line onto the second. -/
theorem midline_reflects (l1 l2 : XYLine K) (p : XYPt K)
    (hu1 : XYPt.Mag2 l1.u = 1) (hu2 : XYPt.Mag2 l2.u = 1)
    (hs : XYPt.Dot l1.u (XYPt.Rotate90 l2.u) = 0) (hp : XYPt.Dot p l1.u = l1.d) :
    XYPt.Dot (XYLine.Fold ⟨(1 / 2) * (l1.d + l2.d * XYPt.Dot l2.u l1.u), l1.u⟩ p) l2.u =
      l2.d := by
  obtain ⟨hx, hy, hc⟩ := parallel_unit l1.u l2.u hu1 hu2 hs
  rw [XYLine.Fold_Dot]
  have h1 : XYPt.Dot p l2.u = XYPt.Dot l2.u l1.u * l1.d := by
    rw [← hp]
    simp only [XYPt.Dot] at hx hy ⊢
    linear_combination p.x * hx + p.y * hy
  rw [h1]
  simp only
  rw [hp, XYPt.Dot_comm l1.u l2.u]
  linear_combination l2.d * hc

end O3Facts

section O3Claim

variable {K : Type} [LinearOrderedField K]

/-- Lines that `IsParallelTo` does not report as parallel have a non-zero determinant,
and neither the sum nor the difference of their normals vanishes. -/
theorem not_parallel_facts (l1 l2 : XYLine K) (h : XYLine.IsParallelTo l1 l2 = false) :
    l1.u.x * l2.u.y - l1.u.y * l2.u.x ≠ 0 ∧ XYPt.Mag2 (XYPt.add l1.u l2.u) ≠ 0 ∧
      XYPt.Mag2 (XYPt.sub l1.u l2.u) ≠ 0 := by
  simp only [XYLine.IsParallelTo, decide_eq_false_iff_not, not_lt, XYPt.Dot,
    XYPt.Rotate90] at h
  have hpos : (0 : K) < |l1.u.x * -l2.u.y + l1.u.y * l2.u.x| := lt_of_lt_of_le EPS_pos h
  have hne : l1.u.x * -l2.u.y + l1.u.y * l2.u.x ≠ 0 := abs_pos.mp hpos
  refine ⟨?_, ?_, ?_⟩
  · intro h0
    apply hne
    linear_combination -h0
  · intro h0
    simp only [XYPt.Mag2, XYPt.add] at h0
    have hx : l1.u.x + l2.u.x = 0 := by
      nlinarith [sq_nonneg (l1.u.x + l2.u.x), sq_nonneg (l1.u.y + l2.u.y)]
    have hy : l1.u.y + l2.u.y = 0 := by
      nlinarith [sq_nonneg (l1.u.x + l2.u.x), sq_nonneg (l1.u.y + l2.u.y)]
    apply hne
    linear_combination l1.u.y * hx - l1.u.x * hy
  · intro h0
    simp only [XYPt.Mag2, XYPt.sub] at h0
    have hx : l1.u.x - l2.u.x = 0 := by
      nlinarith [sq_nonneg (l1.u.x - l2.u.x), sq_nonneg (l1.u.y - l2.u.y)]
    have hy : l1.u.y - l2.u.y = 0 := by
      nlinarith [sq_nonneg (l1.u.x - l2.u.x), sq_nonneg (l1.u.y - l2.u.y)]
    apply hne
    linear_combination -l1.u.y * hx + l1.u.x * hy

/-- Claim C9 (as amended): let `l1`, `l2` have unit normals.  (1) If the constructor's
test `IsParallelTo` fails (`|u1 . rot90(u2)| >= EPS`), then for every root the O3 fold
line (before the paper and visibility filters, the normalisation using an exact square
root) exists, passes through the intersection of `l1` and `l2`, and reflects every point
of `l1` onto a point of `l2`.  (2) If the test succeeds (`|u1 . rot90(u2)| < EPS`), root 1
yields no candidate: the key is 0.  (3) If the lines are exactly parallel, root 0 gives
the line with normal `u1` through the midpoint of the feet `d1 u1` and `d2 u2` of the two
lines, and it reflects every point of `l1` onto a point of `l2`. -/
theorem RefLine_L2L_fold [FloorRing K] (M : CMath K) (l1 l2 : XYLine K)
    (hu1 : XYPt.Mag2 l1.u = 1) (hu2 : XYPt.Mag2 l2.u = 1) :
    (XYLine.IsParallelTo l1 l2 = false → ∀ iroot : Int,
      M.sqrt (XYPt.Mag2 (if iroot = 0 then XYPt.add l1.u l2.u else XYPt.sub l1.u l2.u)) *
        M.sqrt (XYPt.Mag2 (if iroot = 0 then XYPt.add l1.u l2.u else XYPt.sub l1.u l2.u)) =
        XYPt.Mag2 (if iroot = 0 then XYPt.add l1.u l2.u else XYPt.sub l1.u l2.u) →
      ∃ l, RefLine_L2L.foldLine M l1 l2 iroot = some l ∧
        XYPt.Dot (XYLine.Intersection l1 l2) l1.u = l1.d ∧
        XYPt.Dot (XYLine.Intersection l1 l2) l2.u = l2.d ∧
        XYPt.Dot (XYLine.Intersection l1 l2) l.u = l.d ∧
        ∀ p, XYPt.Dot p l1.u = l1.d → XYPt.Dot (XYLine.Fold l p) l2.u = l2.d) ∧
    (XYLine.IsParallelTo l1 l2 = true →
      RefLine_L2L.foldLine M l1 l2 1 = none ∧
      ∀ (cfg : Config K) (arl1 arl2 : RefLine K), arl1.l = l1 → arl2.l = l2 →
        (RefLine_L2L M cfg arl1 arl2 1).mKey = 0) ∧
    (XYPt.Dot l1.u (XYPt.Rotate90 l2.u) = 0 →
      ∃ l, RefLine_L2L.foldLine M l1 l2 0 = some l ∧ l.u = l1.u ∧
        XYPt.Dot (XYPt.MidPoint (XYPt.smul l1.d l1.u) (XYPt.smul l2.d l2.u)) l.u = l.d ∧
        ∀ p, XYPt.Dot p l1.u = l1.d → XYPt.Dot (XYLine.Fold l p) l2.u = l2.d) := by
  refine ⟨?_, ?_, ?_⟩
  · intro hpar iroot hm
    obtain ⟨hden, hwp, hwm⟩ := not_parallel_facts l1 l2 hpar
    obtain ⟨hq1, hq2⟩ := XYLine.Intersection_on l1 l2 hden
    by_cases hi : iroot = 0
    · simp only [hi, if_true] at hm
      refine ⟨⟨XYPt.Dot (XYLine.Intersection l1 l2) (XYPt.Normalize M (XYPt.add l1.u l2.u)),
        XYPt.Normalize M (XYPt.add l1.u l2.u)⟩, ?_, hq1, hq2, rfl, ?_⟩
      · simp [RefLine_L2L.foldLine, hpar, hi]
      · intro p hp
        exact bisector_plus_reflects M l1 l2 _ p hu1 hu2 hq1 hq2 hwp hm hp
    · simp only [hi, if_false] at hm
      refine ⟨⟨XYPt.Dot (XYLine.Intersection l1 l2) (XYPt.Normalize M (XYPt.sub l1.u l2.u)),
        XYPt.Normalize M (XYPt.sub l1.u l2.u)⟩, ?_, hq1, hq2, rfl, ?_⟩
      · simp [RefLine_L2L.foldLine, hpar, hi]
      · intro p hp
        exact bisector_minus_reflects M l1 l2 _ p hu1 hu2 hq1 hq2 hwm hm hp
  · intro hpar
    have hnone : RefLine_L2L.foldLine M l1 l2 1 = none := by
      simp [RefLine_L2L.foldLine, hpar]
    refine ⟨hnone, ?_⟩
    intro cfg arl1 arl2 h1 h2
    simp only [RefLine_L2L, h1, h2, hnone]
    rfl
  · intro hs
    have hpar : XYLine.IsParallelTo l1 l2 = true := by
      simp only [XYLine.IsParallelTo, decide_eq_true_eq, hs, abs_zero]
      exact EPS_pos
    refine ⟨⟨(1 / 2) * (l1.d + l2.d * XYPt.Dot l2.u l1.u), l1.u⟩, ?_, rfl, ?_, ?_⟩
    · simp [RefLine_L2L.foldLine, hpar]
    · simp only [XYPt.Mag2] at hu1
      simp only [XYPt.MidPoint, XYPt.smul, XYPt.Dot]
      linear_combination (1 / 2 * l1.d) * hu1
    · intro p hp
      exact midline_reflects l1 l2 p hu1 hu2 hs hp

end O3Claim

/-- Counterexample to C9 as stated: the lines `x = 0` and `p . u2 = 1` with the unit normal
`u2 = ((10^20 - 1) / (10^20 + 1), 2 * 10^10 / (10^20 + 1))` are not parallel, but the
constructor's test treats them as parallel: root 1 gives no fold line at all, and the
root-0 fold line does not pass through the intersection of the two lines. -/
theorem RefLine_L2L_nearly_parallel :
    XYPt.Mag2 (⟨1, 0⟩ : XYPt ℚ) = 1 ∧
    XYPt.Mag2 (⟨(10 ^ 20 - 1) / (10 ^ 20 + 1), 2 * 10 ^ 10 / (10 ^ 20 + 1)⟩ : XYPt ℚ) = 1 ∧
    XYPt.Dot (⟨1, 0⟩ : XYPt ℚ)
      (XYPt.Rotate90 ⟨(10 ^ 20 - 1) / (10 ^ 20 + 1), 2 * 10 ^ 10 / (10 ^ 20 + 1)⟩) ≠ 0 ∧
    RefLine_L2L.foldLine ratMath (⟨0, ⟨1, 0⟩⟩ : XYLine ℚ)
      ⟨1, ⟨(10 ^ 20 - 1) / (10 ^ 20 + 1), 2 * 10 ^ 10 / (10 ^ 20 + 1)⟩⟩ 1 = none ∧
    RefLine_L2L.foldLine ratMath (⟨0, ⟨1, 0⟩⟩ : XYLine ℚ)
      ⟨1, ⟨(10 ^ 20 - 1) / (10 ^ 20 + 1), 2 * 10 ^ 10 / (10 ^ 20 + 1)⟩⟩ 0 =
        some ⟨(10 ^ 20 - 1) / (2 * (10 ^ 20 + 1)), ⟨1, 0⟩⟩ ∧
    XYPt.Dot (XYLine.Intersection (⟨0, ⟨1, 0⟩⟩ : XYLine ℚ)
      ⟨1, ⟨(10 ^ 20 - 1) / (10 ^ 20 + 1), 2 * 10 ^ 10 / (10 ^ 20 + 1)⟩⟩) ⟨1, 0⟩ ≠
        (10 ^ 20 - 1) / (2 * (10 ^ 20 + 1)) := by
  refine ⟨?_, ?_, ?_, ?_, ?_, ?_⟩
  · norm_num [XYPt.Mag2]
  · norm_num [XYPt.Mag2]
  · norm_num [XYPt.Dot, XYPt.Rotate90]
  · norm_num [RefLine_L2L.foldLine, XYLine.IsParallelTo, XYPt.Dot, XYPt.Rotate90, EPS,
      abs_of_neg]
  · norm_num [RefLine_L2L.foldLine, XYLine.IsParallelTo, XYPt.Dot, XYPt.Rotate90, EPS,
      abs_of_neg]
  · norm_num [XYLine.Intersection, XYPt.Dot]

/-- Witness for C9: the lines through the origin with unit normals `(1, 0)` and
`(-7/25, 24/25)` over the rationals, root 0 (`|u1 + u2| = 6/5`). -/
theorem RefLine_L2L_fold_witness :
    XYPt.Mag2 (⟨1, 0⟩ : XYPt ℚ) = 1 ∧ XYPt.Mag2 (⟨-7 / 25, 24 / 25⟩ : XYPt ℚ) = 1 ∧
    ∃ l, RefLine_L2L.foldLine ratMath (⟨0, ⟨1, 0⟩⟩ : XYLine ℚ) ⟨0, ⟨-7 / 25, 24 / 25⟩⟩ 0 =
        some l ∧
      XYPt.Dot (XYLine.Intersection (⟨0, ⟨1, 0⟩⟩ : XYLine ℚ) ⟨0, ⟨-7 / 25, 24 / 25⟩⟩)
        (⟨1, 0⟩ : XYPt ℚ) = 0 ∧
      XYPt.Dot (XYLine.Intersection (⟨0, ⟨1, 0⟩⟩ : XYLine ℚ) ⟨0, ⟨-7 / 25, 24 / 25⟩⟩)
        (⟨-7 / 25, 24 / 25⟩ : XYPt ℚ) = 0 ∧
      XYPt.Dot (XYLine.Intersection (⟨0, ⟨1, 0⟩⟩ : XYLine ℚ) ⟨0, ⟨-7 / 25, 24 / 25⟩⟩) l.u =
        l.d ∧
      ∀ p : XYPt ℚ, XYPt.Dot p ⟨1, 0⟩ = 0 →
        XYPt.Dot (XYLine.Fold l p) ⟨-7 / 25, 24 / 25⟩ = 0 :=
  ⟨by norm_num [XYPt.Mag2], by norm_num [XYPt.Mag2],
    (RefLine_L2L_fold ratMath (⟨0, ⟨1, 0⟩⟩ : XYLine ℚ) ⟨0, ⟨-7 / 25, 24 / 25⟩⟩
      (by norm_num [XYPt.Mag2]) (by norm_num [XYPt.Mag2])).1
      (by norm_num [XYLine.IsParallelTo, XYPt.Dot, XYPt.Rotate90, EPS, abs_of_neg]) 0
      (by
        have e : XYPt.Mag2 (XYPt.add (⟨1, 0⟩ : XYPt ℚ) ⟨-7 / 25, 24 / 25⟩) =
            (6 / 5) * (6 / 5) := by
          norm_num [XYPt.Mag2, XYPt.add]
        simp only [if_true]
        rw [e, ratMath_sqrt_mul_self (6 / 5) (by norm_num)])⟩

section ContainerFacts

variable {R : Type} [RefBase R]

/-- The method `std::map::count` is non-zero exactly for the keys present. -/
theorem map_t.count_ne_zero_iff (m : map_t R) (k : Int) :
    map_t.count m k ≠ 0 ↔ ∃ e ∈ m, e.1 = k := by
  unfold map_t.count
  split_ifs with h
  · simp only [List.any_eq_true, decide_eq_true_eq] at h
    simpa using h
  · simp only [List.any_eq_true, decide_eq_true_eq, not_exists, not_and] at h
    simp only [ne_eq, not_true_eq_false, false_iff, not_exists, not_and]
    exact h

/-- The method `Contains` fails exactly when no entry of a rank map or of the buffer has
the key. -/
theorem RefContainer.Contains_eq_false_iff (c : RefContainer R) (ar : R) :
    c.Contains ar = false ↔ ∀ e ∈ c.maps.flatten ++ c.buffer, e.1 ≠ RefBase.mKey ar := by
  unfold RefContainer.Contains
  rw [Bool.or_eq_false_iff]
  constructor
  · rintro ⟨h1, h2⟩ e he
    rw [List.mem_append] at he
    intro hk
    rcases he with he | he
    · rw [List.mem_flatten] at he
      obtain ⟨m, hm, hem⟩ := he
      have : (c.maps.any fun m => decide (map_t.count m (RefBase.mKey ar) ≠ 0)) = true := by
        rw [List.any_eq_true]
        exact ⟨m, hm, by
          rw [decide_eq_true_eq]
          exact (map_t.count_ne_zero_iff m _).mpr ⟨e, hem, hk⟩⟩
      rw [h1] at this
      exact Bool.noConfusion this
    · have : decide (map_t.count c.buffer (RefBase.mKey ar) ≠ 0) = true := by
        rw [decide_eq_true_eq]
        exact (map_t.count_ne_zero_iff _ _).mpr ⟨e, he, hk⟩
      rw [h2] at this
      exact Bool.noConfusion this
  · intro h
    constructor
    · rw [Bool.eq_false_iff]
      intro hany
      rw [List.any_eq_true] at hany
      obtain ⟨m, hm, hd⟩ := hany
      rw [decide_eq_true_eq] at hd
      obtain ⟨e, hem, hk⟩ := (map_t.count_ne_zero_iff m _).mp hd
      exact h e (List.mem_append_left _ (List.mem_flatten.mpr ⟨m, hm, hem⟩)) hk
    · rw [decide_eq_false_iff_not]
      intro hd
      obtain ⟨e, hem, hk⟩ := (map_t.count_ne_zero_iff _ _).mp hd
      exact h e (List.mem_append_right _ hem) hk

/-- Every entry of a map after `insert` is an old entry or the inserted one. -/
theorem map_t.mem_insert {m : map_t R} {e x : Int × R} (h : x ∈ map_t.insert m e) :
    x ∈ m ∨ x = e := by
  induction m with
  | nil =>
    simp only [map_t.insert, List.mem_singleton] at h
    exact Or.inr h
  | cons hd tl ih =>
    simp only [map_t.insert] at h
    split_ifs at h with h1 h2
    · rcases List.mem_cons.mp h with h | h
      · exact Or.inr h
      · exact Or.inl h
    · exact Or.inl h
    · rcases List.mem_cons.mp h with h | h
      · exact Or.inl (h ▸ List.mem_cons_self _ _)
      · rcases ih h with h | h
        · exact Or.inl (List.mem_cons_of_mem _ h)
        · exact Or.inr h

/-- Inserting an entry whose key is absent gives a permutation of the map with the
entry added. -/
theorem map_t.insert_perm {m : map_t R} {e : Int × R} (h : ∀ x ∈ m, x.1 ≠ e.1) :
    (map_t.insert m e).Perm (e :: m) := by
  induction m with
  | nil => exact List.Perm.refl _
  | cons hd tl ih =>
    simp only [map_t.insert]
    split_ifs with h1 h2
    · exact List.Perm.refl _
    · exact absurd h2.symm (h hd (List.mem_cons_self _ _))
    · exact ((ih (fun x hx => h x (List.mem_cons_of_mem _ hx))).cons hd).trans
        (List.Perm.swap e hd tl)

/-- An entry whose key is absent is in the map after `insert`. -/
theorem map_t.mem_insert_self {m : map_t R} {e : Int × R} (h : ∀ x ∈ m, x.1 ≠ e.1) :
    e ∈ map_t.insert m e :=
  (map_t.insert_perm h).symm.subset (List.mem_cons_self _ _)

/-- The method `std::map::insert` keeps the keys in strictly ascending order. -/
theorem map_t.insert_sorted {m : map_t R} {e : Int × R}
    (h : (m.map Prod.fst).Sorted (· < ·)) :
    ((map_t.insert m e).map Prod.fst).Sorted (· < ·) := by
  induction m with
  | nil => simp [map_t.insert]
  | cons hd tl ih =>
    simp only [map_t.insert]
    split_ifs with h1 h2
    · simp only [List.map_cons, List.sorted_cons] at h ⊢
      refine ⟨?_, h⟩
      intro b hb
      rcases List.mem_cons.mp hb with hb | hb
      · rw [hb]; exact h1
      · exact lt_trans h1 (h.1 b hb)
    · exact h
    · simp only [List.map_cons, List.sorted_cons] at h ⊢
      refine ⟨?_, ih h.2⟩
      intro b hb
      rw [List.mem_map] at hb
      obtain ⟨x, hx, rfl⟩ := hb
      rcases map_t.mem_insert hx with hx | hx
      · exact h.1 _ (List.mem_map_of_mem _ hx)
      · rw [hx]
        exact lt_of_le_of_ne (not_lt.mp h1) (fun hh => h2 hh.symm)

end ContainerFacts

section AddCopyClaim

variable {R : Type} [RefBase R]

/-- Claim C4: `AddCopyIfValidAndUnique` puts the candidate into the buffer and raises
`GetTotalSize` by exactly one if and only if its key is not 0 and no entry of any rank
map or of the buffer has that key; then the earlier buffer entries stay, and the rank
maps, the flat array and `rcsz` are unchanged.  In every other case the container is
left exactly as it was. -/
theorem AddCopyIfValidAndUnique_spec (c : RefContainer R) (ars : R) :
    (((RefBase.mKey ars, ars) ∈ (c.AddCopyIfValidAndUnique ars).buffer ∧
        (c.AddCopyIfValidAndUnique ars).GetTotalSize = c.GetTotalSize + 1) ↔
      (RefBase.mKey ars ≠ 0 ∧ ∀ e ∈ c.maps.flatten ++ c.buffer, e.1 ≠ RefBase.mKey ars)) ∧
    ((RefBase.mKey ars ≠ 0 ∧ ∀ e ∈ c.maps.flatten ++ c.buffer, e.1 ≠ RefBase.mKey ars) →
      (c.AddCopyIfValidAndUnique ars).buffer.Perm ((RefBase.mKey ars, ars) :: c.buffer) ∧
      (c.AddCopyIfValidAndUnique ars).maps = c.maps ∧
      (c.AddCopyIfValidAndUnique ars).vec = c.vec ∧
      (c.AddCopyIfValidAndUnique ars).rcsz = c.rcsz ∧
      (c.AddCopyIfValidAndUnique ars).rcbz = c.rcbz + 1) ∧
    (¬ (RefBase.mKey ars ≠ 0 ∧ ∀ e ∈ c.maps.flatten ++ c.buffer, e.1 ≠ RefBase.mKey ars) →
      c.AddCopyIfValidAndUnique ars = c) := by
  have hyes : (RefBase.mKey ars ≠ 0 ∧
      ∀ e ∈ c.maps.flatten ++ c.buffer, e.1 ≠ RefBase.mKey ars) →
      c.AddCopyIfValidAndUnique ars = c.Add ars := by
    intro h
    unfold RefContainer.AddCopyIfValidAndUnique
    rw [if_pos ⟨h.1, (RefContainer.Contains_eq_false_iff c ars).mpr h.2⟩]
  have hno : ¬ (RefBase.mKey ars ≠ 0 ∧
      ∀ e ∈ c.maps.flatten ++ c.buffer, e.1 ≠ RefBase.mKey ars) →
      c.AddCopyIfValidAndUnique ars = c := by
    intro h
    unfold RefContainer.AddCopyIfValidAndUnique
    rw [if_neg]
    rintro ⟨h1, h2⟩
    exact h ⟨h1, (RefContainer.Contains_eq_false_iff c ars).mp h2⟩
  have hperm : (RefBase.mKey ars ≠ 0 ∧
      ∀ e ∈ c.maps.flatten ++ c.buffer, e.1 ≠ RefBase.mKey ars) →
      (c.Add ars).buffer.Perm ((RefBase.mKey ars, ars) :: c.buffer) := by
    intro h
    exact map_t.insert_perm (fun x hx => h.2 x (List.mem_append_right _ hx))
  refine ⟨⟨?_, ?_⟩, ?_, hno⟩
  · rintro ⟨_, hsz⟩
    by_contra hc
    rw [hno hc] at hsz
    omega
  · intro h
    rw [hyes h]
    refine ⟨(hperm h).symm.subset (List.mem_cons_self _ _), ?_⟩
    simp only [RefContainer.Add, RefContainer.GetTotalSize]
    omega
  · intro h
    rw [hyes h]
    exact ⟨hperm h, rfl, rfl, rfl, rfl⟩

end AddCopyClaim

section CompareFacts

variable {K : Type} [LinearOrderedField K] {R : Type} [RefBase R]

/-- The comparator `CompareRankAndError` is the strict order of the sort keys. -/
theorem CompareRankAndError_iff_sortKey (G : K) (dist : R → K) (a b : R) :
    CompareRankAndError G dist a b = true ↔ sortKey G dist a < sortKey G dist b := by
  unfold CompareRankAndError sortKey
  simp only
  by_cases ga : dist a > G <;> by_cases gb : dist b > G
  · simp only [ga, gb, or_self, if_true, Prod.Lex.lt_iff, ofLex_toLex, lt_self_iff_false,
      true_and, false_or, Nat.cast_lt, Nat.cast_inj]
    split_ifs with he
    · simp [he]
    · simp [he]
  · have hlt : dist b < dist a := lt_of_le_of_lt (not_lt.mp gb) ga
    simp only [ga, gb, or_false, or_true, if_true, if_false, Prod.Lex.lt_iff, ofLex_toLex,
      ne_of_gt hlt, decide_eq_true_eq]
    simp [not_lt.mpr (le_of_lt hlt)]
  · have hlt : dist a < dist b := lt_of_le_of_lt (not_lt.mp ga) gb
    simp only [ga, gb, or_false, or_true, if_true, if_false, Prod.Lex.lt_iff, ofLex_toLex,
      ne_of_lt hlt, decide_eq_true_eq]
    simp [hlt]
  · simp only [ga, gb, or_self, if_false, Prod.Lex.lt_iff, ofLex_toLex, lt_self_iff_false,
      true_and, false_or, Nat.cast_lt, Nat.cast_inj]
    split_ifs with he
    · simp [he]
    · simp only [decide_eq_true_eq]
      constructor
      · intro h; exact Or.inl h
      · rintro (h | ⟨h, _⟩)
        · exact h
        · exact absurd h he

/-- The relation "not ordered after" of `CompareRankAndError` is the weak order of the
sort keys. -/
theorem CompareRankAndError_false_iff (G : K) (dist : R → K) (a b : R) :
    CompareRankAndError G dist b a = false ↔ sortKey G dist a ≤ sortKey G dist b := by
  rw [← not_lt, ← CompareRankAndError_iff_sortKey, Bool.not_eq_true]

end CompareFacts

section SearchFacts

variable {K : Type} [LinearOrderedField K] {R : Type} [RefBase R]

/-- The vector has the requested length after `resize`. -/
theorem resize_length (v : List (Option R)) (n : Nat) : (resize v n).length = n := by
  simp only [resize, List.length_append, List.length_take, List.length_replicate]
  omega

/-- The contract of `partial_sort_copy` for the comparator `CompareRankAndError` when the
destination is not longer than the source: the destination holds `dst.length` elements
of the source in ascending order, and none of the elements left out is ordered before
one of them. -/
theorem partial_sort_copy_spec (G : K) (dist : R → K) (src : List R) (dst : List (Option R))
    (h : dst.length ≤ src.length) :
    ∃ best rest : List R,
      partial_sort_copy (CompareRankAndError G dist) src dst = best.map some ∧
      best.length = dst.length ∧ (best ++ rest).Perm src ∧
      best.Pairwise (fun x y => CompareRankAndError G dist y x = false) ∧
      ∀ x ∈ rest, ∀ y ∈ best, CompareRankAndError G dist x y = false := by
  haveI : IsTotal R (fun a b => CompareRankAndError G dist b a = false) :=
    ⟨fun a b => by
      simp only [CompareRankAndError_false_iff]
      exact le_total _ _⟩
  haveI : IsTrans R (fun a b => CompareRankAndError G dist b a = false) :=
    ⟨fun a b c => by
      simp only [CompareRankAndError_false_iff]
      exact le_trans⟩
  have hs := List.sorted_insertionSort (fun a b => CompareRankAndError G dist b a = false) src
  have hp := List.perm_insertionSort (fun a b => CompareRankAndError G dist b a = false) src
  have hlen : (src.insertionSort (fun a b => CompareRankAndError G dist b a = false)).length =
      src.length := hp.length_eq
  refine ⟨(src.insertionSort (fun a b => CompareRankAndError G dist b a = false)).take
      dst.length,
    (src.insertionSort (fun a b => CompareRankAndError G dist b a = false)).drop dst.length,
    ?_, ?_, ?_, ?_, ?_⟩
  · unfold partial_sort_copy
    simp only [Nat.min_eq_right h, List.drop_length, List.append_nil]
  · rw [List.length_take, hlen]
    exact Nat.min_eq_left h
  · rw [List.take_append_drop]
    exact hp
  · exact List.Pairwise.sublist (List.take_sublist _ _) hs
  · have hs' := hs
    unfold List.Sorted at hs'
    rw [← List.take_append_drop dst.length
      (src.insertionSort (fun a b => CompareRankAndError G dist b a = false)),
      List.pairwise_append] at hs'
    intro x hx y hy
    exact hs'.2.2 y hy x hx

end SearchFacts

section SearchClaim

variable {K : Type} [LinearOrderedField K] [FloorRing K]

/-- Claim C1: for every database, target and count `n` not above the number of stored
marks, `FindBestMarks` returns exactly `n` stored marks (the list `best`, the stored
marks being `best` and `rest` together), arranged so that no later one compares
strictly before an earlier one under `CompareRankAndError` for the target, and no
stored mark left out (`rest`) compares strictly before a returned one; `FindBestLines`
does the same for lines and a target line. -/
theorem FindBest_spec (M : CMath K) (cfg : Config K)
    (sBasisMarks : RefContainer (RefMark K)) (sBasisLines : RefContainer (RefLine K))
    (ap : XYPt K) (al : XYLine K) (vm : List (Option (RefMark K)))
    (vl : List (Option (RefLine K))) (n : Nat) :
    (n ≤ sBasisMarks.vec.length →
      ∃ best rest : List (RefMark K),
        FindBestMarks M cfg sBasisMarks ap vm n = best.map some ∧ best.length = n ∧
        (best ++ rest).Perm sBasisMarks.vec ∧
        best.Pairwise (fun x y => CompareRankAndError cfg.sGoodEnoughError
          (fun r => RefMark.DistanceTo M r ap) y x = false) ∧
        ∀ x ∈ rest, ∀ y ∈ best, CompareRankAndError cfg.sGoodEnoughError
          (fun r => RefMark.DistanceTo M r ap) x y = false) ∧
    (n ≤ sBasisLines.vec.length →
      ∃ best rest : List (RefLine K),
        FindBestLines M cfg sBasisLines al vl n = best.map some ∧ best.length = n ∧
        (best ++ rest).Perm sBasisLines.vec ∧
        best.Pairwise (fun x y => CompareRankAndError cfg.sGoodEnoughError
          (fun r => RefLine.DistanceTo M cfg r al) y x = false) ∧
        ∀ x ∈ rest, ∀ y ∈ best, CompareRankAndError cfg.sGoodEnoughError
          (fun r => RefLine.DistanceTo M cfg r al) x y = false) := by
  constructor
  · intro hn
    obtain ⟨best, rest, h1, h2, h3, h4, h5⟩ := partial_sort_copy_spec cfg.sGoodEnoughError
      (fun r => RefMark.DistanceTo M r ap) sBasisMarks.vec (resize vm n)
      (by rw [resize_length]; exact hn)
    exact ⟨best, rest, h1, by rw [h2, resize_length], h3, h4, h5⟩
  · intro hn
    obtain ⟨best, rest, h1, h2, h3, h4, h5⟩ := partial_sort_copy_spec cfg.sGoodEnoughError
      (fun r => RefLine.DistanceTo M cfg r al) sBasisLines.vec (resize vl n)
      (by rw [resize_length]; exact hn)
    exact ⟨best, rest, h1, by rw [h2, resize_length], h3, h4, h5⟩

end SearchClaim

section ContainerInvariant

variable {R : Type} [RefBase R]

/-- The rank maps are all empty after `Rebuild`. -/
theorem flatten_replicate_nil {α : Type} (n : Nat) :
    (List.replicate n ([] : List α)).flatten = [] := by
  induction n with
  | zero => rfl
  | succ n ih => simp [List.replicate_succ, ih]

/-- Modifying the list at an index within range so that an element is added there adds
the element to the concatenation, up to order. -/
theorem modify_flatten_perm {α : Type} (f : List α → List α) (e : α) :
    ∀ (maps : List (List α)) (i : Nat), i < maps.length →
      (∀ m, maps[i]? = some m → (f m).Perm (e :: m)) →
      (maps.modify f i).flatten.Perm (e :: maps.flatten)
  | [], i, hi, _ => absurd hi (Nat.not_lt_zero _)
  | m :: ms, 0, _, hf => by
    simp only [List.modify_zero_cons, List.flatten_cons]
    exact (List.Perm.append_right _ (hf m (by simp)))
  | m :: ms, i + 1, hi, hf => by
    simp only [List.modify_succ_cons, List.flatten_cons]
    have ih := modify_flatten_perm f e ms i (Nat.lt_of_succ_lt_succ hi)
      (fun m' hm' => hf m' (by simpa using hm'))
    exact (List.Perm.append_left m ih).trans List.perm_middle

/-- The invariant holds after `Rebuild` on a container with an empty buffer. -/
theorem RefContainer.Inv_Rebuild (sMaxRank : Nat) (c : RefContainer R) (h : c.buffer = []) :
    RefContainer.Inv sMaxRank (c.Rebuild sMaxRank) (c.Rebuild sMaxRank).buffer := by
  have hb : (c.Rebuild sMaxRank).buffer = [] := h
  have hm : (c.Rebuild sMaxRank).maps = List.replicate (1 + sMaxRank) [] := rfl
  have hv : (c.Rebuild sMaxRank).vec = [] := rfl
  rw [hb]
  refine ⟨?_, ?_, ?_, ?_, ?_, ?_, ?_, ?_⟩
  · rw [hm, flatten_replicate_nil]
    intro e he
    exact absurd he (List.not_mem_nil _)
  · intro e he
    exact absurd he (List.not_mem_nil _)
  · rw [hv]
    intro r hr
    exact absurd hr (List.not_mem_nil _)
  · rw [hv]
    exact List.nodup_nil
  · exact List.sorted_nil
  · rw [hm, List.length_replicate]
  · rw [hm, flatten_replicate_nil]
    exact List.nodup_nil
  · intro i m hm' e he
    rw [hm] at hm'
    have hmem : m ∈ List.replicate (1 + sMaxRank) ([] : map_t R) :=
      List.getElem?_mem hm'
    rw [List.eq_of_mem_replicate hmem] at he
    exact absurd he (List.not_mem_nil _)

/-- The invariant is kept by `Add` of an original with a non-zero key while the flat
array is empty. -/
theorem RefContainer.Inv_Add_seed (sMaxRank : Nat) (c : RefContainer R) (o : R)
    (h : RefContainer.Inv sMaxRank c c.buffer) (hv : c.vec = []) (hk : RefBase.mKey o ≠ 0)
    (hr : RefBase.mRank o ≤ sMaxRank) :
    RefContainer.Inv sMaxRank (c.Add o) (c.Add o).buffer := by
  have hb : (c.Add o).buffer = map_t.insert c.buffer (RefBase.mKey o, o) := rfl
  have hsorted := map_t.insert_sorted (e := (RefBase.mKey o, o)) h.sorted
  rw [hb]
  refine ⟨h.mapsOk, ?_, h.vecOk, ?_, hsorted, h.size, h.mapsNodup, h.rankOk⟩
  · intro e he
    rcases map_t.mem_insert he with he | he
    · exact h.restOk e he
    · rw [he]
      exact ⟨rfl, hk, hr⟩
  · show (c.vec.map RefBase.mKey ++ _).Nodup
    rw [hv]
    simp only [List.map_nil, List.nil_append]
    exact hsorted.nodup

/-- The invariant is kept by `AddCopyIfValidAndUnique` of a reference whose rank is
within the rank maps. -/
theorem RefContainer.Inv_AddCopy (sMaxRank : Nat) (c : RefContainer R) (ars : R)
    (h : RefContainer.Inv sMaxRank c c.buffer) (hr : RefBase.mRank ars ≤ sMaxRank) :
    RefContainer.Inv sMaxRank (c.AddCopyIfValidAndUnique ars)
      (c.AddCopyIfValidAndUnique ars).buffer := by
  unfold RefContainer.AddCopyIfValidAndUnique
  split_ifs with hc
  · obtain ⟨hk, hcont⟩ := hc
    have hfree := (RefContainer.Contains_eq_false_iff c ars).mp hcont
    have hb : (c.Add ars).buffer = map_t.insert c.buffer (RefBase.mKey ars, ars) := rfl
    have hperm : (map_t.insert c.buffer (RefBase.mKey ars, ars)).Perm
        ((RefBase.mKey ars, ars) :: c.buffer) :=
      map_t.insert_perm (fun x hx => hfree x (List.mem_append_right _ hx))
    rw [hb]
    refine ⟨h.mapsOk, ?_, h.vecOk, ?_, map_t.insert_sorted h.sorted, h.size, h.mapsNodup,
      h.rankOk⟩
    · intro e he
      rcases map_t.mem_insert he with he | he
      · exact h.restOk e he
      · rw [he]
        exact ⟨rfl, hk, hr⟩
    · show (c.vec.map RefBase.mKey ++ _).Nodup
      have hp : (c.vec.map RefBase.mKey ++
          (map_t.insert c.buffer (RefBase.mKey ars, ars)).map Prod.fst).Perm
          (RefBase.mKey ars :: (c.vec.map RefBase.mKey ++ c.buffer.map Prod.fst)) :=
        (List.Perm.append_left _ (hperm.map Prod.fst)).trans List.perm_middle
      rw [hp.nodup_iff, List.nodup_cons]
      refine ⟨?_, h.nodup⟩
      intro hmem
      rcases List.mem_append.mp hmem with hmem | hmem
      · obtain ⟨r, hr', hkr⟩ := List.mem_map.mp hmem
        have := (h.vecOk r hr').2
        exact hfree _ (List.mem_append_left _ this) hkr
      · obtain ⟨e, he, hke⟩ := List.mem_map.mp hmem
        exact hfree e (List.mem_append_right _ he) hke
  · exact h

/-- One step of the loop of `FlushBuffer` keeps the invariant, the entry moving from the
rest of the buffer to its rank map and the flat array. -/
theorem RefContainer.Inv_flushOne (sMaxRank : Nat) (c : RefContainer R) (e : Int × R)
    (rest : map_t R) (h : RefContainer.Inv sMaxRank c (e :: rest)) :
    RefContainer.Inv sMaxRank (RefContainer.flushOne c e) rest := by
  obtain ⟨hek, hk0, hrk⟩ := h.restOk e (List.mem_cons_self _ _)
  have hnd := h.nodup
  simp only [List.map_cons] at hnd
  have hnd' : (e.1 :: (c.vec.map RefBase.mKey ++ rest.map Prod.fst)).Nodup :=
    (List.perm_middle.nodup_iff).mp hnd
  rw [List.nodup_cons] at hnd'
  have hnotvec : e.1 ∉ c.vec.map RefBase.mKey :=
    fun hm => hnd'.1 (List.mem_append_left _ hm)
  have hfreeMaps : ∀ x ∈ c.maps.flatten, x.1 ≠ e.1 := by
    intro x hx hxe
    obtain ⟨hxk, hxv⟩ := h.mapsOk x hx
    apply hnotvec
    rw [← hxe, hxk]
    exact List.mem_map_of_mem _ hxv
  have hlt : RefBase.mRank e.2 < c.maps.length := by rw [h.size]; omega
  have hperm : ((c.maps.modify (fun m => map_t.insert m e) (RefBase.mRank e.2)).flatten).Perm
      (e :: c.maps.flatten) := by
    apply modify_flatten_perm _ _ _ _ hlt
    intro m hm
    apply map_t.insert_perm
    intro x hx
    exact hfreeMaps x (List.mem_flatten.mpr ⟨m, List.getElem?_mem hm, hx⟩)
  have hmaps : (RefContainer.flushOne c e).maps =
      c.maps.modify (fun m => map_t.insert m e) (RefBase.mRank e.2) := rfl
  have hvec : (RefContainer.flushOne c e).vec = c.vec ++ [e.2] := rfl
  refine ⟨?_, ?_, ?_, ?_, ?_, ?_, ?_, ?_⟩
  · intro x hx
    rw [hmaps] at hx
    rw [hvec]
    rcases List.mem_cons.mp (hperm.subset hx) with hx | hx
    · rw [hx]
      exact ⟨hek, List.mem_append_right _ (List.mem_singleton_self _)⟩
    · exact ⟨(h.mapsOk x hx).1, List.mem_append_left _ (h.mapsOk x hx).2⟩
  · intro x hx
    exact h.restOk x (List.mem_cons_of_mem _ hx)
  · intro r hr
    rw [hvec] at hr
    rw [hmaps]
    rcases List.mem_append.mp hr with hr | hr
    · exact ⟨(h.vecOk r hr).1, hperm.symm.subset (List.mem_cons_of_mem _ (h.vecOk r hr).2)⟩
    · rw [List.mem_singleton] at hr
      rw [hr]
      refine ⟨by rw [← hek]; exact hk0, ?_⟩
      apply hperm.symm.subset
      rw [← hek]
      exact List.mem_cons_self _ _
  · rw [hvec]
    simp only [List.map_append, List.map_cons, List.map_nil, List.append_assoc,
      List.singleton_append]
    rw [← hek]
    exact hnd
  · have hs := h.sorted
    simp only [List.map_cons, List.sorted_cons] at hs
    exact hs.2
  · rw [hmaps, List.length_modify]
    exact h.size
  · rw [hmaps]
    rw [(hperm.map Prod.fst).nodup_iff, List.map_cons, List.nodup_cons]
    refine ⟨?_, h.mapsNodup⟩
    intro hm
    obtain ⟨x, hx, hxe⟩ := List.mem_map.mp hm
    exact hfreeMaps x hx hxe
  · intro i m hm x hx
    rw [hmaps, List.getElem?_modify] at hm
    cases hci : c.maps[i]? with
    | none => rw [hci] at hm; exact Option.noConfusion hm
    | some m0 =>
      rw [hci] at hm
      simp only [Option.map_eq_map, Option.map_some', Option.some.injEq] at hm
      by_cases hri : RefBase.mRank e.2 = i
      · rw [if_pos hri] at hm
        rw [← hm] at hx
        rcases map_t.mem_insert hx with hx | hx
        · exact h.rankOk i m0 hci x hx
        · rw [hx]; exact hri
      · rw [if_neg hri] at hm
        rw [← hm] at hx
        exact h.rankOk i m0 hci x hx

/-- The loop of `FlushBuffer` keeps the invariant and empties the rest of the buffer. -/
theorem RefContainer.Inv_foldl_flushOne (sMaxRank : Nat) :
    ∀ (rest : map_t R) (c : RefContainer R), RefContainer.Inv sMaxRank c rest →
      RefContainer.Inv sMaxRank (rest.foldl RefContainer.flushOne c) []
  | [], _, h => h
  | e :: rest, c, h => by
    simp only [List.foldl_cons]
    exact RefContainer.Inv_foldl_flushOne sMaxRank rest _
      (RefContainer.Inv_flushOne sMaxRank c e rest h)

/-- The invariant is kept by `FlushBuffer`. -/
theorem RefContainer.Inv_FlushBuffer (sMaxRank : Nat) (c : RefContainer R)
    (h : RefContainer.Inv sMaxRank c c.buffer) :
    RefContainer.Inv sMaxRank c.FlushBuffer c.FlushBuffer.buffer := by
  have h1 := RefContainer.Inv_foldl_flushOne sMaxRank c.buffer c h
  exact ⟨h1.mapsOk, h1.restOk, h1.vecOk, h1.nodup, h1.sorted, h1.size, h1.mapsNodup,
    h1.rankOk⟩

/-- Every reachable container state satisfies the invariant, when the originals have
non-zero keys and ranks within the array of rank maps. -/
theorem RefContainer.Reachable.inv {sMaxRank : Nat} {originals : List R}
    {c : RefContainer R}
    (horig : ∀ o ∈ originals, RefBase.mKey o ≠ 0 ∧ RefBase.mRank o ≤ sMaxRank)
    (h : RefContainer.Reachable sMaxRank originals c) :
    RefContainer.Inv sMaxRank c c.buffer := by
  induction h with
  | rebuild c hb => exact RefContainer.Inv_Rebuild sMaxRank c hb
  | seed c o _ hv ho ih =>
    exact RefContainer.Inv_Add_seed sMaxRank c o ih hv (horig o ho).1 (horig o ho).2
  | addCopy c ars _ hr ih => exact RefContainer.Inv_AddCopy sMaxRank c ars ih hr
  | flush c _ ih => exact RefContainer.Inv_FlushBuffer sMaxRank c ih

end ContainerInvariant

section FlipFacts

variable {K : Type} [LinearOrderedField K]

/-- The canonical form of a line is the line itself or the line with `d` and `u`
negated. -/
theorem RefLine.canonical_cases (l : XYLine K) :
    RefLine.canonical l = l ∨ RefLine.canonical l = ⟨-l.d, ⟨-l.u.x, -l.u.y⟩⟩ := by
  unfold RefLine.canonical
  split_ifs
  · exact Or.inr rfl
  · exact Or.inl rfl

end FlipFacts

section BuildInduction

variable {K : Type} [LinearOrderedField K] [FloorRing K]

/-- The containers after `CheckDatabaseStatus` are the containers before. -/
theorem CheckDatabaseStatus_containers (cfg : Config K) (fn : Option DatabaseFn)
    (db : Database K) :
    (outcome (CheckDatabaseStatus cfg fn db)).sBasisLines = db.sBasisLines ∧
      (outcome (CheckDatabaseStatus cfg fn db)).sBasisMarks = db.sBasisMarks := by
  unfold CheckDatabaseStatus
  split_ifs
  · exact ⟨rfl, rfl⟩
  · unfold callDatabaseFn
    cases fn with
    | none => exact ⟨rfl, rfl⟩
    | some f =>
      simp only
      cases f db.nCalls ⟨.DATABASE_WORKING, db.sCurRank, db.GetNumLines, db.GetNumMarks⟩ <;>
        exact ⟨rfl, rfl⟩

/-- The containers after a callback are the containers before. -/
theorem callDatabaseFn_containers (fn : Option DatabaseFn) (status : DatabaseStatus)
    (rank : Nat) (db : Database K) :
    (callDatabaseFn fn status rank db).2.sBasisLines = db.sBasisLines ∧
      (callDatabaseFn fn status rank db).2.sBasisMarks = db.sBasisMarks := by
  unfold callDatabaseFn
  cases fn <;> exact ⟨rfl, rfl⟩

/-- A property of the state that holds after each of two steps holds after their
sequence. -/
theorem outcome_andThen (P : Database K → Prop) (r : Except (Database K) (Database K))
    (f : Database K → Except (Database K) (Database K))
    (hr : P (outcome r)) (hf : ∀ db, P db → P (outcome (f db))) :
    P (outcome (andThen r f)) := by
  cases r with
  | ok db => exact hf db hr
  | error db => exact hr

/-- A property of the state that the offering of a good line keeps, and that does not
depend on the counters, holds after the innermost statements of a line `MakeAll` for
good candidates. -/
theorem offerLines_keeps (cfg : Config K) (fn : Option DatabaseFn) (P : Database K → Prop)
    (GoodL : RefLine K → Prop)
    (hext : ∀ db db' : Database K, db'.sBasisLines = db.sBasisLines →
      db'.sBasisMarks = db.sBasisMarks → P db → P db')
    (hadd : ∀ (db : Database K) (r : RefLine K), P db →
      db.GetNumLines < cfg.sMaxLines → GoodL r →
      P { db with sBasisLines := db.sBasisLines.AddCopyIfValidAndUnique r }) :
    ∀ (cands : List (LineCand K)) (db : Database K),
      (∀ c ∈ cands, ∀ st, GoodL (c st).1) → P db → P (outcome (offerLines cfg fn cands db))
  | [], db, _, h => h
  | c :: cs, db, hc, h => by
    unfold offerLines
    split_ifs with hcap
    · exact h
    · simp only
      apply outcome_andThen P
      · have h1 := hadd db (c db.sP2L_P2L).1 h (not_le.mp hcap)
          (hc c (List.mem_cons_self _ _) _)
        have hcc := CheckDatabaseStatus_containers cfg fn
          { db with
            sBasisLines := db.sBasisLines.AddCopyIfValidAndUnique (c db.sP2L_P2L).1
            sP2L_P2L := (c db.sP2L_P2L).2 }
        have h2 : P { db with
            sBasisLines := db.sBasisLines.AddCopyIfValidAndUnique (c db.sP2L_P2L).1
            sP2L_P2L := (c db.sP2L_P2L).2 } := by
          refine hext _ _ ?_ ?_ h1 <;> rfl
        exact hext _ _ hcc.1 hcc.2 h2
      · intro db' h'
        exact offerLines_keeps cfg fn P GoodL hext hadd cs db'
          (fun c' hc' => hc c' (List.mem_cons_of_mem _ hc')) h'

/-- The counterpart of `offerLines_keeps` for `RefMark_Intersection::MakeAll`. -/
theorem offerMarks_keeps (cfg : Config K) (fn : Option DatabaseFn) (P : Database K → Prop)
    (GoodM : RefMark K → Prop)
    (hext : ∀ db db' : Database K, db'.sBasisLines = db.sBasisLines →
      db'.sBasisMarks = db.sBasisMarks → P db → P db')
    (hadd : ∀ (db : Database K) (r : RefMark K), P db →
      db.GetNumMarks < cfg.sMaxMarks → GoodM r →
      P { db with sBasisMarks := db.sBasisMarks.AddCopyIfValidAndUnique r }) :
    ∀ (cands : List (RefMark K)) (db : Database K),
      (∀ c ∈ cands, GoodM c) → P db → P (outcome (offerMarks cfg fn cands db))
  | [], db, _, h => h
  | c :: cs, db, hc, h => by
    unfold offerMarks
    split_ifs with hcap
    · exact h
    · simp only
      apply outcome_andThen P
      · have h1 := hadd db c h (not_le.mp hcap) (hc c (List.mem_cons_self _ _))
        have hcc := CheckDatabaseStatus_containers cfg fn
          { db with sBasisMarks := db.sBasisMarks.AddCopyIfValidAndUnique c }
        exact hext _ _ hcc.1 hcc.2 h1
      · intro db' h'
        exact offerMarks_keeps cfg fn P GoodM hext hadd cs db'
          (fun c' hc' => hc c' (List.mem_cons_of_mem _ hc')) h'

/-- A step `if (flag) X::MakeAll(arank);` keeps what the method keeps. -/
theorem whenUsed_keeps (P : Database K → Prop) (flag : Bool)
    (f : Database K → Except (Database K) (Database K)) (db : Database K)
    (hf : P db → P (outcome (f db))) (h : P db) : P (outcome (whenUsed flag f db)) := by
  unfold whenUsed
  split_ifs
  · exact hf h
  · exact h

/-- A property of the database that the offering of good references and `FlushBuffer`
keep, and that does not depend on the counters, holds when
`MakeAllMarksAndLinesOfRank` ends, normally or by `EXC_HALT`, provided that the
candidates computed from any state with the property are good. -/
theorem MakeAllMarksAndLinesOfRank_keeps (M : CMath K) (cfg : Config K)
    (fn : Option DatabaseFn) (P : Database K → Prop)
    (GoodL : RefLine K → Prop) (GoodM : RefMark K → Prop)
    (hext : ∀ db db' : Database K, db'.sBasisLines = db.sBasisLines →
      db'.sBasisMarks = db.sBasisMarks → P db → P db')
    (haddL : ∀ (db : Database K) (r : RefLine K), P db →
      db.GetNumLines < cfg.sMaxLines → GoodL r →
      P { db with sBasisLines := db.sBasisLines.AddCopyIfValidAndUnique r })
    (haddM : ∀ (db : Database K) (r : RefMark K), P db →
      db.GetNumMarks < cfg.sMaxMarks → GoodM r →
      P { db with sBasisMarks := db.sBasisMarks.AddCopyIfValidAndUnique r })
    (hflushL : ∀ db : Database K, P db →
      P { db with sBasisLines := db.sBasisLines.FlushBuffer })
    (hflushM : ∀ db : Database K, P db →
      P { db with sBasisMarks := db.sBasisMarks.FlushBuffer })
    (arank : Nat)
    (hcandL : ∀ db : Database K, P db → ∀ c ∈ lineCandidates M cfg db arank, ∀ st,
      GoodL (c st).1)
    (hcandM : ∀ db : Database K, P db → ∀ m ∈ markCandidates cfg db arank, GoodM m)
    (db : Database K) (h : P db) :
    P (outcome (MakeAllMarksAndLinesOfRank M cfg fn arank db)) := by
  have hL : ∀ (cands : Database K → List (LineCand K)),
      (∀ d, ∀ c ∈ cands d, c ∈ lineCandidates M cfg d arank) →
      ∀ d, P d → P (outcome (offerLines cfg fn (cands d) d)) := by
    intro cands hsub d hd
    exact offerLines_keeps cfg fn P GoodL hext haddL (cands d) d
      (fun c hc st => hcandL d hd c (hsub d c hc) st) hd
  unfold MakeAllMarksAndLinesOfRank
  simp only
  apply outcome_andThen P
  · apply whenUsed_keeps P
    · exact hL (fun d => RefLine_L2L.candidates M cfg d arank)
        (fun d c hc => by simp only [lineCandidates, List.mem_append]; tauto) _
    · exact hext db _ rfl rfl h
  intro db1 h1
  apply outcome_andThen P
  · exact whenUsed_keeps P _ _ _ (hL (fun d => RefLine_P2P.candidates M cfg d arank)
      (fun d c hc => by simp only [lineCandidates, List.mem_append]; tauto) _) h1
  intro db2 h2
  apply outcome_andThen P
  · exact whenUsed_keeps P _ _ _ (hL (fun d => RefLine_L2L_P2L.candidates M cfg d arank)
      (fun d c hc => by simp only [lineCandidates, List.mem_append]; tauto) _) h2
  intro db3 h3
  apply outcome_andThen P
  · exact whenUsed_keeps P _ _ _ (hL (fun d => RefLine_P2L_P2L.candidates M cfg d arank)
      (fun d c hc => by simp only [lineCandidates, List.mem_append]; tauto) _) h3
  intro db4 h4
  apply outcome_andThen P
  · exact whenUsed_keeps P _ _ _ (hL (fun d => RefLine_P2L_C2P.candidates M cfg d arank)
      (fun d c hc => by simp only [lineCandidates, List.mem_append]; tauto) _) h4
  intro db5 h5
  apply outcome_andThen P
  · exact whenUsed_keeps P _ _ _ (hL (fun d => RefLine_L2L_C2P.candidates M cfg d arank)
      (fun d c hc => by simp only [lineCandidates, List.mem_append]; tauto) _) h5
  intro db6 h6
  apply outcome_andThen P
  · exact whenUsed_keeps P _ _ _ (hL (fun d => RefLine_C2P_C2P.candidates M cfg d arank)
      (fun d c hc => by simp only [lineCandidates, List.mem_append]; tauto) _) h6
  intro db7 h7
  have h8 := hflushL db7 h7
  apply outcome_andThen P
  · exact offerMarks_keeps cfg fn P GoodM hext haddM _ _
      (fun m hm => hcandM _ h8 m hm) h8
  intro db9 h9
  have h10 := hflushM db9 h9
  have hcc := callDatabaseFn_containers fn .DATABASE_RANK_COMPLETE arank
    { db9 with sBasisMarks := db9.sBasisMarks.FlushBuffer }
  have h11 := hext _ _ hcc.1 hcc.2 h10
  split <;> rename_i heq <;> rw [heq] at h11 <;> exact h11

/-- The counterpart of `MakeAllMarksAndLinesOfRank_keeps` for the loop over the ranks. -/
theorem buildRanks_keeps (M : CMath K) (cfg : Config K)
    (fn : Option DatabaseFn) (P : Database K → Prop)
    (GoodL : RefLine K → Prop) (GoodM : RefMark K → Prop)
    (hext : ∀ db db' : Database K, db'.sBasisLines = db.sBasisLines →
      db'.sBasisMarks = db.sBasisMarks → P db → P db')
    (haddL : ∀ (db : Database K) (r : RefLine K), P db →
      db.GetNumLines < cfg.sMaxLines → GoodL r →
      P { db with sBasisLines := db.sBasisLines.AddCopyIfValidAndUnique r })
    (haddM : ∀ (db : Database K) (r : RefMark K), P db →
      db.GetNumMarks < cfg.sMaxMarks → GoodM r →
      P { db with sBasisMarks := db.sBasisMarks.AddCopyIfValidAndUnique r })
    (hflushL : ∀ db : Database K, P db →
      P { db with sBasisLines := db.sBasisLines.FlushBuffer })
    (hflushM : ∀ db : Database K, P db →
      P { db with sBasisMarks := db.sBasisMarks.FlushBuffer }) :
    ∀ (ranks : List Nat),
      (∀ arank ∈ ranks, ∀ db : Database K, P db →
        (∀ c ∈ lineCandidates M cfg db arank, ∀ st, GoodL (c st).1) ∧
        (∀ m ∈ markCandidates cfg db arank, GoodM m)) →
      ∀ db : Database K, P db → P (outcome (buildRanks M cfg fn ranks db))
  | [], _, db, h => h
  | arank :: rest, hc, db, h => by
    unfold buildRanks
    apply outcome_andThen P
    · exact MakeAllMarksAndLinesOfRank_keeps M cfg fn P GoodL GoodM hext haddL haddM
        hflushL hflushM arank
        (fun d hd => (hc arank (List.mem_cons_self _ _) d hd).1)
        (fun d hd => (hc arank (List.mem_cons_self _ _) d hd).2) db h
    · intro db1 h1
      exact buildRanks_keeps M cfg fn P GoodL GoodM hext haddL haddM hflushL hflushM rest
        (fun a ha => hc a (List.mem_cons_of_mem _ ha)) db1 h1

/-- The container of lines after the seeding: `Rebuild`, the six `Add` calls, and
`FlushBuffer`. -/
theorem seedOriginals_lines (M : CMath K) (cfg : Config K) (fn : Option DatabaseFn)
    (db : Database K) :
    (seedOriginals M cfg fn db).sBasisLines =
      ((originalLines M cfg).foldl RefContainer.Add
        (db.sBasisLines.Rebuild cfg.sMaxRank)).FlushBuffer := by
  have h : (originalLines M cfg).foldl RefContainer.Add (db.sBasisLines.Rebuild cfg.sMaxRank)
      = ((originalLines M cfg).drop 4).foldl RefContainer.Add
        (((originalLines M cfg).take 4).foldl RefContainer.Add
          (db.sBasisLines.Rebuild cfg.sMaxRank)) := by
    rw [← List.foldl_append, List.take_append_drop]
  rw [h]
  unfold seedOriginals callDatabaseFn
  cases fn <;> rfl

/-- The container of marks after the seeding: `Rebuild`, the four `Add` calls, and
`FlushBuffer`. -/
theorem seedOriginals_marks (M : CMath K) (cfg : Config K) (fn : Option DatabaseFn)
    (db : Database K) :
    (seedOriginals M cfg fn db).sBasisMarks =
      ((originalMarks cfg).foldl RefContainer.Add
        (db.sBasisMarks.Rebuild cfg.sMaxRank)).FlushBuffer := by
  unfold seedOriginals callDatabaseFn
  cases fn <;> rfl

/-- A property of the database that holds after the seeding and is kept by the offering
of good references and by `FlushBuffer` holds of the state that `MakeAllMarksAndLines`
reaches before it clears the rank maps, whether the build was cancelled or not. -/
theorem MakeAllMarksAndLines_keeps (M : CMath K) (cfg : Config K)
    (fn : Option DatabaseFn) (P : Database K → Prop)
    (GoodL : RefLine K → Prop) (GoodM : RefMark K → Prop)
    (hext : ∀ db db' : Database K, db'.sBasisLines = db.sBasisLines →
      db'.sBasisMarks = db.sBasisMarks → P db → P db')
    (haddL : ∀ (db : Database K) (r : RefLine K), P db →
      db.GetNumLines < cfg.sMaxLines → GoodL r →
      P { db with sBasisLines := db.sBasisLines.AddCopyIfValidAndUnique r })
    (haddM : ∀ (db : Database K) (r : RefMark K), P db →
      db.GetNumMarks < cfg.sMaxMarks → GoodM r →
      P { db with sBasisMarks := db.sBasisMarks.AddCopyIfValidAndUnique r })
    (hflushL : ∀ db : Database K, P db →
      P { db with sBasisLines := db.sBasisLines.FlushBuffer })
    (hflushM : ∀ db : Database K, P db →
      P { db with sBasisMarks := db.sBasisMarks.FlushBuffer })
    (hcand : ∀ arank, 1 ≤ arank → arank ≤ cfg.sMaxRank → ∀ db : Database K, P db →
        (∀ c ∈ lineCandidates M cfg db arank, ∀ st, GoodL (c st).1) ∧
        (∀ m ∈ markCandidates cfg db arank, GoodM m))
    (db : Database K) (h : P (seedOriginals M cfg fn db)) :
    ∃ db2 : Database K, P db2 ∧
      (MakeAllMarksAndLines M cfg fn db).sBasisLines = db2.sBasisLines.ClearMaps ∧
      (MakeAllMarksAndLines M cfg fn db).sBasisMarks = db2.sBasisMarks.ClearMaps := by
  have hb := buildRanks_keeps M cfg fn P GoodL GoodM hext haddL haddM hflushL hflushM
    ((List.range cfg.sMaxRank).map (fun i => i + 1))
    (fun arank ha => by
      simp only [List.mem_map, List.mem_range] at ha
      obtain ⟨i, hi, rfl⟩ := ha
      exact hcand (i + 1) (by omega) (by omega))
    _ h
  unfold MakeAllMarksAndLines
  simp only
  cases hr : buildRanks M cfg fn ((List.range cfg.sMaxRank).map (fun i => i + 1))
      (seedOriginals M cfg fn db) with
  | ok d =>
    rw [hr] at hb
    refine ⟨d, hb, ?_, ?_⟩
    · exact (callDatabaseFn_containers fn _ _ _).1
    · exact (callDatabaseFn_containers fn _ _ _).2
  | error d =>
    rw [hr] at hb
    refine ⟨{ d with
        sBasisLines := d.sBasisLines.FlushBuffer
        sBasisMarks := d.sBasisMarks.FlushBuffer }, ?_, ?_, ?_⟩
    · have h1 := hflushM _ (hflushL d hb)
      exact h1
    · exact (callDatabaseFn_containers fn _ _ _).1
    · exact (callDatabaseFn_containers fn _ _ _).2

end BuildInduction

section FilterFacts

variable {K : Type} [LinearOrderedField K] [FloorRing K]

end FilterFacts

section StoredFacts

variable {R : Type} [RefBase R]

/-- The flat array after the loop of `FlushBuffer` over `rest`. -/
theorem RefContainer.foldl_flushOne_vec :
    ∀ (rest : map_t R) (c : RefContainer R),
      (rest.foldl RefContainer.flushOne c).vec = c.vec ++ rest.map Prod.snd
  | [], c => by simp
  | e :: rest, c => by
    simp only [List.foldl_cons, List.map_cons]
    rw [RefContainer.foldl_flushOne_vec rest]
    simp [RefContainer.flushOne]

/-- The method `FlushBuffer` appends the buffered references to the flat array. -/
theorem RefContainer.FlushBuffer_vec (c : RefContainer R) :
    c.FlushBuffer.vec = c.vec ++ c.buffer.map Prod.snd :=
  RefContainer.foldl_flushOne_vec c.buffer c

/-- The method `Add` stores the reference or leaves the buffer as it is. -/
theorem RefContainer.AllStored_Add (V : R → Prop) (c : RefContainer R) (r : R)
    (h : RefContainer.AllStored V c) (hr : V r) : RefContainer.AllStored V (c.Add r) := by
  refine ⟨h.1, fun e he => ?_⟩
  rcases map_t.mem_insert he with h1 | h1
  · exact h.2 e h1
  · rw [h1]; exact hr

/-- The method `AddCopyIfValidAndUnique` stores nothing with key 0. -/
theorem RefContainer.AllStored_AddCopy (V : R → Prop) (c : RefContainer R) (r : R)
    (h : RefContainer.AllStored V c) (hr : RefBase.mKey r ≠ 0 → V r) :
    RefContainer.AllStored V (c.AddCopyIfValidAndUnique r) := by
  unfold RefContainer.AddCopyIfValidAndUnique
  split_ifs with hc
  · exact RefContainer.AllStored_Add V c r h (hr hc.1)
  · exact h

/-- The method `FlushBuffer` moves the references and adds none. -/
theorem RefContainer.AllStored_FlushBuffer (V : R → Prop) (c : RefContainer R)
    (h : RefContainer.AllStored V c) : RefContainer.AllStored V c.FlushBuffer := by
  refine ⟨fun r hr => ?_, fun e he => absurd he (List.not_mem_nil _)⟩
  rw [RefContainer.FlushBuffer_vec, List.mem_append, List.mem_map] at hr
  rcases hr with h1 | ⟨e, he, rfl⟩
  · exact h.1 r h1
  · exact h.2 e he

/-- A sequence of `Add` calls stores only what it is given. -/
theorem RefContainer.AllStored_foldl_Add (V : R → Prop) :
    ∀ (os : List R) (c : RefContainer R), RefContainer.AllStored V c → (∀ o ∈ os, V o) →
      RefContainer.AllStored V (os.foldl RefContainer.Add c)
  | [], _, h, _ => h
  | o :: os, c, h, ho => by
    simp only [List.foldl_cons]
    exact RefContainer.AllStored_foldl_Add V os _
      (RefContainer.AllStored_Add V c o h (ho o (List.mem_cons_self _ _)))
      (fun o' ho' => ho o' (List.mem_cons_of_mem _ ho'))

/-- After `Rebuild` of a container with an empty buffer nothing is stored. -/
theorem RefContainer.AllStored_Rebuild (V : R → Prop) (sMaxRank : Nat) (c : RefContainer R)
    (h : c.buffer = []) : RefContainer.AllStored V (c.Rebuild sMaxRank) := by
  refine ⟨fun r hr => absurd hr (List.not_mem_nil _), fun e he => ?_⟩
  have hb : (c.Rebuild sMaxRank).buffer = [] := h
  rw [hb] at he
  exact absurd he (List.not_mem_nil _)

end StoredFacts

section FilterClaim

variable {K : Type} [LinearOrderedField K] [FloorRing K]

end FilterClaim

section KeysFacts

variable {R : Type} [RefBase R]

/-- The invariant of the container gives the property of the keys. -/
theorem RefContainer.Inv.keysOk {sMaxRank : Nat} {c : RefContainer R}
    (h : RefContainer.Inv sMaxRank c c.buffer) : RefContainer.KeysOk c := by
  have hmapFst : c.maps.flatten.map (fun e => RefBase.mKey e.2) =
      c.maps.flatten.map Prod.fst :=
    List.map_congr_left (fun e he => (h.mapsOk e he).1.symm)
  have hbufFst : c.buffer.map (fun e => RefBase.mKey e.2) = c.buffer.map Prod.fst :=
    List.map_congr_left (fun e he => (h.restOk e he).1.symm)
  refine ⟨fun e he => ?_, fun r hr => (h.vecOk r hr).1, ?_, ?_⟩
  · rcases List.mem_append.mp he with h1 | h1
    · exact (h.vecOk e.2 (h.mapsOk e h1).2).1
    · rw [← (h.restOk e h1).1]; exact (h.restOk e h1).2.1
  · rw [List.map_append, hmapFst, hbufFst, List.nodup_append]
    refine ⟨h.mapsNodup, (List.nodup_append.mp h.nodup).2.1, ?_⟩
    intro k hk1 hk2
    obtain ⟨e, he, rfl⟩ := List.mem_map.mp hk1
    have hv : e.1 ∈ c.vec.map RefBase.mKey := by
      rw [(h.mapsOk e he).1]
      exact List.mem_map.mpr ⟨e.2, (h.mapsOk e he).2, rfl⟩
    exact (List.nodup_append.mp h.nodup).2.2 hv hk2
  · rw [hbufFst]; exact h.nodup

/-- The method `ClearMaps` keeps the property of the keys. -/
theorem RefContainer.KeysOk_ClearMaps {c : RefContainer R} (h : RefContainer.KeysOk c) :
    RefContainer.KeysOk c.ClearMaps := by
  have hm : c.ClearMaps.maps.flatten = [] := by
    show (c.maps.map (fun _ => ([] : map_t R))).flatten = []
    induction c.maps with
    | nil => rfl
    | cons m ms ih =>
      simp only [List.map_cons, List.flatten_cons, List.nil_append]
      exact ih
  have hb : c.ClearMaps.buffer = c.buffer := rfl
  have hv : c.ClearMaps.vec = c.vec := rfl
  refine ⟨fun e he => ?_, ?_, ?_, ?_⟩
  · rw [hm, hb, List.nil_append] at he
    exact h.1 e (List.mem_append_right _ he)
  · rw [hv]; exact h.2.1
  · rw [hm, hb, List.nil_append]
    exact (List.nodup_append.mp h.2.2.2).2.1
  · rw [hv, hb]; exact h.2.2.2

end KeysFacts

section LoopFacts

/-- The values of a loop `for (i = 0; i <= b; i++)`. -/
theorem mem_rankLoop {b : Int} {i : Nat} (h : i ∈ rankLoop b) : (i : Int) ≤ b := by
  unfold rankLoop at h
  rw [List.mem_range] at h
  omega

/-- The conversion of a non-negative `int` to `rank_t` does not increase it. -/
theorem toRank_le {x : Int} (hx : 0 ≤ x) : (toRank x : Int) ≤ x := by
  unfold toRank
  omega

/-- The pairs of the `sameRank` double loop are pairs of entries of the map. -/
theorem lowerPairs.go_mem {α : Type} :
    ∀ (l seen : List α) (pr : α × α), pr ∈ lowerPairs.go seen l →
      pr.1 ∈ l ∧ (pr.2 ∈ seen ∨ pr.2 ∈ l)
  | [], _, pr, h => absurd h (List.not_mem_nil _)
  | x :: rest, seen, pr, h => by
    simp only [lowerPairs.go, List.mem_append, List.mem_map] at h
    rcases h with ⟨y, hy, rfl⟩ | h
    · exact ⟨List.mem_cons_self _ _, Or.inl hy⟩
    · obtain ⟨h1, h2⟩ := lowerPairs.go_mem rest (seen ++ [x]) pr h
      refine ⟨List.mem_cons_of_mem _ h1, ?_⟩
      rcases h2 with h2 | h2
      · rcases List.mem_append.mp h2 with h3 | h3
        · exact Or.inl h3
        · rw [List.mem_singleton] at h3
          rw [h3]; exact Or.inr (List.mem_cons_self _ _)
      · exact Or.inr (List.mem_cons_of_mem _ h2)

/-- The pairs of the `sameRank` double loop are pairs of entries of the map. -/
theorem lowerPairs_mem {α : Type} (l : List α) (pr : α × α) (h : pr ∈ lowerPairs l) :
    pr.1 ∈ l ∧ pr.2 ∈ l := by
  cases l with
  | nil => exact absurd h (List.not_mem_nil _)
  | cons x rest =>
    obtain ⟨h1, h2⟩ := lowerPairs.go_mem rest [x] pr h
    refine ⟨List.mem_cons_of_mem _ h1, ?_⟩
    rcases h2 with h2 | h2
    · rw [List.mem_singleton] at h2
      rw [h2]; exact List.mem_cons_self _ _
    · exact List.mem_cons_of_mem _ h2

end LoopFacts

section RankBound

variable {R : Type} [RefBase R]

/-- The entries of the rank map `maps[i]` have rank `i`. -/
theorem rankEntries_rank {sMaxRank : Nat} {c : RefContainer R}
    (h : RefContainer.Inv sMaxRank c c.buffer) (i : Nat) :
    ∀ e ∈ rankEntries c i, RefBase.mRank e.2 = i := by
  intro e he
  unfold rankEntries at he
  rw [List.getD_eq_getElem?_getD] at he
  cases hm : c.maps[i]? with
  | none =>
    rw [hm] at he
    exact absurd he (List.not_mem_nil _)
  | some m =>
    rw [hm] at he
    exact h.rankOk i m hm e he

/-- The pairs that a symmetric binary `MakeAll` visits for `irank`, `jrank` have these
ranks. -/
theorem pairsOfRanks_rank {sMaxRank : Nat} {c : RefContainer R}
    (h : RefContainer.Inv sMaxRank c c.buffer) (i j : Nat) :
    ∀ pr ∈ pairsOfRanks c i j, RefBase.mRank pr.1 = i ∧ RefBase.mRank pr.2 = j := by
  intro pr hpr
  unfold pairsOfRanks at hpr
  split_ifs at hpr with hij
  · rw [List.mem_map] at hpr
    obtain ⟨ee, hee, rfl⟩ := hpr
    obtain ⟨h1, h2⟩ := lowerPairs_mem _ ee hee
    exact ⟨rankEntries_rank h i _ h1, by rw [← hij]; exact rankEntries_rank h i _ h2⟩
  · simp only [List.mem_flatMap, List.mem_map] at hpr
    obtain ⟨mi, hmi, mj, hmj, rfl⟩ := hpr
    exact ⟨rankEntries_rank h i _ hmi, rankEntries_rank h j _ hmj⟩

/-- The ranks of a pair that `linePairs` gives for `arank >= 1` add up to at most
`arank - 1`. -/
theorem linePairs_rank {sMaxRank : Nat} {c : RefContainer R}
    (h : RefContainer.Inv sMaxRank c c.buffer) (arank : Nat) (ha : 1 ≤ arank) :
    ∀ pr ∈ linePairs c arank, RefBase.mRank pr.1 + RefBase.mRank pr.2 + 1 ≤ arank := by
  intro pr hpr
  unfold linePairs at hpr
  rw [List.mem_flatMap] at hpr
  obtain ⟨irank, hi, hpr⟩ := hpr
  have hi1 := mem_rankLoop hi
  rw [Int.tdiv_eq_ediv (by omega) (by omega)] at hi1
  obtain ⟨h1, h2⟩ := pairsOfRanks_rank h _ _ pr hpr
  have h3 := toRank_le (x := (arank : Int) - irank - 1) (by omega)
  rw [h1, h2]
  omega

end RankBound
section CandidateRanks

variable {K : Type} [LinearOrderedField K] [FloorRing K]

/-- Every object that a line `MakeAll` of `MakeAllMarksAndLinesOfRank(arank)` passes to
the container has a rank of at most `arank`, when the rank maps hold references of
their rank. -/
theorem lineCandidates_rank (M : CMath K) (cfg : Config K) (db : Database K)
    (sMaxRank arank : Nat) (ha : 1 ≤ arank)
    (hL : RefContainer.Inv sMaxRank db.sBasisLines db.sBasisLines.buffer)
    (hM : RefContainer.Inv sMaxRank db.sBasisMarks db.sBasisMarks.buffer) :
    ∀ c ∈ lineCandidates M cfg db arank, ∀ st, (c st).1.mRank ≤ arank := by
  intro c hc st
  simp only [lineCandidates, List.mem_append, RefLine_L2L.candidates, RefLine_P2P.candidates,
    RefLine_L2L_P2L.candidates, RefLine_P2L_P2L.candidates, RefLine_P2L_C2P.candidates,
    RefLine_L2L_C2P.candidates, RefLine_C2P_C2P.candidates, List.mem_map, List.mem_flatMap,
    List.mem_cons, List.mem_singleton, List.not_mem_nil, or_false] at hc
  have hmod : ∀ n : Nat, n ≤ arank → n % 65536 ≤ arank :=
    fun n hn => le_trans (Nat.mod_le _ _) hn
  have hO3 : ∀ t ∈ linePairs db.sBasisLines arank, ∀ iroot,
      (RefLine_L2L M cfg t.1 t.2 iroot).mRank ≤ arank := by
    intro t ht iroot
    rw [RefLine_L2L_mRank]
    have := linePairs_rank hL arank ha t ht
    exact hmod _ (by simp only [RefBase.mRank] at this; omega)
  have hO6 : ∀ t ∈ RefLine_P2L_P2L.tuples db arank, ∀ iroot,
      (RefLine_P2L_P2L M cfg st t.1 t.2.1 t.2.2.1 t.2.2.2 iroot).1.mRank ≤ arank := by
    intro t ht iroot
    rw [RefLine_P2L_P2L_mRank]
    simp only [RefLine_P2L_P2L.tuples, List.mem_flatMap] at ht
    obtain ⟨psrank, hps, lsrank, hls, irank, hi, krank, hk, lrank, hl, mm, hmm, lk, hlk,
      ll, hll, ht⟩ := ht
    split_ifs at ht
    · rw [List.mem_singleton] at ht
      subst ht
      have hps1 := mem_rankLoop hps
      have hls1 := mem_rankLoop hls
      have hi1 := mem_rankLoop hi
      have hk1 := mem_rankLoop hk
      have hl1 := mem_rankLoop hl
      rw [Int.tdiv_eq_ediv (by omega) (by omega)] at hi1
      obtain ⟨e1, e2⟩ := pairsOfRanks_rank hM _ _ mm hmm
      have e3 := rankEntries_rank hL _ lk hlk
      have e4 := rankEntries_rank hL _ ll hll
      have e5 := toRank_le (x := (psrank : Int) - irank) (by omega)
      simp only [RefBase.mRank] at e1 e2 e3 e4
      exact hmod _ (by simp only []; omega)
    · exact absurd ht (List.not_mem_nil _)
  have hO5 : ∀ t ∈ RefLine_P2L_C2P.tuples db arank, ∀ iroot,
      (RefLine_P2L_C2P M cfg t.1 t.2.1 t.2.2 iroot).mRank ≤ arank := by
    intro t ht iroot
    rw [RefLine_P2L_C2P_mRank]
    simp only [RefLine_P2L_C2P.tuples, List.mem_flatMap] at ht
    obtain ⟨irank, hi, jrank, hj, mi, hmi, lj, hlj, mk, hmk, ht⟩ := ht
    split_ifs at ht
    · rw [List.mem_singleton] at ht
      subst ht
      have hi1 := mem_rankLoop hi
      have hj1 := mem_rankLoop hj
      have e1 := rankEntries_rank hM _ mi hmi
      have e2 := rankEntries_rank hL _ lj hlj
      have e3 := rankEntries_rank hM _ mk hmk
      have e5 := toRank_le (x := (arank : Int) - irank - jrank - 1) (by omega)
      simp only [RefBase.mRank] at e1 e2 e3
      exact hmod _ (by simp only []; omega)
    · exact absurd ht (List.not_mem_nil _)
  rcases hc with (((((⟨t, ht, rfl | rfl⟩ | ⟨t, ht, rfl⟩) | ⟨t, ht, rfl⟩) |
    ⟨t, ht, rfl | rfl | rfl⟩) | ⟨t, ht, rfl | rfl⟩) | ⟨t, ht, rfl⟩) | ⟨t, ht, rfl⟩
  · exact hO3 t ht 0
  · exact hO3 t ht 1
  · show (RefLine_P2P M cfg t.1 t.2).mRank ≤ arank
    rw [RefLine_P2P_mRank]
    have := linePairs_rank hM arank ha t ht
    exact hmod _ (by simp only [RefBase.mRank] at this; omega)
  · show (RefLine_L2L_P2L M cfg t.1 t.2.1 t.2.2).mRank ≤ arank
    rw [RefLine_L2L_P2L_mRank]
    simp only [RefLine_L2L_P2L.tuples, List.mem_flatMap] at ht
    obtain ⟨irank, hi, jrank, hj, li, hli, mj, hmj, lk, hlk, ht⟩ := ht
    split_ifs at ht
    · rw [List.mem_singleton] at ht
      subst ht
      have hi1 := mem_rankLoop hi
      have hj1 := mem_rankLoop hj
      have e1 := rankEntries_rank hL _ li hli
      have e2 := rankEntries_rank hM _ mj hmj
      have e3 := rankEntries_rank hL _ lk hlk
      have e5 := toRank_le (x := (arank : Int) - irank - jrank - 1) (by omega)
      simp only [RefBase.mRank] at e1 e2 e3
      exact hmod _ (by simp only []; omega)
    · exact absurd ht (List.not_mem_nil _)
  · exact hO6 t ht 0
  · exact hO6 t ht 1
  · exact hO6 t ht 2
  · exact hO5 t ht 0
  · exact hO5 t ht 0
  · show (RefLine_L2L_C2P M cfg t.1 t.2).mRank ≤ arank
    rw [RefLine_L2L_C2P_mRank]
    simp only [RefLine_L2L_C2P.tuples, List.mem_flatMap, List.mem_map] at ht
    obtain ⟨irank, hi, li, hli, mj, hmj, ht⟩ := ht
    subst ht
    have hi1 := mem_rankLoop hi
    have e1 := rankEntries_rank hL _ li hli
    have e2 := rankEntries_rank hM _ mj hmj
    have e5 := toRank_le (x := (arank : Int) - irank - 1) (by omega)
    simp only [RefBase.mRank] at e1 e2
    exact hmod _ (by simp only []; omega)
  · show (RefLine_C2P_C2P M cfg t.1 t.2).mRank ≤ arank
    rw [RefLine_C2P_C2P_mRank]
    have := linePairs_rank hM arank ha t ht
    exact hmod _ (by simp only [RefBase.mRank] at this; omega)

/-- Every mark that `RefMark_Intersection::MakeAll(arank)` passes to the container has a
rank of at most `arank`. -/
theorem markCandidates_rank (cfg : Config K) (db : Database K)
    (sMaxRank arank : Nat)
    (hL : RefContainer.Inv sMaxRank db.sBasisLines db.sBasisLines.buffer) :
    ∀ m ∈ markCandidates cfg db arank, m.mRank ≤ arank := by
  intro m hm
  simp only [markCandidates, RefMark_Intersection.tuples, List.mem_map,
    List.mem_flatMap] at hm
  obtain ⟨pr, ⟨irank, hi, hpr⟩, rfl⟩ := hm
  rw [RefMark_Intersection_mRank]
  have hi1 := mem_rankLoop hi
  rw [Int.tdiv_eq_ediv (by omega) (by omega)] at hi1
  obtain ⟨e1, e2⟩ := pairsOfRanks_rank hL _ _ pr hpr
  have e5 := toRank_le (x := (arank : Int) - irank) (by omega)
  simp only [RefBase.mRank] at e1 e2
  exact le_trans (Nat.mod_le _ _) (by omega)

end CandidateRanks

section OriginalKeys

variable {K : Type} [LinearOrderedField K] [FloorRing K]

/-- The canonical form of a line has `d >= 0`. -/
theorem RefLine.canonical_d_nonneg (l : XYLine K) : 0 ≤ (RefLine.canonical l).d := by
  unfold RefLine.canonical
  split_ifs with h
  · exact le_of_lt (neg_pos.mpr h)
  · exact not_lt.mp h

/-- The function `fmod(x, 1)` of a non-negative `x` is non-negative. -/
theorem fmod_one_nonneg (x : K) (hx : 0 ≤ x) : 0 ≤ fmod x 1 := by
  unfold fmod
  simp only [div_one, if_pos hx, mul_one]
  exact sub_nonneg.mpr (Int.floor_le x)

/-- The key that `RefLine::FinishConstructor` computes is positive, when `sqrt` returns
no negative value, `atan2` returns no value below `-pi`, and the numbers of buckets
are not negative. -/
theorem RefLine_FinishConstructor_key_pos (M : CMath K) (cfg : Config K) (l : XYLine K)
    (hsqrt : ∀ x, 0 ≤ M.sqrt x) (hatan : ∀ y x, -piLiteral ≤ M.atan2 y x)
    (hA : 0 ≤ cfg.sNumA) (hD : 0 ≤ cfg.sNumD) :
    0 < (RefLine.FinishConstructor M cfg l).2 := by
  have hpi : (0 : K) < piLiteral := by unfold piLiteral; norm_num
  have hA1 : (0 : K) ≤ (cfg.sNumA : K) := by exact_mod_cast hA
  have hD1 : (0 : K) ≤ (cfg.sNumD : K) := by exact_mod_cast hD
  have hfa : ∀ y x, 0 ≤ (1 + M.atan2 y x / piLiteral) / 2 := by
    intro y x
    have h1 : -1 ≤ M.atan2 y x / piLiteral := by
      rw [le_div_iff₀ hpi]
      linarith [hatan y x]
    linarith
  have hnd : 0 ≤ ⌊(1 : K) / 2 + (RefLine.canonical l).d /
      M.sqrt (cfg.sPaper.mWidth ^ 2 + cfg.sPaper.mHeight ^ 2) * (cfg.sNumD : K)⌋ := by
    rw [Int.floor_nonneg]
    have := mul_nonneg (div_nonneg (RefLine.canonical_d_nonneg l) (hsqrt
      (cfg.sPaper.mWidth ^ 2 + cfg.sPaper.mHeight ^ 2))) hD1
    linarith
  unfold RefLine.FinishConstructor
  simp only
  have hna : ∀ fa1 : K, 0 ≤ fa1 → 0 ≤ ⌊(1 : K) / 2 + fa1 * (cfg.sNumA : K)⌋ := by
    intro fa1 h1
    rw [Int.floor_nonneg]
    have := mul_nonneg h1 hA1
    linarith
  have hfa1 : 0 ≤ (if ⌊(1 : K) / 2 + (RefLine.canonical l).d /
      M.sqrt (cfg.sPaper.mWidth ^ 2 + cfg.sPaper.mHeight ^ 2) * (cfg.sNumD : K)⌋ = 0
      then fmod (2 * ((1 + M.atan2 (RefLine.canonical l).u.y (RefLine.canonical l).u.x /
        piLiteral) / 2)) 1
      else (1 + M.atan2 (RefLine.canonical l).u.y (RefLine.canonical l).u.x /
        piLiteral) / 2) := by
    have h0 := hfa (RefLine.canonical l).u.y (RefLine.canonical l).u.x
    split_ifs
    · exact fmod_one_nonneg _ (by linarith)
    · exact h0
  have h2 := mul_nonneg (hna _ hfa1) hD
  linarith

/-- The key that `RefMark::FinishConstructor` computes is positive for a point with
non-negative relative coordinates, when the numbers of buckets are not negative. -/
theorem RefMark_FinishConstructor_key_pos (cfg : Config K) (p : XYPt K)
    (hx : 0 ≤ p.x / cfg.sPaper.mWidth) (hy : 0 ≤ p.y / cfg.sPaper.mHeight)
    (hX : 0 ≤ cfg.sNumX) (hY : 0 ≤ cfg.sNumY) :
    0 < RefMark.FinishConstructor cfg p := by
  have hX1 : (0 : K) ≤ (cfg.sNumX : K) := by exact_mod_cast hX
  have hY1 : (0 : K) ≤ (cfg.sNumY : K) := by exact_mod_cast hY
  have hnx : 0 ≤ ⌊(1 : K) / 2 + p.x / cfg.sPaper.mWidth * (cfg.sNumX : K)⌋ := by
    rw [Int.floor_nonneg]
    have := mul_nonneg hx hX1
    linarith
  have hny : 0 ≤ ⌊(1 : K) / 2 + p.y / cfg.sPaper.mHeight * (cfg.sNumY : K)⌋ := by
    rw [Int.floor_nonneg]
    have := mul_nonneg hy hY1
    linarith
  unfold RefMark.FinishConstructor
  simp only
  have h2 := mul_nonneg hnx hY
  linarith

/-- The six original lines have non-zero keys and ranks of at most 1. -/
theorem originalLines_ok (M : CMath K) (cfg : Config K)
    (hsqrt : ∀ x, 0 ≤ M.sqrt x) (hatan : ∀ y x, -piLiteral ≤ M.atan2 y x)
    (hA : 0 ≤ cfg.sNumA) (hD : 0 ≤ cfg.sNumD) (hR : 1 ≤ cfg.sMaxRank) :
    ∀ o ∈ originalLines M cfg, RefBase.mKey o ≠ 0 ∧ RefBase.mRank o ≤ cfg.sMaxRank := by
  intro o ho
  simp only [originalLines, List.mem_cons, List.mem_singleton, List.not_mem_nil,
    or_false] at ho
  have hk : ∀ l, (RefLine.FinishConstructor M cfg l).2 ≠ 0 :=
    fun l => ne_of_gt (RefLine_FinishConstructor_key_pos M cfg l hsqrt hatan hA hD)
  rcases ho with rfl | rfl | rfl | rfl | rfl | rfl
  · exact ⟨hk _, Nat.zero_le _⟩
  · exact ⟨hk _, Nat.zero_le _⟩
  · exact ⟨hk _, Nat.zero_le _⟩
  · exact ⟨hk _, Nat.zero_le _⟩
  · exact ⟨hk _, hR⟩
  · exact ⟨hk _, hR⟩

/-- The four original marks of a `W x H` paper have non-zero keys and rank 0. -/
theorem originalMarks_ok (M : CMath K) (cfg : Config K) (W H : K)
    (hpaper : cfg.sPaper = Paper.SetSize M W H) (hW : 0 < W) (hH : 0 < H)
    (hX : 0 ≤ cfg.sNumX) (hY : 0 ≤ cfg.sNumY) :
    ∀ o ∈ originalMarks cfg, RefBase.mKey o ≠ 0 ∧ RefBase.mRank o ≤ cfg.sMaxRank := by
  intro o ho
  simp only [originalMarks, List.mem_cons, List.mem_singleton, List.not_mem_nil,
    or_false] at ho
  have hk : ∀ p : XYPt K, 0 ≤ p.x / cfg.sPaper.mWidth → 0 ≤ p.y / cfg.sPaper.mHeight →
      RefMark.FinishConstructor cfg p ≠ 0 :=
    fun p hx hy => ne_of_gt (RefMark_FinishConstructor_key_pos cfg p hx hy hX hY)
  have hw : cfg.sPaper.mWidth = W := by rw [hpaper]; rfl
  have hh : cfg.sPaper.mHeight = H := by rw [hpaper]; rfl
  have hbl : cfg.sPaper.mBotLeft = ⟨0, 0⟩ := by rw [hpaper]; rfl
  have hbr : cfg.sPaper.mBotRight = ⟨W, 0⟩ := by rw [hpaper]; rfl
  have htl : cfg.sPaper.mTopLeft = ⟨0, H⟩ := by rw [hpaper]; rfl
  have htr : cfg.sPaper.mTopRight = ⟨W, H⟩ := by rw [hpaper]; rfl
  have z1 : (0 : K) ≤ 0 / W := by rw [zero_div]
  have z2 : (0 : K) ≤ 0 / H := by rw [zero_div]
  have w1 : (0 : K) ≤ W / W := by rw [div_self (ne_of_gt hW)]; exact zero_le_one
  have w2 : (0 : K) ≤ H / H := by rw [div_self (ne_of_gt hH)]; exact zero_le_one
  rcases ho with rfl | rfl | rfl | rfl
  · refine ⟨hk _ ?_ ?_, Nat.zero_le _⟩ <;> rw [hbl] <;> simp only [hw, hh] <;>
      first | exact z1 | exact z2
  · refine ⟨hk _ ?_ ?_, Nat.zero_le _⟩ <;> rw [hbr] <;> simp only [hw, hh] <;>
      first | exact w1 | exact z2
  · refine ⟨hk _ ?_ ?_, Nat.zero_le _⟩ <;> rw [htl] <;> simp only [hw, hh] <;>
      first | exact z1 | exact w2
  · refine ⟨hk _ ?_ ?_, Nat.zero_le _⟩ <;> rw [htr] <;> simp only [hw, hh] <;>
      first | exact w1 | exact w2

end OriginalKeys

section KeysClaim

variable {R : Type} [RefBase R]

/-- The calls of `Add` that seed the originals lead from a reachable state with an empty
flat array to a reachable state with an empty flat array. -/
theorem RefContainer.Reachable.foldl_Add {sMaxRank : Nat} {originals : List R} :
    ∀ (os : List R) (c : RefContainer R), (∀ o ∈ os, o ∈ originals) →
      RefContainer.Reachable sMaxRank originals c → c.vec = [] →
      RefContainer.Reachable sMaxRank originals (os.foldl RefContainer.Add c) ∧
        (os.foldl RefContainer.Add c).vec = []
  | [], _, _, h, hv => ⟨h, hv⟩
  | o :: os, c, ho, h, hv => by
    simp only [List.foldl_cons]
    exact RefContainer.Reachable.foldl_Add os (c.Add o)
      (fun o' ho' => ho o' (List.mem_cons_of_mem _ ho'))
      (RefContainer.Reachable.seed c o h hv (ho o (List.mem_cons_self _ _))) hv

/-- The container after the seeding of the originals is reachable. -/
theorem RefContainer.Reachable.seeded {sMaxRank : Nat} (originals : List R)
    (c : RefContainer R) (hb : c.buffer = []) :
    RefContainer.Reachable sMaxRank originals
      (originals.foldl RefContainer.Add (c.Rebuild sMaxRank)).FlushBuffer :=
  RefContainer.Reachable.flush _
    (RefContainer.Reachable.foldl_Add originals _ (fun _ ho => ho)
      (RefContainer.Reachable.rebuild c hb) rfl).1

end KeysClaim

section KeysBuild

variable {K : Type} [LinearOrderedField K] [FloorRing K]

/-- Claim C3.  On a `W x H` paper with `W, H > 0`, with a `sqrt` that returns no
negative value, an `atan2` that returns no value below `-pi`, non-negative numbers of
buckets and `sMaxRank >= 1`: in every state of the container of lines and of the container of
marks that is reachable from `Rebuild` by seeding the originals,
`AddCopyIfValidAndUnique` and `FlushBuffer`, every stored reference has a non-zero key
and no two stored references have the same key (rank maps and buffer together, and flat
array and buffer together); and the same holds of both containers after any build,
cancelled or not. -/
theorem stored_keys (M : CMath K) (cfg : Config K) (W H : K)
    (hpaper : cfg.sPaper = Paper.SetSize M W H) (hW : 0 < W) (hH : 0 < H)
    (hsqrt : ∀ x, 0 ≤ M.sqrt x) (hatan : ∀ y x, -piLiteral ≤ M.atan2 y x)
    (hX : 0 ≤ cfg.sNumX) (hY : 0 ≤ cfg.sNumY) (hA : 0 ≤ cfg.sNumA) (hD : 0 ≤ cfg.sNumD)
    (hR : 1 ≤ cfg.sMaxRank) :
    (∀ c : RefContainer (RefLine K),
      RefContainer.Reachable cfg.sMaxRank (originalLines M cfg) c → RefContainer.KeysOk c) ∧
    (∀ c : RefContainer (RefMark K),
      RefContainer.Reachable cfg.sMaxRank (originalMarks cfg) c → RefContainer.KeysOk c) ∧
    (∀ (fn : Option DatabaseFn) (db : Database K),
      db.sBasisLines.buffer = [] → db.sBasisMarks.buffer = [] →
      RefContainer.KeysOk (MakeAllMarksAndLines M cfg fn db).sBasisLines ∧
        RefContainer.KeysOk (MakeAllMarksAndLines M cfg fn db).sBasisMarks) := by
  have hoL := originalLines_ok M cfg hsqrt hatan hA hD hR
  have hoM := originalMarks_ok M cfg W H hpaper hW hH hX hY
  refine ⟨fun c hc => (RefContainer.Reachable.inv hoL hc).keysOk,
    fun c hc => (RefContainer.Reachable.inv hoM hc).keysOk, ?_⟩
  intro fn db hbL hbM
  have hseed : RefContainer.Reachable cfg.sMaxRank (originalLines M cfg)
        (seedOriginals M cfg fn db).sBasisLines ∧
      RefContainer.Reachable cfg.sMaxRank (originalMarks cfg)
        (seedOriginals M cfg fn db).sBasisMarks := by
    rw [seedOriginals_lines, seedOriginals_marks]
    exact ⟨RefContainer.Reachable.seeded _ _ hbL, RefContainer.Reachable.seeded _ _ hbM⟩
  obtain ⟨db2, h2, hl, hm⟩ := MakeAllMarksAndLines_keeps M cfg fn
    (fun d => RefContainer.Reachable cfg.sMaxRank (originalLines M cfg) d.sBasisLines ∧
      RefContainer.Reachable cfg.sMaxRank (originalMarks cfg) d.sBasisMarks)
    (fun r => r.mRank ≤ cfg.sMaxRank) (fun m => m.mRank ≤ cfg.sMaxRank)
    (fun d d' hl hm h => by
      show RefContainer.Reachable _ _ d'.sBasisLines ∧
        RefContainer.Reachable _ _ d'.sBasisMarks
      rw [hl, hm]; exact h)
    (fun d r h _ hr => ⟨RefContainer.Reachable.addCopy _ r h.1 hr, h.2⟩)
    (fun d r h _ hr => ⟨h.1, RefContainer.Reachable.addCopy _ r h.2 hr⟩)
    (fun d h => ⟨RefContainer.Reachable.flush _ h.1, h.2⟩)
    (fun d h => ⟨h.1, RefContainer.Reachable.flush _ h.2⟩)
    (fun arank h1 h2 d hd =>
      ⟨fun c hc st => le_trans
          (lineCandidates_rank M cfg d cfg.sMaxRank arank h1
            (RefContainer.Reachable.inv hoL hd.1) (RefContainer.Reachable.inv hoM hd.2)
            c hc st) h2,
        fun m hm => le_trans
          (markCandidates_rank cfg d cfg.sMaxRank arank
            (RefContainer.Reachable.inv hoL hd.1) m hm) h2⟩)
    db hseed
  rw [hl, hm]
  exact ⟨RefContainer.KeysOk_ClearMaps (RefContainer.Reachable.inv hoL h2.1).keysOk,
    RefContainer.KeysOk_ClearMaps (RefContainer.Reachable.inv hoM h2.2).keysOk⟩

end KeysBuild

/-- Witness for C3: the unit square with the default settings; the conclusion is taken
for the containers of a new database after `Rebuild`. -/
theorem stored_keys_witness :
    (Config.default ratMath).sPaper = Paper.SetSize ratMath 1 1 ∧
    (∀ x, 0 ≤ ratMath.sqrt x) ∧ (∀ y x, -piLiteral ≤ ratMath.atan2 y x) ∧
    1 ≤ (Config.default ratMath).sMaxRank ∧
    RefContainer.KeysOk (MakeAllMarksAndLines ratMath (Config.default ratMath) none
      (Database.init (Config.default ratMath).sMaxRank)).sBasisLines :=
  have hs : ∀ x, 0 ≤ ratMath.sqrt x := fun x => Rat.sqrt_nonneg x
  have ha : ∀ y x : ℚ, -piLiteral ≤ ratMath.atan2 y x := fun _ _ => by
    show -(piLiteral : ℚ) ≤ 0
    unfold piLiteral; norm_num
  ⟨rfl, hs, ha, by decide,
    ((stored_keys ratMath (Config.default ratMath) 1 1 rfl one_pos one_pos hs ha
      (by decide) (by decide) (by decide) (by decide) (by decide)).2.2 none
      (Database.init (Config.default ratMath).sMaxRank) rfl rfl).1⟩


/-- Witness for C1: the best one of two stored marks and the best one of two stored
lines. -/
theorem FindBest_spec_witness :
    (∃ best rest : List (RefMark ℚ),
      FindBestMarks ratMath (Config.default ratMath)
        ⟨[RefMark.Original 0 1 ⟨0, 0⟩ "the bottom left corner",
          RefMark.Original 0 5001 ⟨1, 0⟩ "the bottom right corner"], [], 2, [], 0⟩
        ⟨1, 0⟩ [] 1 = best.map some ∧ best.length = 1 ∧
      (best ++ rest).Perm [RefMark.Original 0 1 ⟨0, 0⟩ "the bottom left corner",
          RefMark.Original 0 5001 ⟨1, 0⟩ "the bottom right corner"] ∧
      best.Pairwise (fun x y => CompareRankAndError (Config.default ratMath).sGoodEnoughError
        (fun r => RefMark.DistanceTo ratMath r ⟨1, 0⟩) y x = false) ∧
      ∀ x ∈ rest, ∀ y ∈ best, CompareRankAndError (Config.default ratMath).sGoodEnoughError
        (fun r => RefMark.DistanceTo ratMath r ⟨1, 0⟩) x y = false) ∧
    (∃ best rest : List (RefLine ℚ),
      FindBestLines ratMath (Config.default ratMath)
        ⟨[RefLine.Original 0 1 ⟨0, ⟨0, 1⟩⟩ "the bottom edge",
          RefLine.Original 0 2 ⟨0, ⟨-1, 0⟩⟩ "the left edge"], [], 2, [], 0⟩
        ⟨0, ⟨-1, 0⟩⟩ [] 1 = best.map some ∧ best.length = 1 ∧
      (best ++ rest).Perm [RefLine.Original 0 1 ⟨0, ⟨0, 1⟩⟩ "the bottom edge",
          RefLine.Original 0 2 ⟨0, ⟨-1, 0⟩⟩ "the left edge"] ∧
      best.Pairwise (fun x y => CompareRankAndError (Config.default ratMath).sGoodEnoughError
        (fun r => RefLine.DistanceTo ratMath (Config.default ratMath) r ⟨0, ⟨-1, 0⟩⟩)
        y x = false) ∧
      ∀ x ∈ rest, ∀ y ∈ best, CompareRankAndError (Config.default ratMath).sGoodEnoughError
        (fun r => RefLine.DistanceTo ratMath (Config.default ratMath) r ⟨0, ⟨-1, 0⟩⟩)
        x y = false) :=
  ⟨(FindBest_spec ratMath (Config.default ratMath)
      ⟨[RefMark.Original 0 1 ⟨0, 0⟩ "the bottom left corner",
        RefMark.Original 0 5001 ⟨1, 0⟩ "the bottom right corner"], [], 2, [], 0⟩
      ⟨[RefLine.Original 0 1 ⟨0, ⟨0, 1⟩⟩ "the bottom edge",
        RefLine.Original 0 2 ⟨0, ⟨-1, 0⟩⟩ "the left edge"], [], 2, [], 0⟩
      ⟨1, 0⟩ ⟨0, ⟨-1, 0⟩⟩ [] [] 1).1 (by decide),
   (FindBest_spec ratMath (Config.default ratMath)
      ⟨[RefMark.Original 0 1 ⟨0, 0⟩ "the bottom left corner",
        RefMark.Original 0 5001 ⟨1, 0⟩ "the bottom right corner"], [], 2, [], 0⟩
      ⟨[RefLine.Original 0 1 ⟨0, ⟨0, 1⟩⟩ "the bottom edge",
        RefLine.Original 0 2 ⟨0, ⟨-1, 0⟩⟩ "the left edge"], [], 2, [], 0⟩
      ⟨1, 0⟩ ⟨0, ⟨-1, 0⟩⟩ [] [] 1).2 (by decide)⟩


/-- The distance from the mark at `(3/1000, 4/1000)` to the origin is `5/1000`. -/
theorem RefMark.DistanceTo_example (rank : Nat) (key : Int) (name : String) :
    RefMark.DistanceTo ratMath (RefMark.Original rank key ⟨3 / 1000, 4 / 1000⟩ name) ⟨0, 0⟩ =
      5 / 1000 := by
  have e : ((3 : ℚ) / 1000 - 0) * (3 / 1000 - 0) + (4 / 1000 - 0) * (4 / 1000 - 0) =
      5 / 1000 * (5 / 1000) := by norm_num
  simp only [RefMark.DistanceTo, XYPt.Mag, RefMark.p, XYPt.sub]
  rw [e]
  exact ratMath_sqrt_mul_self _ (by norm_num)

/-- Witness for C2: the mark `a` at `(3/1000, 4/1000)` with rank 3 and the mark `b` at the
origin with rank 5, for the target `(0, 0)` and `sGoodEnoughError = 5/1000`: `a` is at
distance `5/1000`, `b` is strictly closer, and `a` is ordered first. -/
theorem CompareRankAndError_good_first_witness :
    RefMark.DistanceTo ratMath (RefMark.Original 3 9 ⟨3 / 1000, 4 / 1000⟩ "a") ⟨0, 0⟩ ≤
      (Config.default ratMath).sGoodEnoughError ∧
    (RefMark.DistanceTo ratMath (RefMark.Original 5 1 ⟨0, 0⟩ "b") ⟨0, 0⟩ ≤
        (Config.default ratMath).sGoodEnoughError →
      RefBase.mRank (RefMark.Original 3 9 (⟨3 / 1000, 4 / 1000⟩ : XYPt ℚ) "a") <
        RefBase.mRank (RefMark.Original 5 1 (⟨0, 0⟩ : XYPt ℚ) "b") →
      CompareRankAndError (Config.default ratMath).sGoodEnoughError
        (fun m => RefMark.DistanceTo ratMath m ⟨0, 0⟩)
        (RefMark.Original 3 9 ⟨3 / 1000, 4 / 1000⟩ "a")
        (RefMark.Original 5 1 ⟨0, 0⟩ "b") = true) :=
  have ha : RefMark.DistanceTo ratMath (RefMark.Original 3 9 ⟨3 / 1000, 4 / 1000⟩ "a")
      ⟨0, 0⟩ ≤ (Config.default ratMath).sGoodEnoughError := by
    rw [RefMark.DistanceTo_example]
    norm_num [Config.default]
  ⟨ha,
    (CompareRankAndError_good_first (Config.default ratMath).sGoodEnoughError
      (fun m => RefMark.DistanceTo ratMath m ⟨0, 0⟩)
      (RefMark.Original 3 9 ⟨3 / 1000, 4 / 1000⟩ "a")
      (RefMark.Original 5 1 ⟨0, 0⟩ "b") ha).2⟩

section CanonicalClaim

variable {K : Type} [LinearOrderedField K] [FloorRing K]

/-- Claim C13: for every line `(d, u)`, the line that `RefLine::FinishConstructor` leaves
has `d >= 0`, has the same points `p.u = d` as the line before, and has a normal of the
same length (`Mag2`, and `Mag` for any square root function). -/
theorem RefLine.FinishConstructor_canonical (M : CMath K) (cfg : Config K) (l : XYLine K) :
    0 ≤ (RefLine.FinishConstructor M cfg l).1.d ∧
    (∀ p : XYPt K, XYPt.Dot p (RefLine.FinishConstructor M cfg l).1.u =
      (RefLine.FinishConstructor M cfg l).1.d ↔ XYPt.Dot p l.u = l.d) ∧
    XYPt.Mag2 (RefLine.FinishConstructor M cfg l).1.u = XYPt.Mag2 l.u ∧
    XYPt.Mag M (RefLine.FinishConstructor M cfg l).1.u = XYPt.Mag M l.u := by
  have h1 : (RefLine.FinishConstructor M cfg l).1 = RefLine.canonical l := rfl
  rw [h1]
  refine ⟨RefLine.canonical_d_nonneg l, fun p => RefLine.canonical_on l p, ?_, ?_⟩
  · rcases RefLine.canonical_cases l with h | h <;> rw [h]
    simp only [XYPt.Mag2]
    ring
  · rcases RefLine.canonical_cases l with h | h <;> rw [h]
    simp only [XYPt.Mag]
    congr 1
    ring

end CanonicalClaim

section ValidationClaims

variable {K : Type} [LinearOrderedField K] [FloorRing K]

/-- Claim C17: `ValidateMark(p, err)` returns `true` if and only if
`0 <= p.x <= mWidth` and `0 <= p.y <= mHeight`; when it returns `false`, `err` is the
message about the x coordinate if `x` is out of range and the message about the y
coordinate otherwise; when it returns `true`, `err` is left as it was; and the static
state (the database) is as before in every case. -/
theorem ValidateMark_spec (cfg : Config K) (fmt : K → String) (ap : XYPt K) (err : String)
    (db : Database K) :
    ((ValidateMark cfg fmt ap err db).1 = true ↔
      (0 ≤ ap.x ∧ ap.x ≤ cfg.sPaper.mWidth) ∧ (0 ≤ ap.y ∧ ap.y ≤ cfg.sPaper.mHeight)) ∧
    ((ValidateMark cfg fmt ap err db).1 = false →
      (ValidateMark cfg fmt ap err db).2.1 =
        if ap.x < 0 ∨ ap.x > cfg.sPaper.mWidth then
          "Error -- x coordinate should lie between 0 and " ++ fmt cfg.sPaper.mWidth
        else "Error -- y coordinate should lie between 0 and " ++ fmt cfg.sPaper.mHeight) ∧
    ((ValidateMark cfg fmt ap err db).1 = true → (ValidateMark cfg fmt ap err db).2.1 = err) ∧
    (ValidateMark cfg fmt ap err db).2.2 = db := by
  unfold ValidateMark
  by_cases hx : ap.x < 0 ∨ ap.x > cfg.sPaper.mWidth
  · simp only [if_pos hx]
    refine ⟨⟨fun h => Bool.noConfusion h, fun h => ?_⟩, fun _ => trivial,
      fun h => Bool.noConfusion h, trivial⟩
    rcases hx with hx | hx
    · exact absurd h.1.1 (not_le.mpr hx)
    · exact absurd h.1.2 (not_le.mpr hx)
  · by_cases hy : ap.y < 0 ∨ ap.y > cfg.sPaper.mHeight
    · simp only [if_neg hx, if_pos hy]
      refine ⟨⟨fun h => Bool.noConfusion h, fun h => ?_⟩, fun _ => trivial,
        fun h => Bool.noConfusion h, trivial⟩
      rcases hy with hy | hy
      · exact absurd h.2.1 (not_le.mpr hy)
      · exact absurd h.2.2 (not_le.mpr hy)
    · simp only [if_neg hx, if_neg hy]
      refine ⟨⟨fun _ => ?_, fun _ => trivial⟩, fun h => Bool.noConfusion h,
        fun _ => trivial, trivial⟩
      rw [not_or, not_lt, not_lt] at hx hy
      exact ⟨hx, hy⟩

/-- The method `ValidateLine` returns `true` exactly when the distance of the two points
is more than `EPS`. -/
theorem ValidateLine_iff (M : CMath K) (fmt : K → String) (ap1 ap2 : XYPt K)
    (err : String) :
    (ValidateLine M fmt ap1 ap2 err).1 = true ↔ EPS < XYPt.Mag M (XYPt.sub ap1 ap2) := by
  unfold ValidateLine
  by_cases h : XYPt.Mag M (XYPt.sub ap1 ap2) > EPS
  · rw [if_pos h]
    exact ⟨fun _ => h, fun _ => rfl⟩
  · rw [if_neg h]
    exact ⟨fun h' => Bool.noConfusion h', fun h' => absurd h' h⟩

end ValidationClaims

/-- Claim C18, evaluated at the failing input: for `p1 = (0, 0)` and
`p2 = (1/100000000, 0)` the distance is exactly `EPS = 1e-8`, so the points are at
least `EPS` apart, and `ValidateLine` returns `false` with the message that asks for
points "separated by at least" `EPS`. -/
theorem ValidateLine_at_EPS (fmt : ℚ → String) (err : String) :
    XYPt.Mag ratMath (XYPt.sub (⟨0, 0⟩ : XYPt ℚ) ⟨1 / 100000000, 0⟩) = EPS ∧
    EPS ≤ XYPt.Mag ratMath (XYPt.sub (⟨0, 0⟩ : XYPt ℚ) ⟨1 / 100000000, 0⟩) ∧
    ValidateLine ratMath fmt (⟨0, 0⟩ : XYPt ℚ) ⟨1 / 100000000, 0⟩ err =
      (false, "Error -- the two points must be distinct (separated by at least " ++
        fmt EPS ++ ").") := by
  have e : ((0 : ℚ) - 1 / 100000000) * (0 - 1 / 100000000) + (0 - 0) * (0 - 0) =
      1 / 100000000 * (1 / 100000000) := by norm_num
  have hm : XYPt.Mag ratMath (XYPt.sub (⟨0, 0⟩ : XYPt ℚ) ⟨1 / 100000000, 0⟩) = EPS := by
    simp only [XYPt.Mag, XYPt.sub, EPS]
    rw [e]
    exact ratMath_sqrt_mul_self _ (by norm_num)
  refine ⟨hm, le_of_eq hm.symm, ?_⟩
  unfold ValidateLine
  rw [hm, if_neg (lt_irrefl _)]


section O7Facts

variable {K : Type} [LinearOrderedField K] [FloorRing K]

/-- The fold line that the O7 constructor computes when `|u . u1| >= EPS`. -/
theorem RefLine_L2L_P2L.foldLine_eq (l1 : XYLine K) (p1 : XYPt K) (l2 : XYLine K)
    (l : XYLine K) (h : RefLine_L2L_P2L.foldLine l1 p1 l2 = (l, true)) :
    l = ⟨(l1.d + 2 * XYPt.Dot p1 (XYPt.Rotate90 l2.u) *
          XYPt.Dot (XYPt.Rotate90 l2.u) l1.u - XYPt.Dot p1 l1.u) /
        (2 * XYPt.Dot (XYPt.Rotate90 l2.u) l1.u), XYPt.Rotate90 l2.u⟩ ∧
      EPS ≤ |XYPt.Dot (XYPt.Rotate90 l2.u) l1.u| := by
  unfold RefLine_L2L_P2L.foldLine at h
  simp only at h
  split_ifs at h with hu
  · exact Bool.noConfusion (Prod.mk.inj h).2
  · exact ⟨(Prod.mk.inj h).1.symm, not_lt.mp hu⟩

/-- The line of an O7 object with a non-zero key is the canonical form of the fold line
that the constructor computed. -/
theorem RefLine_L2L_P2L_key_ne_zero {M : CMath K} {cfg : Config K} {arl1 : RefLine K}
    {arm1 : RefMark K} {arl2 : RefLine K}
    (h : (RefLine_L2L_P2L M cfg arl1 arm1 arl2).mKey ≠ 0) :
    ∃ l w, RefLine_L2L_P2L.foldLine arl1.l arm1.p arl2.l = (l, true) ∧
      (RefLine_L2L_P2L M cfg arl1 arm1 arl2).l = RefLine.canonical l ∧
      RefLine_L2L_P2L M cfg arl1 arm1 arl2 =
        .L2L_P2L (CalcLineRank3 arl1.mRank arm1.mRank arl2.mRank)
          (finishLine M cfg l).2 (finishLine M cfg l).1 arl1 arm1 arl2 (some w) := by
  revert h
  simp only [RefLine_L2L_P2L]
  split
  · intro h; exact absurd rfl h
  · rename_i l hl
    split
    · intro h; exact absurd rfl h
    · split
      · intro h; exact absurd rfl h
      · split
        · intro h; exact absurd rfl h
        · split
          · intro h; exact absurd rfl h
          · rename_i w hw
            intro h
            exact ⟨l, w, hl, (finishLine_key_ne_zero h).2, rfl⟩

end O7Facts

section O7Claim

variable {K : Type} [LinearOrderedField K] [FloorRing K]

/-- Claim C12: for lines `l1 = (d1, u1)`, `l2 = (d2, u2)` and a point `p1`, with
`u = rot90(u2)` and `u . u1 != 0`, the line `(u, d)` with
`d = (d1 + 2 (p1.u)(u.u1) - p1.u1) / (2 u.u1)` is perpendicular to `l2` (`u . u2 = 0`),
reflects every point of `l2` onto a point of `l2`, and reflects `p1` onto a point of
`l1`.  It is the fold line that the O7 constructor computes whenever it computes one,
the line of every O7 object with a non-zero key has these properties, and the howto
sentence names `l2` as the line brought onto itself and `p1`, `l1` as the pair that
touches. -/
theorem RefLine_L2L_P2L_fold (l1 l2 : XYLine K) (p1 : XYPt K)
    (hne : XYPt.Dot (XYPt.Rotate90 l2.u) l1.u ≠ 0) :
    (XYPt.Dot (XYPt.Rotate90 l2.u) l2.u = 0 ∧
      (∀ q : XYPt K, XYPt.Dot q l2.u = l2.d →
        XYPt.Dot (XYLine.Fold ⟨(l1.d + 2 * XYPt.Dot p1 (XYPt.Rotate90 l2.u) *
            XYPt.Dot (XYPt.Rotate90 l2.u) l1.u - XYPt.Dot p1 l1.u) /
          (2 * XYPt.Dot (XYPt.Rotate90 l2.u) l1.u), XYPt.Rotate90 l2.u⟩ q) l2.u = l2.d) ∧
      XYPt.Dot (XYLine.Fold ⟨(l1.d + 2 * XYPt.Dot p1 (XYPt.Rotate90 l2.u) *
            XYPt.Dot (XYPt.Rotate90 l2.u) l1.u - XYPt.Dot p1 l1.u) /
          (2 * XYPt.Dot (XYPt.Rotate90 l2.u) l1.u), XYPt.Rotate90 l2.u⟩ p1) l1.u = l1.d) ∧
    (∀ l, RefLine_L2L_P2L.foldLine l1 p1 l2 = (l, true) →
      l = ⟨(l1.d + 2 * XYPt.Dot p1 (XYPt.Rotate90 l2.u) *
            XYPt.Dot (XYPt.Rotate90 l2.u) l1.u - XYPt.Dot p1 l1.u) /
          (2 * XYPt.Dot (XYPt.Rotate90 l2.u) l1.u), XYPt.Rotate90 l2.u⟩) ∧
    (∀ (M : CMath K) (cfg : Config K) (arl1 arl2 : RefLine K) (arm1 : RefMark K),
      arl1.l = l1 → arm1.p = p1 → arl2.l = l2 →
      (RefLine_L2L_P2L M cfg arl1 arm1 arl2).mKey ≠ 0 →
      (∀ q : XYPt K, XYPt.Dot q l2.u = l2.d →
        XYPt.Dot (XYLine.Fold (RefLine_L2L_P2L M cfg arl1 arm1 arl2).l q) l2.u = l2.d) ∧
      XYPt.Dot (XYLine.Fold (RefLine_L2L_P2L M cfg arl1 arm1 arl2).l p1) l1.u = l1.d) ∧
    (∀ rl1 rm1 rl2 self : String,
      RefLine_L2L_P2L.PutHowto .WHOMOVES_P1 rl1 rm1 rl2 self =
        "Bring " ++ rl2 ++ " onto itself so that " ++ (rm1 ++ " touches " ++ rl1) ++
          ", making " ++ self) := by
  have hperp : XYPt.Dot (XYPt.Rotate90 l2.u) l2.u = 0 := by
    simp only [XYPt.Dot, XYPt.Rotate90]; ring
  have hl2 : ∀ q : XYPt K, XYPt.Dot q l2.u = l2.d →
      XYPt.Dot (XYLine.Fold ⟨(l1.d + 2 * XYPt.Dot p1 (XYPt.Rotate90 l2.u) *
          XYPt.Dot (XYPt.Rotate90 l2.u) l1.u - XYPt.Dot p1 l1.u) /
        (2 * XYPt.Dot (XYPt.Rotate90 l2.u) l1.u), XYPt.Rotate90 l2.u⟩ q) l2.u = l2.d := by
    intro q hq
    rw [XYLine.Fold_Dot]
    simp only
    rw [hperp, hq]
    ring
  have hp1 : XYPt.Dot (XYLine.Fold ⟨(l1.d + 2 * XYPt.Dot p1 (XYPt.Rotate90 l2.u) *
          XYPt.Dot (XYPt.Rotate90 l2.u) l1.u - XYPt.Dot p1 l1.u) /
        (2 * XYPt.Dot (XYPt.Rotate90 l2.u) l1.u), XYPt.Rotate90 l2.u⟩ p1) l1.u = l1.d := by
    rw [XYLine.Fold_Dot]
    simp only
    field_simp
    ring
  refine ⟨⟨hperp, hl2, hp1⟩, fun l hl => (RefLine_L2L_P2L.foldLine_eq l1 p1 l2 l hl).1, ?_,
    fun _ _ _ _ => rfl⟩
  intro M cfg arl1 arl2 arm1 e1 e2 e3 hk
  obtain ⟨l, w, hl, hcan, _⟩ := RefLine_L2L_P2L_key_ne_zero hk
  rw [e1, e2, e3] at hl
  have hl' := (RefLine_L2L_P2L.foldLine_eq l1 p1 l2 l hl).1
  rw [hcan, hl']
  refine ⟨fun q hq => ?_, ?_⟩
  · rw [XYLine.Fold_canonical]; exact hl2 q hq
  · rw [XYLine.Fold_canonical]; exact hp1

end O7Claim

/-- Witness for C12: the line `l1: y = 1`, the point `p1 = (1/2, 1/4)` and the left edge
`l2: x = 0` (normal `(1, 0)`, so `u = (0, 1)`); the fold line is `y = 5/8`, and the image
of `p1` is `(1/2, 1)` on `l1`. -/
theorem RefLine_L2L_P2L_fold_witness :
    XYPt.Dot (XYPt.Rotate90 (⟨1, 0⟩ : XYPt ℚ)) ⟨0, 1⟩ ≠ 0 ∧
    XYPt.Dot (XYLine.Fold ⟨((1 : ℚ) + 2 * XYPt.Dot (⟨1 / 2, 1 / 4⟩ : XYPt ℚ)
          (XYPt.Rotate90 ⟨1, 0⟩) * XYPt.Dot (XYPt.Rotate90 (⟨1, 0⟩ : XYPt ℚ)) ⟨0, 1⟩ -
          XYPt.Dot (⟨1 / 2, 1 / 4⟩ : XYPt ℚ) ⟨0, 1⟩) /
        (2 * XYPt.Dot (XYPt.Rotate90 (⟨1, 0⟩ : XYPt ℚ)) ⟨0, 1⟩), XYPt.Rotate90 ⟨1, 0⟩⟩
      (⟨1 / 2, 1 / 4⟩ : XYPt ℚ)) ⟨0, 1⟩ = 1 :=
  ⟨by norm_num [XYPt.Dot, XYPt.Rotate90],
    (RefLine_L2L_P2L_fold (⟨1, ⟨0, 1⟩⟩ : XYLine ℚ) ⟨0, ⟨1, 0⟩⟩ ⟨1 / 2, 1 / 4⟩
      (by norm_num [XYPt.Dot, XYPt.Rotate90])).1.2.2⟩


section O6Facts

variable {K : Type} [LinearOrderedField K] [FloorRing K]

/-- Two points are different exactly when the square of their distance is not zero. -/
theorem XYPt.Mag2_sub_ne_zero {q p : XYPt K} (hne : q ≠ p) : XYPt.Mag2 (XYPt.sub q p) ≠ 0 := by
  intro h0
  apply hne
  simp only [XYPt.Mag2, XYPt.sub] at h0
  have hx : q.x - p.x = 0 := by nlinarith [sq_nonneg (q.x - p.x), sq_nonneg (q.y - p.y)]
  have hy : q.y - p.y = 0 := by nlinarith [sq_nonneg (q.x - p.x), sq_nonneg (q.y - p.y)]
  ext
  · linarith
  · linarith

/-- The image `p1p = d1 u1 + r rot90(u1)` lies on `l1` when `u1` is a unit vector. -/
theorem RefLine_P2L_P2L.imagePoint_on_l1 (l1 : XYLine K) (r : K) (hu : XYPt.Mag2 l1.u = 1) :
    XYPt.Dot (RefLine_P2L_P2L.imagePoint l1 r) l1.u = l1.d := by
  simp only [XYPt.Mag2] at hu
  simp only [RefLine_P2L_P2L.imagePoint, XYPt.add, XYPt.smul, XYPt.Rotate90, XYPt.Dot]
  linear_combination l1.d * hu

/-- The scalar product of the image of a point `q` in the fold line of the O6 constructor
with a vector `v`, in terms of `w = p1p - p1`, when the normalisation uses an exact
square root. -/
theorem RefLine_P2L_P2L.foldLine_Fold_Dot (M : CMath K) (p1 p1p q v : XYPt K)
    (hne : p1p ≠ p1)
    (hm : M.sqrt (XYPt.Mag2 (XYPt.sub p1p p1)) * M.sqrt (XYPt.Mag2 (XYPt.sub p1p p1)) =
      XYPt.Mag2 (XYPt.sub p1p p1)) :
    XYPt.Dot (XYLine.Fold (RefLine_P2L_P2L.foldLine M p1 p1p) q) v * XYPt.Mag2 (XYPt.sub p1p p1) =
      XYPt.Dot q v * XYPt.Mag2 (XYPt.sub p1p p1) +
        XYPt.Dot (XYPt.sub p1p p1) (XYPt.sub (XYPt.add p1p p1) (XYPt.smul 2 q)) *
          XYPt.Dot (XYPt.sub p1p p1) v := by
  have hw := XYPt.Mag2_sub_ne_zero hne
  have hmne := sqrt_ne_zero_of_exact M hw hm
  simp only [XYPt.Mag2, XYPt.sub] at hm hmne
  simp only [RefLine_P2L_P2L.foldLine, XYLine.Fold, XYPt.Normalize, XYPt.Mag, XYPt.add,
    XYPt.smul, XYPt.sub, XYPt.Dot, XYPt.MidPoint, XYPt.Mag2]
  generalize M.sqrt ((p1p.x - p1.x) * (p1p.x - p1.x) + (p1p.y - p1.y) * (p1p.y - p1.y)) = m
    at hm hmne ⊢
  rw [← hm]
  field_simp
  ring

/-- The fold line of the O6 constructor reflects `p1` onto the image `p1p`. -/
theorem RefLine_P2L_P2L.foldLine_reflects (M : CMath K) (p1 p1p : XYPt K) (hne : p1p ≠ p1)
    (hm : M.sqrt (XYPt.Mag2 (XYPt.sub p1p p1)) * M.sqrt (XYPt.Mag2 (XYPt.sub p1p p1)) =
      XYPt.Mag2 (XYPt.sub p1p p1)) :
    XYLine.Fold (RefLine_P2L_P2L.foldLine M p1 p1p) p1 = p1p := by
  have hw := XYPt.Mag2_sub_ne_zero hne
  have hx := RefLine_P2L_P2L.foldLine_Fold_Dot M p1 p1p p1 ⟨1, 0⟩ hne hm
  have hy := RefLine_P2L_P2L.foldLine_Fold_Dot M p1 p1p p1 ⟨0, 1⟩ hne hm
  simp only [XYPt.Dot, XYPt.sub, XYPt.add, XYPt.smul, XYPt.Mag2] at hx hy hw
  ext
  · apply mul_right_cancel₀ hw
    linear_combination hx
  · apply mul_right_cancel₀ hw
    linear_combination hy

/-- The equation of the O6 constructor: `c1 (w.w) + (w.(p1p + p1 - 2 p2)) (w.u2)` for
`w = p1p - p1` and `p1p = d1 u1 + r rot90(u1)` is the cubic `a r^3 + b r^2 + c r + d`
in the coefficients that the constructor computes, when `u1` is a unit vector. -/
theorem RefLine_P2L_P2L.coefficients_eq (p1 p2 : XYPt K) (l1 l2 : XYLine K) (r : K)
    (hu : XYPt.Mag2 l1.u = 1) :
    (XYPt.Dot p2 l2.u - l2.d) * XYPt.Mag2 (XYPt.sub (RefLine_P2L_P2L.imagePoint l1 r) p1) +
      XYPt.Dot (XYPt.sub (RefLine_P2L_P2L.imagePoint l1 r) p1)
          (XYPt.sub (XYPt.add (RefLine_P2L_P2L.imagePoint l1 r) p1) (XYPt.smul 2 p2)) *
        XYPt.Dot (XYPt.sub (RefLine_P2L_P2L.imagePoint l1 r) p1) l2.u =
    (RefLine_P2L_P2L.coefficients p1 l1 p2 l2).1 * r ^ 3 +
      (RefLine_P2L_P2L.coefficients p1 l1 p2 l2).2.1 * r ^ 2 +
      (RefLine_P2L_P2L.coefficients p1 l1 p2 l2).2.2.1 * r +
      (RefLine_P2L_P2L.coefficients p1 l1 p2 l2).2.2.2 := by
  simp only [XYPt.Mag2] at hu
  simp only [RefLine_P2L_P2L.coefficients, RefLine_P2L_P2L.imagePoint, XYPt.add, XYPt.smul,
    XYPt.sub, XYPt.Rotate90, XYPt.Dot, XYPt.Mag2]
  linear_combination (r ^ 2 * ((p2.x * l2.u.x + p2.y * l2.u.y - l2.d) +
    ((l1.d * l1.u.x - p1.x) * l2.u.x + (l1.d * l1.u.y - p1.y) * l2.u.y) +
    (-l1.u.y * l2.u.x + l1.u.x * l2.u.y) * r)) * hu

end O6Facts

section O6Claim

variable {K : Type} [LinearOrderedField K] [FloorRing K]

/-- The line of an O6 object with a non-zero key is the canonical form of the fold line
that the constructor built from the root `rc` of its `switch (iroot)`. -/
theorem RefLine_P2L_P2L_key_ne_zero {M : CMath K} {cfg : Config K}
    {st : P2L_P2L_Statics K} {arm1 arm2 : RefMark K} {arl1 arl2 : RefLine K} {iroot : Int}
    (h : (RefLine_P2L_P2L M cfg st arm1 arl1 arm2 arl2 iroot).1.mKey ≠ 0) :
    ∃ rc, (RefLine_P2L_P2L.root M st arm1.p arl1.l arm2.p arl2.l iroot).1 = some rc ∧
      (RefLine_P2L_P2L M cfg st arm1 arl1 arm2 arl2 iroot).1.l =
        RefLine.canonical
          (RefLine_P2L_P2L.foldLine M arm1.p (RefLine_P2L_P2L.imagePoint arl1.l rc)) := by
  revert h
  simp only [RefLine_P2L_P2L]
  split
  · intro h; exact absurd rfl h
  · split
    · intro h; exact absurd rfl h
    · rename_i rc st1 hroot
      split
      · intro h; exact absurd rfl h
      · split
        · intro h; exact absurd rfl h
        · split
          · intro h; exact absurd rfl h
          · intro h
            exact ⟨rc, by rw [hroot], (finishLine_key_ne_zero h).2⟩

/-- Claim C11: for points `p1`, `p2` and lines `l1 = (d1, u1)`, `l2 = (d2, u2)` with
`|u1| = 1`, let `a, b, c, d` be the coefficients that the O6 constructor computes.  For
every `r` with `a r^3 + b r^2 + c r + d = 0` and `p1' = d1 u1 + r rot90(u1)` different
from `p1`, the image `p1'` lies on `l1`, and the fold line `u = normalize(p1' - p1)`,
`d = u . midpoint(p1', p1)` (normalised with an exact square root) reflects `p1` onto
`p1'` and `p2` onto a point of `l2`; and the line of every O6 object with a non-zero key
whose `switch (iroot)` gave this `r` has the same two properties. -/
theorem RefLine_P2L_P2L_fold (M : CMath K) (p1 p2 : XYPt K) (l1 l2 : XYLine K) (r : K)
    (hu : XYPt.Mag2 l1.u = 1)
    (hroot : (RefLine_P2L_P2L.coefficients p1 l1 p2 l2).1 * r ^ 3 +
      (RefLine_P2L_P2L.coefficients p1 l1 p2 l2).2.1 * r ^ 2 +
      (RefLine_P2L_P2L.coefficients p1 l1 p2 l2).2.2.1 * r +
      (RefLine_P2L_P2L.coefficients p1 l1 p2 l2).2.2.2 = 0)
    (hne : RefLine_P2L_P2L.imagePoint l1 r ≠ p1)
    (hm : M.sqrt (XYPt.Mag2 (XYPt.sub (RefLine_P2L_P2L.imagePoint l1 r) p1)) *
        M.sqrt (XYPt.Mag2 (XYPt.sub (RefLine_P2L_P2L.imagePoint l1 r) p1)) =
      XYPt.Mag2 (XYPt.sub (RefLine_P2L_P2L.imagePoint l1 r) p1)) :
    XYPt.Dot (RefLine_P2L_P2L.imagePoint l1 r) l1.u = l1.d ∧
    XYLine.Fold (RefLine_P2L_P2L.foldLine M p1 (RefLine_P2L_P2L.imagePoint l1 r)) p1 =
      RefLine_P2L_P2L.imagePoint l1 r ∧
    XYPt.Dot (XYLine.Fold (RefLine_P2L_P2L.foldLine M p1 (RefLine_P2L_P2L.imagePoint l1 r))
      p2) l2.u = l2.d ∧
    (∀ (cfg : Config K) (st : P2L_P2L_Statics K) (arm1 arm2 : RefMark K)
      (arl1 arl2 : RefLine K) (iroot : Int),
      arm1.p = p1 → arl1.l = l1 → arm2.p = p2 → arl2.l = l2 →
      (RefLine_P2L_P2L.root M st p1 l1 p2 l2 iroot).1 = some r →
      (RefLine_P2L_P2L M cfg st arm1 arl1 arm2 arl2 iroot).1.mKey ≠ 0 →
      XYLine.Fold (RefLine_P2L_P2L M cfg st arm1 arl1 arm2 arl2 iroot).1.l p1 =
        RefLine_P2L_P2L.imagePoint l1 r ∧
      XYPt.Dot (XYLine.Fold (RefLine_P2L_P2L M cfg st arm1 arl1 arm2 arl2 iroot).1.l p2)
        l2.u = l2.d) := by
  have hw := XYPt.Mag2_sub_ne_zero hne
  have hfold := RefLine_P2L_P2L.foldLine_reflects M p1 _ hne hm
  have hp2 : XYPt.Dot (XYLine.Fold (RefLine_P2L_P2L.foldLine M p1
      (RefLine_P2L_P2L.imagePoint l1 r)) p2) l2.u = l2.d := by
    have hd := RefLine_P2L_P2L.foldLine_Fold_Dot M p1 _ p2 l2.u hne hm
    have hc := RefLine_P2L_P2L.coefficients_eq p1 p2 l1 l2 r hu
    rw [hroot] at hc
    apply mul_right_cancel₀ hw
    linear_combination hd + hc
  refine ⟨RefLine_P2L_P2L.imagePoint_on_l1 l1 r hu, hfold, hp2, ?_⟩
  intro cfg st arm1 arm2 arl1 arl2 iroot e1 e2 e3 e4 hr hk
  obtain ⟨rc, hrc, hl⟩ := RefLine_P2L_P2L_key_ne_zero hk
  rw [e1, e2, e3, e4, hr] at hrc
  have hrc' : r = rc := Option.some.inj hrc
  rw [e1, e2, ← hrc'] at hl
  rw [hl, XYLine.Fold_canonical, XYLine.Fold_canonical]
  exact ⟨hfold, hp2⟩

end O6Claim

/-- Witness for C11 over the rationals: `l1` is the left edge `x = 0`, `p1 = (1, 0)`,
`p2 = (1, 1/2)`, `l2` is the line through `(0, 1/2)` with normal `(3/5, 4/5)`, and
`r = 0`: the fold line is `x = 1/2`, the image of `p1` is `(0, 0)` and the image of `p2`
is `(0, 1/2)` on `l2`. -/
theorem RefLine_P2L_P2L_fold_witness :
    XYPt.Mag2 (⟨1, 0⟩ : XYPt ℚ) = 1 ∧
    RefLine_P2L_P2L.imagePoint (⟨0, ⟨1, 0⟩⟩ : XYLine ℚ) 0 ≠ ⟨1, 0⟩ ∧
    XYPt.Dot (XYLine.Fold (RefLine_P2L_P2L.foldLine ratMath (⟨1, 0⟩ : XYPt ℚ)
      (RefLine_P2L_P2L.imagePoint (⟨0, ⟨1, 0⟩⟩ : XYLine ℚ) 0)) ⟨1, 1 / 2⟩) ⟨3 / 5, 4 / 5⟩ =
      2 / 5 :=
  have hi : RefLine_P2L_P2L.imagePoint (⟨0, ⟨1, 0⟩⟩ : XYLine ℚ) 0 = ⟨0, 0⟩ := by
    simp [RefLine_P2L_P2L.imagePoint, XYPt.add, XYPt.smul, XYPt.Rotate90]
  have hne : RefLine_P2L_P2L.imagePoint (⟨0, ⟨1, 0⟩⟩ : XYLine ℚ) 0 ≠ ⟨1, 0⟩ := by
    rw [hi]
    intro h
    have := congrArg XYPt.x h
    norm_num at this
  ⟨by norm_num [XYPt.Mag2], hne,
    (RefLine_P2L_P2L_fold ratMath (⟨1, 0⟩ : XYPt ℚ) ⟨1, 1 / 2⟩ ⟨0, ⟨1, 0⟩⟩
      ⟨2 / 5, ⟨3 / 5, 4 / 5⟩⟩ 0 (by norm_num [XYPt.Mag2])
      (by
        norm_num [RefLine_P2L_P2L.coefficients, XYPt.add, XYPt.smul, XYPt.sub,
          XYPt.Rotate90, XYPt.Dot])
      hne
      (by
        rw [hi]
        have e : XYPt.Mag2 (XYPt.sub (⟨0, 0⟩ : XYPt ℚ) ⟨1, 0⟩) = 1 * 1 := by
          norm_num [XYPt.Mag2, XYPt.sub]
        rw [e, ratMath_sqrt_mul_self 1 (by norm_num)])).2.2.1⟩


section MarkKeyFacts

variable {K : Type} [LinearOrderedField K] [FloorRing K]

/-- The key of a mark in terms of its cell. -/
theorem RefMark.FinishConstructor_eq_cell (cfg : Config K) (p : XYPt K) :
    RefMark.FinishConstructor cfg p =
      1 + (RefMark.cell cfg p).1 * cfg.sNumY + (RefMark.cell cfg p).2 := rfl

/-- The cell of a point inside a `W x H` paper with `W, H > 0` and non-negative numbers
of divisions: `0 <= nx <= sNumX` and `0 <= ny <= sNumY`, both ends included. -/
theorem RefMark.cell_bounds (cfg : Config K) (p : XYPt K)
    (hW : 0 < cfg.sPaper.mWidth) (hH : 0 < cfg.sPaper.mHeight)
    (hX : 0 ≤ cfg.sNumX) (hY : 0 ≤ cfg.sNumY)
    (hx0 : 0 ≤ p.x) (hx1 : p.x ≤ cfg.sPaper.mWidth)
    (hy0 : 0 ≤ p.y) (hy1 : p.y ≤ cfg.sPaper.mHeight) :
    (0 ≤ (RefMark.cell cfg p).1 ∧ (RefMark.cell cfg p).1 ≤ cfg.sNumX) ∧
    (0 ≤ (RefMark.cell cfg p).2 ∧ (RefMark.cell cfg p).2 ≤ cfg.sNumY) := by
  have hX1 : (0 : K) ≤ (cfg.sNumX : K) := by exact_mod_cast hX
  have hY1 : (0 : K) ≤ (cfg.sNumY : K) := by exact_mod_cast hY
  have key : ∀ (t w : K) (n : Int), 0 < w → 0 ≤ t → t ≤ w → (0 : K) ≤ (n : K) →
      0 ≤ ⌊1 / 2 + t / w * (n : K)⌋ ∧ ⌊1 / 2 + t / w * (n : K)⌋ ≤ n := by
    intro t w n hw ht0 ht1 hn
    have h0 : 0 ≤ t / w := div_nonneg ht0 (le_of_lt hw)
    have h1 : t / w ≤ 1 := (div_le_one hw).mpr ht1
    have h2 : 0 ≤ t / w * (n : K) := mul_nonneg h0 hn
    have h3 : t / w * (n : K) ≤ (n : K) := by
      calc t / w * (n : K) ≤ 1 * (n : K) := mul_le_mul_of_nonneg_right h1 hn
        _ = (n : K) := one_mul _
    constructor
    · rw [Int.floor_nonneg]; linarith
    · have : ⌊1 / 2 + t / w * (n : K)⌋ < n + 1 := by
        rw [Int.floor_lt]
        push_cast
        linarith
      omega
  exact ⟨key p.x _ _ hW hx0 hx1 hX1, key p.y _ _ hH hy0 hy1 hY1⟩

/-- Two points get the same key only if they have the same cell, provided that neither
has the last row index `ny = sNumY`. -/
theorem RefMark.key_cell_unique (cfg : Config K) (p q : XYPt K)
    (hp0 : 0 ≤ (RefMark.cell cfg p).2) (hp1 : (RefMark.cell cfg p).2 < cfg.sNumY)
    (hq0 : 0 ≤ (RefMark.cell cfg q).2) (hq1 : (RefMark.cell cfg q).2 < cfg.sNumY)
    (h : RefMark.FinishConstructor cfg p = RefMark.FinishConstructor cfg q) :
    RefMark.cell cfg p = RefMark.cell cfg q := by
  rw [RefMark.FinishConstructor_eq_cell, RefMark.FinishConstructor_eq_cell] at h
  have hb : ((RefMark.cell cfg p).1 * cfg.sNumY + (RefMark.cell cfg p).2) % cfg.sNumY =
      (RefMark.cell cfg p).2 := by
    rw [Int.add_comm, Int.add_mul_emod_self]
    exact Int.emod_eq_of_lt hp0 hp1
  have hd : ((RefMark.cell cfg q).1 * cfg.sNumY + (RefMark.cell cfg q).2) % cfg.sNumY =
      (RefMark.cell cfg q).2 := by
    rw [Int.add_comm, Int.add_mul_emod_self]
    exact Int.emod_eq_of_lt hq0 hq1
  have he : (RefMark.cell cfg p).1 * cfg.sNumY + (RefMark.cell cfg p).2 =
      (RefMark.cell cfg q).1 * cfg.sNumY + (RefMark.cell cfg q).2 := by linarith
  have h2 : (RefMark.cell cfg p).2 = (RefMark.cell cfg q).2 := by
    rw [← hb, ← hd, he]
  have hN : cfg.sNumY ≠ 0 := by omega
  have h1 : (RefMark.cell cfg p).1 = (RefMark.cell cfg q).1 := by
    have : (RefMark.cell cfg p).1 * cfg.sNumY = (RefMark.cell cfg q).1 * cfg.sNumY := by
      linarith
    exact Int.eq_of_mul_eq_mul_right hN this
  exact Prod.ext h1 h2

/-- When `MarkKeySizeOK()` holds for positive numbers of divisions, the key of a point
inside the paper is at least 1 and at most `key_max + 1`. -/
theorem RefMark_FinishConstructor_le (cfg : Config K) (p : XYPt K)
    (hok : MarkKeySizeOK cfg = true)
    (hW : 0 < cfg.sPaper.mWidth) (hH : 0 < cfg.sPaper.mHeight)
    (hX : 0 < cfg.sNumX) (hY : 0 < cfg.sNumY)
    (hx0 : 0 ≤ p.x) (hx1 : p.x ≤ cfg.sPaper.mWidth)
    (hy0 : 0 ≤ p.y) (hy1 : p.y ≤ cfg.sPaper.mHeight) :
    1 ≤ RefMark.FinishConstructor cfg p ∧ RefMark.FinishConstructor cfg p ≤ key_max + 1 := by
  obtain ⟨⟨a0, a1⟩, b0, b1⟩ := RefMark.cell_bounds cfg p hW hH (le_of_lt hX) (le_of_lt hY)
    hx0 hx1 hy0 hy1
  rw [RefMark.FinishConstructor_eq_cell]
  unfold MarkKeySizeOK at hok
  rw [decide_eq_true_eq, Int.tdiv_eq_ediv (by unfold key_max; omega) (le_of_lt hY)] at hok
  have h1 : (cfg.sNumX + 1) * cfg.sNumY ≤ key_max / cfg.sNumY * cfg.sNumY :=
    Int.mul_le_mul_of_nonneg_right (by omega) (le_of_lt hY)
  have h2 : key_max / cfg.sNumY * cfg.sNumY ≤ key_max := Int.ediv_mul_le _ (by omega)
  have h3 : (RefMark.cell cfg p).1 * cfg.sNumY ≤ cfg.sNumX * cfg.sNumY :=
    Int.mul_le_mul_of_nonneg_right a1 (le_of_lt hY)
  have h4 : 0 ≤ (RefMark.cell cfg p).1 * cfg.sNumY := Int.mul_nonneg a0 (le_of_lt hY)
  constructor
  · omega
  · have : (cfg.sNumX + 1) * cfg.sNumY = cfg.sNumX * cfg.sNumY + cfg.sNumY := by ring
    omega

end MarkKeyFacts

/-- Claim C14, evaluated at the failing input: on the unit square with the default
`sNumX = sNumY = 5000`, the top left corner `(0, 1)` has the cell `(0, 5000)`, the point
`(1/5000, 0)` of the bottom edge has the cell `(1, 0)`, and
`RefMark::FinishConstructor` gives both the key `5001`. -/
theorem RefMark.FinishConstructor_collision :
    RefMark.cell (Config.default ratMath) ⟨0, 1⟩ = (0, 5000) ∧
    RefMark.cell (Config.default ratMath) ⟨1 / 5000, 0⟩ = (1, 0) ∧
    RefMark.FinishConstructor (Config.default ratMath) ⟨0, 1⟩ = 5001 ∧
    RefMark.FinishConstructor (Config.default ratMath) ⟨1 / 5000, 0⟩ = 5001 := by
  have f0 : ⌊(1 : ℚ) / 2⌋ = 0 := by rw [Int.floor_eq_iff]; norm_num
  have f1 : ⌊(1 : ℚ) / 2 + 1⌋ = 1 := by rw [Int.floor_eq_iff]; norm_num
  have f5 : ⌊(1 : ℚ) / 2 + 5000⌋ = 5000 := by rw [Int.floor_eq_iff]; norm_num
  have c1 : RefMark.cell (Config.default ratMath) ⟨0, 1⟩ = (0, 5000) := by
    simp only [RefMark.cell, Config.default, Paper.SetSize]
    norm_num [f0, f5]
  have c2 : RefMark.cell (Config.default ratMath) ⟨1 / 5000, 0⟩ = (1, 0) := by
    simp only [RefMark.cell, Config.default, Paper.SetSize]
    norm_num [f0, f1]
  refine ⟨c1, c2, ?_, ?_⟩
  · rw [RefMark.FinishConstructor_eq_cell, c1]
    simp only [Config.default]
    norm_num
  · rw [RefMark.FinishConstructor_eq_cell, c2]
    simp only [Config.default]
    norm_num

/-- Claim C15, evaluated at the failing input: with `sNumX = 2147483646` and `sNumY = 1`
on the unit square, `MarkKeySizeOK()` holds, and the key that
`RefMark::FinishConstructor` computes for the top right corner `(1, 1)` is `2147483648`,
one more than the largest value of `key_t`. -/
theorem MarkKeySizeOK_overflow :
    MarkKeySizeOK { Config.default ratMath with sNumX := 2147483646, sNumY := 1 } = true ∧
    RefMark.FinishConstructor
      { Config.default ratMath with sNumX := 2147483646, sNumY := 1 } ⟨1, 1⟩ = 2147483648 ∧
    key_max < RefMark.FinishConstructor
      { Config.default ratMath with sNumX := 2147483646, sNumY := 1 } ⟨1, 1⟩ := by
  have f1 : ⌊(1 : ℚ) / 2 + 1⌋ = 1 := by rw [Int.floor_eq_iff]; norm_num
  have f2 : ⌊(1 : ℚ) / 2 + 2147483646⌋ = 2147483646 := by rw [Int.floor_eq_iff]; norm_num
  have hk : RefMark.FinishConstructor
      { Config.default ratMath with sNumX := 2147483646, sNumY := 1 } ⟨1, 1⟩ = 2147483648 := by
    simp only [RefMark.FinishConstructor, Config.default, Paper.SetSize]
    norm_num [f1, f2]
  refine ⟨?_, hk, ?_⟩
  · simp only [MarkKeySizeOK, key_max, Config.default]
    decide
  · rw [hk]; unfold key_max; norm_num


section LineKeyFacts

variable {K : Type} [LinearOrderedField K] [FloorRing K]

/-- The function `fmod(x, 1)` of a non-negative `x` is below 1. -/
theorem fmod_one_lt_one (x : K) (hx : 0 ≤ x) : fmod x 1 < 1 := by
  unfold fmod
  simp only [div_one, if_pos hx, mul_one]
  linarith [Int.lt_floor_add_one x]

/-- When `LineKeySizeOK()` holds for positive numbers of divisions, the key that
`RefLine::FinishConstructor` computes for a line whose distance from the origin is at
most the diagonal of the paper is at least 1 and at most `key_max + 1`, for an `atan2`
with values from `-pi` to `pi` and a `sqrt` without negative values. -/
theorem RefLine_FinishConstructor_le (M : CMath K) (cfg : Config K) (l : XYLine K)
    (hok : LineKeySizeOK cfg = true) (hA : 0 < cfg.sNumA) (hD : 0 < cfg.sNumD)
    (hsqrt : ∀ x, 0 ≤ M.sqrt x)
    (hatan : ∀ y x, -piLiteral ≤ M.atan2 y x ∧ M.atan2 y x ≤ piLiteral)
    (hd : (RefLine.canonical l).d ≤
      M.sqrt (cfg.sPaper.mWidth ^ 2 + cfg.sPaper.mHeight ^ 2)) :
    1 ≤ (RefLine.FinishConstructor M cfg l).2 ∧
      (RefLine.FinishConstructor M cfg l).2 ≤ key_max + 1 := by
  have hpi : (0 : K) < piLiteral := by unfold piLiteral; norm_num
  have hA1 : (0 : K) ≤ (cfg.sNumA : K) := by exact_mod_cast le_of_lt hA
  have hD1 : (0 : K) ≤ (cfg.sNumD : K) := by exact_mod_cast le_of_lt hD
  have hfa : 0 ≤ (1 + M.atan2 (RefLine.canonical l).u.y (RefLine.canonical l).u.x /
      piLiteral) / 2 ∧ (1 + M.atan2 (RefLine.canonical l).u.y (RefLine.canonical l).u.x /
      piLiteral) / 2 ≤ 1 := by
    obtain ⟨h1, h2⟩ := hatan (RefLine.canonical l).u.y (RefLine.canonical l).u.x
    have h3 : -1 ≤ M.atan2 (RefLine.canonical l).u.y (RefLine.canonical l).u.x /
        piLiteral := by
      rw [le_div_iff₀ hpi]; linarith
    have h4 : M.atan2 (RefLine.canonical l).u.y (RefLine.canonical l).u.x / piLiteral ≤ 1 :=
      (div_le_one hpi).mpr h2
    constructor <;> linarith
  have box : ∀ (f : K) (n : Int), 0 ≤ f → f ≤ 1 → (0 : K) ≤ (n : K) →
      0 ≤ ⌊1 / 2 + f * (n : K)⌋ ∧ ⌊1 / 2 + f * (n : K)⌋ ≤ n := by
    intro f n h0 h1 hn
    have h2 : 0 ≤ f * (n : K) := mul_nonneg h0 hn
    have h3 : f * (n : K) ≤ (n : K) := by
      calc f * (n : K) ≤ 1 * (n : K) := mul_le_mul_of_nonneg_right h1 hn
        _ = (n : K) := one_mul _
    constructor
    · rw [Int.floor_nonneg]; linarith
    · have : ⌊1 / 2 + f * (n : K)⌋ < n + 1 := by
        rw [Int.floor_lt]
        push_cast
        linarith
      omega
  have hfd0 : 0 ≤ (RefLine.canonical l).d /
      M.sqrt (cfg.sPaper.mWidth ^ 2 + cfg.sPaper.mHeight ^ 2) :=
    div_nonneg (RefLine.canonical_d_nonneg l) (hsqrt _)
  have hfd1 : (RefLine.canonical l).d /
      M.sqrt (cfg.sPaper.mWidth ^ 2 + cfg.sPaper.mHeight ^ 2) ≤ 1 :=
    div_le_one_of_le₀ hd (hsqrt _)
  obtain ⟨d0, d1⟩ := box _ cfg.sNumD hfd0 hfd1 hD1
  have hfa1 : 0 ≤ (if ⌊(1 : K) / 2 + (RefLine.canonical l).d /
      M.sqrt (cfg.sPaper.mWidth ^ 2 + cfg.sPaper.mHeight ^ 2) * (cfg.sNumD : K)⌋ = 0
      then fmod (2 * ((1 + M.atan2 (RefLine.canonical l).u.y (RefLine.canonical l).u.x /
        piLiteral) / 2)) 1
      else (1 + M.atan2 (RefLine.canonical l).u.y (RefLine.canonical l).u.x /
        piLiteral) / 2) ∧
      (if ⌊(1 : K) / 2 + (RefLine.canonical l).d /
      M.sqrt (cfg.sPaper.mWidth ^ 2 + cfg.sPaper.mHeight ^ 2) * (cfg.sNumD : K)⌋ = 0
      then fmod (2 * ((1 + M.atan2 (RefLine.canonical l).u.y (RefLine.canonical l).u.x /
        piLiteral) / 2)) 1
      else (1 + M.atan2 (RefLine.canonical l).u.y (RefLine.canonical l).u.x /
        piLiteral) / 2) ≤ 1 := by
    split_ifs
    · exact ⟨fmod_one_nonneg _ (by linarith [hfa.1]),
        le_of_lt (fmod_one_lt_one _ (by linarith [hfa.1]))⟩
    · exact hfa
  obtain ⟨a0, a1⟩ := box _ cfg.sNumA hfa1.1 hfa1.2 hA1
  unfold LineKeySizeOK at hok
  rw [decide_eq_true_eq, Int.tdiv_eq_ediv (by unfold key_max; omega) (le_of_lt hD)] at hok
  have h1 : (cfg.sNumA + 1) * cfg.sNumD ≤ key_max / cfg.sNumD * cfg.sNumD :=
    Int.mul_le_mul_of_nonneg_right (by omega) (le_of_lt hD)
  have h2 : key_max / cfg.sNumD * cfg.sNumD ≤ key_max := Int.ediv_mul_le _ (by omega)
  unfold RefLine.FinishConstructor
  simp only
  have h3 := Int.mul_le_mul_of_nonneg_right a1 (le_of_lt hD)
  have h4 := Int.mul_nonneg a0 (le_of_lt hD)
  have h5 : (cfg.sNumA + 1) * cfg.sNumD = cfg.sNumA * cfg.sNumD + cfg.sNumD := by ring
  constructor
  · omega
  · omega

end LineKeyFacts

section SearchContract

variable {K : Type} [LinearOrderedField K] {R : Type} [RefBase R]

/-- The model `partial_sort_copy` meets the contract of the standard for the comparator
`CompareRankAndError`. -/
theorem partial_sort_copy_result (G : K) (dist : R → K) (src : List R)
    (dst : List (Option R)) :
    PartialSortCopyResult (CompareRankAndError G dist) src dst
      (partial_sort_copy (CompareRankAndError G dist) src dst) := by
  haveI : IsTotal R (fun a b => CompareRankAndError G dist b a = false) :=
    ⟨fun a b => by
      simp only [CompareRankAndError_false_iff]
      exact le_total _ _⟩
  haveI : IsTrans R (fun a b => CompareRankAndError G dist b a = false) :=
    ⟨fun a b c => by
      simp only [CompareRankAndError_false_iff]
      exact le_trans⟩
  have hs := List.sorted_insertionSort (fun a b => CompareRankAndError G dist b a = false) src
  have hp := List.perm_insertionSort (fun a b => CompareRankAndError G dist b a = false) src
  have hlen : (src.insertionSort (fun a b => CompareRankAndError G dist b a = false)).length =
      src.length := hp.length_eq
  refine ⟨(src.insertionSort (fun a b => CompareRankAndError G dist b a = false)).take
      (min src.length dst.length),
    (src.insertionSort (fun a b => CompareRankAndError G dist b a = false)).drop
      (min src.length dst.length), rfl, ?_, ?_, ?_, ?_⟩
  · rw [List.length_take, hlen]
    omega
  · rw [List.take_append_drop]
    exact hp
  · exact List.Pairwise.sublist (List.take_sublist _ _) hs
  · have hs' := hs
    unfold List.Sorted at hs'
    rw [← List.take_append_drop (min src.length dst.length)
      (src.insertionSort (fun a b => CompareRankAndError G dist b a = false)),
      List.pairwise_append] at hs'
    intro x hx y hy
    exact hs'.2.2 y hy x hx

/-- Two references have the same sort key exactly when `CompareRankAndError` orders
neither before the other. -/
theorem sortKey_eq_iff (G : K) (dist : R → K) (a b : R) :
    sortKey G dist a = sortKey G dist b ↔
      CompareRankAndError G dist a b = false ∧ CompareRankAndError G dist b a = false := by
  rw [CompareRankAndError_false_iff, CompareRankAndError_false_iff]
  constructor
  · intro h
    exact ⟨le_of_eq h.symm, le_of_eq h⟩
  · rintro ⟨h1, h2⟩
    exact le_antisymm h2 h1

/-- The sort keys of the elements that a result meeting the contract holds are the
smallest sort keys of the source, in ascending order. -/
theorem PartialSortCopyResult.keys {G : K} {dist : R → K} {src : List R}
    {dst out : List (Option R)}
    (h : PartialSortCopyResult (CompareRankAndError G dist) src dst out) :
    ∃ best : List R,
      out = best.map some ++ dst.drop (min src.length dst.length) ∧
      best.length = min src.length dst.length ∧ (∀ x ∈ best, x ∈ src) ∧
      best.map (sortKey G dist) =
        ((src.map (sortKey G dist)).insertionSort (· ≤ ·)).take
          (min src.length dst.length) := by
  obtain ⟨best, rest, hout, hlen, hperm, hsorted, hrest⟩ := h
  refine ⟨best, hout, hlen, fun x hx => hperm.subset (List.mem_append_left _ hx), ?_⟩
  have hL : (best.map (sortKey G dist) ++
      ((rest.map (sortKey G dist)).insertionSort (· ≤ ·))).Sorted (· ≤ ·) := by
    unfold List.Sorted
    rw [List.pairwise_append]
    refine ⟨?_, List.sorted_insertionSort _ _, ?_⟩
    · rw [List.pairwise_map]
      exact hsorted.imp (fun hxy => (CompareRankAndError_false_iff G dist _ _).mp hxy)
    · intro a ha b hb
      obtain ⟨y, hy, rfl⟩ := List.mem_map.mp ha
      have hb' : b ∈ rest.map (sortKey G dist) :=
        (List.perm_insertionSort _ _).subset hb
      obtain ⟨x, hx, rfl⟩ := List.mem_map.mp hb'
      exact (CompareRankAndError_false_iff G dist _ _).mp (hrest x hx y hy)
  have hP : (best.map (sortKey G dist) ++
      ((rest.map (sortKey G dist)).insertionSort (· ≤ ·))).Perm
      ((src.map (sortKey G dist)).insertionSort (· ≤ ·)) := by
    refine List.Perm.trans ?_ (List.perm_insertionSort _ _).symm
    refine List.Perm.trans (List.Perm.append_left _ (List.perm_insertionSort _ _)) ?_
    rw [← List.map_append]
    exact hperm.map _
  have heq := List.eq_of_perm_of_sorted hP hL (List.sorted_insertionSort _ _)
  rw [← heq, ← hlen]
  have : (best.map (sortKey G dist)).length = best.length := List.length_map _ _
  rw [← this, List.take_left]

/-- Lists with the same image under `f` agree place by place up to `f`. -/
theorem forall₂_of_map_eq {α β : Type} (f : α → β) :
    ∀ (l1 l2 : List α), l1.map f = l2.map f → List.Forall₂ (fun x y => f x = f y) l1 l2
  | [], [], _ => List.Forall₂.nil
  | [], _ :: _, h => by simp at h
  | _ :: _, [], h => by simp at h
  | a :: l1, b :: l2, h => by
    simp only [List.map_cons, List.cons.injEq] at h
    exact List.Forall₂.cons h.1 (forall₂_of_map_eq f l1 l2 h.2)

/-- Lists that agree place by place up to a function that is injective on their
elements are equal. -/
theorem eq_of_forall₂_inj {α β : Type} (f : α → β) (S : α → Prop)
    (hinj : ∀ a b, S a → S b → f a = f b → a = b) (l1 l2 : List α)
    (h : List.Forall₂ (fun x y => f x = f y) l1 l2) :
    (∀ x ∈ l1, S x) → (∀ x ∈ l2, S x) → l1 = l2 := by
  induction h with
  | nil => intro _ _; rfl
  | cons hab _ ih =>
    intro h1 h2
    rw [hinj _ _ (h1 _ (List.mem_cons_self _ _)) (h2 _ (List.mem_cons_self _ _)) hab,
      ih (fun x hx => h1 x (List.mem_cons_of_mem _ hx))
        (fun x hx => h2 x (List.mem_cons_of_mem _ hx))]

end SearchContract

section EmptyDatabase

variable {K : Type} [LinearOrderedField K] {R : Type} [RefBase R]

/-- With an empty source, a result that meets the contract of `partial_sort_copy` is the
destination as it was. -/
theorem PartialSortCopyResult.of_nil {comp : R → R → Bool} {dst out : List (Option R)}
    (h : PartialSortCopyResult comp [] dst out) : out = dst := by
  obtain ⟨best, rest, hout, hlen, _, _, _⟩ := h
  simp only [List.length_nil, Nat.zero_min, List.drop_zero] at hout hlen
  rw [List.length_eq_zero] at hlen
  rw [hout, hlen]
  rfl

/-- The entries of a resized vector are entries of the vector or null. -/
theorem mem_resize {v : List (Option R)} {n : Nat} {e : Option R} (h : e ∈ resize v n) :
    e ∈ v ∨ e = none := by
  unfold resize at h
  rcases List.mem_append.mp h with h1 | h1
  · exact Or.inl (List.mem_of_mem_take h1)
  · exact Or.inr (List.eq_of_mem_replicate h1)

end EmptyDatabase

section EmptyClaim

variable {K : Type} [LinearOrderedField K] [FloorRing K]

/-- Claim C19, amended.  When the database holds no marks, `FindBestMarks` leaves in
`vm` the vector that was passed in, resized to `n` entries (null pointers are appended):
the result has exactly `n` entries, each an entry of the vector passed in or null, so
it is the empty list only for `n = 0`; this holds for every implementation of
`partial_sort_copy` that meets the standard.  `FindBestLines` does the same when the
database holds no lines. -/
theorem FindBest_empty (M : CMath K) (cfg : Config K)
    (sBasisMarks : RefContainer (RefMark K)) (sBasisLines : RefContainer (RefLine K))
    (ap : XYPt K) (al : XYLine K) (vm : List (Option (RefMark K)))
    (vl : List (Option (RefLine K))) (n : Nat) :
    (sBasisMarks.vec = [] →
      FindBestMarks M cfg sBasisMarks ap vm n = resize vm n ∧
      (∀ out, FindBestMarksResult M cfg sBasisMarks ap vm n out → out = resize vm n) ∧
      (FindBestMarks M cfg sBasisMarks ap vm n).length = n ∧
      (∀ e ∈ FindBestMarks M cfg sBasisMarks ap vm n, e ∈ vm ∨ e = none) ∧
      (FindBestMarks M cfg sBasisMarks ap vm n = [] ↔ n = 0)) ∧
    (sBasisLines.vec = [] →
      FindBestLines M cfg sBasisLines al vl n = resize vl n ∧
      (∀ out, FindBestLinesResult M cfg sBasisLines al vl n out → out = resize vl n) ∧
      (FindBestLines M cfg sBasisLines al vl n).length = n ∧
      (∀ e ∈ FindBestLines M cfg sBasisLines al vl n, e ∈ vl ∨ e = none) ∧
      (FindBestLines M cfg sBasisLines al vl n = [] ↔ n = 0)) := by
  constructor
  · intro hv
    have h1 : FindBestMarks M cfg sBasisMarks ap vm n = resize vm n := by
      unfold FindBestMarks partial_sort_copy
      rw [hv]
      simp
    refine ⟨h1, fun out hout => ?_, ?_, ?_, ?_⟩
    · unfold FindBestMarksResult at hout
      rw [hv] at hout
      exact hout.of_nil
    · rw [h1, resize_length]
    · rw [h1]; exact fun e he => mem_resize he
    · rw [h1, ← List.length_eq_zero, resize_length]
  · intro hv
    have h1 : FindBestLines M cfg sBasisLines al vl n = resize vl n := by
      unfold FindBestLines partial_sort_copy
      rw [hv]
      simp
    refine ⟨h1, fun out hout => ?_, ?_, ?_, ?_⟩
    · unfold FindBestLinesResult at hout
      rw [hv] at hout
      exact hout.of_nil
    · rw [h1, resize_length]
    · rw [h1]; exact fun e he => mem_resize he
    · rw [h1, ← List.length_eq_zero, resize_length]

end EmptyClaim

/-- Counterexample to C19 as stated: with no marks in the database and `n = 1`,
`FindBestMarks` leaves one null pointer in an empty vector passed in, not an empty
list. -/
theorem FindBestMarks_empty_one :
    FindBestMarks ratMath (Config.default ratMath) (RefContainer.new 6) ⟨0, 0⟩ [] 1 =
      [none] ∧
    FindBestMarks ratMath (Config.default ratMath) (RefContainer.new 6) ⟨0, 0⟩ [] 1 ≠ [] := by
  have h : FindBestMarks ratMath (Config.default ratMath) (RefContainer.new 6) ⟨0, 0⟩ [] 1 =
      [none] := by
    simp [FindBestMarks, partial_sort_copy, resize, RefContainer.new]
  rw [h]
  exact ⟨rfl, by simp⟩

/-- Witness for C19 (amended): the containers of a new database and `n = 3`. -/
theorem FindBest_empty_witness :
    (RefContainer.new 6 : RefContainer (RefMark ℚ)).vec = [] ∧
    (FindBestMarks ratMath (Config.default ratMath) (RefContainer.new 6) ⟨0, 0⟩ [] 3).length =
      3 :=
  ⟨rfl, ((FindBest_empty ratMath (Config.default ratMath) (RefContainer.new 6)
    (RefContainer.new 6) ⟨0, 0⟩ ⟨0, ⟨1, 0⟩⟩ [] [] 3).1 rfl).2.2.1⟩


section PrefixFacts

variable {K : Type} [LinearOrderedField K] {R : Type} [RefBase R]

/-- The comparator `CompareRankAndError` orders neither of two references with the same
distance and the same rank before the other. -/
theorem CompareRankAndError_tie (G : K) (dist : R → K) (a b : R) (hd : dist a = dist b)
    (hr : RefBase.mRank a = RefBase.mRank b) :
    CompareRankAndError G dist a b = false ∧ CompareRankAndError G dist b a = false := by
  rw [← sortKey_eq_iff]
  unfold sortKey
  rw [hd, hr]

/-- For counts `N1 <= N2` not above the size of the source, two results that meet the
contract of `partial_sort_copy` hold, place by place up to `N1`, elements that the
comparator does not separate; they hold the same elements when the comparator separates
any two different elements of the source. -/
theorem PartialSortCopyResult.take_agree {G : K} {dist : R → K} {src : List R}
    {dst1 dst2 out1 out2 : List (Option R)}
    (h12 : dst1.length ≤ dst2.length) (h2 : dst2.length ≤ src.length)
    (r1 : PartialSortCopyResult (CompareRankAndError G dist) src dst1 out1)
    (r2 : PartialSortCopyResult (CompareRankAndError G dist) src dst2 out2) :
    (∃ best1 best2 : List R, out1 = best1.map some ∧ out2 = best2.map some ∧
      best1.length = dst1.length ∧ best2.length = dst2.length ∧
      List.Forall₂ (fun x y => CompareRankAndError G dist x y = false ∧
        CompareRankAndError G dist y x = false) best1 (best2.take dst1.length)) ∧
    ((∀ a ∈ src, ∀ b ∈ src, CompareRankAndError G dist a b = false →
        CompareRankAndError G dist b a = false → a = b) →
      out2.take dst1.length = out1) := by
  obtain ⟨best1, ho1, hl1, hm1, hk1⟩ := r1.keys
  obtain ⟨best2, ho2, hl2, hm2, hk2⟩ := r2.keys
  have n1 : min src.length dst1.length = dst1.length := by omega
  have n2 : min src.length dst2.length = dst2.length := by omega
  rw [n1] at ho1 hl1 hk1
  rw [n2] at ho2 hl2 hk2
  rw [List.drop_length, List.append_nil] at ho1 ho2
  have hkk : best1.map (sortKey G dist) = (best2.take dst1.length).map (sortKey G dist) := by
    rw [List.map_take, hk1, hk2, List.take_take, Nat.min_eq_left h12]
  have hF := forall₂_of_map_eq (sortKey G dist) _ _ hkk
  refine ⟨⟨best1, best2, ho1, ho2, hl1, hl2, ?_⟩, fun hinj => ?_⟩
  · exact List.Forall₂.imp (fun _ _ hxy => (sortKey_eq_iff G dist _ _).mp hxy) hF
  · have hb : best1 = best2.take dst1.length :=
      eq_of_forall₂_inj (sortKey G dist) (fun x => x ∈ src)
        (fun a b ha hb hab =>
          hinj a ha b hb ((sortKey_eq_iff G dist a b).mp hab).1
            ((sortKey_eq_iff G dist a b).mp hab).2)
        _ _ hF hm1 (fun x hx => hm2 x (List.mem_of_mem_take hx))
    rw [ho1, ho2, hb, List.map_take]

end PrefixFacts

section PrefixClaim

variable {K : Type} [LinearOrderedField K] [FloorRing K]

/-- Claim C20, amended.  For every database, target and counts
`N1 <= N2 <= (number of stored marks)`, and for every implementation of
`partial_sort_copy` that meets the standard: the first `N1` entries of
`FindBestMarks(t, N2)` and the entries of `FindBestMarks(t, N1)` are stored marks that
agree place by place up to `CompareRankAndError` (neither is ordered before the other,
so they have the same rank and distance class); they are the same marks in the same
order when `CompareRankAndError` separates any two different stored marks, and also
when the implementation keeps the stored order of marks that tie. -/
theorem FindBestMarks_take (M : CMath K) (cfg : Config K)
    (sBasisMarks : RefContainer (RefMark K)) (ap : XYPt K)
    (vm1 vm2 out1 out2 : List (Option (RefMark K))) (N1 N2 : Nat)
    (h12 : N1 ≤ N2) (h2 : N2 ≤ sBasisMarks.vec.length)
    (r1 : FindBestMarksResult M cfg sBasisMarks ap vm1 N1 out1)
    (r2 : FindBestMarksResult M cfg sBasisMarks ap vm2 N2 out2) :
    (∃ best1 best2 : List (RefMark K), out1 = best1.map some ∧ out2 = best2.map some ∧
      best1.length = N1 ∧ best2.length = N2 ∧
      (∀ x ∈ best1, x ∈ sBasisMarks.vec) ∧ (∀ x ∈ best2, x ∈ sBasisMarks.vec) ∧
      List.Forall₂ (fun x y =>
        CompareRankAndError cfg.sGoodEnoughError (fun r => RefMark.DistanceTo M r ap)
          x y = false ∧
        CompareRankAndError cfg.sGoodEnoughError (fun r => RefMark.DistanceTo M r ap)
          y x = false) best1 (best2.take N1)) ∧
    ((∀ a ∈ sBasisMarks.vec, ∀ b ∈ sBasisMarks.vec,
        CompareRankAndError cfg.sGoodEnoughError (fun r => RefMark.DistanceTo M r ap)
          a b = false →
        CompareRankAndError cfg.sGoodEnoughError (fun r => RefMark.DistanceTo M r ap)
          b a = false → a = b) →
      out2.take N1 = out1) ∧
    (FindBestMarks M cfg sBasisMarks ap vm2 N2).take N1 =
      FindBestMarks M cfg sBasisMarks ap vm1 N1 := by
  unfold FindBestMarksResult at r1 r2
  have hp := PartialSortCopyResult.take_agree
    (by rw [resize_length, resize_length]; exact h12)
    (by rw [resize_length]; exact h2) r1 r2
  simp only [resize_length] at hp
  obtain ⟨⟨best1, best2, ho1, ho2, hl1, hl2, hF⟩, hinj⟩ := hp
  have hmem : ∀ (best : List (RefMark K)) (vm out : List (Option (RefMark K))) (N : Nat),
      PartialSortCopyResult
        (CompareRankAndError cfg.sGoodEnoughError (fun r => RefMark.DistanceTo M r ap))
        sBasisMarks.vec (resize vm N) out → N ≤ sBasisMarks.vec.length →
      out = best.map some → ∀ x ∈ best, x ∈ sBasisMarks.vec := by
    intro best vm out N r hN ho x hx
    obtain ⟨b, hob, hlb, hmb, _⟩ := r.keys
    rw [resize_length, Nat.min_eq_right hN] at hob
    have hd : (resize vm N).drop N = [] :=
      List.drop_eq_nil_of_le (le_of_eq (resize_length vm N))
    rw [hd, List.append_nil, ho] at hob
    have : best = b := List.map_injective_iff.mpr (Option.some_injective _) hob
    rw [this] at hx
    exact hmb x hx
  refine ⟨⟨best1, best2, ho1, ho2, hl1, hl2, hmem best1 vm1 out1 N1 r1 (le_trans h12 h2) ho1,
    hmem best2 vm2 out2 N2 r2 h2 ho2, hF⟩, hinj, ?_⟩
  unfold FindBestMarks partial_sort_copy
  simp only [resize_length]
  have e1 : min sBasisMarks.vec.length N1 = N1 := by omega
  have e2 : min sBasisMarks.vec.length N2 = N2 := by omega
  have d1 : (resize vm1 N1).drop N1 = [] :=
    List.drop_eq_nil_of_le (le_of_eq (resize_length vm1 N1))
  have d2 : (resize vm2 N2).drop N2 = [] :=
    List.drop_eq_nil_of_le (le_of_eq (resize_length vm2 N2))
  rw [e1, e2, d1, d2, List.append_nil, List.append_nil, ← List.map_take, List.take_take,
    Nat.min_eq_left h12]

end PrefixClaim

section CountFacts

variable {R : Type} [RefBase R]

/-- The method `std::map::insert` adds at most one entry. -/
theorem map_t.insert_length_le (m : map_t R) (e : Int × R) :
    (map_t.insert m e).length ≤ m.length + 1 := by
  induction m with
  | nil => simp [map_t.insert]
  | cons h t ih =>
    simp only [map_t.insert]
    split_ifs
    · simp
    · simp
    · simp only [List.length_cons]
      omega

/-- The counter `rcsz` after the loop of `FlushBuffer` over `rest`. -/
theorem RefContainer.foldl_flushOne_rcsz :
    ∀ (rest : map_t R) (c : RefContainer R),
      (rest.foldl RefContainer.flushOne c).rcsz = c.rcsz + rest.length
  | [], c => by simp
  | e :: rest, c => by
    simp only [List.foldl_cons, List.length_cons]
    rw [RefContainer.foldl_flushOne_rcsz rest]
    simp only [RefContainer.flushOne]
    omega

/-- The method `Add` keeps the count within the cap when there was room for one more. -/
theorem RefContainer.Counted_Add (cap : Nat) (c : RefContainer R) (r : R)
    (h : RefContainer.Counted cap c) (hroom : c.GetTotalSize < cap) :
    RefContainer.Counted cap (c.Add r) ∧ (c.Add r).GetTotalSize = c.GetTotalSize + 1 := by
  unfold RefContainer.Counted RefContainer.GetTotalSize at *
  simp only [RefContainer.Add]
  have := map_t.insert_length_le c.buffer (RefBase.mKey r, r)
  omega

/-- The method `AddCopyIfValidAndUnique` keeps the count within the cap when there was
room for one more. -/
theorem RefContainer.Counted_AddCopy (cap : Nat) (c : RefContainer R) (r : R)
    (h : RefContainer.Counted cap c) (hroom : c.GetTotalSize < cap) :
    RefContainer.Counted cap (c.AddCopyIfValidAndUnique r) := by
  unfold RefContainer.AddCopyIfValidAndUnique
  split_ifs
  · exact (RefContainer.Counted_Add cap c r h hroom).1
  · exact h

/-- The method `FlushBuffer` does not raise the count. -/
theorem RefContainer.Counted_FlushBuffer (cap : Nat) (c : RefContainer R)
    (h : RefContainer.Counted cap c) : RefContainer.Counted cap c.FlushBuffer := by
  unfold RefContainer.Counted RefContainer.GetTotalSize at *
  simp only [RefContainer.FlushBuffer, RefContainer.foldl_flushOne_rcsz, List.length_nil]
  omega

/-- After `Rebuild` of a container with an empty buffer and `k` calls of `Add`, the
container counts `k` references. -/
theorem RefContainer.Counted_seed (sMaxRank : Nat) (c : RefContainer R) (hb : c.buffer = []) :
    ∀ (os : List R),
      (os.foldl RefContainer.Add (c.Rebuild sMaxRank)).GetTotalSize = os.length ∧
      (os.foldl RefContainer.Add (c.Rebuild sMaxRank)).buffer.length ≤
        (os.foldl RefContainer.Add (c.Rebuild sMaxRank)).rcbz := by
  intro os
  induction os using List.reverseRecOn with
  | nil =>
    simp only [List.foldl_nil, List.length_nil]
    have h1 : (c.Rebuild sMaxRank).buffer = [] := hb
    rw [h1]
    exact ⟨rfl, Nat.zero_le _⟩
  | append_singleton os o ih =>
    simp only [List.foldl_append, List.foldl_cons, List.foldl_nil, List.length_append,
      List.length_singleton]
    have := map_t.insert_length_le
      (os.foldl RefContainer.Add (c.Rebuild sMaxRank)).buffer (RefBase.mKey o, o)
    unfold RefContainer.GetTotalSize at *
    simp only [RefContainer.Add]
    omega

end CountFacts

section CapsFacts

variable {K : Type} [LinearOrderedField K] [FloorRing K]

/-- The caps depend on the two containers only. -/
theorem Database.WithinCaps_ext (cfg : Config K) (db db' : Database K)
    (hl : db'.sBasisLines = db.sBasisLines) (hm : db'.sBasisMarks = db.sBasisMarks)
    (h : Database.WithinCaps cfg db) : Database.WithinCaps cfg db' := by
  unfold Database.WithinCaps Database.GetNumLines Database.GetNumMarks at *
  rw [hl, hm]
  exact h

/-- Offering a line when `GetNumLines() < sMaxLines` keeps the caps. -/
theorem Database.WithinCaps_addLine (cfg : Config K) (db : Database K) (r : RefLine K)
    (h : Database.WithinCaps cfg db) (hroom : db.GetNumLines < cfg.sMaxLines) :
    Database.WithinCaps cfg
      { db with sBasisLines := db.sBasisLines.AddCopyIfValidAndUnique r } :=
  ⟨RefContainer.Counted_AddCopy cfg.sMaxLines db.sBasisLines r h.1 hroom, h.2⟩

/-- Offering a mark when `GetNumMarks() < sMaxMarks` keeps the caps. -/
theorem Database.WithinCaps_addMark (cfg : Config K) (db : Database K) (r : RefMark K)
    (h : Database.WithinCaps cfg db) (hroom : db.GetNumMarks < cfg.sMaxMarks) :
    Database.WithinCaps cfg
      { db with sBasisMarks := db.sBasisMarks.AddCopyIfValidAndUnique r } :=
  ⟨h.1, RefContainer.Counted_AddCopy cfg.sMaxMarks db.sBasisMarks r h.2 hroom⟩

/-- The call `sBasisLines.FlushBuffer()` keeps the caps. -/
theorem Database.WithinCaps_flushLines (cfg : Config K) (db : Database K)
    (h : Database.WithinCaps cfg db) :
    Database.WithinCaps cfg { db with sBasisLines := db.sBasisLines.FlushBuffer } :=
  ⟨RefContainer.Counted_FlushBuffer cfg.sMaxLines db.sBasisLines h.1, h.2⟩

/-- The call `sBasisMarks.FlushBuffer()` keeps the caps. -/
theorem Database.WithinCaps_flushMarks (cfg : Config K) (db : Database K)
    (h : Database.WithinCaps cfg db) :
    Database.WithinCaps cfg { db with sBasisMarks := db.sBasisMarks.FlushBuffer } :=
  ⟨h.1, RefContainer.Counted_FlushBuffer cfg.sMaxMarks db.sBasisMarks h.2⟩

/-- The caps hold after the seeding of the originals when there is room for them. -/
theorem Database.WithinCaps_seed (M : CMath K) (cfg : Config K) (fn : Option DatabaseFn)
    (db : Database K) (hL : 6 ≤ cfg.sMaxLines) (hM : 4 ≤ cfg.sMaxMarks)
    (hbL : db.sBasisLines.buffer = []) (hbM : db.sBasisMarks.buffer = []) :
    Database.WithinCaps cfg (seedOriginals M cfg fn db) := by
  have h1 := RefContainer.Counted_seed cfg.sMaxRank db.sBasisLines hbL (originalLines M cfg)
  have h2 := RefContainer.Counted_seed cfg.sMaxRank db.sBasisMarks hbM (originalMarks cfg)
  have l6 : (originalLines M cfg).length = 6 := rfl
  have l4 : (originalMarks cfg).length = 4 := rfl
  unfold Database.WithinCaps Database.GetNumLines Database.GetNumMarks
  rw [seedOriginals_lines, seedOriginals_marks]
  exact ⟨RefContainer.Counted_FlushBuffer _ _ ⟨by rw [h1.1, l6]; exact hL, h1.2⟩,
    RefContainer.Counted_FlushBuffer _ _ ⟨by rw [h2.1, l4]; exact hM, h2.2⟩⟩

end CapsFacts

section BufferFacts

variable {K : Type} [LinearOrderedField K] [FloorRing K]

/-- A sequence of two steps that ends normally: the first step ended normally. -/
theorem andThen_ok {r : Except (Database K) (Database K)}
    {f : Database K → Except (Database K) (Database K)} {d : Database K}
    (h : andThen r f = .ok d) : ∃ d1, r = .ok d1 ∧ f d1 = .ok d := by
  cases r with
  | ok d1 => exact ⟨d1, rfl, h⟩
  | error d1 => simp [andThen] at h

/-- When `MakeAllMarksAndLinesOfRank` ends normally both buffers are empty: the last
statements are the two calls of `FlushBuffer`, with `RefMark_Intersection::MakeAll`,
which adds no line, between them. -/
theorem MakeAllMarksAndLinesOfRank_ok_buffer (M : CMath K) (cfg : Config K)
    (fn : Option DatabaseFn) (arank : Nat) (db d : Database K)
    (h : MakeAllMarksAndLinesOfRank M cfg fn arank db = .ok d) :
    d.sBasisLines.buffer = [] ∧ d.sBasisMarks.buffer = [] := by
  unfold MakeAllMarksAndLinesOfRank at h
  simp only at h
  obtain ⟨d1, -, h⟩ := andThen_ok h
  obtain ⟨d2, -, h⟩ := andThen_ok h
  obtain ⟨d3, -, h⟩ := andThen_ok h
  obtain ⟨d4, -, h⟩ := andThen_ok h
  obtain ⟨d5, -, h⟩ := andThen_ok h
  obtain ⟨d6, -, h⟩ := andThen_ok h
  obtain ⟨d7, -, h⟩ := andThen_ok h
  obtain ⟨d9, h9, h⟩ := andThen_ok h
  have hk := offerMarks_keeps cfg fn (fun x => x.sBasisLines.buffer = []) (fun _ => True)
    (fun a b hl _ hx => by show b.sBasisLines.buffer = []; rw [hl]; exact hx)
    (fun _ _ hx _ _ => hx)
    ((RefMark_Intersection.tuples { d7 with sBasisLines := d7.sBasisLines.FlushBuffer }
      arank).map (fun pr => RefMark_Intersection cfg pr.1 pr.2))
    { d7 with sBasisLines := d7.sBasisLines.FlushBuffer } (fun _ _ => trivial) rfl
  unfold RefMark_Intersection.MakeAll at h9
  rw [h9] at hk
  have hcc := callDatabaseFn_containers fn .DATABASE_RANK_COMPLETE arank
    { d9 with sBasisMarks := d9.sBasisMarks.FlushBuffer }
  have hd : d = (callDatabaseFn fn .DATABASE_RANK_COMPLETE arank
      { d9 with sBasisMarks := d9.sBasisMarks.FlushBuffer }).2 := by
    split at h <;> rename_i heq
    · exact Except.noConfusion h
    · rw [heq]
      exact (Except.ok.inj h).symm
  rw [hd, hcc.1, hcc.2]
  exact ⟨hk, rfl⟩

/-- When the loop over the ranks ends normally from a state with empty buffers, both
buffers are empty. -/
theorem buildRanks_ok_buffer (M : CMath K) (cfg : Config K) (fn : Option DatabaseFn) :
    ∀ (ranks : List Nat) (db d : Database K),
      db.sBasisLines.buffer = [] ∧ db.sBasisMarks.buffer = [] →
      buildRanks M cfg fn ranks db = .ok d →
      d.sBasisLines.buffer = [] ∧ d.sBasisMarks.buffer = []
  | [], db, d, h0, h => by
    unfold buildRanks at h
    rw [← Except.ok.inj h]
    exact h0
  | irank :: rest, db, d, _, h => by
    unfold buildRanks at h
    obtain ⟨d1, h1, h2⟩ := andThen_ok h
    exact buildRanks_ok_buffer M cfg fn rest d1 d
      (MakeAllMarksAndLinesOfRank_ok_buffer M cfg fn irank db d1 h1) h2

/-- After `MakeAllMarksAndLines`, cancelled or not, both buffers are empty. -/
theorem MakeAllMarksAndLines_buffer (M : CMath K) (cfg : Config K) (fn : Option DatabaseFn)
    (db : Database K) :
    (MakeAllMarksAndLines M cfg fn db).sBasisLines.buffer = [] ∧
      (MakeAllMarksAndLines M cfg fn db).sBasisMarks.buffer = [] := by
  have hseed : (seedOriginals M cfg fn db).sBasisLines.buffer = [] ∧
      (seedOriginals M cfg fn db).sBasisMarks.buffer = [] := by
    rw [seedOriginals_lines, seedOriginals_marks]
    exact ⟨rfl, rfl⟩
  unfold MakeAllMarksAndLines
  simp only
  rw [(callDatabaseFn_containers fn _ _ _).1, (callDatabaseFn_containers fn _ _ _).2]
  cases hb : buildRanks M cfg fn ((List.range cfg.sMaxRank).map (fun i => i + 1))
    (seedOriginals M cfg fn db) with
  | ok d => exact buildRanks_ok_buffer M cfg fn _ _ d hseed hb
  | error d => exact ⟨rfl, rfl⟩

end BufferFacts

section CapsClaim

variable {K : Type} [LinearOrderedField K] [FloorRing K]

/-- Claim C16.  For `sMaxLines >= 6` and `sMaxMarks >= 4`, in a build that starts with
empty buffers: after each of the `Add` calls that seed the originals the containers
count at most `sMaxLines` lines and `sMaxMarks` marks; the caps hold after the seeding;
from any state in which they hold, they hold after the statements of a line or mark
`MakeAll` for any candidates (so after every single offer) and after each
`FlushBuffer`; they hold where the loop over any ranks ends, normally or at the callback
call that cancels it; and they hold after `MakeAllMarksAndLines`, cancelled or not,
which leaves both buffers empty again, as the next build needs them. -/
theorem population_caps (M : CMath K) (cfg : Config K) (fn : Option DatabaseFn)
    (db : Database K) (hL : 6 ≤ cfg.sMaxLines) (hM : 4 ≤ cfg.sMaxMarks)
    (hbL : db.sBasisLines.buffer = []) (hbM : db.sBasisMarks.buffer = []) :
    (∀ k : Nat,
      (((originalLines M cfg).take k).foldl RefContainer.Add
        (db.sBasisLines.Rebuild cfg.sMaxRank)).GetTotalSize ≤ cfg.sMaxLines ∧
      (((originalMarks cfg).take k).foldl RefContainer.Add
        (db.sBasisMarks.Rebuild cfg.sMaxRank)).GetTotalSize ≤ cfg.sMaxMarks) ∧
    ((seedOriginals M cfg fn db).GetNumLines ≤ cfg.sMaxLines ∧
      (seedOriginals M cfg fn db).GetNumMarks ≤ cfg.sMaxMarks) ∧
    (∀ d : Database K, Database.WithinCaps cfg d →
      (∀ cands, Database.WithinCaps cfg (outcome (offerLines cfg fn cands d))) ∧
      (∀ cands, Database.WithinCaps cfg (outcome (offerMarks cfg fn cands d))) ∧
      Database.WithinCaps cfg { d with sBasisLines := d.sBasisLines.FlushBuffer } ∧
      Database.WithinCaps cfg { d with sBasisMarks := d.sBasisMarks.FlushBuffer }) ∧
    (∀ ranks : List Nat,
      (outcome (buildRanks M cfg fn ranks (seedOriginals M cfg fn db))).GetNumLines ≤
        cfg.sMaxLines ∧
      (outcome (buildRanks M cfg fn ranks (seedOriginals M cfg fn db))).GetNumMarks ≤
        cfg.sMaxMarks) ∧
    ((MakeAllMarksAndLines M cfg fn db).GetNumLines ≤ cfg.sMaxLines ∧
      (MakeAllMarksAndLines M cfg fn db).GetNumMarks ≤ cfg.sMaxMarks) ∧
    ((MakeAllMarksAndLines M cfg fn db).sBasisLines.buffer = [] ∧
      (MakeAllMarksAndLines M cfg fn db).sBasisMarks.buffer = []) := by
  have hseed := Database.WithinCaps_seed M cfg fn db hL hM hbL hbM
  refine ⟨fun k => ?_, ⟨hseed.1.1, hseed.2.1⟩, fun d hd => ⟨fun cands => ?_, fun cands => ?_,
    Database.WithinCaps_flushLines cfg d hd, Database.WithinCaps_flushMarks cfg d hd⟩,
    fun ranks => ?_, ?_, MakeAllMarksAndLines_buffer M cfg fn db⟩
  · have h1 := (RefContainer.Counted_seed cfg.sMaxRank db.sBasisLines hbL
      ((originalLines M cfg).take k)).1
    have h2 := (RefContainer.Counted_seed cfg.sMaxRank db.sBasisMarks hbM
      ((originalMarks cfg).take k)).1
    have l6 : (originalLines M cfg).length = 6 := rfl
    have l4 : (originalMarks cfg).length = 4 := rfl
    rw [h1, h2, List.length_take, List.length_take, l6, l4]
    omega
  · exact offerLines_keeps cfg fn (Database.WithinCaps cfg) (fun _ => True)
      (Database.WithinCaps_ext cfg)
      (fun d r h hroom _ => Database.WithinCaps_addLine cfg d r h hroom)
      cands d (fun _ _ _ => trivial) hd
  · exact offerMarks_keeps cfg fn (Database.WithinCaps cfg) (fun _ => True)
      (Database.WithinCaps_ext cfg)
      (fun d r h hroom _ => Database.WithinCaps_addMark cfg d r h hroom)
      cands d (fun _ _ => trivial) hd
  · have h := buildRanks_keeps M cfg fn (Database.WithinCaps cfg) (fun _ => True)
      (fun _ => True) (Database.WithinCaps_ext cfg)
      (fun d r h hroom _ => Database.WithinCaps_addLine cfg d r h hroom)
      (fun d r h hroom _ => Database.WithinCaps_addMark cfg d r h hroom)
      (Database.WithinCaps_flushLines cfg) (Database.WithinCaps_flushMarks cfg) ranks
      (fun _ _ _ _ => ⟨fun _ _ _ => trivial, fun _ _ => trivial⟩) _ hseed
    exact ⟨h.1.1, h.2.1⟩
  · obtain ⟨db2, h2, hl, hm⟩ := MakeAllMarksAndLines_keeps M cfg fn
      (Database.WithinCaps cfg) (fun _ => True) (fun _ => True)
      (Database.WithinCaps_ext cfg)
      (fun d r h hroom _ => Database.WithinCaps_addLine cfg d r h hroom)
      (fun d r h hroom _ => Database.WithinCaps_addMark cfg d r h hroom)
      (Database.WithinCaps_flushLines cfg) (Database.WithinCaps_flushMarks cfg)
      (fun _ _ _ _ _ => ⟨fun _ _ _ => trivial, fun _ _ => trivial⟩) db hseed
    unfold Database.GetNumLines Database.GetNumMarks
    rw [hl, hm]
    exact ⟨h2.1.1, h2.2.1⟩

end CapsClaim

/-- Witness for C16: a build on the unit square with the default settings
(`sMaxLines = sMaxMarks = 500000`) from a new database. -/
theorem population_caps_witness :
    (6 ≤ (Config.default ratMath).sMaxLines ∧ 4 ≤ (Config.default ratMath).sMaxMarks) ∧
    (MakeAllMarksAndLines ratMath (Config.default ratMath) none
        (Database.init (Config.default ratMath).sMaxRank)).GetNumLines ≤
      (Config.default ratMath).sMaxLines ∧
    (MakeAllMarksAndLines ratMath (Config.default ratMath) none
        (Database.init (Config.default ratMath).sMaxRank)).GetNumMarks ≤
      (Config.default ratMath).sMaxMarks :=
  ⟨⟨by decide, by decide⟩,
    (population_caps ratMath (Config.default ratMath) none
      (Database.init (Config.default ratMath).sMaxRank) (by decide) (by decide)
      rfl rfl).2.2.2.2.1⟩


section SeededFacts

variable {K : Type} [LinearOrderedField K] {R : Type} [RefBase R]

/-- The comparator `CompareRankAndError` does not order a reference before one of the
same rank that is no farther from the target. -/
theorem CompareRankAndError_of_le (G : K) (dist : R → K) (a b : R)
    (hd : dist b ≤ dist a) (hr : RefBase.mRank a = RefBase.mRank b) :
    CompareRankAndError G dist a b = false := by
  unfold CompareRankAndError
  simp only [hr, lt_self_iff_false, decide_False, if_true]
  split_ifs with h1 h2
  · rfl
  · exact decide_eq_false (not_lt.mpr hd)
  · exact decide_eq_false (not_lt.mpr hd)

end SeededFacts

/-- The four corner marks that `MakeAllMarksAndLines` seeds on the unit square with the
default settings, with their keys. -/
theorem originalMarks_default :
    originalMarks (Config.default ratMath) =
      [RefMark.Original 0 1 ⟨0, 0⟩ "the bottom left corner",
       RefMark.Original 0 25000001 ⟨1, 0⟩ "the bottom right corner",
       RefMark.Original 0 5001 ⟨0, 1⟩ "the top left corner",
       RefMark.Original 0 25005001 ⟨1, 1⟩ "the top right corner"] := by
  have f0 : ⌊(1 : ℚ) / 2⌋ = 0 := by rw [Int.floor_eq_iff]; norm_num
  have f5 : ⌊(1 : ℚ) / 2 + 5000⌋ = 5000 := by rw [Int.floor_eq_iff]; norm_num
  simp only [originalMarks, RefMark_Original, RefMark.FinishConstructor, Config.default,
    Paper.SetSize]
  norm_num [f0, f5]

/-- After the seeding of a new database with the default settings the vector of marks
holds the four corners in the order of their keys, in which `FlushBuffer` takes them
from the buffer. -/
theorem seedOriginals_default_vec :
    (seedOriginals ratMath (Config.default ratMath) none
      (Database.init (Config.default ratMath).sMaxRank)).sBasisMarks.vec =
      [RefMark.Original 0 1 ⟨0, 0⟩ "the bottom left corner",
       RefMark.Original 0 5001 ⟨0, 1⟩ "the top left corner",
       RefMark.Original 0 25000001 ⟨1, 0⟩ "the bottom right corner",
       RefMark.Original 0 25005001 ⟨1, 1⟩ "the top right corner"] := by
  rw [seedOriginals_marks, originalMarks_default]
  simp [RefContainer.FlushBuffer, RefContainer.Add, RefContainer.Rebuild, map_t.insert,
    RefContainer.flushOne, Database.init, RefContainer.new, RefBase.mKey, RefMark.mKey]

/-- The distances of the four corners of the unit square from the midpoint `(1/2, 0)` of
the bottom edge, with the rational stand-in for `sqrt`: `1/2` for the bottom corners and
`1` (for `sqrt(5)/2`) for the top corners. -/
theorem RefMark.DistanceTo_corners :
    RefMark.DistanceTo ratMath (RefMark.Original 0 1 ⟨0, 0⟩ "the bottom left corner")
      ⟨1 / 2, 0⟩ = 1 / 2 ∧
    RefMark.DistanceTo ratMath (RefMark.Original 0 25000001 ⟨1, 0⟩ "the bottom right corner")
      ⟨1 / 2, 0⟩ = 1 / 2 ∧
    RefMark.DistanceTo ratMath (RefMark.Original 0 5001 ⟨0, 1⟩ "the top left corner")
      ⟨1 / 2, 0⟩ = 1 ∧
    RefMark.DistanceTo ratMath (RefMark.Original 0 25005001 ⟨1, 1⟩ "the top right corner")
      ⟨1 / 2, 0⟩ = 1 := by
  have hs : ratMath.sqrt (5 / 4) = 1 := by
    show Rat.sqrt (5 / 4) = 1
    have hn : (5 / 4 : ℚ).num = 5 := by norm_num
    have hd : (5 / 4 : ℚ).den = 4 := by norm_num
    have h5 : Nat.sqrt 5 = 2 := (Nat.eq_sqrt.mpr ⟨by norm_num, by norm_num⟩).symm
    have h4 : Nat.sqrt 4 = 2 := (Nat.eq_sqrt.mpr ⟨by norm_num, by norm_num⟩).symm
    have h5n : Int.toNat 5 = 5 := rfl
    unfold Rat.sqrt
    rw [hn, hd, h4]
    simp only [Int.sqrt]
    rw [h5n, h5]
    norm_num
  have hh : ratMath.sqrt (1 / 2 * (1 / 2)) = 1 / 2 := ratMath_sqrt_mul_self _ (by norm_num)
  have e1 : ((0 : ℚ) - 1 / 2) * (0 - 1 / 2) + (0 - 0) * (0 - 0) = 1 / 2 * (1 / 2) := by
    norm_num
  have e2 : ((1 : ℚ) - 1 / 2) * (1 - 1 / 2) + (0 - 0) * (0 - 0) = 1 / 2 * (1 / 2) := by
    norm_num
  have e3 : ((0 : ℚ) - 1 / 2) * (0 - 1 / 2) + (1 - 0) * (1 - 0) = 5 / 4 := by norm_num
  have e4 : ((1 : ℚ) - 1 / 2) * (1 - 1 / 2) + (1 - 0) * (1 - 0) = 5 / 4 := by norm_num
  refine ⟨?_, ?_, ?_, ?_⟩
  · simp only [RefMark.DistanceTo, XYPt.Mag, RefMark.p, XYPt.sub]
    rw [e1, hh]
  · simp only [RefMark.DistanceTo, XYPt.Mag, RefMark.p, XYPt.sub]
    rw [e2, hh]
  · simp only [RefMark.DistanceTo, XYPt.Mag, RefMark.p, XYPt.sub]
    rw [e3, hs]
  · simp only [RefMark.DistanceTo, XYPt.Mag, RefMark.p, XYPt.sub]
    rw [e4, hs]


/-- After the seeding of a new database with the default settings, `[bottom left]` is a
possible result of `FindBestMarks((1/2, 0), 1)`: no other corner is nearer to the
target. -/
theorem FindBestMarksResult_seeded_one :
    FindBestMarksResult ratMath (Config.default ratMath)
      (seedOriginals ratMath (Config.default ratMath) none
        (Database.init (Config.default ratMath).sMaxRank)).sBasisMarks
      ⟨1 / 2, 0⟩ [] 1
      [some (RefMark.Original 0 1 ⟨0, 0⟩ "the bottom left corner")] := by
  obtain ⟨d1, d2, d3, d4⟩ := RefMark.DistanceTo_corners
  unfold FindBestMarksResult
  rw [seedOriginals_default_vec]
  refine ⟨[RefMark.Original 0 1 ⟨0, 0⟩ "the bottom left corner"],
    [RefMark.Original 0 5001 ⟨0, 1⟩ "the top left corner",
     RefMark.Original 0 25000001 ⟨1, 0⟩ "the bottom right corner",
     RefMark.Original 0 25005001 ⟨1, 1⟩ "the top right corner"],
    ?_, ?_, List.Perm.refl _, List.pairwise_singleton _ _, ?_⟩
  · simp [resize]
  · simp [resize]
  · intro x hx y hy
    rw [List.mem_singleton] at hy
    rw [hy]
    simp only [List.mem_cons, List.mem_singleton, List.not_mem_nil, or_false] at hx
    rcases hx with hx | hx | hx <;> rw [hx] <;>
      refine CompareRankAndError_of_le _ _ _ _ ?_ rfl <;> beta_reduce
    · rw [d1, d3]; norm_num
    · rw [d1, d2]
    · rw [d1, d4]; norm_num

/-- After the seeding of a new database with the default settings,
`[bottom right, bottom left]` is a possible result of `FindBestMarks((1/2, 0), 2)`: the
two bottom corners are at the same distance from the target and have the same rank, and
the top corners are farther away. -/
theorem FindBestMarksResult_seeded_two :
    FindBestMarksResult ratMath (Config.default ratMath)
      (seedOriginals ratMath (Config.default ratMath) none
        (Database.init (Config.default ratMath).sMaxRank)).sBasisMarks
      ⟨1 / 2, 0⟩ [] 2
      [some (RefMark.Original 0 25000001 ⟨1, 0⟩ "the bottom right corner"),
        some (RefMark.Original 0 1 ⟨0, 0⟩ "the bottom left corner")] := by
  obtain ⟨d1, d2, d3, d4⟩ := RefMark.DistanceTo_corners
  unfold FindBestMarksResult
  rw [seedOriginals_default_vec]
  refine ⟨[RefMark.Original 0 25000001 ⟨1, 0⟩ "the bottom right corner",
      RefMark.Original 0 1 ⟨0, 0⟩ "the bottom left corner"],
    [RefMark.Original 0 5001 ⟨0, 1⟩ "the top left corner",
     RefMark.Original 0 25005001 ⟨1, 1⟩ "the top right corner"],
    ?_, ?_, ?_, ?_, ?_⟩
  · simp [resize]
  · simp [resize]
  · exact (List.Perm.swap _ _ _).trans ((List.Perm.swap _ _ _).cons _)
  · rw [List.pairwise_cons]
    refine ⟨fun y hy => ?_, List.pairwise_singleton _ _⟩
    rw [List.mem_singleton] at hy
    rw [hy]
    refine CompareRankAndError_of_le _ _ _ _ ?_ rfl
    beta_reduce
    rw [d1, d2]
  · intro x hx y hy
    simp only [List.mem_cons, List.mem_singleton, List.not_mem_nil, or_false] at hx hy
    rcases hx with hx | hx <;> rcases hy with hy | hy <;> rw [hx, hy] <;>
      refine CompareRankAndError_of_le _ _ _ _ ?_ rfl <;> beta_reduce
    · rw [d2, d3]; norm_num
    · rw [d1, d3]; norm_num
    · rw [d2, d4]; norm_num
    · rw [d1, d4]; norm_num

/-- Counterexample to C20 as stated: in the database that holds the four seeded corners
of the unit square (default settings), for the target `(1/2, 0)`, `N1 = 1` and `N2 = 2`,
the contract of `std::partial_sort_copy` admits `[bottom left]` for
`FindBestMarks(t, 1)` and `[bottom right, bottom left]` for `FindBestMarks(t, 2)`, which
are the results of a heap-based `partial_sort_copy` on the stored order (bottom left,
top left, bottom right, top right); the first entry of the second is not the entry of
the first. -/
theorem FindBestMarks_take_fails :
    (1 ≤ 2 ∧ 2 ≤ (seedOriginals ratMath (Config.default ratMath) none
        (Database.init (Config.default ratMath).sMaxRank)).sBasisMarks.vec.length) ∧
    FindBestMarksResult ratMath (Config.default ratMath)
      (seedOriginals ratMath (Config.default ratMath) none
        (Database.init (Config.default ratMath).sMaxRank)).sBasisMarks
      ⟨1 / 2, 0⟩ [] 1
      [some (RefMark.Original 0 1 ⟨0, 0⟩ "the bottom left corner")] ∧
    FindBestMarksResult ratMath (Config.default ratMath)
      (seedOriginals ratMath (Config.default ratMath) none
        (Database.init (Config.default ratMath).sMaxRank)).sBasisMarks
      ⟨1 / 2, 0⟩ [] 2
      [some (RefMark.Original 0 25000001 ⟨1, 0⟩ "the bottom right corner"),
        some (RefMark.Original 0 1 ⟨0, 0⟩ "the bottom left corner")] ∧
    ([some (RefMark.Original 0 25000001 (⟨1, 0⟩ : XYPt ℚ) "the bottom right corner"),
        some (RefMark.Original 0 1 ⟨0, 0⟩ "the bottom left corner")]).take 1 ≠
      [some (RefMark.Original 0 1 ⟨0, 0⟩ "the bottom left corner")] := by
  refine ⟨⟨by decide, ?_⟩, FindBestMarksResult_seeded_one, FindBestMarksResult_seeded_two, ?_⟩
  · rw [seedOriginals_default_vec]
    decide
  · simp only [List.take_succ_cons, List.take_zero, ne_eq, List.cons.injEq, Option.some.injEq,
      and_true]
    intro h
    have := congrArg RefMark.mKey h
    simp [RefMark.mKey] at this

/-- Witness for C20 (amended): the two results of the counterexample agree in the first
place up to `CompareRankAndError`. -/
theorem FindBestMarks_take_witness :
    (1 ≤ 2 ∧ 2 ≤ (seedOriginals ratMath (Config.default ratMath) none
        (Database.init (Config.default ratMath).sMaxRank)).sBasisMarks.vec.length) ∧
    ∃ best1 best2 : List (RefMark ℚ),
      [some (RefMark.Original 0 1 (⟨0, 0⟩ : XYPt ℚ) "the bottom left corner")] =
        best1.map some ∧
      [some (RefMark.Original 0 25000001 (⟨1, 0⟩ : XYPt ℚ) "the bottom right corner"),
        some (RefMark.Original 0 1 ⟨0, 0⟩ "the bottom left corner")] = best2.map some ∧
      best1.length = 1 ∧ best2.length = 2 ∧
      (∀ x ∈ best1, x ∈ (seedOriginals ratMath (Config.default ratMath) none
        (Database.init (Config.default ratMath).sMaxRank)).sBasisMarks.vec) ∧
      (∀ x ∈ best2, x ∈ (seedOriginals ratMath (Config.default ratMath) none
        (Database.init (Config.default ratMath).sMaxRank)).sBasisMarks.vec) ∧
      List.Forall₂ (fun x y =>
        CompareRankAndError (Config.default ratMath).sGoodEnoughError
          (fun r => RefMark.DistanceTo ratMath r ⟨1 / 2, 0⟩) x y = false ∧
        CompareRankAndError (Config.default ratMath).sGoodEnoughError
          (fun r => RefMark.DistanceTo ratMath r ⟨1 / 2, 0⟩) y x = false)
        best1 (best2.take 1) :=
  ⟨⟨by decide, by rw [seedOriginals_default_vec]; decide⟩,
    (FindBestMarks_take ratMath (Config.default ratMath)
      (seedOriginals ratMath (Config.default ratMath) none
        (Database.init (Config.default ratMath).sMaxRank)).sBasisMarks
      ⟨1 / 2, 0⟩ [] [] _ _ 1 2 (by decide) (by rw [seedOriginals_default_vec]; decide)
      FindBestMarksResult_seeded_one FindBestMarksResult_seeded_two).1⟩


section CornerFacts

variable {K : Type} [LinearOrderedField K] {R : Type} [RefBase R]

/-- A reference that `CompareRankAndError` does not order after a reference `c` of rank 0
at distance 0 has rank 0 and a distance of at most 0, when the good enough error is not
negative. -/
theorem CompareRankAndError_not_after_zero (G : K) (dist : R → K) (c m : R) (hG : 0 ≤ G)
    (hd : dist c = 0) (hr : RefBase.mRank c = 0)
    (h : CompareRankAndError G dist c m = false) :
    RefBase.mRank m = 0 ∧ dist m ≤ 0 := by
  unfold CompareRankAndError at h
  simp only [hd, hr] at h
  have hnG : ¬ (0 : K) > G := not_lt.mpr hG
  by_cases h2 : dist m > G
  · rw [if_pos (Or.inr h2)] at h
    have hpos : (0 : K) < dist m := lt_of_le_of_lt hG h2
    rw [if_neg (ne_of_lt hpos)] at h
    exact absurd hpos (of_decide_eq_false h)
  · rw [if_neg (by tauto)] at h
    by_cases h3 : 0 = RefBase.mRank m
    · rw [if_pos h3] at h
      exact ⟨h3.symm, not_lt.mp (of_decide_eq_false h)⟩
    · rw [if_neg h3] at h
      have := of_decide_eq_false h
      omega

/-- The first element of a result that meets the contract of `partial_sort_copy`, for a
destination and a source that are not empty, is an element of the source that the
comparator orders after no element of the source. -/
theorem PartialSortCopyResult.head {comp : R → R → Bool} {src : List R}
    {dst out : List (Option R)} (h : PartialSortCopyResult comp src dst out)
    (hsrc : src ≠ []) (hdst : dst ≠ []) :
    ∃ m, out.head? = some (some m) ∧ m ∈ src ∧ ∀ c ∈ src, c = m ∨ comp c m = false := by
  obtain ⟨best, rest, ho, hl, hp, hpair, hrest⟩ := h
  have hpos : 0 < min src.length dst.length :=
    lt_min (List.length_pos.mpr hsrc) (List.length_pos.mpr hdst)
  cases best with
  | nil => rw [← hl] at hpos; exact absurd hpos (by simp)
  | cons m t =>
    refine ⟨m, by rw [ho]; rfl, hp.subset (by simp), fun c hc => ?_⟩
    have hc2 : c ∈ (m :: t) ++ rest := hp.symm.subset hc
    rcases List.mem_append.mp hc2 with h1 | h1
    · rcases List.mem_cons.mp h1 with h2 | h2
      · exact Or.inl h2
      · exact Or.inr ((List.pairwise_cons.mp hpair).1 c h2)
    · exact Or.inr (hrest c h1 m (List.mem_cons_self _ _))

end CornerFacts

section CornerClaim

variable {K : Type} [LinearOrderedField K] [FloorRing K]

/-- Claim C21.  For every paper, every good enough error that is not negative and every
database whose vector holds the four corner marks that a build seeds (rank 0), for a
`sqrt` without negative values and with `sqrt(0) = 0`: for each corner `c` and every
`n >= 1`, the first entry of the vector after `FindBestMarks(c, vm, n)` is a stored mark
of rank 0 at distance 0 from `c`, hence within the good enough error; this holds for
every implementation of `partial_sort_copy` that meets the standard, and so for the
model `FindBestMarks`. -/
theorem FindBestMarks_corner (M : CMath K) (cfg : Config K)
    (sBasisMarks : RefContainer (RefMark K)) (vm : List (Option (RefMark K))) (n : Nat)
    (hG : 0 ≤ cfg.sGoodEnoughError) (hs0 : M.sqrt 0 = 0) (hs : ∀ x, 0 ≤ M.sqrt x)
    (hcorners : ∀ c ∈ originalMarks cfg, c ∈ sBasisMarks.vec) (hn : 1 ≤ n) :
    ∀ c ∈ originalMarks cfg,
      (∀ out, FindBestMarksResult M cfg sBasisMarks c.p vm n out →
        ∃ m, out.head? = some (some m) ∧ m ∈ sBasisMarks.vec ∧ m.mRank = 0 ∧
          RefMark.DistanceTo M m c.p = 0 ∧
          RefMark.DistanceTo M m c.p ≤ cfg.sGoodEnoughError) ∧
      ∃ m, (FindBestMarks M cfg sBasisMarks c.p vm n).head? = some (some m) ∧
        m ∈ sBasisMarks.vec ∧ m.mRank = 0 ∧ RefMark.DistanceTo M m c.p = 0 ∧
        RefMark.DistanceTo M m c.p ≤ cfg.sGoodEnoughError := by
  intro c hc
  have hall : ∀ out, FindBestMarksResult M cfg sBasisMarks c.p vm n out →
      ∃ m, out.head? = some (some m) ∧ m ∈ sBasisMarks.vec ∧ m.mRank = 0 ∧
        RefMark.DistanceTo M m c.p = 0 ∧
        RefMark.DistanceTo M m c.p ≤ cfg.sGoodEnoughError := by
    intro out hout
    have hcv := hcorners c hc
    have hdc : RefMark.DistanceTo M c c.p = 0 := by
      simp only [RefMark.DistanceTo, XYPt.Mag, XYPt.sub, sub_self, mul_zero, add_zero]
      exact hs0
    have hrc : c.mRank = 0 := by
      simp only [originalMarks, RefMark_Original, List.mem_cons, List.mem_singleton,
        List.not_mem_nil, or_false] at hc
      rcases hc with h | h | h | h <;> rw [h] <;> rfl
    unfold FindBestMarksResult at hout
    obtain ⟨m, hm1, hm2, hm3⟩ := hout.head (List.ne_nil_of_mem hcv)
      (by
        intro h0
        have := resize_length vm n
        rw [h0] at this
        simp at this
        omega)
    have hfacts : m.mRank = 0 ∧ RefMark.DistanceTo M m c.p ≤ 0 := by
      rcases hm3 c hcv with h | h
      · rw [← h]; exact ⟨hrc, le_of_eq hdc⟩
      · exact CompareRankAndError_not_after_zero cfg.sGoodEnoughError
          (fun r => RefMark.DistanceTo M r c.p) c m hG hdc hrc h
    have hd0 : RefMark.DistanceTo M m c.p = 0 :=
      le_antisymm hfacts.2 (by unfold RefMark.DistanceTo XYPt.Mag; exact hs _)
    exact ⟨m, hm1, hm2, hfacts.1, hd0, by rw [hd0]; exact hG⟩
  refine ⟨hall, hall _ ?_⟩
  unfold FindBestMarksResult FindBestMarks
  exact partial_sort_copy_result _ _ _ _

end CornerClaim

/-- Witness for C21: the seeded default database on the unit square, `n = 1`. -/
theorem FindBestMarks_corner_witness :
    ((0 : ℚ) ≤ (Config.default ratMath).sGoodEnoughError ∧ ratMath.sqrt 0 = 0 ∧
      (∀ x, 0 ≤ ratMath.sqrt x) ∧ 1 ≤ 1) ∧
    ∀ c ∈ originalMarks (Config.default ratMath),
      ∃ m, (FindBestMarks ratMath (Config.default ratMath)
          (seedOriginals ratMath (Config.default ratMath) none
            (Database.init (Config.default ratMath).sMaxRank)).sBasisMarks
          c.p [] 1).head? = some (some m) ∧
        m ∈ (seedOriginals ratMath (Config.default ratMath) none
            (Database.init (Config.default ratMath).sMaxRank)).sBasisMarks.vec ∧
        m.mRank = 0 ∧ RefMark.DistanceTo ratMath m c.p = 0 ∧
        RefMark.DistanceTo ratMath m c.p ≤ (Config.default ratMath).sGoodEnoughError :=
  have hG : (0 : ℚ) ≤ (Config.default ratMath).sGoodEnoughError := by
    simp only [Config.default]; norm_num
  have hs0 : ratMath.sqrt 0 = 0 := by
    have := ratMath_sqrt_mul_self 0 (le_refl 0)
    rwa [mul_zero] at this
  have hs : ∀ x, 0 ≤ ratMath.sqrt x := fun x => Rat.sqrt_nonneg x
  ⟨⟨hG, hs0, hs, le_refl 1⟩, fun c hc =>
    (FindBestMarks_corner ratMath (Config.default ratMath)
      (seedOriginals ratMath (Config.default ratMath) none
        (Database.init (Config.default ratMath).sMaxRank)).sBasisMarks [] 1 hG hs0 hs
      (by
        rw [seedOriginals_default_vec, originalMarks_default]
        intro c hc
        simp only [List.mem_cons, List.mem_singleton, List.not_mem_nil, or_false] at hc ⊢
        tauto)
      (le_refl 1) c hc).2⟩


section RankOrderFacts

variable {R : Type} [RefBase R]

/-- The method `std::map::insert` of a reference under its own key keeps a map
ordered by key. -/
theorem map_t.KeyOrdered_insert {m : map_t R} (ar : R) (h : map_t.KeyOrdered m) :
    map_t.KeyOrdered (map_t.insert m (RefBase.mKey ar, ar)) := by
  refine ⟨map_t.insert_sorted h.1, fun e he => ?_⟩
  rcases map_t.mem_insert he with h1 | h1
  · exact h.2 e h1
  · rw [h1]

/-- One step of the loop of `FlushBuffer` keeps the rank maps ordered by key. -/
theorem RefContainer.flushOne_KeyOrdered (c : RefContainer R) (bi : Int × R)
    (hbi : bi.1 = RefBase.mKey bi.2) (h : ∀ m ∈ c.maps, map_t.KeyOrdered m) :
    ∀ m ∈ (c.flushOne bi).maps, map_t.KeyOrdered m := by
  intro m hm
  simp only [RefContainer.flushOne] at hm
  rw [List.mem_iff_getElem?] at hm
  obtain ⟨i, hi⟩ := hm
  rw [List.getElem?_modify] at hi
  cases hci : c.maps[i]? with
  | none => rw [hci] at hi; simp at hi
  | some m0 =>
    rw [hci] at hi
    have hm0 : m0 ∈ c.maps := List.getElem?_mem hci
    simp only [Option.map_eq_map, Option.map_some', Option.some.injEq] at hi
    rw [← hi]
    split_ifs
    · have hb : bi = (RefBase.mKey bi.2, bi.2) := Prod.ext hbi rfl
      rw [hb]
      exact map_t.KeyOrdered_insert bi.2 (h m0 hm0)
    · exact h m0 hm0

/-- The loop of `FlushBuffer` keeps the rank maps ordered by key. -/
theorem RefContainer.foldl_flushOne_KeyOrdered :
    ∀ (rest : map_t R) (c : RefContainer R), (∀ e ∈ rest, e.1 = RefBase.mKey e.2) →
      (∀ m ∈ c.maps, map_t.KeyOrdered m) →
      ∀ m ∈ (rest.foldl RefContainer.flushOne c).maps, map_t.KeyOrdered m
  | [], _, _, h => h
  | e :: rest, c, hr, h => by
    simp only [List.foldl_cons]
    exact RefContainer.foldl_flushOne_KeyOrdered rest (c.flushOne e)
      (fun x hx => hr x (List.mem_cons_of_mem _ hx))
      (RefContainer.flushOne_KeyOrdered c e (hr e (List.mem_cons_self _ _)) h)

/-- In every container state that the builder can produce, the rank maps and the buffer
are ordered by key. -/
theorem RefContainer.Reachable.keyOrdered {sMaxRank : Nat} {originals : List R}
    {c : RefContainer R} (h : RefContainer.Reachable sMaxRank originals c) :
    (∀ m ∈ c.maps, map_t.KeyOrdered m) ∧ map_t.KeyOrdered c.buffer := by
  induction h with
  | rebuild c hb =>
    refine ⟨fun m hm => ?_, ?_⟩
    · simp only [RefContainer.Rebuild] at hm
      rw [List.eq_of_mem_replicate hm]
      exact ⟨List.sorted_nil, fun e he => absurd he (List.not_mem_nil _)⟩
    · show map_t.KeyOrdered c.buffer
      rw [hb]
      exact ⟨List.sorted_nil, fun e he => absurd he (List.not_mem_nil _)⟩
  | seed c o _ _ _ ih => exact ⟨ih.1, map_t.KeyOrdered_insert o ih.2⟩
  | addCopy c ars _ _ ih =>
    unfold RefContainer.AddCopyIfValidAndUnique
    split_ifs
    · exact ⟨ih.1, map_t.KeyOrdered_insert ars ih.2⟩
    · exact ih
  | flush c _ ih =>
    exact ⟨RefContainer.foldl_flushOne_KeyOrdered c.buffer c ih.2.2 ih.1,
      List.sorted_nil, fun e he => absurd he (List.not_mem_nil _)⟩

end RankOrderFacts

section RankOrderClaim

variable {R : Type} [RefBase R]

/-- Claim C28, amended.  In every container state that the builder can produce (`Rebuild`,
the seeding of the originals, `AddCopyIfValidAndUnique` and `FlushBuffer` in any order),
iterating `maps[rank]` from `begin()` to `end()` yields the references of that rank in
strictly ascending order of their keys, whatever the order of insertion was. -/
theorem rankEntries_key_order {sMaxRank : Nat} {originals : List R} {c : RefContainer R}
    (h : RefContainer.Reachable sMaxRank originals c) (rank : Nat) :
    ((rankEntries c rank).map (fun e => RefBase.mKey e.2)).Sorted (· < ·) ∧
      ∀ e ∈ rankEntries c rank, e.1 = RefBase.mKey e.2 := by
  have hk := h.keyOrdered.1
  unfold rankEntries
  rw [List.getD_eq_getElem?_getD]
  cases hm : c.maps[rank]? with
  | none => exact ⟨List.sorted_nil, fun e he => absurd he (List.not_mem_nil _)⟩
  | some m =>
    have hmm := hk m (List.getElem?_mem hm)
    simp only [Option.getD_some]
    refine ⟨?_, hmm.2⟩
    have he : m.map (fun e => RefBase.mKey e.2) = m.map Prod.fst :=
      List.map_congr_left (fun e he => (hmm.2 e he).symm)
    rw [he]
    exact hmm.1

end RankOrderClaim

/-- Counterexample to C28 as stated: `MakeAllMarksAndLines` inserts the corners of the
unit square (default settings) in the order bottom left, bottom right, top left, top
right; after the seeding, iterating the marks of rank 0 yields bottom left, top left,
bottom right, top right, the order of their keys 1, 5001, 25000001, 25005001. -/
theorem rankEntries_not_insertion_order :
    originalMarks (Config.default ratMath) =
      [RefMark.Original 0 1 ⟨0, 0⟩ "the bottom left corner",
       RefMark.Original 0 25000001 ⟨1, 0⟩ "the bottom right corner",
       RefMark.Original 0 5001 ⟨0, 1⟩ "the top left corner",
       RefMark.Original 0 25005001 ⟨1, 1⟩ "the top right corner"] ∧
    (rankEntries (seedOriginals ratMath (Config.default ratMath) none
      (Database.init (Config.default ratMath).sMaxRank)).sBasisMarks 0).map Prod.snd =
      [RefMark.Original 0 1 ⟨0, 0⟩ "the bottom left corner",
       RefMark.Original 0 5001 ⟨0, 1⟩ "the top left corner",
       RefMark.Original 0 25000001 ⟨1, 0⟩ "the bottom right corner",
       RefMark.Original 0 25005001 ⟨1, 1⟩ "the top right corner"] ∧
    (rankEntries (seedOriginals ratMath (Config.default ratMath) none
      (Database.init (Config.default ratMath).sMaxRank)).sBasisMarks 0).map Prod.snd ≠
      originalMarks (Config.default ratMath) := by
  have h : (rankEntries (seedOriginals ratMath (Config.default ratMath) none
      (Database.init (Config.default ratMath).sMaxRank)).sBasisMarks 0).map Prod.snd =
      [RefMark.Original 0 1 ⟨0, 0⟩ "the bottom left corner",
       RefMark.Original 0 5001 ⟨0, 1⟩ "the top left corner",
       RefMark.Original 0 25000001 ⟨1, 0⟩ "the bottom right corner",
       RefMark.Original 0 25005001 ⟨1, 1⟩ "the top right corner"] := by
    rw [seedOriginals_marks, originalMarks_default]
    simp [rankEntries, RefContainer.FlushBuffer, RefContainer.Add, RefContainer.Rebuild,
      map_t.insert, RefContainer.flushOne, Database.init, RefContainer.new, RefBase.mKey,
      RefBase.mRank, RefMark.mKey, RefMark.mRank, Config.default, List.modify]
  refine ⟨originalMarks_default, h, ?_⟩
  rw [h, originalMarks_default]
  intro he
  have h2 := congrArg (fun l => (l.map RefMark.mKey)) he
  simp [RefMark.mKey] at h2

/-- Witness for C28 (amended): the marks of rank 0 after the seeding of a new database
with the default settings. -/
theorem rankEntries_key_order_witness :
    RefContainer.Reachable (Config.default ratMath).sMaxRank
      (originalMarks (Config.default ratMath))
      (seedOriginals ratMath (Config.default ratMath) none
        (Database.init (Config.default ratMath).sMaxRank)).sBasisMarks ∧
    ((rankEntries (seedOriginals ratMath (Config.default ratMath) none
      (Database.init (Config.default ratMath).sMaxRank)).sBasisMarks 0).map
        (fun e => RefBase.mKey e.2)).Sorted (· < ·) :=
  have hr : RefContainer.Reachable (Config.default ratMath).sMaxRank
      (originalMarks (Config.default ratMath))
      (seedOriginals ratMath (Config.default ratMath) none
        (Database.init (Config.default ratMath).sMaxRank)).sBasisMarks := by
    rw [seedOriginals_marks]
    exact RefContainer.Reachable.seeded _ _ rfl
  ⟨hr, (rankEntries_key_order hr 0).1⟩


section SequenceBasics

variable {K : Type} [LinearOrderedField K]

/-- The reference is in the sequence after `SequencePushUnique`. -/
theorem mem_SequencePushUnique_self (s : List (RefPtr K)) (rb : RefPtr K) :
    rb ∈ SequencePushUnique s rb := by
  unfold SequencePushUnique
  split_ifs with h
  · exact h
  · simp

/-- A reference is in the sequence after its `SequencePushSelf`. -/
theorem RefPtr.mem_SequencePushSelf (x : RefPtr K) (s : List (RefPtr K)) :
    x ∈ x.SequencePushSelf s := by
  cases x with
  | mark rm =>
    cases rm <;> simp only [RefPtr.SequencePushSelf, RefMark.SequencePushSelf] <;>
      exact mem_SequencePushUnique_self _ _
  | line rl =>
    cases rl with
    | Original r k l n =>
      simp only [RefPtr.SequencePushSelf, RefLine.SequencePushSelf]
      exact mem_SequencePushUnique_self _ _
    | C2P_C2P r k l rm1 rm2 =>
      simp only [RefPtr.SequencePushSelf, RefLine.SequencePushSelf]
      exact mem_SequencePushUnique_self _ _
    | L2L_C2P r k l rl1 rm1 =>
      simp only [RefPtr.SequencePushSelf, RefLine.SequencePushSelf]
      exact mem_SequencePushUnique_self _ _
    | P2P r k l rm1 rm2 w =>
      rcases w with _ | _ | _ <;>
        simp only [RefPtr.SequencePushSelf, RefLine.SequencePushSelf] <;>
        exact mem_SequencePushUnique_self _ _
    | L2L r k l rl1 rl2 w =>
      rcases w with _ | _ | _ <;>
        simp only [RefPtr.SequencePushSelf, RefLine.SequencePushSelf] <;>
        exact mem_SequencePushUnique_self _ _
    | P2L_C2P r k l rm1 rl1 rm2 w =>
      rcases w with _ | _ | _ <;>
        simp only [RefPtr.SequencePushSelf, RefLine.SequencePushSelf] <;>
        exact mem_SequencePushUnique_self _ _
    | P2L_P2L r k l rm1 rl1 rm2 rl2 w =>
      rcases w with _ | _ | _ | _ | _ <;>
        simp only [RefPtr.SequencePushSelf, RefLine.SequencePushSelf] <;>
        exact mem_SequencePushUnique_self _ _
    | L2L_P2L r k l rl1 rm1 rl2 w =>
      rcases w with _ | _ | _ <;>
        simp only [RefPtr.SequencePushSelf, RefLine.SequencePushSelf] <;>
        exact mem_SequencePushUnique_self _ _

end SequenceBasics

section DiagramFacts

/-- The loop that sets the `idef` fields keeps the `iact` fields. -/
theorem setIdef_iact : ∀ (id : Nat) (ds : List DgmInfo),
    (setIdef id ds).map DgmInfo.iact = ds.map DgmInfo.iact
  | _, [] => rfl
  | id, d :: ds => by
    simp only [setIdef, List.map_cons]
    rw [setIdef_iact]

/-- The loop that sets the `idef` fields, run on records whose `iact` fields ascend
strictly from at least `id` and stay below the largest `size_t`: the first record gets
`idef = id`, each later one the `iact` of the one before plus one, and `idef <= iact`
in every record. -/
theorem setIdef_chain : ∀ (id : Nat) (ds : List DgmInfo),
    (ds.map DgmInfo.iact).Sorted (· < ·) → (∀ d ∈ ds, id ≤ d.iact) →
    (∀ d ∈ ds, d.iact + 1 < sizeModulus) →
    (∀ d, (setIdef id ds).head? = some d → d.idef = id) ∧
    (∀ (k : Nat) (d e : DgmInfo), (setIdef id ds)[k]? = some d →
      (setIdef id ds)[k + 1]? = some e → e.idef = d.iact + 1) ∧
    (∀ d ∈ setIdef id ds, d.idef ≤ d.iact)
  | _, [], _, _, _ => by
    simp [setIdef]
  | id, d :: ds, hs, hid, hlt => by
    have hmod : (d.iact + 1) % sizeModulus = d.iact + 1 :=
      Nat.mod_eq_of_lt (hlt d (List.mem_cons_self _ _))
    have hs2 : (∀ a ∈ ds, d.iact < a.iact) ∧ (ds.map DgmInfo.iact).Sorted (· < ·) := by
      simpa using hs
    have ih := setIdef_chain (d.iact + 1) ds hs2.2
      (fun e he => Nat.succ_le_of_lt (hs2.1 e he))
      (fun e he => hlt e (List.mem_cons_of_mem _ he))
    simp only [setIdef, hmod]
    refine ⟨?_, ?_, ?_⟩
    · intro d' hd'
      simp only [List.head?_cons, Option.some.injEq] at hd'
      rw [← hd']
    · intro k d' e hk hk1
      cases k with
      | zero =>
        simp only [List.getElem?_cons_zero, Option.some.injEq] at hk
        simp only [zero_add, List.getElem?_cons_succ] at hk1
        rw [← hk]
        have := ih.1 e (by rw [List.head?_eq_getElem?]; exact hk1)
        exact this
      | succ k =>
        simp only [List.getElem?_cons_succ] at hk hk1
        exact ih.2.1 k d' e hk hk1
    · intro d' hd'
      rcases List.mem_cons.mp hd' with h | h
      · rw [h]
        exact hid d (List.mem_cons_self _ _)
      · exact ih.2.2 d' h

end DiagramFacts

section DiagramClaim

variable {K : Type} [LinearOrderedField K]

/-- In a list of records whose `iact` fields ascend strictly, no `iact` is above the
last one. -/
theorem DgmInfo.le_getLast : ∀ (ds : List DgmInfo) (x : DgmInfo),
    (ds.map DgmInfo.iact).Sorted (· < ·) → ds.getLast? = some x →
    ∀ d ∈ ds, d.iact ≤ x.iact
  | [], _, _, h => by simp at h
  | [a], x, _, h => by
    intro d hd
    simp only [List.getLast?_singleton, Option.some.injEq] at h
    rw [List.mem_singleton] at hd
    rw [hd, h]
  | a :: b :: t, x, hs, h => by
    have hs2 : (∀ e ∈ b :: t, a.iact < e.iact) ∧
        ((b :: t).map DgmInfo.iact).Sorted (· < ·) := by simpa using hs
    have h2 : (b :: t).getLast? = some x := by
      rw [List.getLast?_cons_cons] at h
      exact h
    have ih := DgmInfo.le_getLast (b :: t) x hs2.2 h2
    intro d hd
    rcases List.mem_cons.mp hd with hd1 | hd1
    · rw [hd1]
      exact le_of_lt (hs2.1 x (List.mem_of_mem_getLast? h2))
    · exact ih d hd1

/-- The records that `BuildDiagrams` makes from the records `d1` of the action lines
(`iact` fields ascending strictly, none above `n = size - 1`): the list is not empty, the
first record has `idef = 0`, each later one the `iact` of the one before plus one,
`idef <= iact` throughout, and the last `iact` is `n`. -/
theorem BuildDiagrams_records (d1 : List DgmInfo) (n : Nat) (hn : n + 1 < sizeModulus)
    (h1s : (d1.map DgmInfo.iact).Sorted (· < ·)) (h1b : ∀ d ∈ d1, d.iact ≤ n)
    (res : List DgmInfo)
    (hres : res = setIdef 0
      (match (if d1.length = 0 then d1 ++ [DgmInfo.mk 0 0] else d1).getLast? with
      | some last =>
        if last.iact < n then
          (if d1.length = 0 then d1 ++ [DgmInfo.mk 0 0] else d1) ++ [DgmInfo.mk 0 n]
        else (if d1.length = 0 then d1 ++ [DgmInfo.mk 0 0] else d1)
      | none => (if d1.length = 0 then d1 ++ [DgmInfo.mk 0 0] else d1))) :
    res ≠ [] ∧
    (∀ d, res.head? = some d → d.idef = 0) ∧
    (∀ (k : Nat) (d e : DgmInfo), res[k]? = some d → res[k + 1]? = some e →
      e.idef = d.iact + 1) ∧
    (∀ d ∈ res, d.idef ≤ d.iact) ∧
    (∀ d, res.getLast? = some d → d.iact = n) := by
  generalize hd2 : (if d1.length = 0 then d1 ++ [DgmInfo.mk 0 0] else d1) = d2 at hres
  have h2 : (d2.map DgmInfo.iact).Sorted (· < ·) ∧ (∀ d ∈ d2, d.iact ≤ n) ∧
      d2 ≠ [] := by
    rw [← hd2]
    split_ifs with h0
    · rw [List.length_eq_zero] at h0
      rw [h0]
      refine ⟨by simp, ?_, by simp⟩
      intro d hd
      simp only [List.nil_append, List.mem_singleton] at hd
      rw [hd]
      exact Nat.zero_le _
    · exact ⟨h1s, h1b, fun h => h0 (by rw [h]; rfl)⟩
  obtain ⟨h2s, h2b, h2n⟩ := h2
  obtain ⟨last, hlast⟩ : ∃ last, d2.getLast? = some last := by
    cases hl : d2.getLast? with
    | none => exact absurd (List.getLast?_eq_none_iff.mp hl) h2n
    | some x => exact ⟨x, rfl⟩
  rw [hlast] at hres
  simp only at hres
  generalize hd3 : (if last.iact < n then d2 ++ [DgmInfo.mk 0 n] else d2) = d3 at hres
  have hlastmem : last ∈ d2 := List.mem_of_mem_getLast? hlast
  have h3 : (d3.map DgmInfo.iact).Sorted (· < ·) ∧ (∀ d ∈ d3, d.iact ≤ n) ∧
      ∃ x, d3.getLast? = some x ∧ x.iact = n := by
    rw [← hd3]
    split_ifs with hl
    · refine ⟨?_, ?_, ⟨DgmInfo.mk 0 n, by simp, rfl⟩⟩
      · rw [List.map_append, List.map_singleton]
        unfold List.Sorted
        rw [List.pairwise_append]
        refine ⟨h2s, List.pairwise_singleton _ _, ?_⟩
        intro a ha b hb
        rw [List.mem_singleton] at hb
        rw [hb]
        obtain ⟨d, hd, hda⟩ := List.mem_map.mp ha
        rw [← hda]
        exact lt_of_le_of_lt (DgmInfo.le_getLast d2 last h2s hlast d hd) hl
      · intro d hd
        rcases List.mem_append.mp hd with h | h
        · exact h2b d h
        · rw [List.mem_singleton] at h
          rw [h]
    · exact ⟨h2s, h2b, last, hlast, le_antisymm (h2b last hlastmem) (not_lt.mp hl)⟩
  obtain ⟨h3s, h3b, x, hx, hxact⟩ := h3
  have hchain := setIdef_chain 0 d3 h3s (fun d _ => Nat.zero_le _)
    (fun d hd => by have := h3b d hd; omega)
  have hia := setIdef_iact 0 d3
  have hd3n : d3 ≠ [] := fun h => by rw [h] at hx; simp at hx
  rw [hres]
  refine ⟨?_, hchain.1, hchain.2.1, hchain.2.2, ?_⟩
  · intro h
    have := congrArg List.length hia
    rw [h] at this
    simp only [List.map_nil, List.length_nil, List.length_map] at this
    exact hd3n (List.length_eq_zero.mp this.symm)
  · intro d hd
    have h1 : ((setIdef 0 d3).map DgmInfo.iact).getLast? = some d.iact := by
      rw [List.getLast?_map, hd]
      rfl
    rw [hia, List.getLast?_map, hx] at h1
    simp only [Option.map_some', Option.some.injEq] at h1
    rw [← h1, hxact]

/-- Claim C27.  For every reference whose sequence has fewer than `2 ^ 64` entries,
`BuildDiagrams` leaves in `sSequence` the sequence of `BuildAndNumberSequence`, which is
not empty, and in `sDgms` a list of records that is not empty, in which the first record
has `idef = 0`, each later record has `idef` equal to the `iact` of the record before
plus one, every record has `idef <= iact`, and the last record has `iact = size - 1`: the
records split the positions `0 .. size - 1` into consecutive ranges `idef .. iact`. -/
theorem BuildDiagrams_blocks (self : RefPtr K)
    (hlen : (BuildAndNumberSequence self).1.length < sizeModulus) :
    (BuildDiagrams self).1 = (BuildAndNumberSequence self).1 ∧
    1 ≤ (BuildDiagrams self).1.length ∧
    (BuildDiagrams self).2 ≠ [] ∧
    (∀ d, (BuildDiagrams self).2.head? = some d → d.idef = 0) ∧
    (∀ (k : Nat) (d e : DgmInfo), (BuildDiagrams self).2[k]? = some d →
      (BuildDiagrams self).2[k + 1]? = some e → e.idef = d.iact + 1) ∧
    (∀ d ∈ (BuildDiagrams self).2, d.idef ≤ d.iact) ∧
    (∀ d, (BuildDiagrams self).2.getLast? = some d →
      d.iact = (BuildDiagrams self).1.length - 1) := by
  have hne : 1 ≤ (BuildAndNumberSequence self).1.length := by
    have := RefPtr.mem_SequencePushSelf self []
    exact List.length_pos_of_mem this
  have hsub : ((BuildAndNumberSequence self).1.length + sizeModulus - 1) % sizeModulus =
      (BuildAndNumberSequence self).1.length - 1 := by
    have : (BuildAndNumberSequence self).1.length + sizeModulus - 1 =
        ((BuildAndNumberSequence self).1.length - 1) + sizeModulus := by omega
    rw [this, Nat.add_mod_right]
    exact Nat.mod_eq_of_lt (by omega)
  have h1s : ((((List.range (BuildAndNumberSequence self).1.length).filter (fun i =>
      match (BuildAndNumberSequence self).1[i]? with
      | some rb => rb.IsActionLine
      | none => false)).map (fun i => DgmInfo.mk i i)).map DgmInfo.iact).Sorted (· < ·) := by
    rw [List.map_map]
    have : (DgmInfo.iact ∘ fun i => DgmInfo.mk i i) = id := rfl
    rw [this, List.map_id]
    exact List.Pairwise.filter _ (List.pairwise_lt_range _)
  have h1b : ∀ d ∈ ((List.range (BuildAndNumberSequence self).1.length).filter (fun i =>
      match (BuildAndNumberSequence self).1[i]? with
      | some rb => rb.IsActionLine
      | none => false)).map (fun i => DgmInfo.mk i i),
      d.iact ≤ (BuildAndNumberSequence self).1.length - 1 := by
    intro d hd
    simp only [List.mem_map, List.mem_filter, List.mem_range] at hd
    obtain ⟨i, ⟨hi, _⟩, hdi⟩ := hd
    rw [← hdi]
    show i ≤ (BuildAndNumberSequence self).1.length - 1
    omega
  have hrec := BuildDiagrams_records _ ((BuildAndNumberSequence self).1.length - 1)
    (by omega) h1s h1b (BuildDiagrams self).2
    (by unfold BuildDiagrams; simp only; rw [hsub]; all_goals rfl)
  exact ⟨rfl, hne, hrec⟩

end DiagramClaim

section SequenceFacts

variable {K : Type} [LinearOrderedField K]

/-- The references in the sequence after `SequencePushUnique`. -/
theorem mem_SequencePushUnique (s : List (RefPtr K)) (rb y : RefPtr K) :
    y ∈ SequencePushUnique s rb ↔ y ∈ s ∨ y = rb := by
  unfold SequencePushUnique
  split_ifs with h
  · constructor
    · exact Or.inl
    · rintro (h1 | h1)
      · exact h1
      · rw [h1]; exact h
  · simp

/-- The method `SequencePushUnique` only appends. -/
theorem SequencePushUnique_append (s : List (RefPtr K)) (rb : RefPtr K) :
    ∃ t, SequencePushUnique s rb = s ++ t := by
  unfold SequencePushUnique
  split_ifs
  · exact ⟨[], (List.append_nil s).symm⟩
  · exact ⟨[rb], rfl⟩

/-- The method `SequencePushUnique` keeps a sequence free of repetitions with the
parents first, when the parents of the reference pushed are in the sequence. -/
theorem ParentsFirst_SequencePushUnique (s : List (RefPtr K)) (rb : RefPtr K)
    (hs : ParentsFirst s) (hp : ∀ p ∈ rb.parents, p ∈ s) :
    ParentsFirst (SequencePushUnique s rb) := by
  unfold SequencePushUnique
  split_ifs with h
  · exact hs
  · refine ⟨List.Nodup.append hs.1 (List.nodup_singleton rb) (by simpa using h), ?_⟩
    intro i x hx p hpx
    by_cases hi : i < s.length
    · rw [List.getElem?_append_left hi] at hx
      rw [List.take_append_of_le_length (le_of_lt hi)]
      exact hs.2 i x hx p hpx
    · have hi2 : s.length ≤ i := not_lt.mp hi
      rw [List.getElem?_append_right hi2] at hx
      have hi3 : i - s.length = 0 := by
        by_contra hne
        have : ([rb] : List (RefPtr K))[i - s.length]? = none :=
          List.getElem?_eq_none (by simp; omega)
        rw [this] at hx
        exact Option.noConfusion hx
      rw [hi3] at hx
      simp only [List.getElem?_cons_zero, Option.some.injEq] at hx
      have hi4 : i = s.length := by omega
      rw [hi4, List.take_left' rfl]
      rw [← hx] at hpx
      exact hp p hpx

/-- The parents of a reference are smaller objects. -/
theorem RefPtr.sizeOf_parent (x p : RefPtr K) (h : p ∈ x.parents) : sizeOf p < sizeOf x := by
  cases x with
  | mark rm =>
    cases rm <;> simp only [RefPtr.parents, List.mem_cons, List.mem_singleton,
      List.not_mem_nil, or_false] at h
    rcases h with h | h <;> rw [h] <;> simp <;> omega
  | line rl =>
    cases rl <;> simp only [RefPtr.parents, List.mem_cons, List.mem_singleton,
      List.not_mem_nil, or_false] at h
    · rcases h with h | h <;> rw [h] <;> simp <;> omega
    · rcases h with h | h <;> rw [h] <;> simp <;> omega
    · rcases h with h | h <;> rw [h] <;> simp <;> omega
    · rcases h with h | h <;> rw [h] <;> simp <;> omega
    · rcases h with h | h | h <;> rw [h] <;> simp <;> omega
    · rcases h with h | h | h | h <;> rw [h] <;> simp <;> omega
    · rcases h with h | h | h <;> rw [h] <;> simp <;> omega

/-- The ancestors of a reference are its parents and the ancestors of its parents. -/
theorem RefPtr.mem_ancestors_iff (x y : RefPtr K) :
    y ∈ x.ancestors ↔ ∃ p ∈ x.parents, y = p ∨ y ∈ p.ancestors := by
  cases x with
  | mark rm =>
    cases rm <;>
      simp [RefPtr.ancestors, RefMark.ancestors, RefPtr.parents, or_assoc]
  | line rl =>
    cases rl <;>
      simp [RefPtr.ancestors, RefLine.ancestors, RefPtr.parents, or_assoc]

/-- The parents of a reference whose constructors ran to their end are such references. -/
theorem RefPtr.Assigned_parent (x p : RefPtr K) (hx : x.Assigned) (h : p ∈ x.parents) :
    p.Assigned := by
  cases x with
  | mark rm =>
    cases rm <;> simp only [RefPtr.parents, List.mem_cons, List.mem_singleton,
      List.not_mem_nil, or_false] at h
    simp only [RefPtr.Assigned, RefMark.Assigned] at hx
    rcases h with h | h <;> rw [h] <;> simp only [RefPtr.Assigned] <;> tauto
  | line rl =>
    cases rl <;> simp only [RefPtr.parents, List.mem_cons, List.mem_singleton,
      List.not_mem_nil, or_false] at h <;>
      simp only [RefPtr.Assigned, RefLine.Assigned] at hx
    · rcases h with h | h <;> rw [h] <;> simp only [RefPtr.Assigned] <;> tauto
    · rcases h with h | h <;> rw [h] <;> simp only [RefPtr.Assigned] <;> tauto
    · rcases h with h | h <;> rw [h] <;> simp only [RefPtr.Assigned] <;> tauto
    · rcases h with h | h <;> rw [h] <;> simp only [RefPtr.Assigned] <;> tauto
    · rcases h with h | h | h <;> rw [h] <;> simp only [RefPtr.Assigned] <;> tauto
    · rcases h with h | h | h | h <;> rw [h] <;> simp only [RefPtr.Assigned] <;> tauto
    · rcases h with h | h | h <;> rw [h] <;> simp only [RefPtr.Assigned] <;> tauto

/-- The method `SequencePushSelf` of a reference whose `mWhoMoves` is assigned pushes
every parent, in an order that depends on the class and on `mWhoMoves`, and then the
reference itself with `SequencePushUnique`. -/
theorem RefPtr.SequencePushSelf_eq (x : RefPtr K) (hx : x.Assigned) :
    ∃ ps : List (RefPtr K), (∀ p, p ∈ ps ↔ p ∈ x.parents) ∧
      ∀ s, x.SequencePushSelf s =
        SequencePushUnique (ps.foldl (fun s p => p.SequencePushSelf s) s) x := by
  cases x with
  | mark rm =>
    cases rm with
    | Original r k p n => exact ⟨[], by simp [RefPtr.parents], fun s => rfl⟩
    | Intersection r k p rl1 rl2 =>
      exact ⟨[.line rl1, .line rl2], by simp [RefPtr.parents], fun s => rfl⟩
  | line rl =>
    cases rl with
    | Original r k l n => exact ⟨[], by simp [RefPtr.parents], fun s => rfl⟩
    | C2P_C2P r k l rm1 rm2 =>
      exact ⟨[.mark rm1, .mark rm2], by simp [RefPtr.parents], fun s => rfl⟩
    | L2L_C2P r k l rl1 rm1 =>
      exact ⟨[.mark rm1, .line rl1], by simp [RefPtr.parents, or_comm], fun s => rfl⟩
    | P2P r k l rm1 rm2 w =>
      rcases w with _ | _ | _
      · exact absurd rfl hx.1
      · exact ⟨[.mark rm2, .mark rm1], by simp [RefPtr.parents, or_comm], fun s => rfl⟩
      · exact ⟨[.mark rm1, .mark rm2], by simp [RefPtr.parents], fun s => rfl⟩
    | L2L r k l rl1 rl2 w =>
      rcases w with _ | _ | _
      · exact absurd rfl hx.1
      · exact ⟨[.line rl2, .line rl1], by simp [RefPtr.parents, or_comm], fun s => rfl⟩
      · exact ⟨[.line rl1, .line rl2], by simp [RefPtr.parents], fun s => rfl⟩
    | P2L_C2P r k l rm1 rl1 rm2 w =>
      rcases w with _ | _ | _
      · exact absurd rfl hx.1
      · exact ⟨[.mark rm2, .line rl1, .mark rm1], by simp [RefPtr.parents]; tauto,
          fun s => rfl⟩
      · exact ⟨[.mark rm2, .mark rm1, .line rl1], by simp [RefPtr.parents]; tauto,
          fun s => rfl⟩
    | P2L_P2L r k l rm1 rl1 rm2 rl2 w =>
      rcases w with _ | _ | _ | _ | _
      · exact absurd rfl hx.1
      · exact ⟨[.line rl2, .line rl1, .mark rm2, .mark rm1],
          by simp [RefPtr.parents]; tauto, fun s => rfl⟩
      · exact ⟨[.mark rm2, .mark rm1, .line rl2, .line rl1],
          by simp [RefPtr.parents]; tauto, fun s => rfl⟩
      · exact ⟨[.mark rm2, .line rl1, .line rl2, .mark rm1],
          by simp [RefPtr.parents]; tauto, fun s => rfl⟩
      · exact ⟨[.line rl2, .mark rm1, .line rl1, .mark rm2],
          by simp [RefPtr.parents]; tauto, fun s => rfl⟩
    | L2L_P2L r k l rl1 rm1 rl2 w =>
      rcases w with _ | _ | _
      · exact absurd rfl hx.1
      · exact ⟨[.line rl1, .mark rm1, .line rl2], by simp [RefPtr.parents], fun s => rfl⟩
      · exact ⟨[.mark rm1, .line rl1, .line rl2], by simp [RefPtr.parents]; tauto,
          fun s => rfl⟩

end SequenceFacts

section SequenceInduction

variable {K : Type} [LinearOrderedField K]

/-- Pushing a list of references, each of which behaves as stated, behaves as stated for
the list: the sequence stays free of repetitions with the parents first, it only grows
at the end, and it holds what it held before, the references pushed and their
ancestors. -/
theorem foldl_SequencePushSelf_spec :
    ∀ (ps : List (RefPtr K)) (s : List (RefPtr K)),
      (∀ p ∈ ps, ∀ s, ParentsFirst s →
        ParentsFirst (p.SequencePushSelf s) ∧ (∃ t, p.SequencePushSelf s = s ++ t) ∧
        ∀ y, y ∈ p.SequencePushSelf s ↔ y ∈ s ∨ y = p ∨ y ∈ p.ancestors) →
      ParentsFirst s →
      ParentsFirst (ps.foldl (fun s p => p.SequencePushSelf s) s) ∧
      (∃ t, ps.foldl (fun s p => p.SequencePushSelf s) s = s ++ t) ∧
      ∀ y, y ∈ ps.foldl (fun s p => p.SequencePushSelf s) s ↔
        y ∈ s ∨ ∃ p ∈ ps, y = p ∨ y ∈ p.ancestors
  | [], s, _, hs => ⟨hs, ⟨[], (List.append_nil s).symm⟩, fun y => by simp⟩
  | p :: ps, s, hps, hs => by
    simp only [List.foldl_cons]
    obtain ⟨h1, ⟨t1, ht1⟩, h3⟩ := hps p (List.mem_cons_self _ _) s hs
    obtain ⟨g1, ⟨t2, ht2⟩, g3⟩ := foldl_SequencePushSelf_spec ps (p.SequencePushSelf s)
      (fun q hq => hps q (List.mem_cons_of_mem _ hq)) h1
    refine ⟨g1, ⟨t1 ++ t2, by rw [ht2, ht1, List.append_assoc]⟩, fun y => ?_⟩
    rw [g3, h3]
    simp only [List.mem_cons, exists_eq_or_imp]
    rw [or_assoc]

/-- The method `SequencePushSelf` of a reference whose constructors ran to their end:
the sequence stays free of repetitions with the parents first, it only grows at the end,
and it holds what it held before, the reference and its ancestors. -/
theorem RefPtr.SequencePushSelf_spec : ∀ (n : Nat) (x : RefPtr K), sizeOf x ≤ n →
    x.Assigned → ∀ s, ParentsFirst s →
      ParentsFirst (x.SequencePushSelf s) ∧ (∃ t, x.SequencePushSelf s = s ++ t) ∧
      ∀ y, y ∈ x.SequencePushSelf s ↔ y ∈ s ∨ y = x ∨ y ∈ x.ancestors
  | 0, x, hn, _, _, _ => by
    exfalso
    cases x <;> simp at hn
  | n + 1, x, hn, hx, s, hs => by
    obtain ⟨ps, hps, heq⟩ := RefPtr.SequencePushSelf_eq x hx
    have hfold := foldl_SequencePushSelf_spec ps s
      (fun p hp => RefPtr.SequencePushSelf_spec n p
        (by have := RefPtr.sizeOf_parent x p ((hps p).mp hp); omega)
        (RefPtr.Assigned_parent x p hx ((hps p).mp hp))) hs
    obtain ⟨h1, ⟨t1, ht1⟩, h3⟩ := hfold
    rw [heq s]
    refine ⟨ParentsFirst_SequencePushUnique _ x h1 ?_, ?_, fun y => ?_⟩
    · intro p hp
      rw [h3]
      exact Or.inr ⟨p, (hps p).mpr hp, Or.inl rfl⟩
    · obtain ⟨t2, ht2⟩ := SequencePushUnique_append
        (ps.foldl (fun s p => p.SequencePushSelf s) s) x
      exact ⟨t1 ++ t2, by rw [ht2, ht1, List.append_assoc]⟩
    · rw [mem_SequencePushUnique, h3, RefPtr.mem_ancestors_iff]
      constructor
      · rintro ((h | ⟨p, hp, h⟩) | h)
        · exact Or.inl h
        · exact Or.inr (Or.inr ⟨p, (hps p).mp hp, h⟩)
        · exact Or.inr (Or.inl h)
      · rintro (h | h | ⟨p, hp, h⟩)
        · exact Or.inl (Or.inl h)
        · exact Or.inr h
        · exact Or.inl (Or.inr ⟨p, (hps p).mpr hp, h⟩)

/-- An ancestor of a reference is a smaller object. -/
theorem RefPtr.sizeOf_ancestor : ∀ (n : Nat) (x y : RefPtr K), sizeOf x ≤ n →
    y ∈ x.ancestors → sizeOf y < sizeOf x
  | 0, x, _, hn, _ => by
    exfalso
    cases x <;> simp at hn
  | n + 1, x, y, hn, hy => by
    obtain ⟨p, hp, h⟩ := (RefPtr.mem_ancestors_iff x y).mp hy
    have hpx := RefPtr.sizeOf_parent x p hp
    rcases h with h | h
    · rw [h]; exact hpx
    · exact lt_trans (RefPtr.sizeOf_ancestor n p y (by omega) h) hpx

end SequenceInduction

section SequenceClaim

variable {K : Type} [LinearOrderedField K]

/-- Claim C26.  For every reference whose constructors, and those of all its ancestors,
ran to their end (every `mWhoMoves` is assigned, which `MakeAllMarksAndLines_wf` proves
of every stored reference), `BuildAndNumberSequence` leaves in `sSequence` a list without
repeated entries that consists of exactly the reference and all of its ancestors, so that
its length is the number of distinct ancestors plus one, in which every reference stands
after all of its direct parents, and whose last entry is the reference itself. -/
theorem BuildAndNumberSequence_spec (self : RefPtr K) (h : self.Assigned) :
    (BuildAndNumberSequence self).1.Nodup ∧
    (∀ y, y ∈ (BuildAndNumberSequence self).1 ↔ y = self ∨ y ∈ self.ancestors) ∧
    (BuildAndNumberSequence self).1.length = self.ancestors.dedup.length + 1 ∧
    (∀ (i : Nat) (x : RefPtr K), (BuildAndNumberSequence self).1[i]? = some x →
      ∀ p ∈ x.parents, p ∈ (BuildAndNumberSequence self).1.take i) ∧
    (BuildAndNumberSequence self).1.getLast? = some self := by
  have hnil : ParentsFirst ([] : List (RefPtr K)) :=
    ⟨List.nodup_nil, fun i x hx => by simp at hx⟩
  obtain ⟨h1, _, h3⟩ := RefPtr.SequencePushSelf_spec (sizeOf self) self (le_refl _) h [] hnil
  have hmem : ∀ y, y ∈ (BuildAndNumberSequence self).1 ↔ y = self ∨ y ∈ self.ancestors := by
    intro y
    show y ∈ self.SequencePushSelf [] ↔ _
    rw [h3]
    simp
  have hself : self ∉ self.ancestors := fun hs =>
    lt_irrefl _ (RefPtr.sizeOf_ancestor (sizeOf self) self self (le_refl _) hs)
  refine ⟨h1.1, hmem, ?_, h1.2, ?_⟩
  · have hperm : (BuildAndNumberSequence self).1.Perm (self :: self.ancestors.dedup) := by
      refine (List.perm_ext_iff_of_nodup h1.1
        (List.nodup_cons.mpr ⟨by rw [List.mem_dedup]; exact hself,
          List.nodup_dedup _⟩)).mpr ?_
      intro y
      rw [List.mem_cons, List.mem_dedup]
      exact hmem y
    rw [hperm.length_eq, List.length_cons]
  · show (self.SequencePushSelf []).getLast? = some self
    obtain ⟨ps, hps, heq⟩ := RefPtr.SequencePushSelf_eq self h
    rw [heq []]
    have hfold := foldl_SequencePushSelf_spec ps []
      (fun p hp => RefPtr.SequencePushSelf_spec (sizeOf p) p (le_refl _)
        (RefPtr.Assigned_parent self p h ((hps p).mp hp))) hnil
    have hnot : self ∉ ps.foldl (fun s p => p.SequencePushSelf s) [] := by
      rw [hfold.2.2]
      rintro (h0 | ⟨p, hp, h0⟩)
      · exact absurd h0 (List.not_mem_nil _)
      · exact hself ((RefPtr.mem_ancestors_iff self self).mpr ⟨p, (hps p).mp hp, h0⟩)
    unfold SequencePushUnique
    rw [if_neg hnot]
    simp

end SequenceClaim

section RankFacts

variable {K : Type} [LinearOrderedField K]

/-- The ancestors of a reference, as a list: each parent followed by its ancestors. -/
theorem RefPtr.ancestors_eq (x : RefPtr K) :
    x.ancestors = x.parents.flatMap (fun p => p :: p.ancestors) := by
  cases x with
  | mark rm =>
    cases rm <;> simp [RefPtr.ancestors, RefMark.ancestors, RefPtr.parents]
  | line rl =>
    cases rl <;> simp [RefPtr.ancestors, RefLine.ancestors, RefPtr.parents]

/-- The crease uses of a reference: one for the reference if it is a derived line, and
those of its parents. -/
theorem RefPtr.creaseUses_eq (x : RefPtr K) :
    x.creaseUses = (if x.IsActionLine then 1 else 0) +
      (x.parents.map RefPtr.creaseUses).sum := by
  unfold RefPtr.creaseUses
  rw [RefPtr.ancestors_eq x, List.filter_cons]
  have h : ∀ ps : List (RefPtr K),
      ((ps.flatMap (fun p => p :: p.ancestors)).filter RefPtr.IsActionLine).length =
      (ps.map (fun p => ((p :: p.ancestors).filter RefPtr.IsActionLine).length)).sum := by
    intro ps
    induction ps with
    | nil => rfl
    | cons p ps ih =>
      rw [List.flatMap_cons, List.filter_append, List.length_append, ih, List.map_cons,
        List.sum_cons]
  split_ifs with hx
  · rw [List.length_cons, h]; omega
  · rw [h]; omega

/-- The ranks of the originals used by a reference: its own rank if it is an original,
and those of its parents. -/
theorem RefPtr.originalRanks_eq (x : RefPtr K) :
    x.originalRanks = (if x.IsDerived then 0 else x.mRank) +
      (x.parents.map RefPtr.originalRanks).sum := by
  unfold RefPtr.originalRanks
  rw [RefPtr.ancestors_eq x, List.filter_cons]
  have h : ∀ ps : List (RefPtr K),
      (((ps.flatMap (fun p => p :: p.ancestors)).filter (fun y => !y.IsDerived)).map
        RefPtr.mRank).sum =
      (ps.map (fun p => (((p :: p.ancestors).filter (fun y => !y.IsDerived)).map
        RefPtr.mRank).sum)).sum := by
    intro ps
    induction ps with
    | nil => rfl
    | cons p ps ih =>
      rw [List.flatMap_cons, List.filter_append, List.map_append, List.sum_append, ih,
        List.map_cons, List.sum_cons]
  by_cases hx : x.IsDerived = true
  · simp only [hx, Bool.not_true, Bool.false_eq_true, if_false, if_true, h, zero_add]
  · simp only [Bool.not_eq_true] at hx
    simp only [hx, Bool.not_false, if_true, Bool.false_eq_true, if_false, List.map_cons,
      List.sum_cons, h]

/-- When the ranks add up without wrapping, the rank of a reference is the number of its
crease uses plus the ranks of the originals it uses. -/
theorem RefPtr.mRank_eq_uses : ∀ (n : Nat) (x : RefPtr K), sizeOf x ≤ n → x.RanksAdd →
    x.mRank = x.creaseUses + x.originalRanks
  | 0, x, hn, _ => by
    exfalso
    cases x <;> simp at hn
  | n + 1, x, hn, hx => by
    have ih : ∀ p ∈ x.parents, p.RanksAdd → p.mRank = p.creaseUses + p.originalRanks :=
      fun p hp hr => RefPtr.mRank_eq_uses n p
        (by have := RefPtr.sizeOf_parent x p hp; omega) hr
    rw [RefPtr.creaseUses_eq, RefPtr.originalRanks_eq]
    cases x with
    | mark rm =>
      cases rm with
      | Original r k p nm =>
        simp [RefPtr.parents, RefPtr.IsActionLine, RefPtr.IsDerived, RefMark.IsDerived,
          RefPtr.mRank]
      | Intersection r k p rl1 rl2 =>
        obtain ⟨h0, h1, h2⟩ := hx
        have e1 := ih (.line rl1) (by simp [RefPtr.parents]) h1
        have e2 := ih (.line rl2) (by simp [RefPtr.parents]) h2
        simp only [RefPtr.mRank] at e1 e2
        simp only [RefPtr.parents, RefPtr.IsActionLine, RefPtr.IsDerived, RefMark.IsDerived,
          RefPtr.mRank, RefMark.mRank, List.map_cons, List.map_nil, List.sum_cons,
          List.sum_nil, if_true, Bool.false_eq_true, if_false]
        omega
    | line rl =>
      cases rl with
      | Original r k l nm =>
        simp [RefPtr.parents, RefPtr.IsActionLine, RefPtr.IsDerived, RefLine.IsDerived,
          RefPtr.mRank]
      | C2P_C2P r k l rm1 rm2 =>
        obtain ⟨h0, h1, h2⟩ := hx
        have e1 := ih (.mark rm1) (by simp [RefPtr.parents]) h1
        have e2 := ih (.mark rm2) (by simp [RefPtr.parents]) h2
        simp only [RefPtr.mRank] at e1 e2
        simp only [RefPtr.parents, RefPtr.IsActionLine, RefPtr.IsDerived, RefLine.IsDerived,
          RefPtr.mRank, RefLine.mRank, List.map_cons, List.map_nil, List.sum_cons,
          List.sum_nil, if_true, Bool.false_eq_true, if_false]
        omega
      | P2P r k l rm1 rm2 w =>
        obtain ⟨h0, h1, h2⟩ := hx
        have e1 := ih (.mark rm1) (by simp [RefPtr.parents]) h1
        have e2 := ih (.mark rm2) (by simp [RefPtr.parents]) h2
        simp only [RefPtr.mRank] at e1 e2
        simp only [RefPtr.parents, RefPtr.IsActionLine, RefPtr.IsDerived, RefLine.IsDerived,
          RefPtr.mRank, RefLine.mRank, List.map_cons, List.map_nil, List.sum_cons,
          List.sum_nil, if_true, Bool.false_eq_true, if_false]
        omega
      | L2L r k l rl1 rl2 w =>
        obtain ⟨h0, h1, h2⟩ := hx
        have e1 := ih (.line rl1) (by simp [RefPtr.parents]) h1
        have e2 := ih (.line rl2) (by simp [RefPtr.parents]) h2
        simp only [RefPtr.mRank] at e1 e2
        simp only [RefPtr.parents, RefPtr.IsActionLine, RefPtr.IsDerived, RefLine.IsDerived,
          RefPtr.mRank, RefLine.mRank, List.map_cons, List.map_nil, List.sum_cons,
          List.sum_nil, if_true, Bool.false_eq_true, if_false]
        omega
      | L2L_C2P r k l rl1 rm1 =>
        obtain ⟨h0, h1, h2⟩ := hx
        have e1 := ih (.line rl1) (by simp [RefPtr.parents]) h1
        have e2 := ih (.mark rm1) (by simp [RefPtr.parents]) h2
        simp only [RefPtr.mRank] at e1 e2
        simp only [RefPtr.parents, RefPtr.IsActionLine, RefPtr.IsDerived, RefLine.IsDerived,
          RefPtr.mRank, RefLine.mRank, List.map_cons, List.map_nil, List.sum_cons,
          List.sum_nil, if_true, Bool.false_eq_true, if_false]
        omega
      | P2L_C2P r k l rm1 rl1 rm2 w =>
        obtain ⟨h0, h1, h2, h3⟩ := hx
        have e1 := ih (.mark rm1) (by simp [RefPtr.parents]) h1
        have e2 := ih (.line rl1) (by simp [RefPtr.parents]) h2
        have e3 := ih (.mark rm2) (by simp [RefPtr.parents]) h3
        simp only [RefPtr.mRank] at e1 e2 e3
        simp only [RefPtr.parents, RefPtr.IsActionLine, RefPtr.IsDerived, RefLine.IsDerived,
          RefPtr.mRank, RefLine.mRank, List.map_cons, List.map_nil, List.sum_cons,
          List.sum_nil, if_true, Bool.false_eq_true, if_false]
        omega
      | P2L_P2L r k l rm1 rl1 rm2 rl2 w =>
        obtain ⟨h0, h1, h2, h3, h4⟩ := hx
        have e1 := ih (.mark rm1) (by simp [RefPtr.parents]) h1
        have e2 := ih (.line rl1) (by simp [RefPtr.parents]) h2
        have e3 := ih (.mark rm2) (by simp [RefPtr.parents]) h3
        have e4 := ih (.line rl2) (by simp [RefPtr.parents]) h4
        simp only [RefPtr.mRank] at e1 e2 e3 e4
        simp only [RefPtr.parents, RefPtr.IsActionLine, RefPtr.IsDerived, RefLine.IsDerived,
          RefPtr.mRank, RefLine.mRank, List.map_cons, List.map_nil, List.sum_cons,
          List.sum_nil, if_true, Bool.false_eq_true, if_false]
        omega
      | L2L_P2L r k l rl1 rm1 rl2 w =>
        obtain ⟨h0, h1, h2, h3⟩ := hx
        have e1 := ih (.line rl1) (by simp [RefPtr.parents]) h1
        have e2 := ih (.mark rm1) (by simp [RefPtr.parents]) h2
        have e3 := ih (.line rl2) (by simp [RefPtr.parents]) h3
        simp only [RefPtr.mRank] at e1 e2 e3
        simp only [RefPtr.parents, RefPtr.IsActionLine, RefPtr.IsDerived, RefLine.IsDerived,
          RefPtr.mRank, RefLine.mRank, List.map_cons, List.map_nil, List.sum_cons,
          List.sum_nil, if_true, Bool.false_eq_true, if_false]
        omega

end RankFacts

section RankClaim

variable {K : Type} [LinearOrderedField K]

/-- For every reference whose constructors ran to their end and whose ranks add up
without wrapping (as the constructors compute them for ranks up to 65535, see
`MakeAllMarksAndLines_wf`): the rank is the number of crease uses (every derived line among the reference
and its ancestors, counted once for every path by which it is reached) plus the ranks of
the originals used (1 for every use of a diagonal); the number of creases in the
folding sequence, in which every derived line stands once, is therefore at most the
rank. -/
theorem mRank_creases (self : RefPtr K) (hA : self.Assigned) (hR : self.RanksAdd) :
    self.mRank = self.creaseUses + self.originalRanks ∧
    self.creasesInSequence ≤ self.creaseUses ∧
    self.creasesInSequence ≤ self.mRank := by
  have h1 := RefPtr.mRank_eq_uses (sizeOf self) self (le_refl _) hR
  have hnil : ParentsFirst ([] : List (RefPtr K)) :=
    ⟨List.nodup_nil, fun i x hx => by simp at hx⟩
  obtain ⟨hpf, _, h3⟩ := RefPtr.SequencePushSelf_spec (sizeOf self) self (le_refl _) hA []
    hnil
  have hnd : (BuildAndNumberSequence self).1.Nodup := hpf.1
  have hmem : ∀ y, y ∈ (BuildAndNumberSequence self).1 → y = self ∨ y ∈ self.ancestors := by
    intro y hy
    have := (h3 y).mp hy
    simpa using this
  have h2 : self.creasesInSequence ≤ self.creaseUses := by
    unfold RefPtr.creasesInSequence RefPtr.creaseUses
    apply List.Subperm.length_le
    apply List.subperm_of_subset (hnd.filter _)
    intro y hy
    rw [List.mem_filter] at hy ⊢
    refine ⟨?_, hy.2⟩
    rw [List.mem_cons]
    exact hmem y hy.1
  exact ⟨h1, h2, by omega⟩

end RankClaim

/-! ### Builds evaluated on the unit square -/

set_option maxRecDepth 1000000 in
/-- C22 (divergence): with `sMaxRank = 0` and the other settings at their defaults the
build still adds the two diagonals, which carry rank 1: before the first `FlushBuffer`
the line container already counts six lines, the flush then indexes `maps[1]` in an
array of one map, and the finished database reports six lines (two of them of rank 1)
and four marks. -/
theorem MakeAllMarksAndLines_rank_zero :
    (RefContainer.new 0 : RefContainer (RefLine ℚ)).maps.length = 1 ∧
    ((originalLines decMath { Config.default decMath with sMaxRank := 0 }).foldl
      RefContainer.Add (RefContainer.new 0)).GetTotalSize = 6 ∧
    (MakeAllMarksAndLines decMath { Config.default decMath with sMaxRank := 0 } none
      (Database.init 0)).GetNumLines = 6 ∧
    (MakeAllMarksAndLines decMath { Config.default decMath with sMaxRank := 0 } none
      (Database.init 0)).GetNumMarks = 4 ∧
    (MakeAllMarksAndLines decMath { Config.default decMath with sMaxRank := 0 } none
      (Database.init 0)).sBasisLines.vec.map RefLine.mRank = [0, 0, 0, 1, 1, 0] := by
  decide!

set_option maxRecDepth 1000000 in
/-- C23 (counterexample): with only O1 enabled and `sMaxRank = 2` on the unit square no
stored mark is an edge midpoint: every stored mark is at distance at least 1/2 from each
of (1/2, 0), (1/2, 1), (0, 1/2) and (1, 1/2). -/
theorem O1_build_no_edge_midpoints :
    ((MakeAllMarksAndLines decMath
        { Config.default decMath with
          sMaxRank := 2
          sUseRefLine_P2P := false
          sUseRefLine_L2L := false
          sUseRefLine_L2L_C2P := false
          sUseRefLine_P2L_C2P := false
          sUseRefLine_P2L_P2L := false
          sUseRefLine_L2L_P2L := false } none (Database.init 2)).sBasisMarks.vec.all
      fun m => ([⟨1 / 2, 0⟩, ⟨1 / 2, 1⟩, ⟨0, 1 / 2⟩, ⟨1, 1 / 2⟩] : List (XYPt ℚ)).all
        fun q => decide (1 / 4 ≤ (m.p.x - q.x) ^ 2 + (m.p.y - q.y) ^ 2)) = true := by
  decide!

set_option maxRecDepth 1000000 in
/-- C23 (amended): with only O1 enabled and `sMaxRank = 2` on the unit square the built
database holds as lines exactly the four edges and the two diagonals, and as marks
exactly the four corners (rank 0) and the center (1/2, 1/2) (rank 2). -/
theorem O1_build_contents :
    ((MakeAllMarksAndLines decMath
        { Config.default decMath with
          sMaxRank := 2
          sUseRefLine_P2P := false
          sUseRefLine_L2L := false
          sUseRefLine_L2L_C2P := false
          sUseRefLine_P2L_C2P := false
          sUseRefLine_P2L_P2L := false
          sUseRefLine_L2L_P2L := false } none (Database.init 2)).sBasisLines.vec.Perm
      (originalLines decMath (Config.default decMath))) ∧
    (MakeAllMarksAndLines decMath
        { Config.default decMath with
          sMaxRank := 2
          sUseRefLine_P2P := false
          sUseRefLine_L2L := false
          sUseRefLine_L2L_C2P := false
          sUseRefLine_P2L_C2P := false
          sUseRefLine_P2L_P2L := false
          sUseRefLine_L2L_P2L := false } none (Database.init 2)).sBasisMarks.vec.map
        (fun m => (m.p, m.mRank)) =
      [(⟨0, 0⟩, 0), (⟨0, 1⟩, 0), (⟨1, 0⟩, 0), (⟨1, 1⟩, 0), (⟨1 / 2, 1 / 2⟩, 2)] := by
  decide!

section BuildStored

variable {K : Type} [LinearOrderedField K] [FloorRing K]

/-- The method `AddCopyIfValidAndUnique` leaves the flat array as it is. -/
theorem RefContainer.AddCopyIfValidAndUnique_vec {R : Type} [RefBase R]
    (c : RefContainer R) (r : R) : (c.AddCopyIfValidAndUnique r).vec = c.vec := by
  unfold RefContainer.AddCopyIfValidAndUnique RefContainer.Add
  split_ifs <;> rfl

/-- The loop over the ranks, split in two. -/
theorem buildRanks_append (M : CMath K) (cfg : Config K) (fn : Option DatabaseFn) :
    ∀ (l1 l2 : List Nat) (db : Database K),
      buildRanks M cfg fn (l1 ++ l2) db =
        andThen (buildRanks M cfg fn l1 db) (buildRanks M cfg fn l2)
  | [], _, _ => rfl
  | a :: l1, l2, db => by
    simp only [List.cons_append, buildRanks]
    cases MakeAllMarksAndLinesOfRank M cfg fn a db with
    | ok d => exact buildRanks_append M cfg fn l1 l2 d
    | error d => rfl

/-- The references in the flat arrays stay there through the loop over the ranks. -/
theorem buildRanks_stored (M : CMath K) (cfg : Config K) (fn : Option DatabaseFn)
    (L : List (RefLine K)) (Ms : List (RefMark K)) (ranks : List Nat) (db : Database K)
    (h : (∀ l ∈ L, l ∈ db.sBasisLines.vec) ∧ (∀ m ∈ Ms, m ∈ db.sBasisMarks.vec)) :
    (∀ l ∈ L, l ∈ (outcome (buildRanks M cfg fn ranks db)).sBasisLines.vec) ∧
      (∀ m ∈ Ms, m ∈ (outcome (buildRanks M cfg fn ranks db)).sBasisMarks.vec) :=
  buildRanks_keeps M cfg fn
    (fun d => (∀ l ∈ L, l ∈ d.sBasisLines.vec) ∧ (∀ m ∈ Ms, m ∈ d.sBasisMarks.vec))
    (fun _ => True) (fun _ => True)
    (fun d d' hl hm h => by
      show (∀ l ∈ L, l ∈ d'.sBasisLines.vec) ∧ (∀ m ∈ Ms, m ∈ d'.sBasisMarks.vec)
      rw [hl, hm]; exact h)
    (fun d r h _ _ => ⟨fun l hl => by
      show l ∈ (d.sBasisLines.AddCopyIfValidAndUnique r).vec
      rw [RefContainer.AddCopyIfValidAndUnique_vec]; exact h.1 l hl, h.2⟩)
    (fun d r h _ _ => ⟨h.1, fun m hm => by
      show m ∈ (d.sBasisMarks.AddCopyIfValidAndUnique r).vec
      rw [RefContainer.AddCopyIfValidAndUnique_vec]; exact h.2 m hm⟩)
    (fun d h => ⟨fun l hl => by
      show l ∈ d.sBasisLines.FlushBuffer.vec
      rw [RefContainer.FlushBuffer_vec]; exact List.mem_append_left _ (h.1 l hl), h.2⟩)
    (fun d h => ⟨h.1, fun m hm => by
      show m ∈ d.sBasisMarks.FlushBuffer.vec
      rw [RefContainer.FlushBuffer_vec]; exact List.mem_append_left _ (h.2 m hm)⟩)
    ranks (fun _ _ _ _ => ⟨fun _ _ _ => trivial, fun _ _ => trivial⟩) db h

/-- The references that are in the flat arrays when the ranks `1 .. k` are done are in the
flat arrays of the finished database, whether the build was cancelled or not. -/
theorem MakeAllMarksAndLines_stored (M : CMath K) (cfg : Config K)
    (fn : Option DatabaseFn) (db : Database K) (k : Nat) (hk : k ≤ cfg.sMaxRank)
    (L : List (RefLine K)) (Ms : List (RefMark K))
    (h : (∀ l ∈ L, l ∈ (outcome (buildRanks M cfg fn ((List.range k).map (fun i => i + 1))
          (seedOriginals M cfg fn db))).sBasisLines.vec) ∧
      (∀ m ∈ Ms, m ∈ (outcome (buildRanks M cfg fn ((List.range k).map (fun i => i + 1))
          (seedOriginals M cfg fn db))).sBasisMarks.vec)) :
    (∀ l ∈ L, l ∈ (MakeAllMarksAndLines M cfg fn db).sBasisLines.vec) ∧
      (∀ m ∈ Ms, m ∈ (MakeAllMarksAndLines M cfg fn db).sBasisMarks.vec) := by
  have hsplit : (List.range cfg.sMaxRank).map (fun i => i + 1) =
      (List.range k).map (fun i => i + 1) ++
        (List.range (cfg.sMaxRank - k)).map (fun i => k + i + 1) := by
    have h1 : cfg.sMaxRank = k + (cfg.sMaxRank - k) := by omega
    conv_lhs => rw [h1, List.range_add, List.map_append, List.map_map]
    rfl
  have hb : (∀ l ∈ L, l ∈ (outcome (buildRanks M cfg fn
        ((List.range cfg.sMaxRank).map (fun i => i + 1))
        (seedOriginals M cfg fn db))).sBasisLines.vec) ∧
      (∀ m ∈ Ms, m ∈ (outcome (buildRanks M cfg fn
        ((List.range cfg.sMaxRank).map (fun i => i + 1))
        (seedOriginals M cfg fn db))).sBasisMarks.vec) := by
    rw [hsplit, buildRanks_append]
    exact outcome_andThen
      (fun d => (∀ l ∈ L, l ∈ d.sBasisLines.vec) ∧ (∀ m ∈ Ms, m ∈ d.sBasisMarks.vec))
      _ _ h (fun d hd => buildRanks_stored M cfg fn L Ms _ d hd)
  unfold MakeAllMarksAndLines
  simp only
  cases hr : buildRanks M cfg fn ((List.range cfg.sMaxRank).map (fun i => i + 1))
      (seedOriginals M cfg fn db) with
  | ok d =>
    rw [hr] at hb
    rw [(callDatabaseFn_containers fn _ _ _).1, (callDatabaseFn_containers fn _ _ _).2]
    exact hb
  | error d =>
    rw [hr] at hb
    rw [(callDatabaseFn_containers fn _ _ _).1, (callDatabaseFn_containers fn _ _ _).2]
    refine ⟨fun l hl => ?_, fun m hm => ?_⟩
    · show l ∈ d.sBasisLines.FlushBuffer.vec
      rw [RefContainer.FlushBuffer_vec]; exact List.mem_append_left _ (hb.1 l hl)
    · show m ∈ d.sBasisMarks.FlushBuffer.vec
      rw [RefContainer.FlushBuffer_vec]; exact List.mem_append_left _ (hb.2 m hm)

/-- Every mark that `RefMark_Intersection::MakeAll(arank)` passes to the container has
the rank `arank`, when the rank maps hold references of their rank. -/
theorem markCandidates_rank_eq (cfg : Config K) (db : Database K)
    (sMaxRank arank : Nat) (ha : arank < 65536)
    (hL : RefContainer.Inv sMaxRank db.sBasisLines db.sBasisLines.buffer) :
    ∀ m ∈ markCandidates cfg db arank, m.mRank = arank := by
  intro m hm
  simp only [markCandidates, RefMark_Intersection.tuples, List.mem_map,
    List.mem_flatMap] at hm
  obtain ⟨pr, ⟨irank, hi, hpr⟩, rfl⟩ := hm
  rw [RefMark_Intersection_mRank]
  have hi1 := mem_rankLoop hi
  rw [Int.tdiv_eq_ediv (by omega) (by omega)] at hi1
  obtain ⟨e1, e2⟩ := pairsOfRanks_rank hL _ _ pr hpr
  simp only [RefBase.mRank] at e1 e2
  have e5 : toRank ((arank : Int) - irank) = arank - irank := by
    unfold toRank
    omega
  rw [e1, e2, e5]
  omega

/-- The marks of rank 0 in a finished database are the four corners that the build
seeds: every other stored mark is an intersection of lines whose ranks add up to the
rank of its round, which is at least 1. -/
theorem MakeAllMarksAndLines_rank_zero_marks (M : CMath K) (cfg : Config K)
    (fn : Option DatabaseFn) (db : Database K)
    (hoL : ∀ o ∈ originalLines M cfg, RefBase.mKey o ≠ 0 ∧ RefBase.mRank o ≤ cfg.sMaxRank)
    (hoM : ∀ o ∈ originalMarks cfg, RefBase.mKey o ≠ 0 ∧ RefBase.mRank o ≤ cfg.sMaxRank)
    (hR : cfg.sMaxRank < 65536)
    (hbL : db.sBasisLines.buffer = []) (hbM : db.sBasisMarks.buffer = []) :
    ∀ m ∈ (MakeAllMarksAndLines M cfg fn db).sBasisMarks.vec,
      m.mRank = 0 → m ∈ originalMarks cfg := by
  obtain ⟨db2, h2, _, hm⟩ := MakeAllMarksAndLines_keeps M cfg fn
    (fun d => RefContainer.Reachable cfg.sMaxRank (originalLines M cfg) d.sBasisLines ∧
      RefContainer.Reachable cfg.sMaxRank (originalMarks cfg) d.sBasisMarks ∧
      RefContainer.AllStored (fun m : RefMark K => m.mRank = 0 → m ∈ originalMarks cfg)
        d.sBasisMarks)
    (fun r => r.mRank ≤ cfg.sMaxRank) (fun m => m.mRank ≤ cfg.sMaxRank ∧ 1 ≤ m.mRank)
    (fun d d' hl hm h => by
      show RefContainer.Reachable _ _ d'.sBasisLines ∧
        RefContainer.Reachable _ _ d'.sBasisMarks ∧ RefContainer.AllStored _ d'.sBasisMarks
      rw [hl, hm]; exact h)
    (fun d r h _ hr => ⟨RefContainer.Reachable.addCopy _ r h.1 hr, h.2⟩)
    (fun d r h _ hr => ⟨h.1, RefContainer.Reachable.addCopy _ r h.2.1 hr.1,
      RefContainer.AllStored_AddCopy _ _ r h.2.2 (fun _ h0 => by
        have := hr.2
        omega)⟩)
    (fun d h => ⟨RefContainer.Reachable.flush _ h.1, h.2⟩)
    (fun d h => ⟨h.1, RefContainer.Reachable.flush _ h.2.1,
      RefContainer.AllStored_FlushBuffer _ _ h.2.2⟩)
    (fun arank h1 h2 d hd =>
      ⟨fun c hc st => le_trans
          (lineCandidates_rank M cfg d cfg.sMaxRank arank h1
            (RefContainer.Reachable.inv hoL hd.1) (RefContainer.Reachable.inv hoM hd.2.1)
            c hc st) h2,
        fun m hm => by
          have := markCandidates_rank_eq cfg d cfg.sMaxRank arank (by omega)
            (RefContainer.Reachable.inv hoL hd.1) m hm
          omega⟩)
    db (by
      show RefContainer.Reachable _ _ (seedOriginals M cfg fn db).sBasisLines ∧
        RefContainer.Reachable _ _ (seedOriginals M cfg fn db).sBasisMarks ∧
        RefContainer.AllStored _ (seedOriginals M cfg fn db).sBasisMarks
      rw [seedOriginals_lines, seedOriginals_marks]
      exact ⟨RefContainer.Reachable.seeded _ _ hbL, RefContainer.Reachable.seeded _ _ hbM,
        RefContainer.AllStored_FlushBuffer _ _
          (RefContainer.AllStored_foldl_Add _ _ _
            (RefContainer.AllStored_Rebuild _ _ _ hbM) (fun o ho _ => ho))⟩)
  intro m hmv
  rw [hm] at hmv
  exact h2.2.2.1 m hmv

end BuildStored

section ExactFacts

variable {K : Type} [LinearOrderedField K] {R : Type} [RefBase R]

/-- A reference `m` that `CompareRankAndError` does not order after a reference `c` at
distance 0 is within the good enough error and has at most the rank of `c`; when the
ranks are equal its distance is at most 0. -/
theorem CompareRankAndError_not_after_exact (G : K) (dist : R → K) (c m : R) (hG : 0 ≤ G)
    (hd : dist c = 0) (h : CompareRankAndError G dist c m = false) :
    RefBase.mRank m ≤ RefBase.mRank c ∧ dist m ≤ G ∧
      (RefBase.mRank m = RefBase.mRank c → dist m ≤ 0) := by
  unfold CompareRankAndError at h
  simp only [hd] at h
  have hnG : ¬ (0 : K) > G := not_lt.mpr hG
  by_cases h2 : dist m > G
  · rw [if_pos (Or.inr h2)] at h
    have hpos : (0 : K) < dist m := lt_of_le_of_lt hG h2
    rw [if_neg (ne_of_lt hpos)] at h
    exact absurd hpos (of_decide_eq_false h)
  · rw [if_neg (by tauto)] at h
    by_cases h3 : RefBase.mRank c = RefBase.mRank m
    · rw [if_pos h3] at h
      exact ⟨le_of_eq h3.symm, not_lt.mp h2, fun _ => not_lt.mp (of_decide_eq_false h)⟩
    · rw [if_neg h3] at h
      have := of_decide_eq_false h
      exact ⟨by omega, not_lt.mp h2, fun h4 => absurd h4.symm h3⟩

end ExactFacts

/-- The decimal `sqrt` has no negative values. -/
theorem decSqrt_nonneg (q : ℚ) : 0 ≤ decSqrt q := by
  unfold decSqrt
  split_ifs
  · exact le_refl 0
  · exact div_nonneg (Nat.cast_nonneg _) (by positivity)

set_option maxRecDepth 10000000 in
/-- The first round of the default build on the unit square, evaluated: when rank 1 is
done the flat arrays hold the upward diagonal and the mark in which the bottom edge meets
the crease that `RefLine_L2L` makes of the right and the left edge. -/
theorem default_rank_one_stored :
    (∀ l ∈ [RefLine_Original decMath (Config.default decMath)
          (Config.default decMath).sPaper.mUpwardDiagonal 1 "the upward diagonal"],
      l ∈ (outcome (buildRanks decMath (Config.default decMath) none
        ((List.range 1).map (fun i => i + 1))
        (seedOriginals decMath (Config.default decMath) none
          (Database.init (Config.default decMath).sMaxRank)))).sBasisLines.vec) ∧
    (∀ m ∈ [RefMark_Intersection (Config.default decMath)
          (RefLine_Original decMath (Config.default decMath)
            (Config.default decMath).sPaper.mBottomEdge 0 "the bottom edge")
          (RefLine_L2L decMath (Config.default decMath)
            (RefLine_Original decMath (Config.default decMath)
              (Config.default decMath).sPaper.mRightEdge 0 "the right edge")
            (RefLine_Original decMath (Config.default decMath)
              (Config.default decMath).sPaper.mLeftEdge 0 "the left edge") 0)],
      m ∈ (outcome (buildRanks decMath (Config.default decMath) none
        ((List.range 1).map (fun i => i + 1))
        (seedOriginals decMath (Config.default decMath) none
          (Database.init (Config.default decMath).sMaxRank)))).sBasisMarks.vec) := by
  decide!

/-- The finished default build on the unit square holds the upward diagonal and the mark
in which the bottom edge meets the crease of the right and the left edge. -/
theorem default_build_stored :
    RefLine_Original decMath (Config.default decMath)
        (Config.default decMath).sPaper.mUpwardDiagonal 1 "the upward diagonal" ∈
      (MakeAllMarksAndLines decMath (Config.default decMath) none
        (Database.init (Config.default decMath).sMaxRank)).sBasisLines.vec ∧
    RefMark_Intersection (Config.default decMath)
        (RefLine_Original decMath (Config.default decMath)
          (Config.default decMath).sPaper.mBottomEdge 0 "the bottom edge")
        (RefLine_L2L decMath (Config.default decMath)
          (RefLine_Original decMath (Config.default decMath)
            (Config.default decMath).sPaper.mRightEdge 0 "the right edge")
          (RefLine_Original decMath (Config.default decMath)
            (Config.default decMath).sPaper.mLeftEdge 0 "the left edge") 0) ∈
      (MakeAllMarksAndLines decMath (Config.default decMath) none
        (Database.init (Config.default decMath).sMaxRank)).sBasisMarks.vec := by
  have h := MakeAllMarksAndLines_stored decMath (Config.default decMath) none
    (Database.init (Config.default decMath).sMaxRank) 1 (by decide) _ _
    default_rank_one_stored
  exact ⟨h.1 _ (List.mem_singleton_self _), h.2 _ (List.mem_singleton_self _)⟩

set_option maxRecDepth 1000000 in
/-- The first mark that `FindBestMarks((1/2, 0), vm, n)` returns after the default build on
the unit square, for every implementation of `partial_sort_copy` that meets the
standard: a stored mark of rank 1 at distance 0. -/
theorem FindBestMarksResult_bottom_midpoint (vm out : List (Option (RefMark ℚ))) (n : Nat)
    (hn : 1 ≤ n)
    (hout : FindBestMarksResult decMath (Config.default decMath)
      (MakeAllMarksAndLines decMath (Config.default decMath) none
        (Database.init (Config.default decMath).sMaxRank)).sBasisMarks ⟨1 / 2, 0⟩ vm n out) :
    ∃ m, out.head? = some (some m) ∧
      m ∈ (MakeAllMarksAndLines decMath (Config.default decMath) none
        (Database.init (Config.default decMath).sMaxRank)).sBasisMarks.vec ∧
      m.mRank = 1 ∧ RefMark.DistanceTo decMath m ⟨1 / 2, 0⟩ = 0 ∧
      RefMark.DistanceTo decMath m ⟨1 / 2, 0⟩ ≤ (Config.default decMath).sGoodEnoughError := by
  have hzero := MakeAllMarksAndLines_rank_zero_marks decMath (Config.default decMath) none
    (Database.init (Config.default decMath).sMaxRank) (by decide!) (by decide!) (by decide)
    rfl rfl
  have hG : (0 : ℚ) ≤ (Config.default decMath).sGoodEnoughError := by
    simp only [Config.default]; norm_num
  have key : ∀ c : RefMark ℚ,
      c ∈ (MakeAllMarksAndLines decMath (Config.default decMath) none
        (Database.init (Config.default decMath).sMaxRank)).sBasisMarks.vec →
      c.mRank = 1 → RefMark.DistanceTo decMath c ⟨1 / 2, 0⟩ = 0 →
      ∃ m, out.head? = some (some m) ∧
        m ∈ (MakeAllMarksAndLines decMath (Config.default decMath) none
          (Database.init (Config.default decMath).sMaxRank)).sBasisMarks.vec ∧
        m.mRank = 1 ∧ RefMark.DistanceTo decMath m ⟨1 / 2, 0⟩ = 0 ∧
        RefMark.DistanceTo decMath m ⟨1 / 2, 0⟩ ≤
          (Config.default decMath).sGoodEnoughError := by
    intro c hst hcr hcd
    unfold FindBestMarksResult at hout
    obtain ⟨m, hm1, hm2, hm3⟩ := hout.head (List.ne_nil_of_mem hst)
      (by
        intro h0
        have := resize_length vm n
        rw [h0] at this
        simp at this
        omega)
    have hfacts : m.mRank ≤ 1 ∧ RefMark.DistanceTo decMath m ⟨1 / 2, 0⟩ ≤
        (Config.default decMath).sGoodEnoughError ∧
        (m.mRank = 1 → RefMark.DistanceTo decMath m ⟨1 / 2, 0⟩ ≤ 0) := by
      rcases hm3 c hst with h | h
      · rw [← h]
        exact ⟨le_of_eq hcr, by rw [hcd]; exact hG, fun _ => le_of_eq hcd⟩
      · have hx := CompareRankAndError_not_after_exact
          (Config.default decMath).sGoodEnoughError
          (fun r => RefMark.DistanceTo decMath r ⟨1 / 2, 0⟩) c m hG hcd h
        simp only [RefBase.mRank] at hx
        rw [hcr] at hx
        exact hx
    have hr : m.mRank = 1 := by
      rcases Nat.lt_or_ge m.mRank 1 with h0 | h1
      · have hc := hzero m hm2 (by omega)
        have hfar : ∀ c ∈ originalMarks (Config.default decMath),
            ¬ RefMark.DistanceTo decMath c ⟨1 / 2, 0⟩ ≤
              (Config.default decMath).sGoodEnoughError := by decide!
        exact absurd hfacts.2.1 (hfar m hc)
      · exact le_antisymm hfacts.1 h1
    exact ⟨m, hm1, hm2, hr,
      le_antisymm (hfacts.2.2 hr)
        (by unfold RefMark.DistanceTo XYPt.Mag; exact decSqrt_nonneg _),
      hfacts.2.1⟩
  exact key _ default_build_stored.2 (by decide!) (by decide!)

/-- Claim C24, amended.  After a build with the default settings on the unit square (a
new database, no callback), for every `n >= 1` the first mark that
`FindBestMarks((1/2, 0), vm, n)` returns is a stored mark at distance 0 from the target,
hence within the good enough error, and its rank is exactly 1: the mark needs the one
crease that folds the right edge onto the left edge, and the intersection with the bottom
edge adds nothing to the rank. -/
theorem FindBestMarks_bottom_midpoint (vm : List (Option (RefMark ℚ))) (n : Nat)
    (hn : 1 ≤ n) :
    (∀ out, FindBestMarksResult decMath (Config.default decMath)
        (MakeAllMarksAndLines decMath (Config.default decMath) none
          (Database.init (Config.default decMath).sMaxRank)).sBasisMarks ⟨1 / 2, 0⟩ vm n out →
      ∃ m, out.head? = some (some m) ∧
        m ∈ (MakeAllMarksAndLines decMath (Config.default decMath) none
          (Database.init (Config.default decMath).sMaxRank)).sBasisMarks.vec ∧
        m.mRank = 1 ∧ RefMark.DistanceTo decMath m ⟨1 / 2, 0⟩ = 0 ∧
        RefMark.DistanceTo decMath m ⟨1 / 2, 0⟩ ≤
          (Config.default decMath).sGoodEnoughError) ∧
    ∃ m, (FindBestMarks decMath (Config.default decMath)
        (MakeAllMarksAndLines decMath (Config.default decMath) none
          (Database.init (Config.default decMath).sMaxRank)).sBasisMarks
        ⟨1 / 2, 0⟩ vm n).head? = some (some m) ∧
      m ∈ (MakeAllMarksAndLines decMath (Config.default decMath) none
        (Database.init (Config.default decMath).sMaxRank)).sBasisMarks.vec ∧
      m.mRank = 1 ∧ RefMark.DistanceTo decMath m ⟨1 / 2, 0⟩ = 0 ∧
      RefMark.DistanceTo decMath m ⟨1 / 2, 0⟩ ≤ (Config.default decMath).sGoodEnoughError :=
  ⟨fun out hout => FindBestMarksResult_bottom_midpoint vm out n hn hout,
    FindBestMarksResult_bottom_midpoint vm _ n hn (by
      unfold FindBestMarksResult FindBestMarks
      exact partial_sort_copy_result _ _ _ _)⟩

/-- Witness for C24 (amended): an empty vector and `n = 1`. -/
theorem FindBestMarks_bottom_midpoint_witness :
    1 ≤ 1 ∧ ∃ m, (FindBestMarks decMath (Config.default decMath)
        (MakeAllMarksAndLines decMath (Config.default decMath) none
          (Database.init (Config.default decMath).sMaxRank)).sBasisMarks
        ⟨1 / 2, 0⟩ [] 1).head? = some (some m) ∧
      m ∈ (MakeAllMarksAndLines decMath (Config.default decMath) none
        (Database.init (Config.default decMath).sMaxRank)).sBasisMarks.vec ∧
      m.mRank = 1 ∧ RefMark.DistanceTo decMath m ⟨1 / 2, 0⟩ = 0 ∧
      RefMark.DistanceTo decMath m ⟨1 / 2, 0⟩ ≤ (Config.default decMath).sGoodEnoughError :=
  ⟨le_refl 1, (FindBestMarks_bottom_midpoint [] 1 (le_refl 1)).2⟩

/-- Counterexample to C24 as stated: after the default build on the unit square the
first mark that `FindBestMarks((1/2, 0), vm, 1)` returns has rank 1, not rank 2. -/
theorem FindBestMarks_bottom_midpoint_rank :
    ∃ m, (FindBestMarks decMath (Config.default decMath)
        (MakeAllMarksAndLines decMath (Config.default decMath) none
          (Database.init (Config.default decMath).sMaxRank)).sBasisMarks
        ⟨1 / 2, 0⟩ [] 1).head? = some (some m) ∧ m.mRank = 1 ∧ m.mRank ≠ 2 := by
  obtain ⟨m, h1, _, h3, _⟩ := FindBestMarksResult_bottom_midpoint []
    (FindBestMarks decMath (Config.default decMath)
      (MakeAllMarksAndLines decMath (Config.default decMath) none
        (Database.init (Config.default decMath).sMaxRank)).sBasisMarks ⟨1 / 2, 0⟩ [] 1)
    1 (le_refl 1) (by
      unfold FindBestMarksResult FindBestMarks
      exact partial_sort_copy_result _ _ _ _)
  exact ⟨m, h1, h3, by omega⟩

/-! ### The cube root of 2 after Messer -/

set_option maxRecDepth 1000000 in
/-- Counterexample to C25 as stated: on the unit square the fold line of
`RefLine_P2L_P2L(brc, le, rma2, rlb, 0)` as `MesserCubeRoot` calls it (`brc` the bottom
right corner, `le` the left edge, `rma2 = (1, 1/3)`, `rlb` the crease through `(0, 2/3)`
and `(1, 2/3)`) meets the line of the left edge below the paper, at a point `(0, y)` with
`y < 0`; the ratio `y / (1 - y)` is negative and so not the cube root of 2. -/
theorem MesserCubeRoot_intersection :
    (XYLine.Intersects
        (RefLine_P2L_P2L decMath (Config.default decMath) P2L_P2L_Statics.init
          (RefMark_Original (Config.default decMath)
            (Config.default decMath).sPaper.mBotRight 0 "bot right corner")
          (RefLine_Original decMath (Config.default decMath)
            (Config.default decMath).sPaper.mLeftEdge 0 "left edge")
          (RefMark_Original (Config.default decMath) ⟨1, 1 / 3⟩ 0 "(1, 1/3)")
          (RefLine_C2P_C2P decMath (Config.default decMath)
            (RefMark_Original (Config.default decMath) ⟨0, 2 / 3⟩ 0 "(0, 2/3)")
            (RefMark_Original (Config.default decMath) ⟨1, 2 / 3⟩ 0 "(1, 2/3)")) 0).1.l
        (Config.default decMath).sPaper.mLeftEdge).isSome = true ∧
    ∀ p ∈ XYLine.Intersects
        (RefLine_P2L_P2L decMath (Config.default decMath) P2L_P2L_Statics.init
          (RefMark_Original (Config.default decMath)
            (Config.default decMath).sPaper.mBotRight 0 "bot right corner")
          (RefLine_Original decMath (Config.default decMath)
            (Config.default decMath).sPaper.mLeftEdge 0 "left edge")
          (RefMark_Original (Config.default decMath) ⟨1, 1 / 3⟩ 0 "(1, 1/3)")
          (RefLine_C2P_C2P decMath (Config.default decMath)
            (RefMark_Original (Config.default decMath) ⟨0, 2 / 3⟩ 0 "(0, 2/3)")
            (RefMark_Original (Config.default decMath) ⟨1, 2 / 3⟩ 0 "(1, 2/3)")) 0).1.l
        (Config.default decMath).sPaper.mLeftEdge,
      p.x = 0 ∧ p.y < 0 ∧ p.y / (1 - p.y) < 0 := by
  decide!

set_option maxRecDepth 1000000 in
/-- Claim C25, amended.  On the unit square the constructor call
`RefLine_P2L_P2L(brc, le, rma2, rlb, 0)` of `MesserCubeRoot` yields a valid fold line of
rank 2, and the fold along it takes the bottom right corner to a point `(x, y)` of the
left edge (`|x| < 10^-9`, `0 < y < 1`) for which `(1 - y) / y` is the cube root of 2 to
within `10^-6`: the cube of `(1 - y) / y - 10^-6` is below 2 and the cube of
`(1 - y) / y + 10^-6` is above 2.  (The arithmetic is that of `decMath`, which rounds
`sqrt` and the cube root at the twelfth decimal place.) -/
theorem MesserCubeRoot_image :
    (RefLine_P2L_P2L decMath (Config.default decMath) P2L_P2L_Statics.init
        (RefMark_Original (Config.default decMath)
          (Config.default decMath).sPaper.mBotRight 0 "bot right corner")
        (RefLine_Original decMath (Config.default decMath)
          (Config.default decMath).sPaper.mLeftEdge 0 "left edge")
        (RefMark_Original (Config.default decMath) ⟨1, 1 / 3⟩ 0 "(1, 1/3)")
        (RefLine_C2P_C2P decMath (Config.default decMath)
          (RefMark_Original (Config.default decMath) ⟨0, 2 / 3⟩ 0 "(0, 2/3)")
          (RefMark_Original (Config.default decMath) ⟨1, 2 / 3⟩ 0 "(1, 2/3)")) 0).1.mKey ≠ 0 ∧
    (RefLine_P2L_P2L decMath (Config.default decMath) P2L_P2L_Statics.init
        (RefMark_Original (Config.default decMath)
          (Config.default decMath).sPaper.mBotRight 0 "bot right corner")
        (RefLine_Original decMath (Config.default decMath)
          (Config.default decMath).sPaper.mLeftEdge 0 "left edge")
        (RefMark_Original (Config.default decMath) ⟨1, 1 / 3⟩ 0 "(1, 1/3)")
        (RefLine_C2P_C2P decMath (Config.default decMath)
          (RefMark_Original (Config.default decMath) ⟨0, 2 / 3⟩ 0 "(0, 2/3)")
          (RefMark_Original (Config.default decMath) ⟨1, 2 / 3⟩ 0 "(1, 2/3)")) 0).1.mRank = 2 ∧
    ∃ p, XYLine.Fold
        (RefLine_P2L_P2L decMath (Config.default decMath) P2L_P2L_Statics.init
          (RefMark_Original (Config.default decMath)
            (Config.default decMath).sPaper.mBotRight 0 "bot right corner")
          (RefLine_Original decMath (Config.default decMath)
            (Config.default decMath).sPaper.mLeftEdge 0 "left edge")
          (RefMark_Original (Config.default decMath) ⟨1, 1 / 3⟩ 0 "(1, 1/3)")
          (RefLine_C2P_C2P decMath (Config.default decMath)
            (RefMark_Original (Config.default decMath) ⟨0, 2 / 3⟩ 0 "(0, 2/3)")
            (RefMark_Original (Config.default decMath) ⟨1, 2 / 3⟩ 0 "(1, 2/3)")) 0).1.l
        (Config.default decMath).sPaper.mBotRight = p ∧
      |p.x| < 1 / 10 ^ 9 ∧ 0 < p.y ∧ p.y < 1 ∧
      ((1 - p.y) / p.y - 1 / 10 ^ 6) ^ 3 < 2 ∧ 2 < ((1 - p.y) / p.y + 1 / 10 ^ 6) ^ 3 ∧
      ¬ (p.y / (1 - p.y) + 1 / 10 ^ 6) ^ 3 ≥ 2 := by
  refine ⟨?_, ?_, _, rfl, ?_, ?_, ?_, ?_, ?_, ?_⟩ <;> decide!

section DrawFacts

/-- The entries of a list that is made of `n` blocks of the same length. -/
theorem getElem?_flatMap_range {α : Type} (f : Nat → List α) (L : Nat)
    (hL : ∀ k, (f k).length = L) :
    ∀ (n k j : Nat), k < n → j < L →
      ((List.range n).flatMap f)[k * L + j]? = (f k)[j]? ∧
      ((List.range n).flatMap f).length = n * L
  | 0, k, j, hk, _ => absurd hk (Nat.not_lt_zero k)
  | n + 1, k, j, hk, hj => by
    have hlen : ∀ m, ((List.range m).flatMap f).length = m * L := by
      intro m
      induction m with
      | zero => simp
      | succ m ih =>
        rw [List.range_succ, List.flatMap_append, List.length_append, ih,
          List.flatMap_singleton, hL, Nat.succ_mul]
    refine ⟨?_, hlen _⟩
    rw [List.range_succ, List.flatMap_append, List.flatMap_singleton]
    rcases Nat.lt_or_ge k n with h1 | h1
    · have h2 : k * L + j < ((List.range n).flatMap f).length := by
        rw [hlen]
        calc k * L + j < k * L + L := by omega
          _ = (k + 1) * L := by rw [Nat.succ_mul]
          _ ≤ n * L := Nat.mul_le_mul_right L h1
      rw [List.getElem?_append_left h2]
      exact (getElem?_flatMap_range f L hL n k j h1 hj).1
    · have hkn : k = n := by omega
      subst hkn
      rw [List.getElem?_append_right (by rw [hlen]; omega), hlen]
      congr 1
      omega

end DrawFacts

section DrawClaim

variable {K : Type} [LinearOrderedField K]

/-- Claim C30, amended.  For a record `aDgm` whose `iact` is a position of the sequence,
`DrawDiagram` draws the paper and then, in each of the `NUM_PASSES` passes, the references
at the positions `0 .. iact - 1` in order, followed by the action reference in action
style.  The reference `rb` at a position `i < iact` is drawn in hilite style exactly when
the action reference uses it immediately, whether it stands inside the block or before
it, or when it is derived and stands inside the block (`i >= idef`), whether the action
reference uses it or not; otherwise it is drawn in normal style. -/
theorem DrawDiagram_styles (cfg : Config K) (sSequence : List (RefPtr K)) (aDgm : DgmInfo)
    (ral : RefPtr K) (hral : sSequence[aDgm.iact]? = some ral) :
    ∃ calls, DrawDiagram cfg sSequence aDgm = some calls ∧
      calls.length = 1 + NUM_PASSES * (aDgm.iact + 1) ∧
      ∀ ipass, ipass < NUM_PASSES →
        calls[1 + (ipass * (aDgm.iact + 1) + aDgm.iact)]? =
          some (DrawCall.DrawSelf ral .REFSTYLE_ACTION ipass) ∧
        ∀ (i : Nat) (rb : RefPtr K), i < aDgm.iact → sSequence[i]? = some rb →
          ((ral.UsesImmediate rb = true ∨ (aDgm.idef ≤ i ∧ rb.IsDerived = true)) →
            calls[1 + (ipass * (aDgm.iact + 1) + i)]? =
              some (DrawCall.DrawSelf rb .REFSTYLE_HILITE ipass)) ∧
          (¬ (ral.UsesImmediate rb = true ∨ (aDgm.idef ≤ i ∧ rb.IsDerived = true)) →
            calls[1 + (ipass * (aDgm.iact + 1) + i)]? =
              some (DrawCall.DrawSelf rb .REFSTYLE_NORMAL ipass)) := by
  have hlt : aDgm.iact < sSequence.length := (List.getElem?_eq_some.mp hral).1
  have hblock : ∀ k, (((sSequence.take aDgm.iact).enum.map (fun irb =>
      DrawCall.DrawSelf irb.2 (drawStyle aDgm ral irb.2 irb.1) k)) ++
      [DrawCall.DrawSelf ral .REFSTYLE_ACTION k]).length = aDgm.iact + 1 := by
    intro k
    rw [List.length_append, List.length_map, List.enum_length, List.length_take,
      List.length_singleton, Nat.min_eq_left (le_of_lt hlt)]
  refine ⟨_, by unfold DrawDiagram; rw [hral], ?_, ?_⟩
  · rw [List.length_cons, (getElem?_flatMap_range _ _ hblock NUM_PASSES 0 0 (by decide)
      (Nat.succ_pos _)).2]
    omega
  · intro ipass hp
    have hpre : ∀ j, j < aDgm.iact →
        (((sSequence.take aDgm.iact).enum.map (fun irb =>
          DrawCall.DrawSelf irb.2 (drawStyle aDgm ral irb.2 irb.1) ipass)) ++
          [DrawCall.DrawSelf ral .REFSTYLE_ACTION ipass])[j]? =
        (sSequence[j]?).map (fun rb =>
          DrawCall.DrawSelf rb (drawStyle aDgm ral rb j) ipass) := by
      intro j hj
      rw [List.getElem?_append_left (by
        rw [List.length_map, List.enum_length, List.length_take,
          Nat.min_eq_left (le_of_lt hlt)]; exact hj),
        List.getElem?_map, List.getElem?_enum, List.getElem?_take_of_lt hj]
      cases sSequence[j]? <;> rfl
    refine ⟨?_, fun i rb hi hrb => ?_⟩
    · rw [Nat.add_comm 1, List.getElem?_cons_succ,
        (getElem?_flatMap_range _ _ hblock NUM_PASSES ipass aDgm.iact hp
          (Nat.lt_succ_self _)).1,
        List.getElem?_append_right (by
          rw [List.length_map, List.enum_length, List.length_take,
            Nat.min_eq_left (le_of_lt hlt)])]
      rw [List.length_map, List.enum_length, List.length_take,
        Nat.min_eq_left (le_of_lt hlt), Nat.sub_self]
      rfl
    · have hcall : (DrawCall.DrawPoly [cfg.sPaper.mBotLeft, cfg.sPaper.mBotRight,
            cfg.sPaper.mTopRight, cfg.sPaper.mTopLeft] .POLYSTYLE_WHITE ::
          (List.range NUM_PASSES).flatMap (fun ipass =>
            ((sSequence.take aDgm.iact).enum.map (fun irb =>
              DrawCall.DrawSelf irb.2 (drawStyle aDgm ral irb.2 irb.1) ipass)) ++
            [DrawCall.DrawSelf ral .REFSTYLE_ACTION ipass]))[1 +
            (ipass * (aDgm.iact + 1) + i)]? =
          some (DrawCall.DrawSelf rb (drawStyle aDgm ral rb i) ipass) := by
        rw [Nat.add_comm 1, List.getElem?_cons_succ,
          (getElem?_flatMap_range _ _ hblock NUM_PASSES ipass i hp (by omega)).1,
          hpre i hi, hrb]
        rfl
      refine ⟨fun h => ?_, fun h => ?_⟩
      · rw [hcall]
        unfold drawStyle
        rw [if_pos (by tauto)]
      · rw [hcall]
        unfold drawStyle
        rw [if_neg (by tauto)]

end DrawClaim

set_option maxRecDepth 1000000 in
/-- Witness for C30 (amended): the last diagram of the mark at the middle of the bottom
edge, as the default build on the unit square stores it. -/
theorem DrawDiagram_styles_witness :
    ∃ m ∈ (MakeAllMarksAndLines decMath (Config.default decMath) none
        (Database.init (Config.default decMath).sMaxRank)).sBasisMarks.vec,
      (BuildDiagrams (RefPtr.mark m)).1[(DgmInfo.mk 4 4).iact]? = some (RefPtr.mark m) ∧
      DgmInfo.mk 4 4 ∈ (BuildDiagrams (RefPtr.mark m)).2 ∧
      ∃ calls, DrawDiagram (Config.default decMath) (BuildDiagrams (RefPtr.mark m)).1
          (DgmInfo.mk 4 4) = some calls ∧
        calls.length = 1 + NUM_PASSES * ((DgmInfo.mk 4 4).iact + 1) ∧
        calls[1 + (0 * ((DgmInfo.mk 4 4).iact + 1) + (DgmInfo.mk 4 4).iact)]? =
          some (DrawCall.DrawSelf (RefPtr.mark m) .REFSTYLE_ACTION 0) :=
  ⟨_, default_build_stored.2, by decide!, by decide!,
    (DrawDiagram_styles (Config.default decMath) _ (DgmInfo.mk 4 4) _ (by decide!)).imp
      (fun _ h => ⟨h.1, h.2.1, (h.2.2 0 (by decide)).1⟩)⟩

set_option maxRecDepth 1000000 in
/-- Counterexample to C30 as stated: in the last diagram of the mark at the middle of the
bottom edge, as the default build on the unit square stores it, the block is the position
4 alone (`idef = iact = 4`), and the bottom edge at position 0, placed before the block,
is drawn in hilite style in pass 0, because the mark uses it immediately. -/
theorem DrawDiagram_hilite_before_block :
    ∃ m ∈ (MakeAllMarksAndLines decMath (Config.default decMath) none
        (Database.init (Config.default decMath).sMaxRank)).sBasisMarks.vec,
      ∃ d ∈ (BuildDiagrams (RefPtr.mark m)).2, ∃ i, i < d.idef ∧ i < d.iact ∧
        ∃ rb ∈ (BuildDiagrams (RefPtr.mark m)).1[i]?,
          ∃ calls ∈ DrawDiagram (Config.default decMath) (BuildDiagrams (RefPtr.mark m)).1 d,
            calls[1 + i]? = some (DrawCall.DrawSelf rb .REFSTYLE_HILITE 0) :=
  ⟨_, default_build_stored.2, DgmInfo.mk 4 4, by decide!, 0, by decide, by decide,
    by decide!⟩

set_option maxRecDepth 1000000 in
/-- Witness for C26: the mark at the middle of the bottom edge, as the default build on the
unit square stores it. -/
theorem BuildAndNumberSequence_spec_witness :
    ∃ m ∈ (MakeAllMarksAndLines decMath (Config.default decMath) none
        (Database.init (Config.default decMath).sMaxRank)).sBasisMarks.vec,
      (RefPtr.mark m).Assigned ∧
      (BuildAndNumberSequence (RefPtr.mark m)).1.Nodup ∧
      (∀ y, y ∈ (BuildAndNumberSequence (RefPtr.mark m)).1 ↔
        y = RefPtr.mark m ∨ y ∈ (RefPtr.mark m).ancestors) ∧
      (BuildAndNumberSequence (RefPtr.mark m)).1.length =
        (RefPtr.mark m).ancestors.dedup.length + 1 ∧
      (∀ (i : Nat) (x : RefPtr ℚ), (BuildAndNumberSequence (RefPtr.mark m)).1[i]? = some x →
        ∀ p ∈ x.parents, p ∈ (BuildAndNumberSequence (RefPtr.mark m)).1.take i) ∧
      (BuildAndNumberSequence (RefPtr.mark m)).1.getLast? = some (RefPtr.mark m) :=
  ⟨_, default_build_stored.2, by decide!, BuildAndNumberSequence_spec _ (by decide!)⟩

set_option maxRecDepth 1000000 in
/-- Witness for C27: the mark at the middle of the bottom edge, as the default build on the
unit square stores it; its sequence has five entries and its records are `(0, 3)` and
`(4, 4)`. -/
theorem BuildDiagrams_blocks_witness :
    ∃ m ∈ (MakeAllMarksAndLines decMath (Config.default decMath) none
        (Database.init (Config.default decMath).sMaxRank)).sBasisMarks.vec,
      (BuildAndNumberSequence (RefPtr.mark m)).1.length < sizeModulus ∧
      (BuildDiagrams (RefPtr.mark m)).2 = [DgmInfo.mk 0 3, DgmInfo.mk 4 4] ∧
      ((BuildDiagrams (RefPtr.mark m)).1 = (BuildAndNumberSequence (RefPtr.mark m)).1 ∧
      1 ≤ (BuildDiagrams (RefPtr.mark m)).1.length ∧
      (BuildDiagrams (RefPtr.mark m)).2 ≠ [] ∧
      (∀ d, (BuildDiagrams (RefPtr.mark m)).2.head? = some d → d.idef = 0) ∧
      (∀ (k : Nat) (d e : DgmInfo), (BuildDiagrams (RefPtr.mark m)).2[k]? = some d →
        (BuildDiagrams (RefPtr.mark m)).2[k + 1]? = some e → e.idef = d.iact + 1) ∧
      (∀ d ∈ (BuildDiagrams (RefPtr.mark m)).2, d.idef ≤ d.iact) ∧
      (∀ d, (BuildDiagrams (RefPtr.mark m)).2.getLast? = some d →
        d.iact = (BuildDiagrams (RefPtr.mark m)).1.length - 1)) :=
  ⟨_, default_build_stored.2, by decide!, by decide!, BuildDiagrams_blocks _ (by decide!)⟩

section StoredMembers

variable {R : Type} [RefBase R]

end StoredMembers

section WellFormed

variable {K : Type} [LinearOrderedField K] [FloorRing K]

end WellFormed

section StoredRankClaim

variable {K : Type} [LinearOrderedField K] [FloorRing K]

end StoredRankClaim

section PairFacts

variable {α : Type}

end PairFacts

section StrictWeak

variable {K : Type} [LinearOrderedField K] {R : Type} [RefBase R]

/-- Claim C39.  For every `sGoodEnoughError` and every distance function (the distance of
a reference to the target), `CompareRankAndError` is a strict weak ordering: no
reference is ordered before itself, the comparator is transitive, and the relation
"neither is ordered before the other" is transitive. -/
theorem CompareRankAndError_strict_weak (G : K) (dist : R → K) :
    (∀ a : R, CompareRankAndError G dist a a = false) ∧
    (∀ a b c : R, CompareRankAndError G dist a b = true →
      CompareRankAndError G dist b c = true → CompareRankAndError G dist a c = true) ∧
    (∀ a b c : R,
      CompareRankAndError G dist a b = false ∧ CompareRankAndError G dist b a = false →
      CompareRankAndError G dist b c = false ∧ CompareRankAndError G dist c b = false →
      CompareRankAndError G dist a c = false ∧ CompareRankAndError G dist c a = false) := by
  refine ⟨fun a => ?_, fun a b c hab hbc => ?_, fun a b c hab hbc => ?_⟩
  · rw [CompareRankAndError_false_iff]
  · rw [CompareRankAndError_iff_sortKey] at hab hbc ⊢
    exact lt_trans hab hbc
  · rw [← sortKey_eq_iff] at hab hbc ⊢
    exact hab.trans hbc

end StrictWeak

section PairLoops

variable {R : Type} [RefBase R]

end PairLoops

section DiagramEnds

variable {K : Type} [LinearOrderedField K]

/-- Every record of `BuildDiagrams` but the last one ends at an action line, or it is
the record `(0, 0)` that is pushed when the sequence has no action line at all. -/
theorem BuildDiagrams_inner_blocks (self : RefPtr K) (k : Nat) (d : DgmInfo)
    (hk : (BuildDiagrams self).2[k]? = some d)
    (hlast : k + 1 < (BuildDiagrams self).2.length) :
    (∃ rb, (BuildDiagrams self).1[d.iact]? = some rb ∧ rb.IsActionLine = true) ∨
    (k = 0 ∧ d.iact = 0 ∧ ∀ rb ∈ (BuildDiagrams self).1, rb.IsActionLine = false) := by
  obtain ⟨d1, d2, d3, hd1, hd2, hd3, hres⟩ :
      ∃ d1 d2 d3 : List DgmInfo,
        d1 = ((List.range (BuildAndNumberSequence self).1.length).filter (fun i =>
          match (BuildAndNumberSequence self).1[i]? with
          | some rb => rb.IsActionLine
          | none => false)).map (fun i => DgmInfo.mk i i) ∧
        d2 = (if d1.length = 0 then d1 ++ [DgmInfo.mk 0 0] else d1) ∧
        (d3 = d2 ∨ ∃ x, d3 = d2 ++ [x]) ∧
        (BuildDiagrams self).2 = setIdef 0 d3 := by
    have aux : ∀ (e2 : List DgmInfo) (n : Nat),
        (match e2.getLast? with
          | some last => if last.iact < n then e2 ++ [DgmInfo.mk 0 n] else e2
          | none => e2) = e2 ∨
        ∃ x, (match e2.getLast? with
          | some last => if last.iact < n then e2 ++ [DgmInfo.mk 0 n] else e2
          | none => e2) = e2 ++ [x] := by
      intro e2 n
      cases e2.getLast? with
      | none => exact Or.inl rfl
      | some l =>
        by_cases h : l.iact < n
        · exact Or.inr ⟨_, if_pos h⟩
        · exact Or.inl (if_neg h)
    exact ⟨_, _, _, rfl, rfl, aux _ _, rfl⟩
  have hseq : (BuildDiagrams self).1 = (BuildAndNumberSequence self).1 := rfl
  have hia := setIdef_iact 0 d3
  have hlen3 : (setIdef 0 d3).length = d3.length := by
    have := congrArg List.length hia
    simpa using this
  rw [hres] at hk hlast
  have hki : (d3.map DgmInfo.iact)[k]? = some d.iact := by
    rw [← hia, List.getElem?_map, hk]
    rfl
  have hk2 : (d2.map DgmInfo.iact)[k]? = some d.iact := by
    rcases hd3 with h | ⟨x, h⟩
    · rw [← h]; exact hki
    · rw [h, List.map_append, List.getElem?_append_left] at hki
      · exact hki
      · rw [hlen3, h] at hlast
        simp only [List.length_append, List.length_singleton] at hlast
        simpa using Nat.lt_of_succ_lt_succ hlast
  by_cases h1 : d1.length = 0
  · right
    rw [hd2, if_pos h1, List.eq_nil_of_length_eq_zero h1] at hk2
    simp only [List.nil_append, List.map_cons, List.map_nil] at hk2
    cases k with
    | succ n => simp at hk2
    | zero =>
      simp only [List.getElem?_cons_zero, Option.some.injEq] at hk2
      refine ⟨rfl, hk2.symm, ?_⟩
      intro rb hrb
      rw [hseq] at hrb
      obtain ⟨i, hi, hirb⟩ := List.getElem_of_mem hrb
      have hnil := List.eq_nil_of_length_eq_zero h1
      rw [hd1, List.map_eq_nil_iff, List.filter_eq_nil_iff] at hnil
      have := hnil i (List.mem_range.mpr hi)
      rw [List.getElem?_eq_getElem hi, hirb] at this
      simpa using this
  · left
    rw [hd2, if_neg h1] at hk2
    have hmem : d.iact ∈ d1.map DgmInfo.iact := List.getElem?_mem hk2
    rw [hd1] at hmem
    simp only [List.map_map, List.mem_map, List.mem_filter, List.mem_range,
      Function.comp] at hmem
    obtain ⟨i, ⟨hi, hact⟩, hid⟩ := hmem
    rw [hseq, ← hid]
    cases hg : (BuildAndNumberSequence self).1[i]? with
    | none => rw [hg] at hact; exact absurd hact (by simp)
    | some rb =>
      rw [hg] at hact
      exact ⟨rb, rfl, hact⟩

end DiagramEnds

set_option maxRecDepth 1000000 in
/-- C31 (failing input): the mark at the center of the unit square, as the build with only
O1 enabled and `sMaxRank = 2` stores it, is the intersection of the two diagonals, which
are original lines.  Its sequence has three entries, none of them an action line, and
`BuildDiagrams` gives the records `(0, 0)` and `(1, 2)`: the first record is not the
last one and ends at position 0, where the sequence holds an original line. -/
theorem BuildDiagrams_block_ends_at_original :
    ∃ m ∈ (MakeAllMarksAndLines decMath
        { Config.default decMath with
          sMaxRank := 2
          sUseRefLine_P2P := false
          sUseRefLine_L2L := false
          sUseRefLine_L2L_C2P := false
          sUseRefLine_P2L_C2P := false
          sUseRefLine_P2L_P2L := false
          sUseRefLine_L2L_P2L := false } none (Database.init 2)).sBasisMarks.vec,
      m.p = ⟨1 / 2, 1 / 2⟩ ∧
      (BuildDiagrams (RefPtr.mark m)).1.length = 3 ∧
      (BuildDiagrams (RefPtr.mark m)).1.map RefPtr.IsActionLine = [false, false, false] ∧
      (BuildDiagrams (RefPtr.mark m)).1.map RefPtr.IsDerived = [false, false, true] ∧
      (BuildDiagrams (RefPtr.mark m)).2 = [DgmInfo.mk 0 0, DgmInfo.mk 1 2] := by
  decide!

section LabelFacts

variable {K : Type} [LinearOrderedField K]

/-- One call of `SetIndex`: the counter of the lines goes up by one at a derived line,
which gets the new value as its index, and stays as it is otherwise. -/
theorem SetIndex_step (st : Nat × Nat × List Nat) (x : RefPtr K) :
    (SetIndex st x).2.1 = st.2.1 + (if x.IsActionLine = true then 1 else 0) ∧
    ∃ n, (SetIndex st x).2.2 = st.2.2 ++ [n] ∧ (x.IsActionLine = true → n = st.2.1 + 1) := by
  cases x with
  | mark m => cases m <;> simp [SetIndex, RefPtr.IsActionLine]
  | line l => cases l <;> simp [SetIndex, RefPtr.IsActionLine]

/-- The numbering loop of `BuildAndNumberSequence`: the counter of the lines ends at the
number of derived lines of the sequence, every position gets an index, and the index of
a derived line is its number among the derived lines of the sequence, counted from 1. -/
theorem foldl_SetIndex_spec (s : List (RefPtr K)) :
    (s.foldl SetIndex (0, 0, [])).2.1 = (s.filter RefPtr.IsActionLine).length ∧
    (s.foldl SetIndex (0, 0, [])).2.2.length = s.length ∧
    ∀ (i : Nat) (rb : RefPtr K) (n : Nat), s[i]? = some rb →
      (s.foldl SetIndex (0, 0, [])).2.2[i]? = some n → rb.IsActionLine = true →
      n = ((s.take (i + 1)).filter RefPtr.IsActionLine).length := by
  induction s using List.reverseRecOn with
  | nil => exact ⟨rfl, rfl, fun i rb n h => by simp at h⟩
  | append_singleton s x ih =>
    obtain ⟨ih1, ih2, ih3⟩ := ih
    rw [List.foldl_append, List.foldl_cons, List.foldl_nil]
    obtain ⟨h1, n0, h2, h3⟩ := SetIndex_step (s.foldl SetIndex (0, 0, [])) x
    refine ⟨?_, ?_, ?_⟩
    · rw [h1, ih1, List.filter_append, List.length_append]
      by_cases hx : x.IsActionLine = true
      · simp [hx]
      · simp [hx]
    · rw [h2, List.length_append, ih2, List.length_append]
      rfl
    · intro i rb n hs hn hact
      rw [h2] at hn
      rcases Nat.lt_trichotomy i s.length with hi | hi | hi
      · rw [List.getElem?_append_left hi] at hs
        rw [List.getElem?_append_left (by rw [ih2]; exact hi)] at hn
        rw [List.take_append_of_le_length (by omega)]
        exact ih3 i rb n hs hn hact
      · subst hi
        rw [List.getElem?_append_right (le_refl _)] at hs
        rw [List.getElem?_append_right (by rw [ih2])] at hn
        simp only [Nat.sub_self, List.getElem?_cons_zero, Option.some.injEq, ih2] at hs hn
        subst hs
        rw [← hn, h3 hact, ih1, List.take_of_length_le (by simp), List.filter_append,
          List.length_append]
        simp [hact]
      · rw [List.getElem?_eq_none (by simp; omega)] at hs
        exact absurd hs (by simp)

/-- The index that `BuildAndNumberSequence` gives to a derived line of the sequence is at
least 1 and at most the number of derived lines of the sequence. -/
theorem BuildAndNumberSequence_index (self : RefPtr K) (i : Nat) (rb : RefPtr K) (n : Nat)
    (hs : (BuildAndNumberSequence self).1[i]? = some rb)
    (hn : (BuildAndNumberSequence self).2[i]? = some n) (hact : rb.IsActionLine = true) :
    1 ≤ n ∧ n ≤ self.creasesInSequence := by
  have h := (foldl_SetIndex_spec (BuildAndNumberSequence self).1).2.2 i rb n hs hn hact
  rw [h]
  constructor
  · apply List.length_pos_of_mem (a := rb)
    rw [List.mem_filter]
    refine ⟨?_, hact⟩
    have hi : i < (BuildAndNumberSequence self).1.length := by
      by_contra hc
      rw [List.getElem?_eq_none (by omega)] at hs
      exact absurd hs (by simp)
    rw [List.getElem?_eq_getElem hi, Option.some.injEq] at hs
    rw [← hs]
    exact List.mem_take_iff_getElem.mpr ⟨i, by simp; omega, rfl⟩
  · unfold RefPtr.creasesInSequence
    exact List.Sublist.length_le (List.Sublist.filter _ (List.take_sublist _ _))

/-- The method `RefLine::GetLabel` returns one of the ten labels for the indices
`1 .. 10`. -/
theorem RefLine.GetLabel_some (n : Nat) (h1 : 1 ≤ n) (h10 : n ≤ 10) :
    ∃ c ∈ RefLine.GetLabel n, c ∈ ['A', 'B', 'C', 'D', 'E', 'F', 'G', 'H', 'I', 'J'] := by
  interval_cases n <;> simp [RefLine.GetLabel, RefLine.sLabels]

/-- Claim C40.  For every reference whose constructors ran to their end and whose ranks
add up without wrapping (as the constructors compute them for ranks up to 65535, see
`MakeAllMarksAndLines_wf`): the number of derived lines in the sequence of
`BuildAndNumberSequence` is at most the rank; every derived line of the sequence gets
from `SetIndex` an index between 1 and that number; hence, when the rank is at most 10
(as it is for every reference of a database with `sMaxRank <= 10`, see
`MakeAllMarksAndLines_rank_le`), `RefLine::GetLabel` reads for every derived line of the
sequence one of the ten labels `A` .. `J` of `sLabels`. -/
theorem SetIndex_within_labels (self : RefPtr K) (hA : self.Assigned) (hR : self.RanksAdd)
    (h10 : self.mRank ≤ 10) :
    self.creasesInSequence ≤ self.mRank ∧
    ∀ (i : Nat) (rb : RefPtr K) (n : Nat), (BuildAndNumberSequence self).1[i]? = some rb →
      (BuildAndNumberSequence self).2[i]? = some n → rb.IsActionLine = true →
      1 ≤ n ∧ n ≤ self.creasesInSequence ∧
      ∃ c ∈ RefLine.GetLabel n, c ∈ ['A', 'B', 'C', 'D', 'E', 'F', 'G', 'H', 'I', 'J'] := by
  have hc := (mRank_creases self hA hR).2.2
  refine ⟨hc, fun i rb n hs hn hact => ?_⟩
  obtain ⟨h1, h2⟩ := BuildAndNumberSequence_index self i rb n hs hn hact
  exact ⟨h1, h2, RefLine.GetLabel_some n h1 (by omega)⟩

end LabelFacts

section StoredRanks

variable {K : Type} [LinearOrderedField K] [FloorRing K]

/-- Every reference of a finished database, cancelled or not, has a rank of at most
`sMaxRank`, when `1 <= sMaxRank <= 65535`, the build starts with empty buffers and the
originals have keys that are not 0. -/
theorem MakeAllMarksAndLines_rank_le (M : CMath K) (cfg : Config K)
    (fn : Option DatabaseFn) (db : Database K)
    (hoL : ∀ o ∈ originalLines M cfg, RefBase.mKey o ≠ 0 ∧ RefBase.mRank o ≤ cfg.sMaxRank)
    (hoM : ∀ o ∈ originalMarks cfg, RefBase.mKey o ≠ 0 ∧ RefBase.mRank o ≤ cfg.sMaxRank)
    (hbL : db.sBasisLines.buffer = []) (hbM : db.sBasisMarks.buffer = []) :
    (∀ l ∈ (MakeAllMarksAndLines M cfg fn db).sBasisLines.vec, l.mRank ≤ cfg.sMaxRank) ∧
    (∀ m ∈ (MakeAllMarksAndLines M cfg fn db).sBasisMarks.vec, m.mRank ≤ cfg.sMaxRank) := by
  obtain ⟨db2, h2, hl, hm⟩ := MakeAllMarksAndLines_keeps M cfg fn
    (fun d => RefContainer.Reachable cfg.sMaxRank (originalLines M cfg) d.sBasisLines ∧
      RefContainer.Reachable cfg.sMaxRank (originalMarks cfg) d.sBasisMarks ∧
      RefContainer.AllStored (fun l : RefLine K => l.mRank ≤ cfg.sMaxRank) d.sBasisLines ∧
      RefContainer.AllStored (fun m : RefMark K => m.mRank ≤ cfg.sMaxRank) d.sBasisMarks)
    (fun r => r.mRank ≤ cfg.sMaxRank) (fun m => m.mRank ≤ cfg.sMaxRank)
    (fun d d' hl hm h => by
      show RefContainer.Reachable _ _ d'.sBasisLines ∧
        RefContainer.Reachable _ _ d'.sBasisMarks ∧
        RefContainer.AllStored _ d'.sBasisLines ∧ RefContainer.AllStored _ d'.sBasisMarks
      rw [hl, hm]; exact h)
    (fun d r h _ hr => ⟨RefContainer.Reachable.addCopy _ r h.1 hr, h.2.1,
      RefContainer.AllStored_AddCopy _ _ r h.2.2.1 (fun _ => hr), h.2.2.2⟩)
    (fun d r h _ hr => ⟨h.1, RefContainer.Reachable.addCopy _ r h.2.1 hr, h.2.2.1,
      RefContainer.AllStored_AddCopy _ _ r h.2.2.2 (fun _ => hr)⟩)
    (fun d h => ⟨RefContainer.Reachable.flush _ h.1, h.2.1,
      RefContainer.AllStored_FlushBuffer _ _ h.2.2.1, h.2.2.2⟩)
    (fun d h => ⟨h.1, RefContainer.Reachable.flush _ h.2.1, h.2.2.1,
      RefContainer.AllStored_FlushBuffer _ _ h.2.2.2⟩)
    (fun arank h1 h2 d hd =>
      ⟨fun c hc st => le_trans
          (lineCandidates_rank M cfg d cfg.sMaxRank arank h1
            (RefContainer.Reachable.inv hoL hd.1) (RefContainer.Reachable.inv hoM hd.2.1)
            c hc st) h2,
        fun m hm => le_trans
          (markCandidates_rank cfg d cfg.sMaxRank arank
            (RefContainer.Reachable.inv hoL hd.1) m hm) h2⟩)
    db (by
      show RefContainer.Reachable _ _ (seedOriginals M cfg fn db).sBasisLines ∧
        RefContainer.Reachable _ _ (seedOriginals M cfg fn db).sBasisMarks ∧
        RefContainer.AllStored _ (seedOriginals M cfg fn db).sBasisLines ∧
        RefContainer.AllStored _ (seedOriginals M cfg fn db).sBasisMarks
      rw [seedOriginals_lines, seedOriginals_marks]
      exact ⟨RefContainer.Reachable.seeded _ _ hbL, RefContainer.Reachable.seeded _ _ hbM,
        RefContainer.AllStored_FlushBuffer _ _
          (RefContainer.AllStored_foldl_Add _ _ _
            (RefContainer.AllStored_Rebuild _ _ _ hbL) (fun o ho => (hoL o ho).2)),
        RefContainer.AllStored_FlushBuffer _ _
          (RefContainer.AllStored_foldl_Add _ _ _
            (RefContainer.AllStored_Rebuild _ _ _ hbM) (fun o ho => (hoM o ho).2))⟩)
  rw [hl, hm]
  exact ⟨fun l hlv => h2.2.2.1.1 l hlv, fun m hmv => h2.2.2.2.1 m hmv⟩

end StoredRanks

set_option maxRecDepth 1000000 in
/-- Witness for C40: the mark at the middle of the bottom edge, as the default build on the
unit square stores it; its sequence holds one derived line, which gets the index 1 and
the label `A`. -/
theorem SetIndex_within_labels_witness :
    ∃ m ∈ (MakeAllMarksAndLines decMath (Config.default decMath) none
        (Database.init (Config.default decMath).sMaxRank)).sBasisMarks.vec,
      ((RefPtr.mark m).Assigned ∧ (RefPtr.mark m).RanksAdd ∧ (RefPtr.mark m).mRank ≤ 10) ∧
      (RefPtr.mark m).creasesInSequence = 1 ∧
      ((BuildAndNumberSequence (RefPtr.mark m)).1.map RefPtr.IsActionLine,
        (BuildAndNumberSequence (RefPtr.mark m)).2) =
        ([false, false, false, true, false], [0, 0, 0, 1, 1]) ∧
      RefLine.GetLabel 1 = some 'A' ∧
      ((RefPtr.mark m).creasesInSequence ≤ (RefPtr.mark m).mRank ∧
      ∀ (i : Nat) (rb : RefPtr ℚ) (n : Nat),
        (BuildAndNumberSequence (RefPtr.mark m)).1[i]? = some rb →
        (BuildAndNumberSequence (RefPtr.mark m)).2[i]? = some n → rb.IsActionLine = true →
        1 ≤ n ∧ n ≤ (RefPtr.mark m).creasesInSequence ∧
        ∃ c ∈ RefLine.GetLabel n, c ∈ ['A', 'B', 'C', 'D', 'E', 'F', 'G', 'H', 'I', 'J']) :=
  ⟨_, default_build_stored.2, by decide!, by decide!, by decide!, by decide!,
    SetIndex_within_labels _ (by decide!) (by decide!) (by decide!)⟩

section ClipFacts

variable {K : Type} [LinearOrderedField K]

/-- One line of `ClipLine` adds the enclosed intersection with its edge, if there is
one. -/
theorem Paper.mem_clipEdge (P : Paper K) (edge al : XYLine K) (ipts : List (XYPt K))
    (p : XYPt K) :
    p ∈ Paper.clipEdge P edge al ipts ↔
      p ∈ ipts ∨ (XYLine.Intersects edge al = some p ∧ P.Encloses p = true) := by
  unfold Paper.clipEdge
  cases h : XYLine.Intersects edge al with
  | none => simp
  | some q =>
    simp only [Option.some.injEq]
    by_cases he : P.Encloses q = true
    · rw [if_pos he, List.mem_append, List.mem_singleton]
      constructor
      · rintro (h1 | h1)
        · exact Or.inl h1
        · exact Or.inr ⟨h1.symm, by rw [h1]; exact he⟩
      · rintro (h1 | ⟨h1, _⟩)
        · exact Or.inl h1
        · exact Or.inr h1.symm
    · rw [if_neg he]
      constructor
      · exact Or.inl
      · rintro (h1 | ⟨h1, h2⟩)
        · exact h1
        · rw [← h1] at h2; exact absurd h2 he

/-- The points that `ClipLine` collects are the enclosed intersections with the four
edges. -/
theorem Paper.mem_clipPoints (P : Paper K) (al : XYLine K) (p : XYPt K) :
    p ∈ Paper.clipPoints P al ↔ Paper.EnclosedIntersection P al p := by
  unfold Paper.clipPoints Paper.EnclosedIntersection
  simp only [Paper.mem_clipEdge, List.not_mem_nil, false_or, List.mem_cons,
    List.mem_singleton, exists_eq_or_imp, exists_eq_left, or_false]
  tauto

/-- The loop `if (tmin < tt) tmin = tt` ends with the largest of the values, which is one
of them. -/
theorem foldl_largest {α : Type} (g : α → K) :
    ∀ (l : List α) (t0 : K),
      (l.foldl (fun acc ip => if acc < g ip then g ip else acc) t0 = t0 ∨
        ∃ ip ∈ l, l.foldl (fun acc ip => if acc < g ip then g ip else acc) t0 = g ip) ∧
      t0 ≤ l.foldl (fun acc ip => if acc < g ip then g ip else acc) t0 ∧
      ∀ ip ∈ l, g ip ≤ l.foldl (fun acc ip => if acc < g ip then g ip else acc) t0
  | [], t0 => ⟨Or.inl rfl, le_refl _, fun ip h => absurd h (List.not_mem_nil _)⟩
  | a :: l, t0 => by
    simp only [List.foldl_cons]
    obtain ⟨h1, h2, h3⟩ := foldl_largest g l (if t0 < g a then g a else t0)
    have hle : t0 ≤ (if t0 < g a then g a else t0) ∧ g a ≤ (if t0 < g a then g a else t0) := by
      by_cases hc : t0 < g a
      · rw [if_pos hc]; exact ⟨le_of_lt hc, le_refl _⟩
      · rw [if_neg hc]; exact ⟨le_refl _, not_lt.mp hc⟩
    refine ⟨?_, le_trans hle.1 h2, ?_⟩
    · rcases h1 with h1 | ⟨ip, hip, h1⟩
      · by_cases hc : t0 < g a
        · rw [if_pos hc] at h1
          exact Or.inr ⟨a, List.mem_cons_self _ _, by rw [if_pos hc]; exact h1⟩
        · rw [if_neg hc] at h1
          exact Or.inl (by rw [if_neg hc]; exact h1)
      · exact Or.inr ⟨ip, List.mem_cons_of_mem _ hip, h1⟩
    · intro ip hip
      rcases List.mem_cons.mp hip with h | h
      · rw [h]; exact le_trans hle.2 h2
      · exact h3 ip h

/-- The loop `if (tmax > tt) tmax = tt` ends with the smallest of the values, which is
one of them. -/
theorem foldl_smallest {α : Type} (g : α → K) :
    ∀ (l : List α) (t0 : K),
      (l.foldl (fun acc ip => if acc > g ip then g ip else acc) t0 = t0 ∨
        ∃ ip ∈ l, l.foldl (fun acc ip => if acc > g ip then g ip else acc) t0 = g ip) ∧
      l.foldl (fun acc ip => if acc > g ip then g ip else acc) t0 ≤ t0 ∧
      ∀ ip ∈ l, l.foldl (fun acc ip => if acc > g ip then g ip else acc) t0 ≤ g ip
  | [], t0 => ⟨Or.inl rfl, le_refl _, fun ip h => absurd h (List.not_mem_nil _)⟩
  | a :: l, t0 => by
    simp only [List.foldl_cons]
    obtain ⟨h1, h2, h3⟩ := foldl_smallest g l (if t0 > g a then g a else t0)
    have hle : (if t0 > g a then g a else t0) ≤ t0 ∧ (if t0 > g a then g a else t0) ≤ g a := by
      by_cases hc : t0 > g a
      · rw [if_pos hc]; exact ⟨le_of_lt hc, le_refl _⟩
      · rw [if_neg hc]; exact ⟨le_refl _, not_lt.mp hc⟩
    refine ⟨?_, le_trans h2 hle.1, ?_⟩
    · rcases h1 with h1 | ⟨ip, hip, h1⟩
      · by_cases hc : t0 > g a
        · rw [if_pos hc] at h1
          exact Or.inr ⟨a, List.mem_cons_self _ _, by rw [if_pos hc]; exact h1⟩
        · rw [if_neg hc] at h1
          exact Or.inl (by rw [if_neg hc]; exact h1)
      · exact Or.inr ⟨ip, List.mem_cons_of_mem _ hip, h1⟩
    · intro ip hip
      rcases List.mem_cons.mp hip with h | h
      · rw [h]; exact le_trans h2 hle.2
      · exact h3 ip h

/-- A point of a line with unit normal is the foot `d * u` moved along the tangent by the
parameter that `ClipLine` computes for it. -/
theorem XYLine.point_of_parameter (al : XYLine K) (p : XYPt K)
    (hu : XYPt.Dot al.u al.u = 1) (hp : XYPt.Dot p al.u = al.d) :
    XYPt.add (XYPt.smul al.d al.u)
      (XYPt.smul (XYPt.Dot (XYPt.sub p (XYPt.smul al.d al.u)) (XYPt.Rotate90 al.u))
        (XYPt.Rotate90 al.u)) = p := by
  simp only [XYPt.Dot, XYPt.add, XYPt.smul, XYPt.sub, XYPt.Rotate90] at hu hp ⊢
  ext
  · simp only
    rw [← hp]
    linear_combination (p.x) * hu
  · simp only
    rw [← hp]
    linear_combination (p.y) * hu

/-- Claim C37.  For every paper and every line `al` whose normal has length one:
`ClipLine` returns `false` exactly when no edge has an enclosed intersection with `al`
(the intersections being the points that `XYLine::Intersects` reports for the top, left,
right and bottom edge; an edge that `Intersects` takes for parallel to `al` gives none),
and then `ap1`, `ap2` come back unchanged; when it returns `true`, the points written to
`ap1` and `ap2` lie on `al`, both are enclosed intersections, and every enclosed
intersection lies on the segment from `ap1` to `ap2`. -/
theorem Paper.ClipLine_spec (P : Paper K) (al : XYLine K) (ap1 ap2 : XYPt K)
    (hu : XYPt.Dot al.u al.u = 1) :
    ((Paper.ClipLine P al ap1 ap2).1 = false ↔
      ∀ p, ¬ Paper.EnclosedIntersection P al p) ∧
    ((Paper.ClipLine P al ap1 ap2).1 = false →
      (Paper.ClipLine P al ap1 ap2).2 = (ap1, ap2)) ∧
    ((Paper.ClipLine P al ap1 ap2).1 = true →
      XYPt.Dot (Paper.ClipLine P al ap1 ap2).2.1 al.u = al.d ∧
      XYPt.Dot (Paper.ClipLine P al ap1 ap2).2.2 al.u = al.d ∧
      Paper.EnclosedIntersection P al (Paper.ClipLine P al ap1 ap2).2.1 ∧
      Paper.EnclosedIntersection P al (Paper.ClipLine P al ap1 ap2).2.2 ∧
      ∀ p, Paper.EnclosedIntersection P al p →
        XYPt.OnSegment (Paper.ClipLine P al ap1 ap2).2.1
          (Paper.ClipLine P al ap1 ap2).2.2 p) := by
  have hon : ∀ p, p ∈ Paper.clipPoints P al → XYPt.Dot p al.u = al.d := by
    intro p hp
    obtain ⟨edge, _, hi, _⟩ := (Paper.mem_clipPoints P al p).mp hp
    exact (XYLine.Intersects_some hi).2.1
  unfold Paper.ClipLine
  cases hcp : Paper.clipPoints P al with
  | nil =>
    refine ⟨⟨fun _ p hp => ?_, fun _ => rfl⟩, fun _ => rfl, fun h => absurd h (by simp)⟩
    have := (Paper.mem_clipPoints P al p).mpr hp
    rw [hcp] at this
    exact absurd this (List.not_mem_nil _)
  | cons ip0 rest =>
    simp only
    refine ⟨⟨fun h => absurd h (by simp), fun h => ?_⟩, fun h => absurd h (by simp),
      fun _ => ?_⟩
    · exact absurd ((Paper.mem_clipPoints P al ip0).mp (by rw [hcp]; exact List.mem_cons_self _ _))
        (h ip0)
    · obtain ⟨hA1, hA2, hA3⟩ := foldl_largest
        (fun ip => XYPt.Dot (XYPt.sub ip (XYPt.smul al.d al.u)) (XYPt.Rotate90 al.u)) rest
        (XYPt.Dot (XYPt.sub ip0 (XYPt.smul al.d al.u)) (XYPt.Rotate90 al.u))
      obtain ⟨hB1, hB2, hB3⟩ := foldl_smallest
        (fun ip => XYPt.Dot (XYPt.sub ip (XYPt.smul al.d al.u)) (XYPt.Rotate90 al.u)) rest
        (XYPt.Dot (XYPt.sub ip0 (XYPt.smul al.d al.u)) (XYPt.Rotate90 al.u))
      generalize hA : rest.foldl (fun acc ip =>
        if acc < XYPt.Dot (XYPt.sub ip (XYPt.smul al.d al.u)) (XYPt.Rotate90 al.u) then
          XYPt.Dot (XYPt.sub ip (XYPt.smul al.d al.u)) (XYPt.Rotate90 al.u) else acc)
        (XYPt.Dot (XYPt.sub ip0 (XYPt.smul al.d al.u)) (XYPt.Rotate90 al.u)) = A
        at hA1 hA2 hA3 ⊢
      generalize hB : rest.foldl (fun acc ip =>
        if acc > XYPt.Dot (XYPt.sub ip (XYPt.smul al.d al.u)) (XYPt.Rotate90 al.u) then
          XYPt.Dot (XYPt.sub ip (XYPt.smul al.d al.u)) (XYPt.Rotate90 al.u) else acc)
        (XYPt.Dot (XYPt.sub ip0 (XYPt.smul al.d al.u)) (XYPt.Rotate90 al.u)) = B
        at hB1 hB2 hB3 ⊢
      -- the two extreme parameters belong to collected points
      have hmem0 : ip0 ∈ Paper.clipPoints P al := by rw [hcp]; exact List.mem_cons_self _ _
      have hmemr : ∀ ip ∈ rest, ip ∈ Paper.clipPoints P al := fun ip h => by
        rw [hcp]; exact List.mem_cons_of_mem _ h
      obtain ⟨qa, hqa, hqaA⟩ : ∃ q ∈ Paper.clipPoints P al,
          A = XYPt.Dot (XYPt.sub q (XYPt.smul al.d al.u)) (XYPt.Rotate90 al.u) := by
        rcases hA1 with h | ⟨ip, hip, h⟩
        · exact ⟨ip0, hmem0, h⟩
        · exact ⟨ip, hmemr ip hip, h⟩
      obtain ⟨qb, hqb, hqbB⟩ : ∃ q ∈ Paper.clipPoints P al,
          B = XYPt.Dot (XYPt.sub q (XYPt.smul al.d al.u)) (XYPt.Rotate90 al.u) := by
        rcases hB1 with h | ⟨ip, hip, h⟩
        · exact ⟨ip0, hmem0, h⟩
        · exact ⟨ip, hmemr ip hip, h⟩
      have ha : XYPt.add (XYPt.smul al.d al.u) (XYPt.smul A (XYPt.Rotate90 al.u)) = qa := by
        rw [hqaA]; exact XYLine.point_of_parameter al qa hu (hon qa hqa)
      have hb : XYPt.add (XYPt.smul al.d al.u) (XYPt.smul B (XYPt.Rotate90 al.u)) = qb := by
        rw [hqbB]; exact XYLine.point_of_parameter al qb hu (hon qb hqb)
      refine ⟨by rw [ha]; exact hon qa hqa, by rw [hb]; exact hon qb hqb,
        by rw [ha]; exact (Paper.mem_clipPoints P al qa).mp hqa,
        by rw [hb]; exact (Paper.mem_clipPoints P al qb).mp hqb, ?_⟩
      intro p hp
      have hpm := (Paper.mem_clipPoints P al p).mpr hp
      have hpe := XYLine.point_of_parameter al p hu (hon p hpm)
      generalize hT : XYPt.Dot (XYPt.sub p (XYPt.smul al.d al.u)) (XYPt.Rotate90 al.u) = T
        at hpe
      have hTA : T ≤ A ∧ B ≤ T := by
        rw [hcp] at hpm
        rcases List.mem_cons.mp hpm with h | h
        · rw [← hT, h]; exact ⟨hA2, hB2⟩
        · rw [← hT]; exact ⟨hA3 p h, hB3 p h⟩
      by_cases hAB : A = B
      · refine ⟨0, le_refl _, zero_le_one, ?_⟩
        have hTe : T = A := le_antisymm hTA.1 (by rw [hAB]; exact hTA.2)
        rw [← hpe, hTe]
        simp only [XYPt.add, XYPt.smul, XYPt.sub, XYPt.Rotate90, XYPt.mk.injEq]
        constructor <;> ring
      · have hlt : B < A := lt_of_le_of_ne (le_trans hTA.2 hTA.1) (Ne.symm hAB)
        have hne : B - A ≠ 0 := by
          intro h0
          exact hAB (sub_eq_zero.mp h0).symm
        refine ⟨(T - A) / (B - A), ?_, ?_, ?_⟩
        · exact div_nonneg_of_nonpos (by linarith [hTA.1]) (by linarith)
        · rw [div_le_one_of_neg (by linarith)]
          linarith [hTA.2]
        · rw [← hpe]
          simp only [XYPt.add, XYPt.smul, XYPt.sub, XYPt.Rotate90, XYPt.mk.injEq]
          constructor <;> field_simp <;> ring

end ClipFacts

set_option maxRecDepth 1000000 in
/-- Witness for C37: the unit square and the line `x = 1/2`, whose enclosed intersections
are the middles of the top edge and of the bottom edge. -/
theorem ClipLine_spec_witness :
    XYPt.Dot (⟨1, 0⟩ : XYPt ℚ) ⟨1, 0⟩ = 1 ∧
    Paper.ClipLine (Paper.SetSize decMath 1 1) ⟨1 / 2, ⟨1, 0⟩⟩ XYPt.zero XYPt.zero =
      (true, ⟨1 / 2, 1⟩, ⟨1 / 2, 0⟩) ∧
    (((Paper.ClipLine (Paper.SetSize decMath 1 1) ⟨1 / 2, ⟨1, 0⟩⟩ XYPt.zero XYPt.zero).1 =
        false ↔
      ∀ p, ¬ Paper.EnclosedIntersection (Paper.SetSize decMath 1 1) ⟨1 / 2, ⟨1, 0⟩⟩ p) ∧
    ((Paper.ClipLine (Paper.SetSize decMath 1 1) ⟨1 / 2, ⟨1, 0⟩⟩ XYPt.zero XYPt.zero).1 =
        true →
      Paper.EnclosedIntersection (Paper.SetSize decMath 1 1) ⟨1 / 2, ⟨1, 0⟩⟩
        (Paper.ClipLine (Paper.SetSize decMath 1 1) ⟨1 / 2, ⟨1, 0⟩⟩
          XYPt.zero XYPt.zero).2.1 ∧
      ∀ p, Paper.EnclosedIntersection (Paper.SetSize decMath 1 1) ⟨1 / 2, ⟨1, 0⟩⟩ p →
        XYPt.OnSegment
          (Paper.ClipLine (Paper.SetSize decMath 1 1) ⟨1 / 2, ⟨1, 0⟩⟩
            XYPt.zero XYPt.zero).2.1
          (Paper.ClipLine (Paper.SetSize decMath 1 1) ⟨1 / 2, ⟨1, 0⟩⟩
            XYPt.zero XYPt.zero).2.2 p)) :=
  have h := Paper.ClipLine_spec (Paper.SetSize decMath 1 1) ⟨1 / 2, ⟨1, 0⟩⟩ XYPt.zero
    XYPt.zero (by decide!)
  ⟨by decide!, by decide!, h.1, fun ht => ⟨(h.2.2 ht).2.2.1, (h.2.2 ht).2.2.2.2⟩⟩

section TrialPoint

variable {K : Type} [LinearOrderedField K]

/-- The trial point of `CalcStatistics` on a paper of width `W > 0` and height `H > 0`
has `0 <= x <= 1 / W` and `0 <= y <= 1 / H`, and both bounds `1 / W`, `1 / H` are reached
with `rand() = RAND_MAX`; it is therefore inside the paper for all values of `rand()`
exactly when `W >= 1` and `H >= 1`. -/
theorem CalcStatistics.testPt_range (RAND_MAX : Nat) (sPaper : Paper K) (r1 r2 : Nat)
    (hM : 0 < RAND_MAX) (hW : 0 < sPaper.mWidth) (hH : 0 < sPaper.mHeight)
    (h1 : r1 ≤ RAND_MAX) (h2 : r2 ≤ RAND_MAX) :
    (0 ≤ (CalcStatistics.testPt RAND_MAX sPaper r1 r2).x ∧
      (CalcStatistics.testPt RAND_MAX sPaper r1 r2).x ≤ 1 / sPaper.mWidth) ∧
    (0 ≤ (CalcStatistics.testPt RAND_MAX sPaper r1 r2).y ∧
      (CalcStatistics.testPt RAND_MAX sPaper r1 r2).y ≤ 1 / sPaper.mHeight) ∧
    (CalcStatistics.testPt RAND_MAX sPaper RAND_MAX RAND_MAX : XYPt K) =
      ⟨1 / sPaper.mWidth, 1 / sPaper.mHeight⟩ ∧
    (1 ≤ sPaper.mWidth → 1 ≤ sPaper.mHeight →
      (CalcStatistics.testPt RAND_MAX sPaper r1 r2).x ≤ sPaper.mWidth ∧
      (CalcStatistics.testPt RAND_MAX sPaper r1 r2).y ≤ sPaper.mHeight) := by
  have hMK : (0 : K) < (RAND_MAX : K) := Nat.cast_pos.mpr hM
  have h1K : (r1 : K) ≤ (RAND_MAX : K) := Nat.cast_le.mpr h1
  have h2K : (r2 : K) ≤ (RAND_MAX : K) := Nat.cast_le.mpr h2
  have hx : (CalcStatistics.testPt RAND_MAX sPaper r1 r2).x ≤ 1 / sPaper.mWidth := by
    show (r1 : K) / ((RAND_MAX : K) * sPaper.mWidth) ≤ 1 / sPaper.mWidth
    rw [div_le_div_iff (mul_pos hMK hW) hW, one_mul]
    exact mul_le_mul_of_nonneg_right h1K (le_of_lt hW)
  have hy : (CalcStatistics.testPt RAND_MAX sPaper r1 r2).y ≤ 1 / sPaper.mHeight := by
    show (r2 : K) / ((RAND_MAX : K) * sPaper.mHeight) ≤ 1 / sPaper.mHeight
    rw [div_le_div_iff (mul_pos hMK hH) hH, one_mul]
    exact mul_le_mul_of_nonneg_right h2K (le_of_lt hH)
  refine ⟨⟨?_, hx⟩, ⟨?_, hy⟩, ?_, fun hW1 hH1 => ⟨le_trans hx ?_, le_trans hy ?_⟩⟩
  · exact div_nonneg (Nat.cast_nonneg _) (le_of_lt (mul_pos hMK hW))
  · exact div_nonneg (Nat.cast_nonneg _) (le_of_lt (mul_pos hMK hH))
  · simp only [CalcStatistics.testPt, XYPt.mk.injEq]
    constructor
    · field_simp
    · field_simp
  · rw [div_le_iff hW]
    calc (1 : K) = 1 * 1 := (one_mul 1).symm
      _ ≤ sPaper.mWidth * sPaper.mWidth := mul_le_mul hW1 hW1 zero_le_one (le_of_lt hW)
  · rw [div_le_iff hH]
    calc (1 : K) = 1 * 1 := (one_mul 1).symm
      _ ≤ sPaper.mHeight * sPaper.mHeight := mul_le_mul hH1 hH1 zero_le_one (le_of_lt hH)

end TrialPoint

/-- C38 (failing input): on a paper of width 1/2 and height 1, with `RAND_MAX = 32767`
and `rand()` returning `RAND_MAX` and then 0, the trial point of `CalcStatistics` is
(2, 0), which is not inside the paper: `x = 2 > 1/2 = W`. -/
theorem CalcStatistics_testPt_outside :
    (Paper.SetSize decMath (1 / 2) 1).mWidth = 1 / 2 ∧
    (Paper.SetSize decMath (1 / 2) 1).mHeight = 1 ∧
    CalcStatistics.testPt 32767 (Paper.SetSize decMath (1 / 2) 1) 32767 0 = ⟨2, 0⟩ ∧
    ¬ ((CalcStatistics.testPt 32767 (Paper.SetSize decMath (1 / 2) 1) 32767 0).x ≤
      (Paper.SetSize decMath (1 / 2) 1).mWidth) := by
  decide!

section CardanoFacts

variable {K : Type} [LinearOrderedField K]

/-- Cardano's formula: when `S^3 = R + rD`, `T^3 = R - rD` and `rD^2 = Q^3 + R^2`, the
number `-a2 / 3 + S + T` is a root of `x^3 + a2 x^2 + a1 x + a0`, with
`Q = (3 a1 - a2^2) / 9` and `R = (9 a2 a1 - 27 a0 - 2 a2^3) / 54`. -/
theorem cardano_root (a2 a1 a0 rD S T : K)
    (hrD : rD ^ 2 = ((3 * a1 - a2 ^ 2) / 9) ^ 3 +
      ((9 * a2 * a1 - 27 * a0 - 2 * a2 ^ 3) / 54) ^ 2)
    (hS : S ^ 3 = (9 * a2 * a1 - 27 * a0 - 2 * a2 ^ 3) / 54 + rD)
    (hT : T ^ 3 = (9 * a2 * a1 - 27 * a0 - 2 * a2 ^ 3) / 54 - rD) :
    (-a2 / 3 + S + T) ^ 3 + a2 * (-a2 / 3 + S + T) ^ 2 + a1 * (-a2 / 3 + S + T) + a0 = 0 := by
  have hST3 : (S * T) ^ 3 = (-((3 * a1 - a2 ^ 2) / 9)) ^ 3 := by
    rw [mul_pow, hS, hT]
    linear_combination -hrD
  have hST : S * T = -((3 * a1 - a2 ^ 2) / 9) :=
    (Odd.strictMono_pow (by decide : Odd 3)).injective hST3
  linear_combination hS + hT + 3 * (S + T) * hST

/-- Claim C36.  In the cubic branch of the O6 constructor (`|a| > EPS`) with `D > 0`, in
an arithmetic in which `sqrt` and `CubeRoot` are exact at the numbers to which the
branch applies them (`sqrt(D)^2 = D`, and the cube of `CubeRoot(R + sqrt(D))` and of
`CubeRoot(R - sqrt(D))` is the argument): the call for root 0 computes
`rc = -a2 / 3 + CubeRoot(R + sqrt(D)) + CubeRoot(R - sqrt(D))`, and this number is a root
of the cubic, `a rc^3 + b rc^2 + c rc + d = 0`. -/
theorem RefLine_P2L_P2L.root_cardano (M : CMath K) (st : P2L_P2L_Statics K)
    (p1 : XYPt K) (l1 : XYLine K) (p2 : XYPt K) (l2 : XYLine K) (a b c d : K)
    (hco : RefLine_P2L_P2L.coefficients p1 l1 p2 l2 = (a, b, c, d))
    (ha : |a| > EPS) (hD : cardanoD a b c d > 0)
    (hsqrt : M.sqrt (cardanoD a b c d) ^ 2 = cardanoD a b c d)
    (hS : CubeRoot M (cardanoR a b c d + M.sqrt (cardanoD a b c d)) ^ 3 =
      cardanoR a b c d + M.sqrt (cardanoD a b c d))
    (hT : CubeRoot M (cardanoR a b c d - M.sqrt (cardanoD a b c d)) ^ 3 =
      cardanoR a b c d - M.sqrt (cardanoD a b c d)) :
    (RefLine_P2L_P2L.root M st p1 l1 p2 l2 0).1 =
      some (-(b / a) / 3 + CubeRoot M (cardanoR a b c d + M.sqrt (cardanoD a b c d)) +
        CubeRoot M (cardanoR a b c d - M.sqrt (cardanoD a b c d))) ∧
    a * (-(b / a) / 3 + CubeRoot M (cardanoR a b c d + M.sqrt (cardanoD a b c d)) +
        CubeRoot M (cardanoR a b c d - M.sqrt (cardanoD a b c d))) ^ 3 +
      b * (-(b / a) / 3 + CubeRoot M (cardanoR a b c d + M.sqrt (cardanoD a b c d)) +
        CubeRoot M (cardanoR a b c d - M.sqrt (cardanoD a b c d))) ^ 2 +
      c * (-(b / a) / 3 + CubeRoot M (cardanoR a b c d + M.sqrt (cardanoD a b c d)) +
        CubeRoot M (cardanoR a b c d - M.sqrt (cardanoD a b c d))) + d = 0 := by
  have ha0 : a ≠ 0 := by
    intro h0
    rw [h0, abs_zero] at ha
    exact absurd ha (not_lt.mpr (le_of_lt EPS_pos))
  constructor
  · unfold RefLine_P2L_P2L.root
    simp only [if_pos, hco, if_pos ha]
    have h30 : ¬ ((3 : Int) = 0) := by decide
    have h31 : ¬ ((3 : Int) = 1) := by decide
    have h32 : ¬ ((3 : Int) = 2) := by decide
    simp only [h30, h31, h32, if_false]
    unfold cardanoD cardanoQ cardanoR at hD
    rw [if_pos hD]
    rfl
  · have hb : b = a * (b / a) := by field_simp
    have hc : c = a * (c / a) := by field_simp
    have hd : d = a * (d / a) := by field_simp
    have key := cardano_root (b / a) (c / a) (d / a) (M.sqrt (cardanoD a b c d))
      (CubeRoot M (cardanoR a b c d + M.sqrt (cardanoD a b c d)))
      (CubeRoot M (cardanoR a b c d - M.sqrt (cardanoD a b c d)))
      (by rw [hsqrt]; rfl) hS hT
    generalize -(b / a) / 3 + CubeRoot M (cardanoR a b c d + M.sqrt (cardanoD a b c d)) +
        CubeRoot M (cardanoR a b c d - M.sqrt (cardanoD a b c d)) = rc at key ⊢
    calc a * rc ^ 3 + b * rc ^ 2 + c * rc + d
        = a * rc ^ 3 + (a * (b / a)) * rc ^ 2 + (a * (c / a)) * rc + a * (d / a) := by
          rw [← hb, ← hc, ← hd]
      _ = a * (rc ^ 3 + b / a * rc ^ 2 + c / a * rc + d / a) := by ring
      _ = 0 := by rw [key, mul_zero]

end CardanoFacts

set_option maxRecDepth 1000000 in
/-- Witness for C36: `p1 = (1/4, 1/2)` onto the line `x = 0` and `p2 = (1/2, 3/4)` onto
the line `y = 0`.  The equation is `r^3 - 5/4 r^2 + 11/16 r - 7/64 = 0`, with
`Q = 1/18`, `R = -7/432`, `D = 1/2304`; the decimal stand-in for `<cmath>` is exact at
`sqrt(D) = 1/48` and at the cube roots `1/6` and `-1/3`, and the root is `rc = 1/4`. -/
theorem root_cardano_witness :
    (RefLine_P2L_P2L.coefficients (⟨1 / 4, 1 / 2⟩ : XYPt ℚ) ⟨0, ⟨1, 0⟩⟩ ⟨1 / 2, 3 / 4⟩
        ⟨0, ⟨0, 1⟩⟩ = (1, -5 / 4, 11 / 16, -7 / 64) ∧
      |(1 : ℚ)| > EPS ∧ cardanoD (1 : ℚ) (-5 / 4) (11 / 16) (-7 / 64) = 1 / 2304 ∧
      decMath.sqrt (1 / 2304) = 1 / 48 ∧
      CubeRoot decMath (cardanoR (1 : ℚ) (-5 / 4) (11 / 16) (-7 / 64) + 1 / 48) = 1 / 6 ∧
      CubeRoot decMath (cardanoR (1 : ℚ) (-5 / 4) (11 / 16) (-7 / 64) - 1 / 48) = -1 / 3) ∧
    ∃ rc ∈ (RefLine_P2L_P2L.root decMath P2L_P2L_Statics.init (⟨1 / 4, 1 / 2⟩ : XYPt ℚ)
        ⟨0, ⟨1, 0⟩⟩ ⟨1 / 2, 3 / 4⟩ ⟨0, ⟨0, 1⟩⟩ 0).1,
      rc = 1 / 4 ∧ 1 * rc ^ 3 + -5 / 4 * rc ^ 2 + 11 / 16 * rc + -7 / 64 = 0 :=
  have h := RefLine_P2L_P2L.root_cardano decMath P2L_P2L_Statics.init
    (⟨1 / 4, 1 / 2⟩ : XYPt ℚ) ⟨0, ⟨1, 0⟩⟩ ⟨1 / 2, 3 / 4⟩ ⟨0, ⟨0, 1⟩⟩ 1 (-5 / 4) (11 / 16)
    (-7 / 64) (by decide!) (by decide!) (by decide!) (by decide!) (by decide!) (by decide!)
  ⟨by decide!, _, h.1, by decide!, h.2⟩

section OfferedRoots

variable {K : Type} [LinearOrderedField K] [FloorRing K]

/-- The objects that `RefLine_P2L_C2P::MakeAll` passes to `AddCopyIfValidAndUnique` are,
for every visited tuple, the object `rlh1` of root 0, twice. -/
theorem RefLine_P2L_C2P.candidates_root_zero (M : CMath K) (cfg : Config K)
    (db : Database K) (arank : Nat) (st : P2L_P2L_Statics K) :
    (RefLine_P2L_C2P.candidates M cfg db arank).map (fun c => (c st).1) =
      (RefLine_P2L_C2P.tuples db arank).flatMap (fun t =>
        [RefLine_P2L_C2P M cfg t.1 t.2.1 t.2.2 0, RefLine_P2L_C2P M cfg t.1 t.2.1 t.2.2 0]) := by
  unfold RefLine_P2L_C2P.candidates
  induction RefLine_P2L_C2P.tuples db arank with
  | nil => rfl
  | cons t ts ih =>
    simp only [List.flatMap_cons, List.map_append, ih]
    rfl

end OfferedRoots

set_option maxRecDepth 1000000 in
/-- The tuple of the failing input of C32 and its two constructions, evaluated. -/
theorem RefLine_P2L_C2P.root_one_valid :
    ∃ t ∈ RefLine_P2L_C2P.tuples Database.onlyO5Rank2 3,
      (t.1.p = ⟨0, 0⟩ ∧ t.2.1.l = ⟨1, ⟨1, 0⟩⟩ ∧ t.2.2.p = ⟨1 / 2, 1 / 2⟩) ∧
      ((RefLine_P2L_C2P decMath Config.onlyO5 t.1 t.2.1 t.2.2 0).l.d * 1414213562373 =
          1000000000000 ∧
        (RefLine_P2L_C2P decMath Config.onlyO5 t.1 t.2.1 t.2.2 0).mKey = 15627501) ∧
      ((RefLine_P2L_C2P decMath Config.onlyO5 t.1 t.2.1 t.2.2 1).l = ⟨1 / 2, ⟨1, 0⟩⟩ ∧
        (RefLine_P2L_C2P decMath Config.onlyO5 t.1 t.2.1 t.2.2 1).mKey = 12501769) ∧
      RefLine_P2L_C2P decMath Config.onlyO5 t.1 t.2.1 t.2.2 1 ∉
        (RefLine_P2L_C2P.tuples Database.onlyO5Rank2 3).flatMap (fun t =>
          [RefLine_P2L_C2P decMath Config.onlyO5 t.1 t.2.1 t.2.2 0,
           RefLine_P2L_C2P decMath Config.onlyO5 t.1 t.2.1 t.2.2 0]) := by
  decide!

/-- C32 (failing input): in the build on the unit square with only O5 enabled and
`sMaxRank = 3`, `RefLine_P2L_C2P::MakeAll(3)` visits the tuple of the corner
`p1 = (0, 0)`, the right edge `l1` and the center `p2 = (1/2, 1/2)`.  The construction
with root 0 takes `p1` to `(1, 1)` and gives the downward diagonal (key 15627501); the
construction with root 1 takes `p1` to `(1, 0)` and gives the valid line `x = 1/2` (key
12501769, not 0).  The object of root 1 is not among the objects that `MakeAll` passes
to `AddCopyIfValidAndUnique`, whatever the static members are. -/
theorem RefLine_P2L_C2P_root_one_not_offered :
    ∃ t ∈ RefLine_P2L_C2P.tuples Database.onlyO5Rank2 3,
      (t.1.p = ⟨0, 0⟩ ∧ t.2.1.l = ⟨1, ⟨1, 0⟩⟩ ∧ t.2.2.p = ⟨1 / 2, 1 / 2⟩) ∧
      ((RefLine_P2L_C2P decMath Config.onlyO5 t.1 t.2.1 t.2.2 0).l.d * 1414213562373 =
          1000000000000 ∧
        (RefLine_P2L_C2P decMath Config.onlyO5 t.1 t.2.1 t.2.2 0).mKey = 15627501) ∧
      ((RefLine_P2L_C2P decMath Config.onlyO5 t.1 t.2.1 t.2.2 1).l = ⟨1 / 2, ⟨1, 0⟩⟩ ∧
        (RefLine_P2L_C2P decMath Config.onlyO5 t.1 t.2.1 t.2.2 1).mKey = 12501769) ∧
      ∀ st : P2L_P2L_Statics ℚ,
        RefLine_P2L_C2P decMath Config.onlyO5 t.1 t.2.1 t.2.2 1 ∉
          (RefLine_P2L_C2P.candidates decMath Config.onlyO5 Database.onlyO5Rank2 3).map
            (fun c => (c st).1) := by
  obtain ⟨t, ht, h1, h2, h3, h4⟩ := RefLine_P2L_C2P.root_one_valid
  refine ⟨t, ht, h1, h2, h3, fun st => ?_⟩
  rw [RefLine_P2L_C2P.candidates_root_zero]
  exact h4

section TupleLoops

variable {K : Type} [LinearOrderedField K] [FloorRing K]

/-- The loops of `RefLine_P2L_P2L::MakeAll(arank + 1)` visit, on the same database,
every tuple that the loops of `RefLine_P2L_P2L::MakeAll(arank)` visit: the bounds
`lsrank <= arank - 1 - psrank` and `lrank <= lsrank - krank` admit the smaller sums of
ranks as well. -/
theorem RefLine_P2L_P2L.tuples_next (db : Database K) (arank : Nat)
    (t : RefMark K × RefLine K × RefMark K × RefLine K)
    (h : t ∈ RefLine_P2L_P2L.tuples db arank) : t ∈ RefLine_P2L_P2L.tuples db (arank + 1) := by
  unfold RefLine_P2L_P2L.tuples at h ⊢
  simp only [List.mem_flatMap] at h ⊢
  obtain ⟨ps, hps, ls, hls, rest⟩ := h
  refine ⟨ps, ?_, ls, ?_, rest⟩
  · unfold rankLoop at hps ⊢
    rw [List.mem_range] at hps ⊢
    push_cast
    omega
  · unfold rankLoop at hls ⊢
    rw [List.mem_range] at hls ⊢
    push_cast
    omega

end TupleLoops

set_option maxRecDepth 1000000 in
/-- C33 (failing input): in the build on the unit square with only O6 enabled,
`RefLine_P2L_P2L::MakeAll(2)` visits 528 tuples, of which 144 have parent ranks that add
up to 0, not to 1.  One of them is the tuple of the top left corner `p1 = (0, 1)`, the
bottom edge `l1`, the bottom left corner `p2 = (0, 0)` and the top edge `l2`: all four
parents have rank 0, the object constructed with root 0 is the valid line `y = 1/2` of
rank 1 (not 2), and the loops visit this tuple twice (`lsrank = 0` and `lsrank = 1`,
both with `krank = lrank = 0`). -/
theorem RefLine_P2L_P2L_tuples_repeat :
    (RefLine_P2L_P2L.tuples Database.onlyO6Rank1 2).length = 528 ∧
    ((RefLine_P2L_P2L.tuples Database.onlyO6Rank1 2).filter (fun t =>
      decide (t.1.mRank + t.2.1.mRank + t.2.2.1.mRank + t.2.2.2.mRank = 0))).length = 144 ∧
    ∃ t ∈ RefLine_P2L_P2L.tuples Database.onlyO6Rank1 2,
      (t.1.p = ⟨0, 1⟩ ∧ t.2.1.l = ⟨0, ⟨0, 1⟩⟩ ∧ t.2.2.1.p = ⟨0, 0⟩ ∧
        t.2.2.2.l = ⟨1, ⟨0, 1⟩⟩) ∧
      (t.1.mRank = 0 ∧ t.2.1.mRank = 0 ∧ t.2.2.1.mRank = 0 ∧ t.2.2.2.mRank = 0) ∧
      ((RefLine_P2L_P2L decMath Config.onlyO6 P2L_P2L_Statics.init
          t.1 t.2.1 t.2.2.1 t.2.2.2 0).1.l = ⟨1 / 2, ⟨0, 1⟩⟩ ∧
        (RefLine_P2L_P2L decMath Config.onlyO6 P2L_P2L_Statics.init
          t.1 t.2.1 t.2.2.1 t.2.2.2 0).1.mKey = 18751769 ∧
        (RefLine_P2L_P2L decMath Config.onlyO6 P2L_P2L_Statics.init
          t.1 t.2.1 t.2.2.1 t.2.2.2 0).1.mRank = 1) ∧
      (RefLine_P2L_P2L.tuples Database.onlyO6Rank1 2).count t = 2 := by
  decide!

section StaleStatics

variable {K : Type} [LinearOrderedField K]

/-- The `switch (iroot)` of the O6 constructor for an equation that is linear or
degenerate (`|a| <= EPS` and `|b| <= EPS`): the call for root 0 sets `order` to 1 or 0 and
leaves `irootMax` as the calls before it left it; when that value is at least 1, the
call for root 1 passes the test `irootMax < 1`, finds no case for `order` in its inner
switch and goes on with the initial value `rc = 0`. -/
theorem RefLine_P2L_P2L.root_stale (M : CMath K) (st : P2L_P2L_Statics K)
    (p1 : XYPt K) (l1 : XYLine K) (p2 : XYPt K) (l2 : XYLine K)
    (ha : |(RefLine_P2L_P2L.coefficients p1 l1 p2 l2).1| ≤ EPS)
    (hb : |(RefLine_P2L_P2L.coefficients p1 l1 p2 l2).2.1| ≤ EPS)
    (hmax : 1 ≤ st.irootMax) :
    (RefLine_P2L_P2L.root M st p1 l1 p2 l2 0).2.irootMax = st.irootMax ∧
    ((RefLine_P2L_P2L.root M st p1 l1 p2 l2 0).2.order = 1 ∨
      (RefLine_P2L_P2L.root M st p1 l1 p2 l2 0).2.order = 0) ∧
    RefLine_P2L_P2L.root M (RefLine_P2L_P2L.root M st p1 l1 p2 l2 0).2 p1 l1 p2 l2 1 =
      (some 0, (RefLine_P2L_P2L.root M st p1 l1 p2 l2 0).2) := by
  have h0 : (RefLine_P2L_P2L.root M st p1 l1 p2 l2 0).2.irootMax = st.irootMax ∧
      ((RefLine_P2L_P2L.root M st p1 l1 p2 l2 0).2.order = 1 ∨
        (RefLine_P2L_P2L.root M st p1 l1 p2 l2 0).2.order = 0) := by
    unfold RefLine_P2L_P2L.root
    simp only [if_pos, if_neg (not_lt.mpr ha), if_neg (not_lt.mpr hb)]
    by_cases hc : |(RefLine_P2L_P2L.coefficients p1 l1 p2 l2).2.2.1| > EPS
    · simp [hc]
    · simp [hc]
  refine ⟨h0.1, h0.2, ?_⟩
  generalize RefLine_P2L_P2L.root M st p1 l1 p2 l2 0 = r at h0
  obtain ⟨h1, h2⟩ := h0
  unfold RefLine_P2L_P2L.root
  have hm : ¬ (r.2.irootMax < 1) := by omega
  have h12 : ¬ (r.2.order = 2) := by omega
  have h13 : ¬ (r.2.order = 3) := by omega
  have e10 : ¬ ((1 : Int) = 0) := by decide
  simp only [e10, if_false, if_true, hm, h12, h13]

end StaleStatics

set_option synthInstance.maxSize 4096 in
set_option synthInstance.maxHeartbeats 2000000 in
set_option maxRecDepth 1000000 in
/-- C34 (failing input): references that the build on the unit square with only O6
enabled holds when rank 1 is complete: the corner `p1 = (0, 0)`, the line `l1 : x = 1/2`
(rank 1), the marks `(1/2, 1)` and `(1/2, 0)` (rank 1), the bottom edge and the right
edge, which the loop over `ll` visits one after the other.  The tuple with `p2 = (1/2, 1)`
and the bottom edge has a cubic equation with three roots and leaves `irootMax = 2`.
The next tuple, with the right edge, has the linear equation `-r - 1/4 = 0`: its call
for root 0 gives no line (the image `(1/2, -1/4)` is outside the paper), and its calls
for roots 1 and 2 give the line `x = 1/4` with the non-zero key 12500885, although that
fold takes `p2` to `(0, 1)`, which is not on the right edge.  The tuple with
`p2 = (1/2, 0)` and the right edge has the degenerate equation `-1/4 = 0`, and after the
same cubic tuple its calls for roots 1 and 2 give the line `x = 1/4` as well. -/
theorem RefLine_P2L_P2L_stale_roots :
    ∃ m1 ∈ Database.onlyO6Rank1.sBasisMarks.vec, m1.p = ⟨0, 0⟩ ∧
    ∃ l1 ∈ Database.onlyO6Rank1.sBasisLines.vec, l1.l = ⟨1 / 2, ⟨1, 0⟩⟩ ∧
    ∃ m2 ∈ Database.onlyO6Rank1.sBasisMarks.vec, m2.p = ⟨1 / 2, 1⟩ ∧
    ∃ m3 ∈ Database.onlyO6Rank1.sBasisMarks.vec, m3.p = ⟨1 / 2, 0⟩ ∧
    ∃ la ∈ Database.onlyO6Rank1.sBasisLines.vec, la.l = ⟨0, ⟨0, 1⟩⟩ ∧
    ∃ lb ∈ Database.onlyO6Rank1.sBasisLines.vec, lb.l = ⟨1, ⟨1, 0⟩⟩ ∧
      (rankEntries Database.onlyO6Rank1.sBasisLines 0).map (fun e => e.2.l) =
        [⟨0, ⟨-1, 0⟩⟩, ⟨0, ⟨0, 1⟩⟩, ⟨1, ⟨1, 0⟩⟩, ⟨1, ⟨0, 1⟩⟩] ∧
      RefLine_P2L_P2L.coefficients m1.p l1.l m2.p la.l = (1, -1, -1 / 4, 1 / 4) ∧
      RefLine_P2L_P2L.coefficients m1.p l1.l m2.p lb.l = (0, 0, -1, -1 / 4) ∧
      RefLine_P2L_P2L.coefficients m1.p l1.l m3.p lb.l = (0, 0, 0, -1 / 4) ∧
      (RefLine_P2L_P2L.calls decMath Config.onlyO6 [(m1, l1, m2, la), (m1, l1, m2, lb)]
          P2L_P2L_Statics.init).map (fun r => (r.2.order, r.2.irootMax, r.1.mKey)) =
        [(3, 2, 0), (3, 2, 0), (3, 2, 0), (1, 2, 0), (1, 2, 12500885), (1, 2, 12500885)] ∧
      (RefLine_P2L_P2L.calls decMath Config.onlyO6 [(m1, l1, m2, la), (m1, l1, m3, lb)]
          P2L_P2L_Statics.init).map (fun r => (r.2.order, r.2.irootMax, r.1.mKey)) =
        [(3, 2, 0), (3, 2, 0), (3, 2, 0), (0, 2, 0), (0, 2, 12500885), (0, 2, 12500885)] ∧
      ((RefLine_P2L_P2L.calls decMath Config.onlyO6 [(m1, l1, m2, la), (m1, l1, m2, lb)]
          P2L_P2L_Statics.init).drop 4).map (fun r => r.1.l) =
        [⟨1 / 4, ⟨1, 0⟩⟩, ⟨1 / 4, ⟨1, 0⟩⟩] ∧
      XYLine.Fold ⟨1 / 4, ⟨1, 0⟩⟩ m2.p = ⟨0, 1⟩ ∧
      XYLine.IntersectsPt lb.l ⟨0, 1⟩ = false := by
  decide!

end RefFinder
